import Mathlib

/-!
# Iron-Sentinel: command server, snapshot collector, agent, triage and evidence

A shallow embedding of `core/internal/serverapp/serverapp.go` (the agent
registry, the job queue and the four HTTP handlers that mutate them) with the
properties of the job lifecycle and of agent authentication; of
`collectors/linux/fs_snapshot.go` (the walk that records, hashes and copies
files under its budgets) with the properties of the budgets, the exclusions,
the archive and the result; of `newestDir` and `buildTriageArgs` of the field
agent; of the collector loop of `triage.Run`; and of `WriteFileAtomic` and
`SHA256File` of the evidence layer.

Modelling conventions.
* Go strings are Lean strings; a byte of the Go string is a character here.
  Two places read more of a string than its bytes and say so: the arguments of
  a job, which are decoded from JSON and are valid UTF-8, are trimmed by their
  runes; the output of the hashing tool and the content of a hashed file are
  sequences of bytes (`List UInt8`), which `Fields` decodes as UTF-8.
* The Go map `agents` is an association list searched from the front; an
  insertion replaces the binding of an existing key in place and otherwise
  appends one.
* Every value the handlers draw from outside the program is an explicit
  argument: the strings returned by `uuid.NewString()` and by
  `time.Now().UTC().Format(...)`, the outcome of each file write, the result of
  decoding the request body.
* A handler runs as one step: the mutex sections of one request are not
  interleaved with those of another.
* An operation names the handler it runs: the routing of `http.ServeMux` is not
  part of the model, and the handlers are defined on every request.
* The filesystem the collector walks is a tree of nodes, each with the outcome
  of the operations the callback performs on it; `int64` values are integers
  and the addition on `totalCopied` wraps around at 64 bits.
-/

namespace IronSentinel

/-! ## Standard-library functions the server calls -/

/-- The loop of `subtle.ConstantTimeCompare`: `v |= x[i] ^ y[i]`. -/
def constantTimeLoop : List Char → List Char → Nat → Nat
  | x :: xs, y :: ys, v => constantTimeLoop xs ys (v ||| (x.toNat ^^^ y.toNat))
  | _, _, v => v

/-- Go `subtle.ConstantTimeCompare(x, y)`: 1 when the two slices have equal
length and equal contents, 0 otherwise. -/
def ConstantTimeCompare (x y : String) : Nat :=
  if x.data.length ≠ y.data.length then 0
  else if constantTimeLoop x.data y.data 0 = 0 then 1 else 0

/-- Go `strings.HasSuffix`. -/
def HasSuffix (s suffix : String) : Bool :=
  decide (suffix.data.length ≤ s.data.length) &&
    decide (s.data.drop (s.data.length - suffix.data.length) = suffix.data)

/-- Go `strings.Trim(s, "/")` on character lists: leading and trailing slashes
are removed. -/
def trimSlashes (l : List Char) : List Char :=
  ((l.dropWhile (fun c => c == '/')).reverse.dropWhile (fun c => c == '/')).reverse

/-- Go `strings.Split(s, "/")` on character lists. The result is never empty:
splitting the empty string gives one empty piece. -/
def splitSlash : List Char → List (List Char)
  | [] => [[]]
  | c :: cs =>
    if c = '/' then [] :: splitSlash cs
    else
      match splitSlash cs with
      | [] => [[c]]
      | p :: ps => (c :: p) :: ps

/-- One step of the scan of `filepath.Clean` over the path elements. The
stack holds the kept elements, last one first. -/
def cleanStep (rooted : Bool) (stack : List (List Char)) (e : List Char) : List (List Char) :=
  if e = [] ∨ e = ['.'] then stack
  else if e = ['.', '.'] then
    match stack with
    | [] => if rooted then [] else [e]
    | top :: rest => if top = ['.', '.'] then e :: stack else rest
  else e :: stack

/-- Go `filepath.Clean` for slash-separated paths without a volume name. -/
def cleanChars (p : List Char) : List Char :=
  match p with
  | [] => ['.']
  | c :: _ =>
    let rooted : Bool := c == '/'
    let kept := ((splitSlash p).foldl (cleanStep rooted) []).reverse
    if rooted then '/' :: List.intercalate ['/'] kept
    else if kept = [] then ['.']
    else List.intercalate ['/'] kept

/-- Go `filepath.Join`: the elements from the first non-empty one on are joined
with slashes and cleaned; the result is empty when every element is. -/
def joinChars : List (List Char) → List Char
  | [] => []
  | e :: es => if e = [] then joinChars es else cleanChars (List.intercalate ['/'] (e :: es))

/-- Go `filepath.Join` on strings. -/
def filepathJoin (elem : List String) : String :=
  String.mk (joinChars (elem.map String.data))

/-- Go `filepath.Base` on character lists. -/
def baseChars (p : List Char) : List Char :=
  if p = [] then ['.']
  else
    let q := (p.reverse.dropWhile (fun c => c == '/')).reverse
    let last := (splitSlash q).getLastD []
    if last = [] then ['/'] else last

/-- Go `filepath.Base` on strings. -/
def filepathBase (p : String) : String :=
  String.mk (baseChars p.data)

/-! ## Data model -/

/-- Go `Config`. -/
structure Config where
  DataDir : String
  PSK : String
  deriving DecidableEq, Repr

/-- Go `Agent`. -/
structure Agent where
  AgentID : String
  Hostname : String
  OS : String
  Arch : String
  Enrolled : String
  LastSeen : String
  Token : String
  deriving DecidableEq, Repr

/-- Go `Job`; the field `Type` is `Type_` here. `Args` is the string map of the
request, kept as it was sent. -/
structure Job where
  JobID : String
  AgentID : String
  Type_ : String
  Args : List (String × String)
  CreatedAt : String
  ClaimedAt : String
  DoneAt : String
  Status : String
  deriving DecidableEq, Repr

/-- Go `enrollRequest`. -/
structure enrollRequest where
  Hostname : String
  OS : String
  Arch : String
  deriving DecidableEq, Repr

/-- Go `enrollResponse`. -/
structure enrollResponse where
  AgentID : String
  Token : String
  deriving DecidableEq, Repr

/-- Go `enqueueJobRequest`. -/
structure enqueueJobRequest where
  AgentID : String
  Type_ : String
  Args : List (String × String)
  deriving DecidableEq, Repr

/-- The files the server keeps under its data directory: the two JSON
documents, each holding the value last written to it, and the uploaded result
files by path. -/
structure Disk where
  agentsDoc : Option (List (String × Agent))
  jobsDoc : Option (List Job)
  uploads : List (String × String)
  deriving DecidableEq, Repr

/-- Go `Server`: configuration, agent registry, job list; the disk it writes
to is carried along. -/
structure Server where
  cfg : Config
  agents : List (String × Agent)
  jobs : List Job
  disk : Disk
  deriving DecidableEq, Repr

/-- Outcome of the two `os.WriteFile` calls of one `persistLocked`. -/
structure WriteOutcome where
  agentsOk : Bool
  jobsOk : Bool
  deriving DecidableEq, Repr

/-- Outcome of the file operations of one `saveUpload`. -/
inductive SaveOutcome where
  | mkdirErr
  | createErr
  | copyErr (written : String)
  | ok
  deriving DecidableEq, Repr

/-- One event of the multipart reader: a part, or a read error. The end of the
list is `io.EOF`. -/
inductive PartEvent where
  | part (formName fileName content : String)
  | err
  deriving DecidableEq, Repr

/-- What the handlers read of an `http.Request`. `agent_id` and `token` are
the query parameters and `XPSK` the header (empty when absent); `enrollBody`
and `enqueueBody` are the results of decoding the JSON body into the two
request types (`none` for a decoding error) and `multipart` the parts of the
body (`none` when `MultipartReader` fails). -/
structure Request where
  Method : String
  Path : String
  agent_id : String
  token : String
  XPSK : String
  enrollBody : Option enrollRequest
  enqueueBody : Option enqueueJobRequest
  multipart : Option (List PartEvent)
  deriving DecidableEq, Repr

/-- What a handler writes: a bare status code, or status 200 with a JSON body. -/
inductive Response where
  | status (code : Nat)
  | health
  | enrolled (r : enrollResponse)
  | job (j : Job)
  | saved (path : String)
  deriving DecidableEq, Repr

/-! ## The store -/

/-- Go `New`: no agents, no jobs. -/
def New (cfg : Config) (disk : Disk) : Server :=
  { cfg := cfg, agents := [], jobs := [], disk := disk }

/-- Map lookup `a, ok := agents[k]`. -/
def agentsGet : List (String × Agent) → String → Option Agent
  | [], _ => none
  | (k, a) :: rest, key => if k = key then some a else agentsGet rest key

/-- Map assignment `agents[k] = a`. -/
def agentsSet : List (String × Agent) → String → Agent → List (String × Agent)
  | [], key, a => [(key, a)]
  | (k, b) :: rest, key, a =>
    if k = key then (key, a) :: rest else (k, b) :: agentsSet rest key a

/-- Go `persistLocked`: nothing without a data directory; otherwise the agents
document is written, and when that succeeds the jobs document. A failed write
is modelled as leaving its document as it was. -/
def persistLocked (s : Server) (w : WriteOutcome) : Server :=
  if s.cfg.DataDir = "" then s
  else if !w.agentsOk then s
  else
    let d1 : Disk := { s.disk with agentsDoc := some s.agents }
    if !w.jobsOk then { s with disk := d1 }
    else { s with disk := { d1 with jobsDoc := some s.jobs } }

/-- Go `requirePSK`. -/
def requirePSK (s : Server) (r : Request) : Bool :=
  if s.cfg.PSK = "" then true
  else decide (ConstantTimeCompare r.XPSK s.cfg.PSK = 1)

/-- Go `authenticateAgent`: `none` is the `(Agent{}, false)` result. -/
def authenticateAgent (s : Server) (r : Request) (now : String) (w : WriteOutcome) :
    Server × Option Agent :=
  let agentID := r.agent_id
  let token := r.token
  if agentID = "" ∨ token = "" then (s, none)
  else
    match agentsGet s.agents agentID with
    | none => (s, none)
    | some a =>
      if ConstantTimeCompare token a.Token ≠ 1 then (s, none)
      else
        let a1 : Agent := { a with LastSeen := now }
        let s1 : Server := { s with agents := agentsSet s.agents agentID a1 }
        (persistLocked s1 w, some a1)

/-- Go `handleEnroll`. `agentID` and `token` are the two `uuid.NewString()`
results, `enrolled` and `lastSeen` the two clock readings. -/
def handleEnroll (s : Server) (r : Request) (agentID token enrolled lastSeen : String)
    (w : WriteOutcome) : Server × Response :=
  if r.Method ≠ "POST" then (s, .status 405)
  else if !requirePSK s r then (s, .status 401)
  else
    match r.enrollBody with
    | none => (s, .status 400)
    | some req =>
      let a : Agent :=
        { AgentID := agentID, Hostname := req.Hostname, OS := req.OS, Arch := req.Arch,
          Enrolled := enrolled, LastSeen := lastSeen, Token := token }
      let s1 : Server := { s with agents := agentsSet s.agents agentID a }
      (persistLocked s1 w, .enrolled { AgentID := agentID, Token := token })

/-- Go `handleJobs`. `jobID` is the `uuid.NewString()` result and `createdAt`
the clock reading. -/
def handleJobs (s : Server) (r : Request) (jobID createdAt : String) (w : WriteOutcome) :
    Server × Response :=
  if r.Method = "POST" then
    if !requirePSK s r then (s, .status 401)
    else
      match r.enqueueBody with
      | none => (s, .status 400)
      | some req =>
        if req.AgentID = "" then (s, .status 400)
        else
          let ty := if req.Type_ = "" then "triage" else req.Type_
          let job : Job :=
            { JobID := jobID, AgentID := req.AgentID, Type_ := ty, Args := req.Args,
              CreatedAt := createdAt, ClaimedAt := "", DoneAt := "", Status := "queued" }
          let s1 : Server := { s with jobs := s.jobs ++ [job] }
          (persistLocked s1 w, .job job)
  else (s, .status 405)

/-- The scan of `handleJobsNext` over `s.jobs`: the first job of `agentID` that
is `queued` is marked `claimed` and returned; `none` when the scan falls off
the end. -/
def claimLoop (agentID now : String) : List Job → List Job × Option Job
  | [] => ([], none)
  | j :: js =>
    if j.AgentID ≠ agentID then
      let r := claimLoop agentID now js
      (j :: r.1, r.2)
    else if j.Status ≠ "queued" then
      let r := claimLoop agentID now js
      (j :: r.1, r.2)
    else
      let j1 : Job := { j with Status := "claimed", ClaimedAt := now }
      (j1 :: js, some j1)

/-- Go `handleJobsNext`. `authNow` is the clock reading of the authentication,
`claimNow` that of the claim. -/
def handleJobsNext (s : Server) (r : Request) (authNow claimNow : String)
    (wAuth wClaim : WriteOutcome) : Server × Response :=
  if r.Method ≠ "GET" then (s, .status 405)
  else
    match authenticateAgent s r authNow wAuth with
    | (s1, none) => (s1, .status 401)
    | (s1, some _) =>
      let agentID := r.agent_id
      match claimLoop agentID claimNow s1.jobs with
      | (jobs1, some job) => (persistLocked { s1 with jobs := jobs1 } wClaim, .job job)
      | (_, none) => (s1, .status 204)

/-- Go `saveUpload`: the target path, and the disk after the file operations. -/
def saveUpload (s : Server) (jobID fileName content : String) (o : SaveOutcome) :
    Server × Except Unit String :=
  let name := if fileName = "" then "case.tar.gz" else fileName
  let base := filepathJoin [s.cfg.DataDir, "uploads", jobID]
  match o with
  | .mkdirErr => (s, .error ())
  | _ =>
    let path := filepathJoin [base, filepathBase name]
    let put (data : String) : Server :=
      { s with disk := { s.disk with
          uploads := (path, data) :: s.disk.uploads.filter (fun e => e.1 ≠ path) } }
    match o with
    | .createErr => (s, .error ())
    | .copyErr written => (put written, .error ())
    | _ => (put content, .ok path)

/-- The part loop of `handleJobResults`: parts not named `file` are skipped,
the first part named `file` is saved and ends the loop. The result is the
status code of an early return, or the value of `saved` after the loop. -/
def partLoop (s : Server) (jobID : String) (o : SaveOutcome) :
    List PartEvent → Server × Except Nat String
  | [] => (s, .ok "")
  | .err :: _ => (s, .error 400)
  | .part formName fileName content :: rest =>
    if formName ≠ "file" then partLoop s jobID o rest
    else
      match saveUpload s jobID fileName content o with
      | (s1, .error _) => (s1, .error 500)
      | (s1, .ok saved) => (s1, .ok saved)

/-- The completion scan of `handleJobResults`: the first job whose id is
`jobID` is marked `done`. -/
def completeLoop (jobID now : String) : List Job → List Job
  | [] => []
  | j :: js =>
    if j.JobID = jobID then { j with Status := "done", DoneAt := now } :: js
    else j :: completeLoop jobID now js

/-- Go `handleJobResults`. -/
def handleJobResults (s : Server) (r : Request) (authNow doneNow : String)
    (o : SaveOutcome) (wAuth wDone : WriteOutcome) : Server × Response :=
  if r.Method ≠ "POST" then (s, .status 405)
  else if !HasSuffix r.Path "/results" then (s, .status 404)
  else
    let parts := splitSlash (trimSlashes r.Path.data)
    if parts.length ≠ 4 then (s, .status 404)
    else
      let jobID := String.mk (parts.getD 2 [])
      match authenticateAgent s r authNow wAuth with
      | (s1, none) => (s1, .status 401)
      | (s1, some _) =>
        match r.multipart with
        | none => (s1, .status 400)
        | some events =>
          match partLoop s1 jobID o events with
          | (s2, .error code) => (s2, .status code)
          | (s2, .ok saved) =>
            if saved = "" then (s2, .status 400)
            else
              let s3 : Server := { s2 with jobs := completeLoop jobID doneNow s2.jobs }
              (persistLocked s3 wDone, .saved saved)

/-! ## Runs of the server -/

/-- One request served by the store, with everything the handler draws from
outside. -/
inductive Op where
  | enroll (r : Request) (agentID token enrolled lastSeen : String) (w : WriteOutcome)
  | enqueue (r : Request) (jobID createdAt : String) (w : WriteOutcome)
  | next (r : Request) (authNow claimNow : String) (wAuth wClaim : WriteOutcome)
  | results (r : Request) (authNow doneNow : String) (o : SaveOutcome)
      (wAuth wDone : WriteOutcome)
  deriving DecidableEq, Repr

/-- The handler an operation runs. -/
def step (s : Server) : Op → Server × Response
  | .enroll r agentID token enrolled lastSeen w => handleEnroll s r agentID token enrolled lastSeen w
  | .enqueue r jobID createdAt w => handleJobs s r jobID createdAt w
  | .next r authNow claimNow wAuth wClaim => handleJobsNext s r authNow claimNow wAuth wClaim
  | .results r authNow doneNow o wAuth wDone =>
    handleJobResults s r authNow doneNow o wAuth wDone

/-- The store after a sequence of operations. -/
def runOps (s : Server) : List Op → Server
  | [] => s
  | op :: ops => runOps (step s op).1 ops

/-- The store and the responses, in order, of a sequence of operations. -/
def runTrace (s : Server) : List Op → Server × List (Op × Response)
  | [] => (s, [])
  | op :: ops =>
    let r := step s op
    let t := runTrace r.1 ops
    (t.1, (op, r.2) :: t.2)

/-- States the server reaches from a fresh store. -/
def Reachable (s : Server) : Prop :=
  ∃ cfg disk ops, runOps (New cfg disk) ops = s

/-! ## The filesystem snapshot collector

An embedding of `collectors/linux/fs_snapshot.go`. What the collector reads of
the filesystem is given as a tree of nodes: each node carries the name and the
`IsDir` of its directory entry, the outcome of every operation the callback
performs on its path, and the entries `os.ReadDir` returned for it. Values of
type `int64` are integers, and the one addition the code performs on them wraps
around at 64 bits. -/

/-- The value an `int64` computation yields for the mathematical result `x`. -/
def wrapInt64 (x : Int) : Int :=
  (x + 2 ^ 63) % 2 ^ 64 - 2 ^ 63

/-- Go `strings.HasPrefix`. -/
def HasPrefix (s pre : String) : Bool :=
  decide (pre.data.length ≤ s.data.length) && decide (s.data.take pre.data.length = pre.data)

/-- Go `strings.TrimPrefix`. -/
def TrimPrefix (s pre : String) : String :=
  if HasPrefix s pre then String.mk (s.data.drop pre.data.length) else s

/-- Go `filepath.Clean` on strings. -/
def filepathClean (p : String) : String :=
  String.mk (cleanChars p.data)

/-- Go `fs.ModeDir`. -/
def ModeDir : Nat := 2 ^ 31

/-- Go `fs.ModeSymlink`. -/
def ModeSymlink : Nat := 2 ^ 27

/-- Go `fs.ModeType`: directory, symlink, named pipe, socket, device, character
device and irregular bits. -/
def ModeType : Nat :=
  2 ^ 31 ||| 2 ^ 27 ||| 2 ^ 25 ||| 2 ^ 24 ||| 2 ^ 26 ||| 2 ^ 21 ||| 2 ^ 19

/-- Go `fs.ModePerm`. -/
def ModePerm : Nat := 511

/-- Go `SnapshotOptions`. -/
structure SnapshotOptions where
  Paths : List String
  Mode : String
  HashFiles : Bool
  MaxFileBytes : Int
  MaxTotalBytes : Int
  MaxFiles : Int
  deriving DecidableEq, Repr

/-- Go `snapshotEntry`; the field `Type` is `Type_` here. -/
structure snapshotEntry where
  Path : String
  Type_ : String
  SizeBytes : Int
  Mode : String
  ModTime : String
  UID : Int
  GID : Int
  SHA256 : String
  Copied : Bool
  CopyReason : String
  deriving DecidableEq, Repr

/-- Go `collectors.Artifact`. -/
structure Artifact where
  RelativePath : String
  Collector : String
  CollectedAt : String
  SizeBytes : Int
  SHA256 : String
  Metadata : List (String × String)
  deriving DecidableEq, Repr

/-- What the callback reads of an `fs.FileInfo`: `Size()`, the bits of `Mode()`,
the string `Mode().String()` and the formatted `ModTime()`. -/
structure FileInfo where
  Size : Int
  Mode : Nat
  ModeString : String
  ModTime : String
  deriving DecidableEq, Repr

/-- Outcome of the operations the callback performs on one path: `d.Info()`,
`sha256Path` (`none` for an error), `os.Open`, `tarW.WriteHeader` and
`io.Copy`. -/
structure Probe where
  info : Option FileInfo
  sha256 : Option String
  openOk : Bool
  headerOk : Bool
  copyOk : Bool
  deriving DecidableEq, Repr

/-- One object of the walked tree: the name and `IsDir` of its directory entry,
the outcome of the operations on it, and the entries read from it when it is a
directory. -/
inductive Node where
  | mk (name : String) (isDir : Bool) (probe : Probe) (children : List Node)

/-- One member of the tar archive: the header written for it and whether its
content was copied in full. -/
structure TarMember where
  Name : String
  Mode : Nat
  Size : Int
  ModTime : String
  complete : Bool
  deriving DecidableEq, Repr

/-- The variables of `Collect` that the walk updates: `filesSeen`,
`totalCopied`, the entries encoded to the metadata stream, whether the archive
has been opened, and the members written to it. -/
structure WalkState where
  filesSeen : Int
  totalCopied : Int
  entries : List snapshotEntry
  tarOpen : Bool
  archive : List TarMember
  deriving DecidableEq, Repr

/-- The settings in force during the walk, after the defaults are applied, and
the outcome of creating the archive file. -/
structure WalkConfig where
  mode : String
  hashFiles : Bool
  maxFiles : Int
  maxFileBytes : Int
  maxTotalBytes : Int
  openTarOk : Bool
  deriving DecidableEq, Repr

/-- What the callback returns besides `nil`: `filepath.SkipDir`, `errStopWalk`,
or the error of `openTar`. -/
inductive WalkErr where
  | skipDir
  | stopWalk
  | openTar
  deriving DecidableEq, Repr

/-- Go `isExcluded`. -/
def isExcluded (path : String) : Bool :=
  let p := filepathClean path
  ["/proc", "/sys", "/dev", "/run"].any (fun e => p == e || HasPrefix p (e ++ "/"))

/-- The call `metaW.Encode(entry)`: the entry is appended to the stream. -/
def encode (st : WalkState) (entry : snapshotEntry) : WalkState :=
  { st with entries := st.entries ++ [entry] }

/-- The entry the callback starts from. -/
def baseEntry (path : String) (info : FileInfo) : snapshotEntry :=
  { Path := path, Type_ := "", SizeBytes := info.Size, Mode := info.ModeString,
    ModTime := info.ModTime, UID := 0, GID := 0, SHA256 := "", Copied := false, CopyReason := "" }

/-- The hashing step of the callback: the digest is recorded when hashing is on,
the file is within the per-file budget and `sha256Path` succeeds. -/
def hashStep (c : WalkConfig) (info : FileInfo) (p : Probe) (entry : snapshotEntry) :
    snapshotEntry :=
  if c.hashFiles = true ∧ info.Size ≤ c.maxFileBytes then
    match p.sha256 with
    | some h => { entry with SHA256 := h }
    | none => entry
  else entry

/-- The tar header the callback writes for a file. -/
def tarHeader (path : String) (info : FileInfo) (complete : Bool) : TarMember :=
  { Name := TrimPrefix (filepathClean path) "/", Mode := info.Mode &&& ModePerm,
    Size := info.Size, ModTime := info.ModTime, complete := complete }

/-- The copy step of the callback, for a regular file in copy mode. -/
def copyStep (c : WalkConfig) (path : String) (info : FileInfo) (p : Probe)
    (entry : snapshotEntry) (st : WalkState) : WalkState × Option WalkErr :=
  if info.Size > c.maxFileBytes then
    (encode st { entry with CopyReason := "file_too_large" }, none)
  else if wrapInt64 (st.totalCopied + info.Size) > c.maxTotalBytes then
    (encode st { entry with CopyReason := "total_limit" }, some .stopWalk)
  else if st.tarOpen = false ∧ c.openTarOk = false then (st, some .openTar)
  else
    let st1 : WalkState := { st with tarOpen := true }
    if p.openOk = false then (encode st1 entry, none)
    else if p.headerOk = false then (encode st1 entry, none)
    else if p.copyOk = true then
      (encode
        { st1 with
          archive := st1.archive ++ [tarHeader path info true],
          totalCopied := wrapInt64 (st1.totalCopied + info.Size) }
        { entry with Copied := true }, none)
    else
      (encode { st1 with archive := st1.archive ++ [tarHeader path info false] } entry, none)

/-- The callback `Collect` passes to `filepath.WalkDir`, for a call without a
walk error. -/
def visit (c : WalkConfig) (path : String) (dIsDir : Bool) (p : Probe) (st : WalkState) :
    WalkState × Option WalkErr :=
  if isExcluded path = true then (st, if dIsDir = true then some .skipDir else none)
  else if st.filesSeen ≥ c.maxFiles then (st, if dIsDir = true then some .skipDir else none)
  else
    let st1 : WalkState := { st with filesSeen := st.filesSeen + 1 }
    match p.info with
    | none => (st1, none)
    | some info =>
      let entry := baseEntry path info
      if info.Mode &&& ModeSymlink ≠ 0 then (encode st1 { entry with Type_ := "symlink" }, none)
      else if info.Mode &&& ModeDir ≠ 0 then (encode st1 { entry with Type_ := "dir" }, none)
      else if info.Mode &&& ModeType ≠ 0 then (encode st1 { entry with Type_ := "other" }, none)
      else
        let entry1 := hashStep c info p { entry with Type_ := "file" }
        if c.mode = "copy" then copyStep c path info p entry1 st1
        else (encode st1 entry1, none)

mutual
/-- Go `walkDir` of `path/filepath`: the callback is called for the object; a
directory for which it returns `nil` is descended into. A `SkipDir` returned
for a directory is swallowed. The second call that reports a `ReadDir` error is
answered `nil` by the callback without any effect and is left out. -/
def walkDir (c : WalkConfig) (path : String) : Node → WalkState → WalkState × Option WalkErr
  | .mk _ isDir probe children, st =>
    match visit c path isDir probe st with
    | (st1, some e) => if e = .skipDir ∧ isDir = true then (st1, none) else (st1, some e)
    | (st1, none) => if isDir = true then walkEntries c path children st1 else (st1, none)
/-- The loop of `walkDir` over the entries of a directory: a `SkipDir` from an
entry ends the loop, any other error ends the walk. -/
def walkEntries (c : WalkConfig) (path : String) :
    List Node → WalkState → WalkState × Option WalkErr
  | [], st => (st, none)
  | .mk name isDir probe children :: rest, st =>
    match walkDir c (filepathJoin [path, name]) (.mk name isDir probe children) st with
    | (st1, some .skipDir) => (st1, none)
    | (st1, some e) => (st1, some e)
    | (st1, none) => walkEntries c path rest st1
end

/-- The loop of `int64ToString`: one decimal digit per round, last digit first.
The bound on the rounds is never reached for a 64-bit value, which has at most
19 digits. -/
def digitLoop : Nat → Int → List Char → List Char
  | 0, _, b => b
  | fuel + 1, i, b =>
    let b1 := b ++ [Char.ofNat ((48 + Int.tmod i 10) % 256).toNat]
    let i1 := Int.tdiv i 10
    if i1 = 0 then b1 else digitLoop fuel i1 b1

/-- Go `int64ToString`. -/
def int64ToString (i : Int) : String :=
  let neg : Bool := decide (i < 0)
  let i1 := if neg = true then wrapInt64 (-i) else i
  let b := digitLoop 20 i1 []
  let b1 := if neg = true then b ++ ['-'] else b
  String.mk b1.reverse

/-- Go `intToString`. -/
def intToString (i : Int) : String :=
  int64ToString i

/-- Go `boolToString`. -/
def boolToString (b : Bool) : String :=
  if b = true then "true" else "false"

/-- The errors `Collect` returns: the two configuration errors, a failure to
create the metadata file, the context error, the error of `openTar`, the
empty-result error, and a failure to hash the metadata file. -/
inductive CollectError where
  | noPaths
  | invalidMode
  | metaCreate
  | cancelled
  | openTar
  | noEntries
  | metaSum
  deriving DecidableEq, Repr

/-- What `Collect` meets outside the program: whether the metadata file and the
archive file can be created, whether the context is done when the loop reaches
the root at a given position, the tree `os.Lstat` and the walk find at that root
(`none` when `Lstat` fails), the results of `evidence.SHA256File` on the two
output files, and the two clock readings. -/
structure CollectEnv where
  metaCreateOk : Bool
  openTarOk : Bool
  ctxDone : Nat → Bool
  lstat : Nat → Option Node
  metaSum : Option (String × Int)
  tgzSum : Option (String × Int)
  metaTime : String
  tgzTime : String

/-- The settings `Collect` derives from its options. -/
def walkConfig (opts : SnapshotOptions) (openTarOk : Bool) : WalkConfig :=
  { mode := if opts.Mode = "" then "metadata" else opts.Mode,
    hashFiles := opts.HashFiles,
    maxFiles := if opts.MaxFiles ≤ 0 then 20000 else opts.MaxFiles,
    maxFileBytes := if opts.MaxFileBytes ≤ 0 then 25 * 1024 * 1024 else opts.MaxFileBytes,
    maxTotalBytes := if opts.MaxTotalBytes ≤ 0 then 250 * 1024 * 1024 else opts.MaxTotalBytes,
    openTarOk := openTarOk }

/-- The state the walk starts from. -/
def initWalk : WalkState :=
  { filesSeen := 0, totalCopied := 0, entries := [], tarOpen := false, archive := [] }

/-- The loop of `Collect` over the roots, from the root at position `i` on. An
`Lstat` failure on a root is reported to the callback, which answers `nil`;
`WalkDir` turns a `SkipDir` into `nil`; `errStopWalk` ends the loop and the
error of `openTar` ends `Collect`. -/
def walkRoots (c : WalkConfig) (env : CollectEnv) :
    Nat → List String → WalkState → WalkState × Option CollectError
  | _, [], st => (st, none)
  | i, root :: rest, st =>
    if env.ctxDone i = true then (st, some .cancelled)
    else if root = "" then walkRoots c env (i + 1) rest st
    else if isExcluded root = true then walkRoots c env (i + 1) rest st
    else
      match env.lstat i with
      | none => walkRoots c env (i + 1) rest st
      | some node =>
        match walkDir c root node st with
        | (st1, some .stopWalk) => (st1, none)
        | (st1, some .openTar) => (st1, some .openTar)
        | (st1, _) => walkRoots c env (i + 1) rest st1

instance : DecidableEq (Except CollectError (List Artifact)) := fun a b =>
  match a, b with
  | .error x, .error y => if h : x = y then isTrue (by rw [h]) else isFalse (fun c => h (by injection c))
  | .ok x, .ok y => if h : x = y then isTrue (by rw [h]) else isFalse (fun c => h (by injection c))
  | .error _, .ok _ => isFalse (fun c => by cases c)
  | .ok _, .error _ => isFalse (fun c => by cases c)

/-- What a call of `Collect` leaves behind: its return value, whether the
metadata file was created, and the final values of the walk variables (the
metadata stream, the archive and the counters). -/
structure CollectOutcome where
  result : Except CollectError (List Artifact)
  metaCreated : Bool
  walk : WalkState
  deriving DecidableEq, Repr

/-- The artifact `Collect` returns for the metadata stream. -/
def metaArtifact (opts : SnapshotOptions) (c : WalkConfig) (st : WalkState) (sha : String)
    (size : Int) (now : String) : Artifact :=
  { RelativePath := filepathJoin ["snapshot", "metadata.jsonl"],
    Collector := "fs_snapshot",
    CollectedAt := now,
    SizeBytes := size,
    SHA256 := sha,
    Metadata :=
      [("mode", c.mode), ("paths", String.intercalate "," opts.Paths),
       ("files_seen", intToString st.filesSeen), ("total_copied", int64ToString st.totalCopied),
       ("hash_files", boolToString opts.HashFiles),
       ("max_file_bytes", int64ToString c.maxFileBytes),
       ("max_total_bytes", int64ToString c.maxTotalBytes)] }

/-- The artifact `Collect` returns for the archive. -/
def tgzArtifact (sha : String) (size : Int) (now : String) : Artifact :=
  { RelativePath := filepathJoin ["snapshot", "files.tar.gz"],
    Collector := "fs_snapshot",
    CollectedAt := now,
    SizeBytes := size,
    SHA256 := sha,
    Metadata := [] }

/-- The end of `Collect`, after the loop over the roots. -/
def finish (opts : SnapshotOptions) (c : WalkConfig) (env : CollectEnv) (st : WalkState) :
    Except CollectError (List Artifact) :=
  if st.filesSeen = 0 then .error .noEntries
  else
    match env.metaSum with
    | none => .error .metaSum
    | some (sha, size) =>
      let artifacts := [metaArtifact opts c st sha size env.metaTime]
      if st.tarOpen = true then
        match env.tgzSum with
        | some (sha2, size2) => .ok (artifacts ++ [tgzArtifact sha2 size2 env.tgzTime])
        | none => .ok artifacts
      else .ok artifacts

/-- Go `FilesystemSnapshotCollector.Collect`. -/
def Collect (opts : SnapshotOptions) (env : CollectEnv) : CollectOutcome :=
  if opts.Paths.length = 0 then
    { result := .error .noPaths, metaCreated := false, walk := initWalk }
  else
    let c := walkConfig opts env.openTarOk
    if c.mode ≠ "metadata" ∧ c.mode ≠ "copy" then
      { result := .error .invalidMode, metaCreated := false, walk := initWalk }
    else if env.metaCreateOk = false then
      { result := .error .metaCreate, metaCreated := false, walk := initWalk }
    else
      match walkRoots c env 0 opts.Paths initWalk with
      | (st, some e) => { result := .error e, metaCreated := true, walk := st }
      | (st, none) => { result := finish opts c env st, metaCreated := true, walk := st }

/-! ## The field agent

An embedding of `newestDir` and `buildTriageArgs` of
`agents/internal/agent/agent.go`. -/

/-- What `newestDir` reads of one entry of the listing `os.ReadDir` returns: its
name, its `IsDir`, and the modification time its `Info` reports (`none` when
`Info` fails). A time is an instant, counted from the zero `time.Time`. -/
structure DirEntry where
  Name : String
  IsDir : Bool
  ModTime : Option Int
  deriving DecidableEq, Repr

/-- One round of the loop of `newestDir` on the variables `newest` and
`newestTime`. -/
def newestStep (base : String) (acc : String × Int) (e : DirEntry) : String × Int :=
  if e.IsDir = false then acc
  else
    match e.ModTime with
    | none => acc
    | some t => if acc.1 = "" ∨ t > acc.2 then (filepathJoin [base, e.Name], t) else acc

/-- Go `newestDir`, on the result of `os.ReadDir(base)`. -/
def newestDir (base : String) (listing : Except String (List DirEntry)) : Except String String :=
  match listing with
  | .error err => .error err
  | .ok entries =>
    let r := entries.foldl (newestStep base) ("", 0)
    if r.1 = "" then .error "no case directory found" else .ok r.1

/-- Go `unicode.IsSpace`: the white space of Latin-1 and the other code points
with the property `White_Space`. The characters of a string are its runes
here. -/
def isSpace (c : Char) : Bool :=
  let n := c.toNat
  n == 9 || n == 10 || n == 11 || n == 12 || n == 13 || n == 32 || n == 133 || n == 160 ||
    n == 5760 || (decide (8192 ≤ n) && decide (n ≤ 8202)) || n == 8232 || n == 8233 ||
    n == 8239 || n == 8287 || n == 12288

/-- Go `strings.TrimSpace`: leading and trailing white space is removed. -/
def TrimSpace (s : String) : String :=
  String.mk ((s.data.dropWhile isSpace).reverse.dropWhile isSpace).reverse

/-- Go `strings.Split(s, ",")` on character lists. The result is never empty:
splitting the empty string gives one empty piece. -/
def splitComma : List Char → List (List Char)
  | [] => [[]]
  | c :: cs =>
    if c = ',' then [] :: splitComma cs
    else
      match splitComma cs with
      | [] => [[c]]
      | p :: ps => (c :: p) :: ps

/-- Go `strings.Split(s, ",")` on strings. -/
def Split (s : String) : List String :=
  (splitComma s.data).map String.mk

/-- Go `strconv.ParseBool`: the value, and whether the string was accepted. -/
def ParseBool (str : String) : Bool × Bool :=
  if str = "1" ∨ str = "t" ∨ str = "T" ∨ str = "TRUE" ∨ str = "true" ∨ str = "True" then
    (true, true)
  else if str = "0" ∨ str = "f" ∨ str = "F" ∨ str = "FALSE" ∨ str = "false" ∨ str = "False" then
    (false, true)
  else (false, false)

/-- Go `boolString` of the agent. -/
def boolString (b : Bool) : String :=
  if b = true then "true" else "false"

/-- Go `job` of the agent; the field `Type` is `Type_` here and a nil map of
arguments is `none`. -/
structure job where
  JobID : String
  AgentID : String
  Type_ : String
  Args : Option (List (String × String))
  deriving DecidableEq, Repr

/-- The index expression `j.Args[key]` on a map given as an association list:
the value bound to the key, or the empty string. -/
def argsGet : List (String × String) → String → String
  | [], _ => ""
  | (k, v) :: rest, key => if k = key then v else argsGet rest key

/-- The statement `if v := strings.TrimSpace(j.Args[key]); v != "" { args =
append(args, flag, v) }` of `buildTriageArgs`. -/
def addFlag (m : List (String × String)) (key flag : String) (args : List String) :
    List String :=
  let v := TrimSpace (argsGet m key)
  if v ≠ "" then args ++ [flag, v] else args

/-- One round of the loop of `buildTriageArgs` over the pieces of
`snapshot_paths`. -/
def addSnapshotPath (args : List String) (p : String) : List String :=
  let p1 := TrimSpace p
  if p1 = "" then args else args ++ ["--snapshot-path", p1]

/-- The part of `buildTriageArgs` after the two IOC arguments. -/
def addSnapshotArgs (m : List (String × String)) (args : List String) : List String :=
  let v := TrimSpace (argsGet m "snapshot_paths")
  let args1 := if v ≠ "" then (Split v).foldl addSnapshotPath args else args
  let args2 := addFlag m "snapshot_mode" "--snapshot-mode" args1
  let v1 := TrimSpace (argsGet m "snapshot_hash")
  let args3 :=
    if v1 ≠ "" then args2 ++ ["--snapshot-hash=" ++ boolString (ParseBool v1).1] else args2
  let args4 := addFlag m "snapshot_max_file_bytes" "--snapshot-max-file-bytes" args3
  let args5 := addFlag m "snapshot_max_total_bytes" "--snapshot-max-total-bytes" args4
  let args6 := addFlag m "snapshot_max_files" "--snapshot-max-files" args5
  addFlag m "timeout" "--timeout" args6

/-- What a call of `buildTriageArgs` leaves behind: its return value and the
file it wrote, as path and content. -/
structure TriageArgs where
  result : Except String (List String)
  written : Option (String × String)
  deriving Repr

/-- Go `buildTriageArgs`. The outcome of `os.WriteFile` is the argument
`writeErr`: `none` for success, the error otherwise. -/
def buildTriageArgs (outputBase : String) (j : job) (writeErr : Option String) : TriageArgs :=
  let args := ["triage", "--output", outputBase]
  match j.Args with
  | none => { result := .ok args, written := none }
  | some m =>
    let args1 := addFlag m "ioc_file" "--ioc-file" args
    let v := argsGet m "ioc"
    if TrimSpace v ≠ "" then
      let p := filepathJoin [outputBase, "iocs_" ++ j.JobID ++ ".txt"]
      match writeErr with
      | some err => { result := .error err, written := none }
      | none =>
        { result := .ok (addSnapshotArgs m (args1 ++ ["--ioc-file", p])), written := some (p, v) }
    else { result := .ok (addSnapshotArgs m args1), written := none }

/-! ## The triage pipeline

An embedding of `Run` of `core/internal/triage/triage.go`. What a collector
returns in a run is given with the collector, except for the filesystem
snapshot, which is the `Collect` above; the artifacts the IOC scan and the
timeline add to the manifest are given with the run. -/

/-- Go `triage.Options`. -/
structure Options where
  CaseID : String
  Output : String
  IOCFile : String
  SnapshotPaths : List String
  SnapshotMode : String
  SnapshotHashFiles : Bool
  SnapshotMaxFileBytes : Int
  SnapshotMaxTotalBytes : Int
  SnapshotMaxFiles : Int
  StartedAt : String
  deriving DecidableEq, Repr

/-- Go `triage.Result`. -/
structure Result where
  CaseID : String
  OutputDir : String
  Artifacts : List Artifact
  deriving DecidableEq, Repr

/-- Go `evidence.Manifest`. -/
structure Manifest where
  CaseID : String
  CreatedAt : String
  Artifacts : List Artifact
  Metadata : List (String × String)
  deriving DecidableEq, Repr

/-- A collector in a run: its `Name()` and what its `Collect` returns. -/
structure Collector where
  Name : String
  outcome : Except String (List Artifact)

/-- The variables of the loop of `Run` over the collectors: the artifacts
gathered, the names of the collectors whose `Collect` was called, and the
side-car error files the loop attempted to write, as path and content. -/
structure RunState where
  artifacts : List Artifact
  invoked : List String
  errorFiles : List (String × String)
  deriving DecidableEq, Repr

/-- The artifact `Run` records for a collector that failed. -/
def errorArtifact (name msg now : String) : Artifact :=
  { RelativePath := filepathJoin ["errors", name ++ ".txt"],
    Collector := name,
    CollectedAt := now,
    SizeBytes := 0,
    SHA256 := "",
    Metadata := [("error", msg)] }

/-- The loop of `Run` over the collectors, from the collector at position `i`
on: the variables it ends with, and the error of the context when it is done
before a collector. `clock i` is the time read when the collector at position
`i` fails. -/
def collectLoop (outDir : String) (ctxDone : Nat → Bool) (ctxErr : String)
    (clock : Nat → String) : Nat → List Collector → RunState → RunState × Option String
  | _, [], st => (st, none)
  | i, c :: rest, st =>
    if ctxDone i = true then (st, some ctxErr)
    else
      match c.outcome with
      | .error msg =>
        collectLoop outDir ctxDone ctxErr clock (i + 1) rest
          { artifacts := st.artifacts ++ [errorArtifact c.Name msg (clock i)],
            invoked := st.invoked ++ [c.Name],
            errorFiles :=
              st.errorFiles ++ [(filepathJoin [outDir, "errors", c.Name ++ ".txt"], msg ++ "\n")] }
      | .ok arts =>
        collectLoop outDir ctxDone ctxErr clock (i + 1) rest
          { artifacts := st.artifacts ++ arts,
            invoked := st.invoked ++ [c.Name],
            errorFiles := st.errorFiles }

/-- What `Run` meets outside the program: the error of creating the output
directory, if any; what the collectors other than the snapshot return; the
environment of the snapshot and the text of its errors that come from the
system; whether the context is done before the collector at a position, and
its error; the clock readings; the artifacts the IOC scan and the timeline
add to the manifest and the metadata of the manifest; and the error of writing
the manifest, if any. -/
structure RunEnv where
  mkdirErr : Option String
  hostInfo : Except String (List Artifact)
  osRelease : Except String (List Artifact)
  procSummary : Except String (List Artifact)
  networkSummary : Except String (List Artifact)
  userSessions : Except String (List Artifact)
  persistence : Except String (List Artifact)
  snapshotEnv : CollectEnv
  systemErr : String
  ctxDone : Nat → Bool
  ctxErr : String
  clock : Nat → String
  manifestTime : String
  analysis : List Artifact
  manifestMetadata : List (String × String)
  manifestErr : Option String

/-- The text of the errors of the snapshot collector. -/
def snapshotErrorText (env : RunEnv) : CollectError → String
  | .noPaths => "no snapshot paths configured"
  | .invalidMode => "invalid snapshot mode"
  | .noEntries => "snapshot produced no entries"
  | .cancelled => env.ctxErr
  | .metaCreate => env.systemErr
  | .openTar => env.systemErr
  | .metaSum => env.systemErr

/-- The snapshot collector `Run` builds from its options. -/
def snapshotCollector (opts : Options) (env : RunEnv) : Collector :=
  { Name := "fs_snapshot",
    outcome :=
      match (Collect
          { Paths := opts.SnapshotPaths, Mode := opts.SnapshotMode,
            HashFiles := opts.SnapshotHashFiles, MaxFileBytes := opts.SnapshotMaxFileBytes,
            MaxTotalBytes := opts.SnapshotMaxTotalBytes, MaxFiles := opts.SnapshotMaxFiles }
          env.snapshotEnv).result with
      | .ok arts => .ok arts
      | .error e => .error (snapshotErrorText env e) }

/-- The list `cols` of `Run`. -/
def collectorsOf (opts : Options) (env : RunEnv) : List Collector :=
  [{ Name := "host_info", outcome := env.hostInfo },
   { Name := "os_release", outcome := env.osRelease }] ++
  (if opts.SnapshotPaths.length > 0 then [snapshotCollector opts env] else []) ++
  [{ Name := "proc_summary", outcome := env.procSummary },
   { Name := "network_summary", outcome := env.networkSummary },
   { Name := "user_sessions", outcome := env.userSessions },
   { Name := "persistence", outcome := env.persistence }]

/-- What a call of `Run` leaves behind: its return value, the collectors it
called, the side-car error files it attempted to write, and the manifest it
attempted to write. -/
structure RunOutcome where
  result : Except String Result
  invoked : List String
  errorFiles : List (String × String)
  manifest : Option Manifest

/-- Go `triage.Run`. -/
def Run (opts : Options) (env : RunEnv) : RunOutcome :=
  let outDir := filepathJoin [opts.Output, opts.CaseID]
  match env.mkdirErr with
  | some err => { result := .error err, invoked := [], errorFiles := [], manifest := none }
  | none =>
    match collectLoop outDir env.ctxDone env.ctxErr env.clock 0 (collectorsOf opts env)
        { artifacts := [], invoked := [], errorFiles := [] } with
    | (st, some err) =>
      { result := .error err, invoked := st.invoked, errorFiles := st.errorFiles,
        manifest := none }
    | (st, none) =>
      let manifest : Manifest :=
        { CaseID := opts.CaseID, CreatedAt := env.manifestTime,
          Artifacts := st.artifacts ++ env.analysis, Metadata := env.manifestMetadata }
      match env.manifestErr with
      | some err =>
        { result := .error err, invoked := st.invoked, errorFiles := st.errorFiles,
          manifest := some manifest }
      | none =>
        { result := .ok { CaseID := opts.CaseID, OutputDir := outDir, Artifacts := st.artifacts },
          invoked := st.invoked, errorFiles := st.errorFiles, manifest := some manifest }

/-! ## The evidence integrity layer

An embedding of `WriteFileAtomic` of `core/internal/evidence/write.go` and of
`SHA256File` of `evidence/hash.go`. A filesystem is the list of its files, each
path bound to a content; a path names one file, so that two different paths
never name the same file (no links), and directories are not part of the
state. An interruption stops the process between two changes of the
filesystem and leaves the filesystem as it is at that point. For `SHA256File`
the content of the file and the output of the hashing tool are sequences of
bytes, which `strings.Fields` decodes as UTF-8 the way the library does. -/

/-- The content of the file at a path, if there is one. -/
def fileGet : List (String × String) → String → Option String
  | [], _ => none
  | (k, v) :: rest, p => if k = p then some v else fileGet rest p

/-- The filesystem after the file at a path is given a content. -/
def fileSet : List (String × String) → String → String → List (String × String)
  | [], p, c => [(p, c)]
  | (k, v) :: rest, p, c => if k = p then (k, c) :: rest else (k, v) :: fileSet rest p c

/-- The filesystem after the file at a path is removed. -/
def fileRemove : List (String × String) → String → List (String × String)
  | [], _ => []
  | (k, v) :: rest, p => if k = p then fileRemove rest p else (k, v) :: fileRemove rest p

/-- The first `k` bytes of a content. -/
def firstBytes (data : String) (k : Nat) : String :=
  String.mk (data.data.take k)

/-- How a call of `os.WriteFile` goes: `OpenFile` fails; or the file is created
or truncated and the write stops with an error after `k` bytes (an error of
`Close` after the whole content when `k` reaches its length); or it succeeds. -/
inductive WriteResult where
  | openFails (err : String)
  | stopsAfter (k : Nat) (err : String)
  | succeeds
  deriving DecidableEq, Repr

/-- Go `os.WriteFile(name, data, perm)`: the file is opened with
`O_WRONLY|O_CREATE|O_TRUNC` and the content written to it. -/
def osWriteFile (fs : List (String × String)) (name data : String) (w : WriteResult) :
    List (String × String) × Option String :=
  match w with
  | .openFails err => (fs, some err)
  | .stopsAfter k err => (fileSet fs name (firstBytes data k), some err)
  | .succeeds => (fileSet fs name data, none)

/-- Go `os.Rename(oldpath, newpath)`: in one step the file at the old path
becomes the file at the new path; a failure changes nothing. -/
def osRename (fs : List (String × String)) (oldpath newpath : String) (err : Option String) :
    List (String × String) × Option String :=
  match err with
  | some e => (fs, some e)
  | none =>
    match fileGet fs oldpath with
    | none => (fs, some "no such file or directory")
    | some content => (fileSet (fileRemove fs oldpath) newpath content, none)

/-- What a call of `WriteFileAtomic` meets: the error of `EnsureParent`, if any,
how the write of the temporary file goes, and the error of the rename, if
any. -/
structure AtomicEnv where
  mkdirErr : Option String
  write : WriteResult
  renameErr : Option String
  deriving DecidableEq, Repr

/-- Go `WriteFileAtomic`: the filesystem it leaves and the error it returns. -/
def WriteFileAtomic (fs : List (String × String)) (path data : String) (env : AtomicEnv) :
    List (String × String) × Option String :=
  match env.mkdirErr with
  | some e => (fs, some e)
  | none =>
    let tmp := path ++ ".tmp"
    match osWriteFile fs tmp data env.write with
    | (fs1, some e) => (fs1, some e)
    | (fs1, none) => osRename fs1 tmp path env.renameErr

/-- The states of the filesystem while `os.WriteFile` writes up to `n` bytes:
the file is created or truncated, then grows. -/
def writeStates (fs : List (String × String)) (name data : String) (n : Nat) :
    List (List (String × String)) :=
  (List.range (n + 1)).map (fun k => fileSet fs name (firstBytes data k))

/-- The states the filesystem passes through during a call of
`WriteFileAtomic`, in order: the state before the call, which the creation of
the parent directories leaves as it is for files; the states while the
temporary file is written; and the state after the rename. An interruption
leaves one of them. -/
def atomicStates (fs : List (String × String)) (path data : String) (env : AtomicEnv) :
    List (List (String × String)) :=
  fs ::
    match env.mkdirErr with
    | some _ => []
    | none =>
      match env.write with
      | .openFails _ => []
      | .stopsAfter k _ => writeStates fs (path ++ ".tmp") data (min k data.data.length)
      | .succeeds =>
        writeStates fs (path ++ ".tmp") data data.data.length ++
          [(osRename (fileSet fs (path ++ ".tmp") data) (path ++ ".tmp") path env.renameErr).1]

/-- Go `utf8.RuneError`, the rune an invalid encoding decodes to. -/
def RuneError : Nat := 65533

/-- Go `utf8.DecodeRuneInString` on a sequence of bytes: the rune at its head
and the width of its encoding. The first byte selects the width and the range
the second byte must lie in; an invalid or incomplete encoding gives
`RuneError` with the width 1, and the empty sequence gives it with the width
0. -/
def decodeRune (s : List UInt8) : Nat × Nat :=
  match s with
  | [] => (RuneError, 0)
  | b0 :: rest =>
    let s0 := b0.toNat
    if s0 < 128 then (s0, 1)
    else if s0 < 194 ∨ 244 < s0 then (RuneError, 1)
    else
      let sz := if s0 < 224 then 2 else if s0 < 240 then 3 else 4
      let lo := if s0 = 224 then 160 else if s0 = 240 then 144 else 128
      let hi := if s0 = 237 then 159 else if s0 = 244 then 143 else 191
      if rest.length + 1 < sz then (RuneError, 1)
      else
        let s1 := (rest.getD 0 0).toNat
        if s1 < lo ∨ hi < s1 then (RuneError, 1)
        else if sz ≤ 2 then (((s0 &&& 31) <<< 6) ||| (s1 &&& 63), 2)
        else
          let s2 := (rest.getD 1 0).toNat
          if s2 < 128 ∨ 191 < s2 then (RuneError, 1)
          else if sz ≤ 3 then (((s0 &&& 15) <<< 12) ||| ((s1 &&& 63) <<< 6) ||| (s2 &&& 63), 3)
          else
            let s3 := (rest.getD 2 0).toNat
            if s3 < 128 ∨ 191 < s3 then (RuneError, 1)
            else
              (((s0 &&& 7) <<< 18) ||| ((s1 &&& 63) <<< 12) ||| ((s2 &&& 63) <<< 6) |||
                (s3 &&& 63), 4)

/-- Go `unicode.IsSpace` on a rune: the white space of Latin-1 and the other
code points with the property `White_Space`. -/
def isSpaceRune (r : Nat) : Bool :=
  r == 9 || r == 10 || r == 11 || r == 12 || r == 13 || r == 32 || r == 133 || r == 160 ||
    r == 5760 || (decide (8192 ≤ r) && decide (r ≤ 8202)) || r == 8232 || r == 8233 ||
    r == 8239 || r == 8287 || r == 12288

/-- The loop of `strings.FieldsFunc(s, unicode.IsSpace)` over the runes of a
sequence of bytes. `skip` is the number of bytes left of the rune decoded last,
`inSpace` whether that rune is white space, and `cur` the field being read: the
bytes of a rune that is not white space join the field, a white space rune ends
it. -/
def fieldsLoop : List UInt8 → Nat → Bool → List UInt8 → List (List UInt8)
  | [], _, _, cur => if cur = [] then [] else [cur]
  | b :: bs, skip, inSpace, cur =>
    if skip > 0 then
      if inSpace = true then fieldsLoop bs (skip - 1) inSpace cur
      else fieldsLoop bs (skip - 1) inSpace (cur ++ [b])
    else
      let w := (decodeRune (b :: bs)).2
      if isSpaceRune (decodeRune (b :: bs)).1 = true then
        if cur = [] then fieldsLoop bs (w - 1) true []
        else cur :: fieldsLoop bs (w - 1) true []
      else fieldsLoop bs (w - 1) false (cur ++ [b])

/-- Go `strings.Fields` on a sequence of bytes: the maximal pieces without a
white space rune, none of them empty. The bytes are decoded as UTF-8; the path
the library takes for input that is all ASCII gives the same pieces. -/
def Fields (s : List UInt8) : List (List UInt8) :=
  fieldsLoop s 0 false []

/-- The loop of `strconv.ParseUint` in base 10: every byte must be a decimal
digit. -/
def digitsValue : List UInt8 → Nat → Option Nat
  | [], acc => some acc
  | c :: cs, acc =>
    if 48 ≤ c.toNat ∧ c.toNat ≤ 57 then digitsValue cs (acc * 10 + (c.toNat - 48)) else none

/-- Go `strconv.ParseInt(s, 10, 64)` on a sequence of bytes: an optional sign
followed by at least one decimal digit, with a value that fits 64 bits; `none`
for an error. The value is computed without a bound, which gives the range
error of `ParseUint` as the range error of `ParseInt`. -/
def ParseInt10 (s : List UInt8) : Option Int :=
  match s with
  | [] => none
  | c :: cs =>
    let neg : Bool := decide (c.toNat = 45)
    let body := if c.toNat = 43 ∨ c.toNat = 45 then cs else c :: cs
    if body = [] then none
    else
      match digitsValue body 0 with
      | none => none
      | some un =>
        if neg = false ∧ un ≥ 9223372036854775808 then none
        else if neg = true ∧ un > 9223372036854775808 then none
        else some (if neg = true then -(un : Int) else (un : Int))

/-- What a call of `SHA256File` meets: whether `exec.LookPath` finds the tool
`fast-hash`; the bytes of the standard output of `fast-hash sha256 <path>`
(`none` when the command ends with an error); the bytes of the file (`none`
when `os.Open` fails) with the error of `os.Open`; and the error of `io.Copy`,
if any. -/
structure HashEnv where
  toolFound : Bool
  toolOutput : Option (List UInt8)
  fileContent : Option (List UInt8)
  openErr : String
  readErr : Option String
  deriving DecidableEq, Repr

/-- Go `sha256FileFastHash`: the digest and the count the tool printed, when
its output is accepted. The digest is the first field as it is, a sequence of
bytes. -/
def sha256FileFastHash (env : HashEnv) : Option (List UInt8 × Int) :=
  if env.toolFound = false then none
  else
    match env.toolOutput with
    | none => none
    | some out =>
      match Fields out with
      | h :: f1 :: _ =>
        match ParseInt10 f1 with
        | none => none
        | some n => some (h, n)
      | _ => none

/-- The part of `SHA256File` after the fast path: the streaming digest of the
file. `sum256hex` gives the bytes of the lowercase hexadecimal SHA-256 digest of
a content, and the count `io.Copy` returns is the number of bytes of the
content. -/
def sha256Builtin (sum256hex : List UInt8 → List UInt8) (env : HashEnv) :
    Except String (List UInt8 × Int) :=
  match env.fileContent with
  | none => .error env.openErr
  | some content =>
    match env.readErr with
    | some e => .error e
    | none => .ok (sum256hex content, (content.length : Int))

/-- Go `SHA256File`. -/
def SHA256File (sum256hex : List UInt8 → List UInt8) (env : HashEnv) :
    Except String (List UInt8 × Int) :=
  match sha256FileFastHash env with
  | some (h, n) => .ok (h, n)
  | none => sha256Builtin sum256hex env

/-! ## Vocabulary of the properties -/

/-- The record a claim at time `now` leaves in place of the job `j`. -/
def markClaimed (j : Job) (now : String) : Job :=
  { j with Status := "claimed", ClaimedAt := now }

/-- The record a completion at time `now` leaves in place of the job `j`. -/
def markDone (j : Job) (now : String) : Job :=
  { j with Status := "done", DoneAt := now }

/-- The job `handleJobs` builds from a decoded request. -/
def newJob (req : enqueueJobRequest) (jobID createdAt : String) : Job :=
  { JobID := jobID, AgentID := req.AgentID,
    Type_ := if req.Type_ = "" then "triage" else req.Type_, Args := req.Args,
    CreatedAt := createdAt, ClaimedAt := "", DoneAt := "", Status := "queued" }

/-- The record `handleEnroll` builds from a decoded request. -/
def newAgent (req : enrollRequest) (agentID token enrolled lastSeen : String) : Agent :=
  { AgentID := agentID, Hostname := req.Hostname, OS := req.OS, Arch := req.Arch,
    Enrolled := enrolled, LastSeen := lastSeen, Token := token }

/-- The job a claim-next request for agent `a` looks for. -/
def claimable (a : String) (j : Job) : Prop :=
  j.AgentID = a ∧ j.Status = "queued"

instance (a : String) (j : Job) : Decidable (claimable a j) := by
  unfold claimable; exact inferInstance

/-- The condition under which `authenticateAgent` accepts, with the record it
finds. -/
def credentialsMatch (s : Server) (agentID token : String) (a : Agent) : Prop :=
  agentID ≠ "" ∧ token ≠ "" ∧ agentsGet s.agents agentID = some a ∧ token = a.Token

instance (s : Server) (agentID token : String) (a : Agent) :
    Decidable (credentialsMatch s agentID token a) := by
  unfold credentialsMatch; exact inferInstance

/-- The job id `handleJobResults` reads off the request path. -/
def pathJobID (path : String) : Option String :=
  if !HasSuffix path "/results" then none
  else if (splitSlash (trimSlashes path.data)).length ≠ 4 then none
  else some (String.mk ((splitSlash (trimSlashes path.data)).getD 2 []))

/-- The file part the part loop stops at: the name and content of the first
part named `file`, provided no read error comes before it. -/
def firstFilePart : List PartEvent → Option (String × String)
  | [] => none
  | .err :: _ => none
  | .part formName fileName content :: rest =>
    if formName ≠ "file" then firstFilePart rest else some (fileName, content)

/-- The path `saveUpload` writes to. -/
def uploadPath (cfg : Config) (jobID fileName : String) : String :=
  filepathJoin [filepathJoin [cfg.DataDir, "uploads", jobID],
    filepathBase (if fileName = "" then "case.tar.gz" else fileName)]

/-- Position of a status in the lifecycle `queued`, `claimed`, `done`. -/
def statusRank (st : String) : Nat :=
  if st = "queued" then 0 else if st = "claimed" then 1 else if st = "done" then 2 else 0

/-- What the lifecycle leaves in a job record: a queued job has neither
timestamp, a claimed job has no completion time, or the job is done. -/
def JobWellFormed (j : Job) : Prop :=
  (j.Status = "queued" ∧ j.ClaimedAt = "" ∧ j.DoneAt = "") ∨
  (j.Status = "claimed" ∧ j.DoneAt = "") ∨
  j.Status = "done"

/-- What a request may do to a job already in the list, by kind of request:
enroll and enqueue leave it alone; a claim-next leaves it alone or claims it, if
it is queued and belongs to the caller; a result upload leaves it alone or
marks it done, if the path names its id. -/
def JobTransition (op : Op) (j j1 : Job) : Prop :=
  match op with
  | .enroll _ _ _ _ _ _ => j1 = j
  | .enqueue _ _ _ _ => j1 = j
  | .next r _ claimNow _ _ => j1 = j ∨ (claimable r.agent_id j ∧ j1 = markClaimed j claimNow)
  | .results r _ doneNow _ _ _ =>
    j1 = j ∨ (pathJobID r.Path = some j.JobID ∧ j1 = markDone j doneNow)

/-- How one request may change the job list: not at all, by appending a queued
job, by claiming a queued job in place, or by completing a job in place. -/
def JobsChange (js js1 : List Job) : Prop :=
  js1 = js ∨
  (∃ job : Job, job.Status = "queued" ∧ job.ClaimedAt = "" ∧ job.DoneAt = "" ∧
    js1 = js ++ [job]) ∨
  (∃ i j now, js[i]? = some j ∧ j.Status = "queued" ∧ js1 = js.set i (markClaimed j now)) ∨
  (∃ i j now, js[i]? = some j ∧ js1 = js.set i (markDone j now))

/-- The job id an enqueue call generated, if the entry is an enqueue call that
created a job. -/
def enqueuedID : Op × Response → Option String
  | (.enqueue _ _ _ _, .job j) => some j.JobID
  | _ => none

/-- The job ids generated by the enqueue calls of a trace, in order. -/
def enqueuedIDs (t : List (Op × Response)) : List String :=
  t.filterMap enqueuedID

/-- The job id a claim-next call handed out, if the entry is a claim-next call
that returned a job. -/
def claimedID : Op × Response → Option String
  | (.next _ _ _ _ _, .job j) => some j.JobID
  | _ => none

/-- The job ids handed out by the claim-next calls of a trace, in order. -/
def claimedIDs (t : List (Op × Response)) : List String :=
  t.filterMap claimedID

/-- Ids handed out by claims belong to jobs that are no longer queued. -/
def HandedOut (s : Server) (acc : List String) : Prop :=
  ∀ id ∈ acc, ∃ j ∈ s.jobs, j.JobID = id ∧ j.Status ≠ "queued"

/-- The credentials an enroll call returned, if the entry is an enroll call that
succeeded. -/
def enrolledPair : Op × Response → Option enrollResponse
  | (.enroll _ _ _ _ _ _, .enrolled e) => some e
  | _ => none

/-- The credentials returned by the enroll calls of a trace, in order. -/
def enrolledPairs (t : List (Op × Response)) : List enrollResponse :=
  t.filterMap enrolledPair

/-- The registry holds exactly the credentials in `l`: every record carries a
token issued for its key, and every issued pair is still on record. -/
def RegistryHolds (s : Server) (l : List enrollResponse) : Prop :=
  (∀ k a, agentsGet s.agents k = some a → ({ AgentID := k, Token := a.Token } : enrollResponse) ∈ l) ∧
  (∀ e ∈ l, ∃ a, agentsGet s.agents e.AgentID = some a ∧ a.Token = e.Token)

/-! ## Example values -/

/-- A server configuration without a pre-shared key. -/
def labConfig : Config := { DataDir := "data", PSK := "" }

/-- A data directory with nothing in it. -/
def blankDisk : Disk := { agentsDoc := none, jobsDoc := none, uploads := [] }

/-- Both file writes of a persist succeed. -/
def writesOk : WriteOutcome := { agentsOk := true, jobsOk := true }

/-- A request with nothing set. -/
def baseRequest : Request :=
  { Method := "POST", Path := "/", agent_id := "", token := "", XPSK := "",
    enrollBody := none, enqueueBody := none, multipart := none }

/-- An enroll request. -/
def enrollFrom (host : String) : Request :=
  { baseRequest with
    Path := "/v1/enroll",
    enrollBody := some { Hostname := host, OS := "linux", Arch := "amd64" } }

/-- An enqueue request. -/
def enqueueFor (agent ty : String) : Request :=
  { baseRequest with
    Path := "/v1/jobs",
    enqueueBody := some { AgentID := agent, Type_ := ty, Args := [] } }

/-- A claim-next request. -/
def pollAs (agent token : String) : Request :=
  { baseRequest with Method := "GET", Path := "/v1/jobs/next", agent_id := agent, token := token }

/-- A result upload carrying one part named `file`. -/
def uploadAs (agent token jobID : String) : Request :=
  { baseRequest with
    Path := "/v1/jobs/" ++ jobID ++ "/results",
    agent_id := agent,
    token := token,
    multipart := some [.part "file" "case.tar.gz" "archive"] }

/-- A queued job. -/
def queuedJob (jobID agent : String) : Job :=
  { JobID := jobID, AgentID := agent, Type_ := "triage", Args := [], CreatedAt := "t0",
    ClaimedAt := "", DoneAt := "", Status := "queued" }

/-- An agent record. -/
def agentRecord (agent token : String) : Agent :=
  { AgentID := agent, Hostname := "host", OS := "linux", Arch := "amd64", Enrolled := "t0",
    LastSeen := "t0", Token := token }

/-- A store with two agents and four jobs: one of B, then three of A of which
the first is already claimed. -/
def sampleServer : Server :=
  { cfg := labConfig,
    agents := [("A", agentRecord "A" "tokA"), ("B", agentRecord "B" "tokB")],
    jobs := [queuedJob "J1" "B", markClaimed (queuedJob "J2" "A") "t1", queuedJob "J3" "A",
      queuedJob "J4" "A"],
    disk := blankDisk }

/-- Both file writes of a persist fail. -/
def writesFail : WriteOutcome := { agentsOk := false, jobsOk := false }

/-- A run that ends in `sampleServer`: A and B enroll, one job is queued for B and
three for A, and A claims its first. -/
def sampleServerRun : List Op :=
  [.enroll (enrollFrom "host") "A" "tokA" "t0" "t0" writesFail,
   .enroll (enrollFrom "host") "B" "tokB" "t0" "t0" writesFail,
   .enqueue (enqueueFor "B" "triage") "J1" "t0" writesFail,
   .enqueue (enqueueFor "A" "triage") "J2" "t0" writesFail,
   .enqueue (enqueueFor "A" "triage") "J3" "t0" writesFail,
   .enqueue (enqueueFor "A" "triage") "J4" "t0" writesFail,
   .next (pollAs "A" "tokA") "t0" "t1" writesFail writesFail]

/-- A store in which agent A's job J1 is already done. -/
def doneServer : Server :=
  { cfg := labConfig,
    agents := [("A", agentRecord "A" "tokA")],
    jobs := [markDone (markClaimed (queuedJob "J1" "A") "t1") "t2", queuedJob "J2" "A"],
    disk := blankDisk }

/-- A run: A enrolls, two jobs are queued for A, A polls three times. -/
def sampleRun : List Op :=
  [.enroll (enrollFrom "host") "A" "tokA" "t0" "t0" writesOk,
   .enqueue (enqueueFor "A" "") "J1" "t1" writesOk,
   .enqueue (enqueueFor "A" "triage") "J2" "t2" writesOk,
   .next (pollAs "A" "tokA") "t3" "t3" writesOk writesOk,
   .next (pollAs "A" "tokA") "t4" "t4" writesOk writesOk,
   .next (pollAs "A" "tokA") "t5" "t5" writesOk writesOk]

/-- A run in which A uploads a result for its job without claiming it first. -/
def skipClaimRun : List Op :=
  [.enroll (enrollFrom "host") "A" "tokA" "t0" "t0" writesOk,
   .enqueue (enqueueFor "A" "triage") "J1" "t1" writesOk,
   .results (uploadAs "A" "tokA" "J1") "t2" "t3" .ok writesOk writesOk]

/-- A run with two agents: A and B enroll, a job is queued for each, both poll. -/
def twoAgentRun : List Op :=
  [.enroll (enrollFrom "hostA") "A" "tokA" "t0" "t0" writesOk,
   .enroll (enrollFrom "hostB") "B" "tokB" "t1" "t1" writesOk,
   .enqueue (enqueueFor "A" "triage") "J1" "t2" writesOk,
   .enqueue (enqueueFor "B" "triage") "J2" "t3" writesOk,
   .next (pollAs "B" "tokB") "t4" "t4" writesOk writesOk,
   .next (pollAs "A" "tokA") "t5" "t5" writesOk writesOk]

/-- The end-to-end run: the agent enrolls, a triage job is queued for it, it
polls and claims the job, and uploads a result archive. -/
def lifecycleRun (agentID token jobID tEnroll tQueue tPoll tClaim tAuth tDone : String)
    (w : WriteOutcome) : List Op :=
  [.enroll (enrollFrom "host") agentID token tEnroll tEnroll w,
   .enqueue (enqueueFor agentID "triage") jobID tQueue w,
   .next (pollAs agentID token) tPoll tClaim w w,
   .results (uploadAs agentID token jobID) tAuth tDone .ok w w]

/-- The agent a request authenticated as: the `agent_id` of a claim-next or
result-upload request that reached `authenticateAgent` and was accepted. -/
def authenticatedAs (s : Server) : Op → Option String
  | .next r authNow _ wAuth _ =>
    if r.Method = "GET" ∧ (authenticateAgent s r authNow wAuth).2 ≠ none then some r.agent_id
    else none
  | .results r authNow _ _ wAuth _ =>
    if r.Method = "POST" ∧ pathJobID r.Path ≠ none ∧ (authenticateAgent s r authNow wAuth).2 ≠ none
    then some r.agent_id
    else none
  | _ => none

/-- The clock reading a request's authentication stores as `LastSeen`. -/
def authTime : Op → String
  | .next _ authNow _ _ _ => authNow
  | .results _ authNow _ _ _ _ => authNow
  | _ => ""

/-- The two documents on disk hold the agents map and the job list in memory. -/
def Persisted (s : Server) : Prop :=
  s.disk.agentsDoc = some s.agents ∧ s.disk.jobsDoc = some s.jobs

/-- Both file writes of a persist succeed. -/
def WriteOutcome.allOk (w : WriteOutcome) : Prop :=
  w.agentsOk = true ∧ w.jobsOk = true

/-- Every file write of the two documents that the request attempts succeeds. -/
def writesSucceed : Op → Prop
  | .enroll _ _ _ _ _ w => w.allOk
  | .enqueue _ _ _ w => w.allOk
  | .next _ _ _ wAuth wClaim => wAuth.allOk ∧ wClaim.allOk
  | .results _ _ _ _ wAuth wDone => wAuth.allOk ∧ wDone.allOk

/-- The sample store behind a pre-shared key. -/
def pskServer : Server :=
  { sampleServer with cfg := { DataDir := "data", PSK := "s3cret" } }

/-- A request carrying the given `X-PSK` header. -/
def withPSK (r : Request) (psk : String) : Request :=
  { r with XPSK := psk }

/-- The walk variables after the callback has counted one more object. -/
def counted (st : WalkState) : WalkState :=
  { st with filesSeen := st.filesSeen + 1 }

/-- The entry the callback builds for a regular file before the copy step. -/
def fileEntry (c : WalkConfig) (path : String) (info : FileInfo) (p : Probe) : snapshotEntry :=
  hashStep c info p { baseEntry path info with Type_ := "file" }

/-- The entry the callback records for an object that is not a regular file. -/
def typedEntry (path : String) (info : FileInfo) (t : String) : snapshotEntry :=
  { baseEntry path info with Type_ := t }

/-- A regular file, as the callback tells it: no symlink bit, no directory bit
and no other type bit in the mode. -/
def isRegularFile (info : FileInfo) : Prop :=
  info.Mode &&& ModeSymlink = 0 ∧ info.Mode &&& ModeDir = 0 ∧ info.Mode &&& ModeType = 0

instance (info : FileInfo) : Decidable (isRegularFile info) := by
  unfold isRegularFile; exact inferInstance

/-- What holds when one call of the callback, from the walk variables `st`,
records the entry `e` and leaves the variables `st1` and the return value `r`:
the object is not excluded and within the limit on objects, which it counts
against; a digest is recorded only for a regular file within the per-file budget
with hashing on; a copied entry is a regular file in copy mode within both
budgets, whose size is added to `totalCopied` and whose content is written to
the archive in full; an entry that is not copied leaves `totalCopied` alone; and
the copy reason is empty, `file_too_large` for a file over the per-file budget,
after which the walk goes on, or `total_limit` for a file within it that does
not fit the total budget, after which the callback returns `errStopWalk`. -/
def Recorded (c : WalkConfig) (path : String) (st : WalkState) (e : snapshotEntry)
    (st1 : WalkState) (r : Option WalkErr) : Prop :=
  isExcluded path = false ∧ st.filesSeen < c.maxFiles ∧ st1.filesSeen = st.filesSeen + 1 ∧
  e.Path = path ∧
  (e.SHA256 ≠ "" → e.Type_ = "file" ∧ c.hashFiles = true ∧ e.SizeBytes ≤ c.maxFileBytes) ∧
  (e.Copied = true →
    e.Type_ = "file" ∧ c.mode = "copy" ∧ e.SizeBytes ≤ c.maxFileBytes ∧ e.CopyReason = "" ∧
    wrapInt64 (st.totalCopied + e.SizeBytes) ≤ c.maxTotalBytes ∧
    st1.totalCopied = wrapInt64 (st.totalCopied + e.SizeBytes) ∧
    ∃ m : TarMember, m.complete = true ∧ m.Size = e.SizeBytes ∧
      m.Name = TrimPrefix (filepathClean path) "/" ∧ st1.archive = st.archive ++ [m]) ∧
  (e.Copied = false →
    st1.totalCopied = st.totalCopied ∧
    (st1.archive = st.archive ∨
      ∃ m : TarMember, m.complete = false ∧ st1.archive = st.archive ++ [m])) ∧
  (e.CopyReason = "" ∨ e.CopyReason = "file_too_large" ∨ e.CopyReason = "total_limit") ∧
  (e.CopyReason = "file_too_large" →
    e.Type_ = "file" ∧ c.mode = "copy" ∧ e.SizeBytes > c.maxFileBytes ∧ e.Copied = false ∧
    st1.archive = st.archive ∧ r = none) ∧
  (e.CopyReason = "total_limit" →
    e.Type_ = "file" ∧ c.mode = "copy" ∧ e.SizeBytes ≤ c.maxFileBytes ∧
    wrapInt64 (st.totalCopied + e.SizeBytes) > c.maxTotalBytes ∧ e.Copied = false ∧
    st1.archive = st.archive ∧ r = some .stopWalk) ∧
  (r = none ∨ r = some .stopWalk) ∧
  (r = some .stopWalk → e.CopyReason = "total_limit")

/-- What holds when one call of the callback records nothing: the stream, the
archive and `totalCopied` are as they were, the object was counted or not, and
the return value is not `errStopWalk`. -/
def PassedOver (c : WalkConfig) (st st1 : WalkState) (r : Option WalkErr) : Prop :=
  st1.entries = st.entries ∧ st1.totalCopied = st.totalCopied ∧ st1.archive = st.archive ∧
  st1.tarOpen = st.tarOpen ∧
  (st1.filesSeen = st.filesSeen ∨
    (st.filesSeen < c.maxFiles ∧ st1.filesSeen = st.filesSeen + 1)) ∧
  r ≠ some .stopWalk

/-- The `FileInfo` of a regular file of the given size, mode `0644`. -/
def regularInfo (size : Int) : FileInfo :=
  { Size := size, Mode := 420, ModeString := "-rw-r--r--", ModTime := "2024-05-01T10:00:00Z" }

/-- The `FileInfo` of a directory, mode `0755`. -/
def dirInfo : FileInfo :=
  { Size := 4096, Mode := ModeDir ||| 493, ModeString := "drwxr-xr-x",
    ModTime := "2024-05-01T10:00:00Z" }

/-- The `FileInfo` of a symbolic link. -/
def symlinkInfo : FileInfo :=
  { Size := 7, Mode := ModeSymlink ||| 511, ModeString := "Lrwxrwxrwx",
    ModTime := "2024-05-01T10:00:00Z" }

/-- A file every operation of the callback succeeds on, with the digest
`sha256Path` computes for it. -/
def readableFile (name : String) (info : FileInfo) (digest : String) : Node :=
  .mk name false
    { info := some info, sha256 := some digest, openOk := true, headerOk := true, copyOk := true }
    []

/-- A directory with the given entries. -/
def directory (name : String) (info : FileInfo) (children : List Node) : Node :=
  .mk name true
    { info := some info, sha256 := none, openOk := true, headerOk := true, copyOk := true }
    children

/-- A run of `Collect` in which nothing outside the walk fails: the output files
are created and hashed, the context is never done, and the roots hold the given
trees. -/
def quietEnv (roots : List Node) : CollectEnv :=
  { metaCreateOk := true, openTarOk := true, ctxDone := fun _ => false,
    lstat := fun i => roots[i]?, metaSum := some ("9f2c", 512), tgzSum := some ("41ab", 256),
    metaTime := "2024-05-01T10:00:01Z", tgzTime := "2024-05-01T10:00:02Z" }

/-- Copy mode with hashing, a per-file budget of 10 bytes and a total budget of
100 bytes, on the one root `/tmp/testdir`. -/
def testdirOptions : SnapshotOptions :=
  { Paths := ["/tmp/testdir"], Mode := "copy", HashFiles := true, MaxFileBytes := 10,
    MaxTotalBytes := 100, MaxFiles := 0 }

/-- The directory `/tmp/testdir` with three regular files, the second of them
over the per-file budget of `testdirOptions`. -/
def testdirTree : Node :=
  directory "testdir" dirInfo
    [readableFile "a" (regularInfo 5) "aa11", readableFile "b" (regularInfo 1000) "bb22",
     readableFile "c" (regularInfo 7) "cc33"]

/-- Metadata mode on the two roots `/tmp/testdir` and `/srv/data`, with a limit
of two objects. -/
def twoObjectOptions : SnapshotOptions :=
  { Paths := ["/tmp/testdir", "/srv/data"], Mode := "metadata", HashFiles := false,
    MaxFileBytes := 0, MaxTotalBytes := 0, MaxFiles := 2 }

/-- The sum of `size_bytes` over the entries with `copied = true`. -/
def sumCopied : List snapshotEntry → Int
  | [] => 0
  | e :: rest => (if e.Copied = true then e.SizeBytes else 0) + sumCopied rest

/-- The walk variables agree with the metadata stream and keep the total budget:
when no recorded size is negative, `totalCopied` is the sum of the sizes of the
copied entries and lies between zero and `maxTotalBytes`. -/
def WithinBudget (c : WalkConfig) (st : WalkState) : Prop :=
  (∀ e ∈ st.entries, 0 ≤ e.SizeBytes) →
    st.totalCopied = sumCopied st.entries ∧ 0 ≤ st.totalCopied ∧
    st.totalCopied ≤ c.maxTotalBytes

/-- Copy mode on the root `/data` with both budgets at the largest `int64`. -/
def unboundedOptions : SnapshotOptions :=
  { Paths := ["/data"], Mode := "copy", HashFiles := false,
    MaxFileBytes := 9223372036854775807, MaxTotalBytes := 9223372036854775807, MaxFiles := 0 }

/-- The directory `/data` with a file of one byte and a file whose size is the
largest `int64`. -/
def hugeTree : Node :=
  directory "data" dirInfo
    [readableFile "a" (regularInfo 1) "aa11",
     readableFile "b" (regularInfo 9223372036854775807) "bb22"]

/-- What the properties read of an entry: path, size, `copied` and copy reason. -/
def entrySummary (e : snapshotEntry) : String × Int × Bool × String :=
  (e.Path, e.SizeBytes, e.Copied, e.CopyReason)

/-- What the properties read of a member of the archive: name, size and whether
the content is complete. -/
def memberSummary (m : TarMember) : String × Int × Bool :=
  (m.Name, m.Size, m.complete)

/-- No entry of the list has the copy reason `total_limit`. -/
def NoTotalLimit (l : List snapshotEntry) : Prop :=
  ∀ e ∈ l, e.CopyReason ≠ "total_limit"

/-- An entry with the copy reason `total_limit` is the last of the list. -/
def TotalLimitIsLast (l : List snapshotEntry) : Prop :=
  ∀ (i : Nat) (e : snapshotEntry), l[i]? = some e → e.CopyReason = "total_limit" →
    i + 1 = l.length

/-- The walk variables are those left by a call of the callback that returned
`errStopWalk`, made when no entry had the copy reason `total_limit` yet: nothing
was counted or recorded after that call. -/
def StoppedAt (c : WalkConfig) (st : WalkState) : Prop :=
  ∃ (path : String) (d : Bool) (p : Probe) (st0 : WalkState),
    NoTotalLimit st0.entries ∧ visit c path d p st0 = (st, some .stopWalk)

/-- The entry the copy step records for a file it does not copy, with the reason. -/
def refusedEntry (c : WalkConfig) (path : String) (info : FileInfo) (p : Probe)
    (reason : String) : snapshotEntry :=
  { fileEntry c path info p with CopyReason := reason }

/-- The directory `/tmp/testdir` with a file over the per-file budget of
`testdirOptions` followed by a small one. -/
def bigFirstTree : Node :=
  directory "testdir" dirInfo
    [readableFile "big" (regularInfo 1000) "bb22", readableFile "small" (regularInfo 5) "aa11"]

/-- Copy mode with hashing on two roots, with a per-file budget of 10 bytes and
a total budget of 10 bytes. -/
def tightOptions : SnapshotOptions :=
  { Paths := ["/tmp/testdir", "/srv/data"], Mode := "copy", HashFiles := true,
    MaxFileBytes := 10, MaxTotalBytes := 10, MaxFiles := 0 }

/-- A regular file that can be read: the name of its directory entry, its
`FileInfo` and the digest `sha256Path` computes for it. -/
structure PlainFile where
  name : String
  info : FileInfo
  digest : String
  deriving DecidableEq, Repr

/-- The node of the walked tree for a readable regular file. -/
def fileNode (f : PlainFile) : Node :=
  readableFile f.name f.info f.digest

/-- The file is over the per-file budget. -/
def tooLarge (c : WalkConfig) (f : PlainFile) : Bool :=
  decide (f.info.Size > c.maxFileBytes)

/-- The bytes of the files within the per-file budget. -/
def copyableBytes (c : WalkConfig) : List PlainFile → Int
  | [] => 0
  | f :: rest => (if tooLarge c f = true then 0 else f.info.Size) + copyableBytes c rest

/-- The entry expected for a readable regular file of the directory `root` in
copy mode with hashing: too large and neither hashed nor copied, or hashed and
copied. -/
def expectedEntry (c : WalkConfig) (root : String) (f : PlainFile) : snapshotEntry :=
  if tooLarge c f = true then
    { typedEntry (filepathJoin [root, f.name]) f.info "file" with CopyReason := "file_too_large" }
  else
    { typedEntry (filepathJoin [root, f.name]) f.info "file" with
      SHA256 := f.digest, Copied := true }

/-- The archive member expected for a copied file of the directory `root`. -/
def expectedMember (root : String) (f : PlainFile) : TarMember :=
  tarHeader (filepathJoin [root, f.name]) f.info true

/-- The three files of `testdirTree`. -/
def testdirFiles : List PlainFile :=
  [{ name := "a", info := regularInfo 5, digest := "aa11" },
   { name := "b", info := regularInfo 1000, digest := "bb22" },
   { name := "c", info := regularInfo 7, digest := "cc33" }]

/-- The archive file exists only once the copy step has attempted a copy: when
it exists the walk is in copy mode and some entry is a regular file within the
per-file budget with an empty copy reason; while it does not exist the archive
has no member and no entry is copied. -/
def ArchiveLazy (c : WalkConfig) (st : WalkState) : Prop :=
  (st.tarOpen = true →
    c.mode = "copy" ∧
    ∃ e ∈ st.entries, e.Type_ = "file" ∧ e.CopyReason = "" ∧ e.SizeBytes ≤ c.maxFileBytes) ∧
  (st.tarOpen = false → st.archive = [] ∧ ∀ e ∈ st.entries, e.Copied = false)

/-- The directory `/tmp/testdir` with one regular file of 5 bytes that `os.Open`
fails on. -/
def unreadableTree : Node :=
  directory "testdir" dirInfo
    [.mk "secret" false
      { info := some (regularInfo 5), sha256 := none, openOk := false, headerOk := true,
        copyOk := true } []]

/-- The options of `testdirOptions` with the mode left empty. -/
def emptyModeOptions : SnapshotOptions :=
  { Paths := ["/tmp/testdir"], Mode := "", HashFiles := true, MaxFileBytes := 10,
    MaxTotalBytes := 100, MaxFiles := 0 }

/-- The options of `testdirOptions` with a mode that does not exist. -/
def mirrorModeOptions : SnapshotOptions :=
  { Paths := ["/tmp/testdir"], Mode := "mirror", HashFiles := true, MaxFileBytes := 10,
    MaxTotalBytes := 100, MaxFiles := 0 }

/-- A root is skipped by the loop of `Collect` without a call of the callback
that counts: it is empty-named, or excluded, or `os.Lstat` fails on it. -/
def rootSkipped (env : CollectEnv) (i : Nat) (root : String) : Prop :=
  root = "" ∨ isExcluded root = true ∨ env.lstat i = none

/-- Metadata mode on an excluded root and an empty-named root. -/
def excludedRootsOptions : SnapshotOptions :=
  { Paths := ["/proc", ""], Mode := "metadata", HashFiles := false, MaxFileBytes := 0,
    MaxTotalBytes := 0, MaxFiles := 0 }

/-- A subdirectory whose info can be read. -/
def readableDir (e : DirEntry) : Prop :=
  e.IsDir = true ∧ e.ModTime ≠ none

instance (e : DirEntry) : Decidable (readableDir e) := by
  unfold readableDir; exact inferInstance

/-- The entry at position `i`, modified at `t`, is the newest readable
subdirectory of the listing, and the first such in listing order. -/
def NewestAt (l : List DirEntry) (i : Nat) (e : DirEntry) (t : Int) : Prop :=
  l[i]? = some e ∧ e.IsDir = true ∧ e.ModTime = some t ∧
  ∀ j e1 t1, l[j]? = some e1 → e1.IsDir = true → e1.ModTime = some t1 →
    t1 ≤ t ∧ (j < i → t1 < t)

/-- What the loop of `newestDir` has established after the entries `l`. -/
def NewestInv (base : String) (l : List DirEntry) (acc : String × Int) : Prop :=
  (acc.1 = "" ∧ ∀ e ∈ l, ¬ readableDir e) ∨
  (∃ i e, NewestAt l i e acc.2 ∧ acc.1 = filepathJoin [base, e.Name])

/-- A listing of the output base: an older case directory, a newer plain file,
two case directories of the same newest time, and a directory whose info cannot
be read. -/
def caseListing : List DirEntry :=
  [{ Name := "case-1", IsDir := true, ModTime := some 100 },
   { Name := "notes.txt", IsDir := false, ModTime := some 900 },
   { Name := "case-2", IsDir := true, ModTime := some 500 },
   { Name := "case-3", IsDir := true, ModTime := some 500 },
   { Name := "gone", IsDir := true, ModTime := none }]

/-- The flags a key with a plain value contributes: none when the value is
blank, else the flag followed by the trimmed value. -/
def flagOf (m : List (String × String)) (key flag : String) : List String :=
  if TrimSpace (argsGet m key) = "" then [] else [flag, TrimSpace (argsGet m key)]

/-- The flags `snapshot_paths` contributes: one pair per non-blank piece of the
trimmed value, trimmed, in order. -/
def snapshotPathFlags (m : List (String × String)) : List String :=
  if TrimSpace (argsGet m "snapshot_paths") = "" then []
  else
    (((Split (TrimSpace (argsGet m "snapshot_paths"))).map TrimSpace).filter
      (fun p => decide (p ≠ ""))).flatMap (fun p => ["--snapshot-path", p])

/-- The flag `snapshot_hash` contributes. -/
def snapshotHashFlags (m : List (String × String)) : List String :=
  if TrimSpace (argsGet m "snapshot_hash") = "" then []
  else ["--snapshot-hash=" ++ boolString (ParseBool (TrimSpace (argsGet m "snapshot_hash"))).1]

/-- The flags an inline `ioc` list contributes. -/
def inlineIocFlags (outputBase jobID : String) (m : List (String × String)) : List String :=
  if TrimSpace (argsGet m "ioc") = "" then []
  else ["--ioc-file", filepathJoin [outputBase, "iocs_" ++ jobID ++ ".txt"]]

/-- The keys `buildTriageArgs` reads. -/
def triageKeys : List String :=
  ["ioc_file", "ioc", "snapshot_paths", "snapshot_mode", "snapshot_hash",
   "snapshot_max_file_bytes", "snapshot_max_total_bytes", "snapshot_max_files", "timeout"]

/-- A triage job with an inline IOC list, two snapshot paths among blank
pieces, a hash setting that is not a boolean, a blank mode and an unknown key. -/
def sampleJob : job :=
  { JobID := "J7", AgentID := "A", Type_ := "triage",
    Args := some
      [("ioc", "evil.example\n"), ("snapshot_paths", " /etc , ,/var/log,"),
       ("snapshot_hash", "yes"), ("snapshot_mode", "  "), ("colour", "red"),
       ("timeout", " 5m ")] }

/-- What one collector contributes to the artifact list: its artifacts when it
succeeds, and the one artifact recorded for its error when it fails. -/
def contribution (now : String) (c : Collector) : List Artifact :=
  match c.outcome with
  | .ok arts => arts
  | .error msg => [errorArtifact c.Name msg now]

/-- The in-order concatenation of the contributions of the collectors, the
first of which is at position `i`. -/
def collected (clock : Nat → String) : Nat → List Collector → List Artifact
  | _, [] => []
  | i, c :: rest => contribution (clock i) c ++ collected clock (i + 1) rest

/-- An environment of `Run` in which the process summary fails and nothing else
outside the collectors does. -/
def sampleRunEnv : RunEnv :=
  { mkdirErr := none,
    hostInfo := .ok [{ RelativePath := "system/hostinfo.json", Collector := "host_info",
                       CollectedAt := "t1", SizeBytes := 120, SHA256 := "h1", Metadata := [] }],
    osRelease := .ok [],
    procSummary := .error "open /proc: permission denied",
    networkSummary := .ok [],
    userSessions := .ok [],
    persistence := .ok [{ RelativePath := "persistence/crontab", Collector := "persistence",
                          CollectedAt := "t2", SizeBytes := 40, SHA256 := "h2", Metadata := [] }],
    snapshotEnv := quietEnv [testdirTree],
    systemErr := "input/output error",
    ctxDone := fun _ => false,
    ctxErr := "context canceled",
    clock := fun _ => "t9",
    manifestTime := "t10",
    analysis := [],
    manifestMetadata := [],
    manifestErr := none }

/-- Options of a triage run that asks for a snapshot with the mode `mirror`. -/
def sampleRunOptions : Options :=
  { CaseID := "case-7", Output := "/var/evidence", IOCFile := "",
    SnapshotPaths := ["/tmp/testdir"], SnapshotMode := "mirror", SnapshotHashFiles := false,
    SnapshotMaxFileBytes := 0, SnapshotMaxTotalBytes := 0, SnapshotMaxFiles := 0,
    StartedAt := "t0" }

/-- A filesystem with a report, a leftover temporary file and another file. -/
def sampleFiles : List (String × String) :=
  [("/case/report.json", "old report"), ("/case/report.json.tmp", "junk"),
   ("/case/notes.txt", "notes")]

/-- The output of the tool is rejected: the tool is absent, or ends with an
error, or prints fewer than two fields, or prints a count that does not
parse. -/
def toolRejected (env : HashEnv) : Prop :=
  env.toolFound = false ∨ env.toolOutput = none ∨
  (∃ out, env.toolOutput = some out ∧ (Fields out).length < 2) ∨
  (∃ out h f1 rest, env.toolOutput = some out ∧ Fields out = h :: f1 :: rest ∧
    ParseInt10 f1 = none)

/-- The output of the tool is accepted with the digest `h` and the count `n`:
the tool is found, ends without an error and prints at least two fields, the
first of which is `h` and the second of which parses as `n`. -/
def toolAccepted (env : HashEnv) (h : List UInt8) (n : Int) : Prop :=
  env.toolFound = true ∧
  ∃ out f1 rest, env.toolOutput = some out ∧ Fields out = h :: f1 :: rest ∧
    ParseInt10 f1 = some n

/-- The bytes of a string of ASCII characters. -/
def asciiBytes (s : String) : List UInt8 :=
  s.data.map (fun c => UInt8.ofNat c.toNat)

/-- A file with the five bytes `hello` and a tool that prints another digest
and the count 3 for it. -/
def wrongToolEnv : HashEnv :=
  { toolFound := true, toolOutput := some (asciiBytes "deadbeef 3\n"),
    fileContent := some (asciiBytes "hello"), openErr := "", readErr := none }

/-- A file with the five bytes `hello` on a host without the tool. -/
def noToolEnv : HashEnv :=
  { toolFound := false, toolOutput := none, fileContent := some (asciiBytes "hello"),
    openErr := "", readErr := none }

/-- A file with the six bytes of `héllo` in UTF-8, and a tool whose output has
the byte `a0`, which is no white space on its own, between `abc` and `5`,
followed by a space and `7`. -/
def loneByteEnv : HashEnv :=
  { toolFound := true, toolOutput := some [97, 98, 99, 160, 53, 32, 55],
    fileContent := some [104, 195, 169, 108, 108, 111], openErr := "", readErr := none }

/-- The same file and a tool whose output is one field: `abc`, the byte `a0`
and `7`. -/
def oneFieldEnv : HashEnv :=
  { toolFound := true, toolOutput := some [97, 98, 99, 160, 55],
    fileContent := some [104, 195, 169, 108, 108, 111], openErr := "", readErr := none }

/-- The same file and a tool that separates its two fields with the two bytes
`c2 a0` of a no-break space. -/
def noBreakSpaceEnv : HashEnv :=
  { toolFound := true, toolOutput := some [97, 98, 99, 194, 160, 54],
    fileContent := some [104, 195, 169, 108, 108, 111], openErr := "", readErr := none }

/-- The lowercase hexadecimal SHA-256 digest, on the contents of the
examples. -/
def exampleDigest (content : List UInt8) : List UInt8 :=
  if content = asciiBytes "hello" then
    asciiBytes "2cf24dba5fb0a30e26e83b2ac5b9e29e1b161e5c1fa7425e73043362938b9824"
  else if content = [104, 195, 169, 108, 108, 111] then
    asciiBytes "3c48591d8d098a4538f5e013dfcf406e948eac4d3277b10bf614e295d6068179"
  else []

/-! ## Facts about the library functions -/

theorem lor_eq_zero (a b : Nat) : a ||| b = 0 ↔ a = 0 ∧ b = 0 := by
  constructor
  · intro h
    have key : ∀ i, a.testBit i = false ∧ b.testBit i = false := by
      intro i
      have hi : (a ||| b).testBit i = false := by rw [h]; exact Nat.zero_testBit i
      rw [Nat.testBit_or] at hi
      simpa using hi
    constructor
    · apply Nat.eq_of_testBit_eq; intro i; rw [(key i).1, Nat.zero_testBit]
    · apply Nat.eq_of_testBit_eq; intro i; rw [(key i).2, Nat.zero_testBit]
  · rintro ⟨rfl, rfl⟩; rfl

theorem char_toNat_inj (c d : Char) (h : c.toNat = d.toNat) : c = d := by
  rw [← Char.ofNat_toNat c, ← Char.ofNat_toNat d, h]

theorem constantTimeLoop_eq_zero : ∀ (xs ys : List Char) (v : Nat),
    xs.length = ys.length → (constantTimeLoop xs ys v = 0 ↔ v = 0 ∧ xs = ys)
  | [], [], v, _ => by simp [constantTimeLoop]
  | [], _ :: _, _, h => by simp at h
  | _ :: _, [], _, h => by simp at h
  | x :: xs, y :: ys, v, h => by
    have hl : xs.length = ys.length := by simpa using h
    rw [constantTimeLoop, constantTimeLoop_eq_zero xs ys _ hl, lor_eq_zero, Nat.xor_eq_zero]
    constructor
    · rintro ⟨⟨hv, hxy⟩, rfl⟩
      exact ⟨hv, by rw [char_toNat_inj x y hxy]⟩
    · intro ⟨hv, hxy⟩
      injection hxy with h1 h2
      exact ⟨⟨hv, by rw [h1]⟩, h2⟩

/-- The comparison returns 1 exactly on equal strings. -/
theorem ConstantTimeCompare_eq_one (x y : String) : ConstantTimeCompare x y = 1 ↔ x = y := by
  unfold ConstantTimeCompare
  by_cases hl : x.data.length = y.data.length
  · rw [if_neg (by simpa using hl)]
    have := constantTimeLoop_eq_zero x.data y.data 0 hl
    by_cases hz : constantTimeLoop x.data y.data 0 = 0
    · rw [if_pos hz]
      have hd := (this.1 hz).2
      simp [String.ext_iff, hd]
    · rw [if_neg hz]
      simp only [Nat.zero_ne_one, false_iff]
      intro hxy
      exact hz (this.2 ⟨rfl, by rw [hxy]⟩)
  · rw [if_pos hl]
    simp only [Nat.zero_ne_one, false_iff]
    intro hxy
    exact hl (by rw [hxy])

/-! ## The two scans of the job list -/

theorem claimLoop_cases (a now : String) : ∀ jobs : List Job,
    (∃ i j, jobs[i]? = some j ∧ claimable a j ∧
        (∀ k j0, k < i → jobs[k]? = some j0 → ¬ claimable a j0) ∧
        claimLoop a now jobs = (jobs.set i (markClaimed j now), some (markClaimed j now))) ∨
    ((∀ j ∈ jobs, ¬ claimable a j) ∧ claimLoop a now jobs = (jobs, none))
  | [] => by right; simp [claimLoop]
  | j :: js => by
    by_cases h1 : j.AgentID = a
    · by_cases h2 : j.Status = "queued"
      · left
        refine ⟨0, j, by simp, ⟨h1, h2⟩, ?_, ?_⟩
        · intro k j0 hk; omega
        · simp [claimLoop, h1, h2, markClaimed]
      · rcases claimLoop_cases a now js with ⟨i, j1, hi, hc, hfirst, heq⟩ | ⟨hno, heq⟩
        · left
          refine ⟨i + 1, j1, by simpa using hi, hc, ?_, ?_⟩
          · intro k j0 hk hj0
            cases k with
            | zero => simp at hj0; subst hj0; exact fun h => h2 h.2
            | succ k => exact hfirst k j0 (by omega) (by simpa using hj0)
          · simp [claimLoop, h1, h2, heq]
        · right
          refine ⟨?_, by simp [claimLoop, h1, h2, heq]⟩
          intro j0 hj0
          rcases List.mem_cons.1 hj0 with rfl | hm
          · exact fun h => h2 h.2
          · exact hno j0 hm
    · rcases claimLoop_cases a now js with ⟨i, j1, hi, hc, hfirst, heq⟩ | ⟨hno, heq⟩
      · left
        refine ⟨i + 1, j1, by simpa using hi, hc, ?_, ?_⟩
        · intro k j0 hk hj0
          cases k with
          | zero => simp at hj0; subst hj0; exact fun h => h1 h.1
          | succ k => exact hfirst k j0 (by omega) (by simpa using hj0)
        · simp [claimLoop, h1, heq]
      · right
        refine ⟨?_, by simp [claimLoop, h1, heq]⟩
        intro j0 hj0
        rcases List.mem_cons.1 hj0 with rfl | hm
        · exact fun h => h1 h.1
        · exact hno j0 hm

theorem completeLoop_cases (id now : String) : ∀ jobs : List Job,
    (∃ i j, jobs[i]? = some j ∧ j.JobID = id ∧
        (∀ k j0, k < i → jobs[k]? = some j0 → j0.JobID ≠ id) ∧
        completeLoop id now jobs = jobs.set i (markDone j now)) ∨
    ((∀ j ∈ jobs, j.JobID ≠ id) ∧ completeLoop id now jobs = jobs)
  | [] => by right; simp [completeLoop]
  | j :: js => by
    by_cases h1 : j.JobID = id
    · left
      refine ⟨0, j, by simp, h1, ?_, ?_⟩
      · intro k j0 hk; omega
      · simp [completeLoop, h1, markDone]
    · rcases completeLoop_cases id now js with ⟨i, j1, hi, ha, hfirst, heq⟩ | ⟨hno, heq⟩
      · left
        refine ⟨i + 1, j1, by simpa using hi, ha, ?_, ?_⟩
        · intro k j0 hk hj0
          cases k with
          | zero => simp at hj0; subst hj0; exact h1
          | succ k => exact hfirst k j0 (by omega) (by simpa using hj0)
        · simp [completeLoop, h1, heq]
      · right
        refine ⟨?_, by simp [completeLoop, h1, heq]⟩
        intro j0 hj0
        rcases List.mem_cons.1 hj0 with rfl | hm
        · exact h1
        · exact hno j0 hm

/-! ## Frame facts: what persistence and authentication leave alone -/

@[simp] theorem persistLocked_cfg (s : Server) (w : WriteOutcome) :
    (persistLocked s w).cfg = s.cfg := by
  unfold persistLocked; split_ifs <;> rfl

@[simp] theorem persistLocked_agents (s : Server) (w : WriteOutcome) :
    (persistLocked s w).agents = s.agents := by
  unfold persistLocked; split_ifs <;> rfl

@[simp] theorem persistLocked_jobs (s : Server) (w : WriteOutcome) :
    (persistLocked s w).jobs = s.jobs := by
  unfold persistLocked; split_ifs <;> rfl

/-- Authentication either rejects and leaves the server as it was, or accepts
the matching record and stores it with `LastSeen` refreshed. -/
theorem authenticateAgent_cases (s : Server) (r : Request) (now : String) (w : WriteOutcome) :
    ((¬ ∃ a, credentialsMatch s r.agent_id r.token a) ∧ authenticateAgent s r now w = (s, none)) ∨
    (∃ a, credentialsMatch s r.agent_id r.token a ∧
      authenticateAgent s r now w =
        (persistLocked { s with agents := agentsSet s.agents r.agent_id { a with LastSeen := now } } w,
          some { a with LastSeen := now })) := by
  unfold authenticateAgent credentialsMatch
  by_cases h1 : r.agent_id = "" ∨ r.token = ""
  · left
    refine ⟨?_, by simp [h1]⟩
    rintro ⟨a, ha, ht, -⟩
    rcases h1 with h | h
    · exact ha h
    · exact ht h
  · have h1a : r.agent_id ≠ "" := fun h => h1 (Or.inl h)
    have h1t : r.token ≠ "" := fun h => h1 (Or.inr h)
    cases hg : agentsGet s.agents r.agent_id with
    | none =>
      left
      refine ⟨?_, by simp [h1, hg]⟩
      rintro ⟨a, -, -, h, -⟩
      cases h
    | some a =>
      by_cases hc : ConstantTimeCompare r.token a.Token = 1
      · right
        refine ⟨a, ⟨h1a, h1t, rfl, (ConstantTimeCompare_eq_one _ _).1 hc⟩, ?_⟩
        simp [h1, hg, hc]
      · left
        refine ⟨?_, by simp [h1, hg, hc]⟩
        rintro ⟨b, -, -, hb, ht⟩
        cases hb
        exact hc ((ConstantTimeCompare_eq_one _ _).2 ht)

theorem authenticateAgent_jobs (s : Server) (r : Request) (now : String) (w : WriteOutcome) :
    (authenticateAgent s r now w).1.jobs = s.jobs := by
  rcases authenticateAgent_cases s r now w with ⟨-, h⟩ | ⟨a, -, h⟩ <;> rw [h]
  simp

theorem authenticateAgent_cfg (s : Server) (r : Request) (now : String) (w : WriteOutcome) :
    (authenticateAgent s r now w).1.cfg = s.cfg := by
  rcases authenticateAgent_cases s r now w with ⟨-, h⟩ | ⟨a, -, h⟩ <;> rw [h]
  simp

/-! ## The handlers, case by case -/

@[simp] theorem saveUpload_cfg (s : Server) (jobID fileName content : String) (o : SaveOutcome) :
    (saveUpload s jobID fileName content o).1.cfg = s.cfg := by
  unfold saveUpload; cases o <;> rfl

@[simp] theorem saveUpload_agents (s : Server) (jobID fileName content : String) (o : SaveOutcome) :
    (saveUpload s jobID fileName content o).1.agents = s.agents := by
  unfold saveUpload; cases o <;> rfl

@[simp] theorem saveUpload_jobs (s : Server) (jobID fileName content : String) (o : SaveOutcome) :
    (saveUpload s jobID fileName content o).1.jobs = s.jobs := by
  unfold saveUpload; cases o <;> rfl

theorem partLoop_frame (s : Server) (jobID : String) (o : SaveOutcome) :
    ∀ events : List PartEvent,
      (partLoop s jobID o events).1.cfg = s.cfg ∧
      (partLoop s jobID o events).1.agents = s.agents ∧
      (partLoop s jobID o events).1.jobs = s.jobs
  | [] => by simp [partLoop]
  | .err :: _ => by simp [partLoop]
  | .part formName fileName content :: rest => by
    unfold partLoop
    by_cases hf : formName = "file"
    · rw [if_neg (by simpa using hf)]
      have h1 := saveUpload_cfg s jobID fileName content o
      have h2 := saveUpload_agents s jobID fileName content o
      have h3 := saveUpload_jobs s jobID fileName content o
      rcases hS : saveUpload s jobID fileName content o with ⟨s1, _ | p⟩ <;>
        (rw [hS] at h1 h2 h3; exact ⟨h1, h2, h3⟩)
    · rw [if_pos hf]
      exact partLoop_frame s jobID o rest

theorem handleEnroll_jobs (s : Server) (r : Request) (agentID token enrolled lastSeen : String)
    (w : WriteOutcome) : (handleEnroll s r agentID token enrolled lastSeen w).1.jobs = s.jobs := by
  unfold handleEnroll
  split_ifs
  · rfl
  · rfl
  · cases r.enrollBody <;> simp

theorem handleJobs_cases (s : Server) (r : Request) (jobID createdAt : String) (w : WriteOutcome) :
    (∃ code, handleJobs s r jobID createdAt w = (s, .status code)) ∨
    (∃ req, r.Method = "POST" ∧ requirePSK s r = true ∧ r.enqueueBody = some req ∧
      req.AgentID ≠ "" ∧
      handleJobs s r jobID createdAt w =
        (persistLocked { s with jobs := s.jobs ++ [newJob req jobID createdAt] } w,
         .job (newJob req jobID createdAt))) := by
  unfold handleJobs newJob
  by_cases hm : r.Method = "POST"
  · by_cases hp : requirePSK s r = true
    · cases hb : r.enqueueBody with
      | none => left; exact ⟨400, by simp [hm, hp]⟩
      | some req =>
        by_cases ha : req.AgentID = ""
        · left; exact ⟨400, by simp [hm, hp, ha]⟩
        · right; exact ⟨req, hm, hp, rfl, ha, by simp [hm, hp, ha]⟩
    · left; exact ⟨401, by simp [hm, hp]⟩
  · left; exact ⟨405, by simp [hm]⟩


theorem handleJobsNext_cases (s : Server) (r : Request) (authNow claimNow : String)
    (wAuth wClaim : WriteOutcome) :
    (r.Method ≠ "GET" ∧ handleJobsNext s r authNow claimNow wAuth wClaim = (s, .status 405)) ∨
    (r.Method = "GET" ∧ (authenticateAgent s r authNow wAuth).2 = none ∧
      handleJobsNext s r authNow claimNow wAuth wClaim = (s, .status 401)) ∨
    (r.Method = "GET" ∧ (authenticateAgent s r authNow wAuth).2 ≠ none ∧
      (∀ j ∈ s.jobs, ¬ claimable r.agent_id j) ∧
      handleJobsNext s r authNow claimNow wAuth wClaim =
        ((authenticateAgent s r authNow wAuth).1, .status 204)) ∨
    (r.Method = "GET" ∧ (authenticateAgent s r authNow wAuth).2 ≠ none ∧
      ∃ i j, s.jobs[i]? = some j ∧ claimable r.agent_id j ∧
        (∀ k j0, k < i → s.jobs[k]? = some j0 → ¬ claimable r.agent_id j0) ∧
        handleJobsNext s r authNow claimNow wAuth wClaim =
          (persistLocked { (authenticateAgent s r authNow wAuth).1 with
              jobs := s.jobs.set i (markClaimed j claimNow) } wClaim,
            .job (markClaimed j claimNow))) := by
  by_cases hm : r.Method = "GET"
  · right
    have hj := authenticateAgent_jobs s r authNow wAuth
    rcases hA : authenticateAgent s r authNow wAuth with ⟨s1, _ | a⟩
    · left
      rcases authenticateAgent_cases s r authNow wAuth with ⟨-, h⟩ | ⟨a, -, h⟩
      · rw [hA] at h
        have hs : s1 = s := congrArg Prod.fst h
        subst hs
        exact ⟨hm, rfl, by simp [handleJobsNext, hm, hA]⟩
      · rw [hA] at h
        exact absurd (congrArg Prod.snd h) (by simp)
    · right
      rw [hA] at hj
      simp only at hj
      have hcases := claimLoop_cases r.agent_id claimNow s1.jobs
      rw [hj] at hcases
      rcases hcases with ⟨i, j, hi, hc, hfirst, heq⟩ | ⟨hno, heq⟩
      · right
        exact ⟨hm, by simp, i, j, hi, hc, hfirst, by simp [handleJobsNext, hm, hA, hj, heq]⟩
      · left
        exact ⟨hm, by simp, hno, by simp [handleJobsNext, hm, hA, hj, heq]⟩
  · left
    exact ⟨hm, by simp [handleJobsNext, hm]⟩

theorem handleJobResults_cases (s : Server) (r : Request) (authNow doneNow : String)
    (o : SaveOutcome) (wAuth wDone : WriteOutcome) :
    (∃ code, handleJobResults s r authNow doneNow o wAuth wDone = (s, .status code) ∧
      (r.Method ≠ "POST" ∨ pathJobID r.Path = none ∨
        (authenticateAgent s r authNow wAuth).2 = none)) ∨
    (∃ jobID, r.Method = "POST" ∧ pathJobID r.Path = some jobID ∧
      (authenticateAgent s r authNow wAuth).2 ≠ none ∧
      ((r.multipart = none ∧
        handleJobResults s r authNow doneNow o wAuth wDone =
          ((authenticateAgent s r authNow wAuth).1, .status 400)) ∨
       (∃ events, r.multipart = some events ∧
        ((∃ code, (partLoop (authenticateAgent s r authNow wAuth).1 jobID o events).2 = .error code ∧
          handleJobResults s r authNow doneNow o wAuth wDone =
            ((partLoop (authenticateAgent s r authNow wAuth).1 jobID o events).1, .status code)) ∨
         ((partLoop (authenticateAgent s r authNow wAuth).1 jobID o events).2 = .ok "" ∧
          handleJobResults s r authNow doneNow o wAuth wDone =
            ((partLoop (authenticateAgent s r authNow wAuth).1 jobID o events).1, .status 400)) ∨
         (∃ saved, saved ≠ "" ∧
          (partLoop (authenticateAgent s r authNow wAuth).1 jobID o events).2 = .ok saved ∧
          handleJobResults s r authNow doneNow o wAuth wDone =
            (persistLocked
              { (partLoop (authenticateAgent s r authNow wAuth).1 jobID o events).1 with
                jobs := completeLoop jobID doneNow s.jobs } wDone, .saved saved)))))) := by
  by_cases hm : r.Method = "POST"
  swap
  · left; exact ⟨405, by simp [handleJobResults, hm], Or.inl hm⟩
  by_cases hsuf : HasSuffix r.Path "/results" = true
  swap
  · left; exact ⟨404, by simp [handleJobResults, hm, hsuf], Or.inr (Or.inl (by simp [pathJobID, hsuf]))⟩
  by_cases hlen : (splitSlash (trimSlashes r.Path.data)).length = 4
  swap
  · left
    exact ⟨404, by simp [handleJobResults, hm, hsuf, hlen],
      Or.inr (Or.inl (by simp [pathJobID, hsuf, hlen]))⟩
  have hj := authenticateAgent_jobs s r authNow wAuth
  rcases hA : authenticateAgent s r authNow wAuth with ⟨s1, _ | a⟩
  · left
    rcases authenticateAgent_cases s r authNow wAuth with ⟨-, h⟩ | ⟨a, -, h⟩
    · rw [hA] at h
      have hs : s1 = s := congrArg Prod.fst h
      subst hs
      exact ⟨401, by simp [handleJobResults, hm, hsuf, hlen, hA], Or.inr (Or.inr rfl)⟩
    · rw [hA] at h
      exact absurd (congrArg Prod.snd h) (by simp)
  right
  rw [hA] at hj
  simp only at hj
  refine ⟨String.mk ((splitSlash (trimSlashes r.Path.data)).getD 2 []), hm,
    by simp [pathJobID, hsuf, hlen], by simp, ?_⟩
  cases hmp : r.multipart with
  | none => left; exact ⟨rfl, by simp [handleJobResults, hm, hsuf, hlen, hA, hmp]⟩
  | some events =>
    right
    refine ⟨events, rfl, ?_⟩
    have hframe := partLoop_frame s1 (String.mk ((splitSlash (trimSlashes r.Path.data)).getD 2 [])) o events
    rcases hP : partLoop s1 (String.mk ((splitSlash (trimSlashes r.Path.data)).getD 2 [])) o events
      with ⟨s2, code | saved⟩
    · left
      exact ⟨code, rfl, by
        simp only [handleJobResults, hm, hsuf, hlen, hA, hmp, hP, ne_eq, not_true_eq_false,
          ↓reduceIte, Bool.not_true, Bool.false_eq_true]⟩
    · right
      rw [hP] at hframe
      by_cases hs : saved = ""
      · left
        subst hs
        exact ⟨rfl, by
          simp only [handleJobResults, hm, hsuf, hlen, hA, hmp, hP, ne_eq, not_true_eq_false,
            ↓reduceIte, Bool.not_true, Bool.false_eq_true]⟩
      · right
        refine ⟨saved, hs, rfl, ?_⟩
        have hj2 : s2.jobs = s.jobs := hframe.2.2.trans hj
        simp only [handleJobResults, hm, hsuf, hlen, hA, hmp, hP, hs, hj2, ne_eq,
          not_true_eq_false, ↓reduceIte, Bool.not_true, Bool.false_eq_true]

/-! ## How a request changes the job list -/

theorem handleJobsNext_jobsChange (s : Server) (r : Request) (authNow claimNow : String)
    (wAuth wClaim : WriteOutcome) :
    JobsChange s.jobs (handleJobsNext s r authNow claimNow wAuth wClaim).1.jobs := by
  rcases handleJobsNext_cases s r authNow claimNow wAuth wClaim with
    ⟨-, h⟩ | ⟨-, -, h⟩ | ⟨-, -, -, h⟩ | ⟨-, -, i, j, hi, hc, -, h⟩
  · rw [h]; exact Or.inl rfl
  · rw [h]; exact Or.inl rfl
  · rw [h]
    simp only [authenticateAgent_jobs]
    exact Or.inl rfl
  · rw [h]
    simp only [persistLocked_jobs]
    exact Or.inr (Or.inr (Or.inl ⟨i, j, claimNow, hi, hc.2, rfl⟩))

theorem handleJobResults_jobs (s : Server) (r : Request) (authNow doneNow : String)
    (o : SaveOutcome) (wAuth wDone : WriteOutcome) :
    (handleJobResults s r authNow doneNow o wAuth wDone).1.jobs = s.jobs ∨
    ∃ jobID saved, pathJobID r.Path = some jobID ∧
      (authenticateAgent s r authNow wAuth).2 ≠ none ∧
      (handleJobResults s r authNow doneNow o wAuth wDone).2 = .saved saved ∧
      (handleJobResults s r authNow doneNow o wAuth wDone).1.jobs =
        completeLoop jobID doneNow s.jobs := by
  rcases handleJobResults_cases s r authNow doneNow o wAuth wDone with
    ⟨code, h, -⟩ | ⟨jobID, -, hp, ha, ⟨-, h⟩ | ⟨events, -, ⟨code, -, h⟩ | ⟨-, h⟩ | ⟨saved, -, -, h⟩⟩⟩
  · left; rw [h]
  · left; rw [h]; simp only [authenticateAgent_jobs]
  · left; rw [h]
    simp only [(partLoop_frame _ _ _ _).2.2, authenticateAgent_jobs]
  · left; rw [h]
    simp only [(partLoop_frame _ _ _ _).2.2, authenticateAgent_jobs]
  · right
    refine ⟨jobID, saved, hp, ha, ?_, ?_⟩
    · rw [h]
    · rw [h]; simp only [persistLocked_jobs]

theorem completeLoop_jobsChange (id now : String) (jobs : List Job) :
    JobsChange jobs (completeLoop id now jobs) := by
  rcases completeLoop_cases id now jobs with ⟨i, j, hi, -, -, h⟩ | ⟨-, h⟩
  · rw [h]; exact Or.inr (Or.inr (Or.inr ⟨i, j, now, hi, rfl⟩))
  · rw [h]; exact Or.inl rfl

/-- Every request changes the job list in one of the four ways. -/
theorem step_jobsChange (s : Server) (op : Op) : JobsChange s.jobs (step s op).1.jobs := by
  cases op with
  | enroll r agentID token enrolled lastSeen w =>
    simp only [step, handleEnroll_jobs]
    exact Or.inl rfl
  | enqueue r jobID createdAt w =>
    simp only [step]
    rcases handleJobs_cases s r jobID createdAt w with ⟨code, h⟩ | ⟨req, -, -, -, -, h⟩
    · rw [h]; exact Or.inl rfl
    · rw [h]
      simp only [persistLocked_jobs]
      exact Or.inr (Or.inl ⟨_, rfl, rfl, rfl, rfl⟩)
  | next r authNow claimNow wAuth wClaim =>
    exact handleJobsNext_jobsChange s r authNow claimNow wAuth wClaim
  | results r authNow doneNow o wAuth wDone =>
    simp only [step]
    rcases handleJobResults_jobs s r authNow doneNow o wAuth wDone with h | ⟨jobID, _, -, -, -, h⟩
    · rw [h]; exact Or.inl rfl
    · rw [h]; exact completeLoop_jobsChange jobID doneNow s.jobs

theorem map_set_same {α β : Type} (f : α → β) : ∀ (l : List α) (i : Nat) (a b : α),
    l[i]? = some a → f b = f a → (l.set i b).map f = l.map f
  | [], _, _, _, h, _ => by simp at h
  | x :: xs, 0, a, b, h, hf => by
    simp at h; subst h; simp [hf]
  | x :: xs, i + 1, a, b, h, hf => by
    simp at h
    simp [map_set_same f xs i a b h hf]

theorem runTrace_fst : ∀ (ops : List Op) (s : Server), (runTrace s ops).1 = runOps s ops
  | [], _ => rfl
  | op :: ops, s => by simp only [runTrace, runOps]; exact runTrace_fst ops (step s op).1

/-- The ids in the job list grow by exactly the id an enqueue call generated. -/
theorem step_jobIDs_eq (s : Server) (op : Op) :
    (step s op).1.jobs.map Job.JobID =
      s.jobs.map Job.JobID ++ (enqueuedID (op, (step s op).2)).toList := by
  have hkeep : ∀ js1 : List Job, JobsChange s.jobs js1 → (∀ job, js1 ≠ s.jobs ++ [job]) →
      js1.map Job.JobID = s.jobs.map Job.JobID := by
    intro js1 h hno
    rcases h with h | ⟨job, -, -, -, h⟩ | ⟨i, j, now, hi, -, h⟩ | ⟨i, j, now, hi, h⟩
    · rw [h]
    · exact absurd h (hno job)
    · rw [h, map_set_same Job.JobID _ i j (markClaimed j now) hi rfl]
    · rw [h, map_set_same Job.JobID _ i j (markDone j now) hi rfl]
  have hlen : ∀ (js1 : List Job) (job : Job), js1.length = s.jobs.length → js1 ≠ s.jobs ++ [job] := by
    intro js1 job hl h
    rw [h] at hl
    simp at hl
  cases op with
  | enqueue r jobID createdAt w =>
    simp only [step]
    rcases handleJobs_cases s r jobID createdAt w with ⟨code, e⟩ | ⟨req, -, -, -, -, e⟩
    · rw [e]; simp [enqueuedID]
    · rw [e]; simp [enqueuedID, newJob]
  | enroll r agentID token enrolled lastSeen w =>
    simp only [step, handleEnroll_jobs, enqueuedID, Option.toList, List.append_nil]
  | next r authNow claimNow wAuth wClaim =>
    have h := step_jobsChange s (.next r authNow claimNow wAuth wClaim)
    simp only [enqueuedID, Option.toList, List.append_nil]
    apply hkeep _ h
    intro job
    apply hlen
    rcases h with h | ⟨job, -, -, -, h⟩ | ⟨i, j, now, hi, -, h⟩ | ⟨i, j, now, hi, h⟩
    · rw [h]
    · exfalso
      rcases handleJobsNext_cases s r authNow claimNow wAuth wClaim with
        ⟨-, e⟩ | ⟨-, -, e⟩ | ⟨-, -, -, e⟩ | ⟨-, -, i, j, -, -, -, e⟩
      · simp only [step, e] at h; simp at h
      · simp only [step, e] at h; simp at h
      · simp only [step, e, authenticateAgent_jobs] at h; simp at h
      · simp only [step, e, persistLocked_jobs] at h
        have := congrArg List.length h
        simp at this
    · rw [h]; simp
    · rw [h]; simp
  | results r authNow doneNow o wAuth wDone =>
    have h := step_jobsChange s (.results r authNow doneNow o wAuth wDone)
    simp only [enqueuedID, Option.toList, List.append_nil]
    apply hkeep _ h
    intro job
    apply hlen
    simp only [step]
    rcases handleJobResults_jobs s r authNow doneNow o wAuth wDone with e | ⟨jobID, _, -, -, -, e⟩
    · rw [e]
    · rw [e]
      rcases completeLoop_cases jobID doneNow s.jobs with ⟨i, j, -, -, -, e1⟩ | ⟨-, e1⟩
      · rw [e1]; simp
      · rw [e1]

/-- The ids in the job list after a run are the ids it started with followed by
the ids the enqueue calls of the run generated. -/
theorem runTrace_jobIDs_eq : ∀ (ops : List Op) (s : Server),
    (runTrace s ops).1.jobs.map Job.JobID =
      s.jobs.map Job.JobID ++ enqueuedIDs (runTrace s ops).2
  | [], s => by simp [runTrace, enqueuedIDs]
  | op :: ops, s => by
    simp only [runTrace, enqueuedIDs, List.filterMap_cons]
    rw [runTrace_jobIDs_eq ops (step s op).1, step_jobIDs_eq s op]
    cases enqueuedID (op, (step s op).2) <;> simp [enqueuedIDs]

/-! ## Claims are handed out once -/

/-- What a request does to the job at a given position: it stays where it is,
and is left as it was, claimed (if it was queued) or completed. -/
theorem jobsChange_pointwise {js js1 : List Job} (h : JobsChange js js1) (k : Nat) (j0 : Job)
    (hk : js[k]? = some j0) :
    ∃ j1, js1[k]? = some j1 ∧
      (j1 = j0 ∨ (j0.Status = "queued" ∧ ∃ now, j1 = markClaimed j0 now) ∨
        ∃ now, j1 = markDone j0 now) := by
  have hlt : k < js.length := by
    rcases Nat.lt_or_ge k js.length with h1 | h1
    · exact h1
    · rw [List.getElem?_eq_none h1] at hk; cases hk
  rcases h with h | ⟨job, -, -, -, h⟩ | ⟨i, j, now, hi, hq, h⟩ | ⟨i, j, now, hi, h⟩
  · exact ⟨j0, by rw [h, hk], Or.inl rfl⟩
  · exact ⟨j0, by rw [h, List.getElem?_append_left hlt, hk], Or.inl rfl⟩
  · by_cases hik : i = k
    · subst hik
      have hj : j = j0 := by rw [hi] at hk; exact Option.some.inj hk
      subst hj
      exact ⟨markClaimed j now, by rw [h, List.getElem?_set_self hlt], Or.inr (Or.inl ⟨hq, now, rfl⟩)⟩
    · exact ⟨j0, by rw [h, List.getElem?_set_ne hik, hk], Or.inl rfl⟩
  · by_cases hik : i = k
    · subst hik
      have hj : j = j0 := by rw [hi] at hk; exact Option.some.inj hk
      subst hj
      exact ⟨markDone j now, by rw [h, List.getElem?_set_self hlt], Or.inr (Or.inr ⟨now, rfl⟩)⟩
    · exact ⟨j0, by rw [h, List.getElem?_set_ne hik, hk], Or.inl rfl⟩

theorem handedOut_step (s : Server) (op : Op) (acc : List String) (h : HandedOut s acc) :
    HandedOut (step s op).1 acc := by
  intro id hid
  obtain ⟨j0, hj0, hid0, hst0⟩ := h id hid
  obtain ⟨k, hk⟩ := List.mem_iff_getElem?.1 hj0
  obtain ⟨j1, hk1, hj1⟩ := jobsChange_pointwise (step_jobsChange s op) k j0 hk
  refine ⟨j1, List.getElem?_mem hk1, ?_⟩
  rcases hj1 with rfl | ⟨-, now, rfl⟩ | ⟨now, rfl⟩
  · exact ⟨hid0, hst0⟩
  · exact ⟨hid0, by simp [markClaimed]⟩
  · exact ⟨hid0, by simp [markDone]⟩

/-- A claim-next call that hands out an id found a queued job with that id and
claimed it in place. -/
theorem claimedID_step (s : Server) (op : Op) (id : String)
    (h : claimedID (op, (step s op).2) = some id) :
    ∃ i j now, s.jobs[i]? = some j ∧ j.Status = "queued" ∧ j.JobID = id ∧
      (step s op).1.jobs = s.jobs.set i (markClaimed j now) := by
  cases op with
  | enroll r agentID token enrolled lastSeen w => simp [claimedID] at h
  | enqueue r jobID createdAt w => simp [claimedID] at h
  | results r authNow doneNow o wAuth wDone => simp [claimedID] at h
  | next r authNow claimNow wAuth wClaim =>
    simp only [step] at h ⊢
    rcases handleJobsNext_cases s r authNow claimNow wAuth wClaim with
      ⟨-, e⟩ | ⟨-, -, e⟩ | ⟨-, -, -, e⟩ | ⟨-, -, i, j, hi, hc, -, e⟩
    · rw [e] at h; simp [claimedID] at h
    · rw [e] at h; simp [claimedID] at h
    · rw [e] at h; simp [claimedID] at h
    · rw [e] at h
      simp only [claimedID, Option.some.injEq] at h
      refine ⟨i, j, claimNow, hi, hc.2, h, ?_⟩
      rw [e]; simp only [persistLocked_jobs]

theorem claimedIDs_nodup_from : ∀ (ops : List Op) (s : Server) (acc : List String),
    HandedOut s acc → acc.Nodup →
    ((runTrace s ops).1.jobs.map Job.JobID).Nodup →
    (acc ++ claimedIDs (runTrace s ops).2).Nodup
  | [], s, acc, _, hacc, _ => by simpa [runTrace, claimedIDs] using hacc
  | op :: ops, s, acc, hinv, hacc, hfinal => by
    have hfinal1 : ((runTrace (step s op).1 ops).1.jobs.map Job.JobID).Nodup := by
      simpa [runTrace] using hfinal
    have hnow : (s.jobs.map Job.JobID).Nodup := by
      rw [runTrace_jobIDs_eq (op :: ops) s] at hfinal
      exact (List.nodup_append.1 hfinal).1
    cases hc : claimedID (op, (step s op).2) with
    | none =>
      have := claimedIDs_nodup_from ops (step s op).1 acc (handedOut_step s op acc hinv) hacc hfinal1
      simpa [runTrace, claimedIDs, List.filterMap_cons, hc] using this
    | some id =>
      obtain ⟨i, j, now, hi, hq, hid, hset⟩ := claimedID_step s op id hc
      have hfresh : id ∉ acc := by
        intro hmem
        obtain ⟨j0, hj0, hid0, hst0⟩ := hinv id hmem
        have : j0 = j :=
          List.inj_on_of_nodup_map hnow hj0 (List.getElem?_mem hi) (by rw [hid0, hid])
        exact hst0 (this ▸ hq)
      have hlt : i < s.jobs.length := by
        rcases Nat.lt_or_ge i s.jobs.length with h1 | h1
        · exact h1
        · rw [List.getElem?_eq_none h1] at hi; cases hi
      have hinv1 : HandedOut (step s op).1 (acc ++ [id]) := by
        intro id1 hid1
        rcases List.mem_append.1 hid1 with h1 | h1
        · exact handedOut_step s op acc hinv id1 h1
        · have : id1 = id := by simpa using h1
          subst this
          refine ⟨markClaimed j now, ?_, hid, by simp [markClaimed]⟩
          rw [hset]
          exact List.getElem?_mem (List.getElem?_set_self hlt)
      have hacc1 : (acc ++ [id]).Nodup := by
        rw [List.nodup_append]
        exact ⟨hacc, List.nodup_singleton id, by simpa using hfresh⟩
      have := claimedIDs_nodup_from ops (step s op).1 (acc ++ [id]) hinv1 hacc1 hfinal1
      simpa [runTrace, claimedIDs, List.filterMap_cons, hc] using this

/-! ## Paths -/


theorem splitSlash_no_slash : ∀ a : List Char, '/' ∉ a → splitSlash a = [a]
  | [], _ => rfl
  | c :: cs, h => by
    have hc : c ≠ '/' := fun e => h (by simp [e])
    have hcs : '/' ∉ cs := fun e => h (List.mem_cons_of_mem _ e)
    simp [splitSlash, hc, splitSlash_no_slash cs hcs]

theorem splitSlash_append_slash : ∀ (a b : List Char), '/' ∉ a →
    splitSlash (a ++ '/' :: b) = a :: splitSlash b
  | [], b, _ => by simp [splitSlash]
  | c :: cs, b, h => by
    have hc : c ≠ '/' := fun e => h (by simp [e])
    have hcs : '/' ∉ cs := fun e => h (List.mem_cons_of_mem _ e)
    simp [splitSlash, hc, splitSlash_append_slash cs b hcs]

/-- The path the agent posts results to is read back as the job id, for ids
without a slash. -/
theorem pathJobID_results (jid : String) (h : '/' ∉ jid.data) :
    pathJobID ("/v1/jobs/" ++ jid ++ "/results") = some jid := by
  have hdata : ("/v1/jobs/" ++ jid ++ "/results").data =
      '/' :: ('v' :: '1' :: '/' :: 'j' :: 'o' :: 'b' :: 's' :: '/' :: jid.data ++
        ['/', 'r', 'e', 's', 'u', 'l', 't', 's']) := by
    simp [String.data_append]
  have hsuf : HasSuffix ("/v1/jobs/" ++ jid ++ "/results") "/results" = true := by
    unfold HasSuffix
    rw [hdata]
    have e : ('/' :: ('v' :: '1' :: '/' :: 'j' :: 'o' :: 'b' :: 's' :: '/' :: jid.data ++
        ['/', 'r', 'e', 's', 'u', 'l', 't', 's'])) =
        ('/' :: 'v' :: '1' :: '/' :: 'j' :: 'o' :: 'b' :: 's' :: '/' :: jid.data) ++
        "/results".data := by simp
    rw [e]
    simp only [List.length_append, Nat.add_sub_cancel, List.drop_left, decide_True, Bool.and_true,
      decide_eq_true_eq]
    omega
  have htrim : trimSlashes ("/v1/jobs/" ++ jid ++ "/results").data =
      ['v', '1'] ++ '/' :: (['j', 'o', 'b', 's'] ++ '/' :: (jid.data ++ '/' ::
        ['r', 'e', 's', 'u', 'l', 't', 's'])) := by
    rw [hdata]
    simp [trimSlashes, List.dropWhile]
  unfold pathJobID
  rw [hsuf, htrim, splitSlash_append_slash _ _ (by decide), splitSlash_append_slash _ _ (by decide),
    splitSlash_append_slash _ _ h, splitSlash_no_slash _ (by decide)]
  simp



theorem cleanStep_nonempty (rooted : Bool) (stack : List (List Char)) (e : List Char)
    (h : ∀ x ∈ stack, x ≠ []) : ∀ x ∈ cleanStep rooted stack e, x ≠ [] := by
  unfold cleanStep
  by_cases h1 : e = [] ∨ e = ['.']
  · rw [if_pos h1]; exact h
  · rw [if_neg h1]
    have he : e ≠ [] := fun c => h1 (Or.inl c)
    by_cases h2 : e = ['.', '.']
    · rw [if_pos h2]
      cases stack with
      | nil =>
        cases rooted
        · intro x hx; simp at hx; rw [hx]; exact he
        · intro x hx; simp at hx
      | cons top rest =>
        by_cases h3 : top = ['.', '.']
        · simp only [h3, if_true]
          intro x hx
          rcases List.mem_cons.1 hx with rfl | hx
          · exact he
          · exact h x (by rw [h3]; exact hx)
        · simp only [h3, if_false]
          intro x hx
          exact h x (List.mem_cons_of_mem _ hx)
    · rw [if_neg h2]
      intro x hx
      rcases List.mem_cons.1 hx with rfl | hx
      · exact he
      · exact h x hx

theorem foldl_cleanStep_nonempty (rooted : Bool) : ∀ (es : List (List Char))
    (stack : List (List Char)), (∀ x ∈ stack, x ≠ []) →
    ∀ x ∈ es.foldl (cleanStep rooted) stack, x ≠ []
  | [], stack, h => by simpa using h
  | e :: es, stack, h => by
    simp only [List.foldl_cons]
    exact foldl_cleanStep_nonempty rooted es _ (cleanStep_nonempty rooted stack e h)

theorem intercalate_ne_nil (sep : List Char) : ∀ (l : List (List Char)), l ≠ [] →
    (∀ x ∈ l, x ≠ []) → List.intercalate sep l ≠ []
  | [], h, _ => absurd rfl h
  | x :: xs, _, h => by
    have hx : x ≠ [] := h x (List.mem_cons_self _ _)
    cases xs with
    | nil => simpa [List.intercalate] using hx
    | cons y ys =>
      simp [List.intercalate, List.intersperse, hx]

/-- The result of `filepath.Clean` is never empty. -/
theorem cleanChars_ne_nil (p : List Char) : cleanChars p ≠ [] := by
  cases p with
  | nil => simp [cleanChars]
  | cons c cs =>
    simp only [cleanChars]
    by_cases hr : (c == '/') = true
    · simp [hr]
    · simp only [hr, Bool.false_eq_true, if_false]
      split_ifs with hk
      · simp
      · apply intercalate_ne_nil _ _ hk
        intro x hx
        exact foldl_cleanStep_nonempty _ _ [] (by simp) x (List.mem_reverse.1 hx)

/-- The result of `filepath.Join` is not empty when its first element is not. -/
theorem filepathJoin_ne_empty (e : String) (es : List String) (h : e ≠ "") :
    filepathJoin (e :: es) ≠ "" := by
  have hd : e.data ≠ [] := fun c => h (String.ext c)
  intro c
  have : (filepathJoin (e :: es)).data = [] := by rw [c]
  simp only [filepathJoin, List.map_cons, joinChars, hd, if_false] at this
  exact cleanChars_ne_nil _ this

theorem uploads_dir_ne_empty (dir jobID : String) :
    filepathJoin [dir, "uploads", jobID] ≠ "" := by
  by_cases hd : dir = ""
  · subst hd
    have : filepathJoin ["", "uploads", jobID] = filepathJoin ["uploads", jobID] := by
      simp [filepathJoin, joinChars]
    rw [this]
    exact filepathJoin_ne_empty _ _ (by decide)
  · exact filepathJoin_ne_empty _ _ hd

/-- The path an upload is saved under is never empty. -/
theorem uploadPath_ne_empty (cfg : Config) (jobID fileName : String) :
    uploadPath cfg jobID fileName ≠ "" :=
  filepathJoin_ne_empty _ _ (uploads_dir_ne_empty _ _)

theorem saveUpload_ok (s : Server) (jobID fileName content : String) :
    (saveUpload s jobID fileName content .ok).2 = .ok (uploadPath s.cfg jobID fileName) ∧
    (saveUpload s jobID fileName content .ok).1.disk.uploads =
      (uploadPath s.cfg jobID fileName, content) ::
        s.disk.uploads.filter (fun e => e.1 ≠ uploadPath s.cfg jobID fileName) := by
  simp [saveUpload, uploadPath]

theorem partLoop_ok (s : Server) (jobID fileName content : String) :
    ∀ events : List PartEvent, firstFilePart events = some (fileName, content) →
      (partLoop s jobID .ok events).2 = .ok (uploadPath s.cfg jobID fileName) ∧
      (partLoop s jobID .ok events).1.disk.uploads =
        (uploadPath s.cfg jobID fileName, content) ::
          s.disk.uploads.filter (fun e => e.1 ≠ uploadPath s.cfg jobID fileName)
  | [], h => by simp [firstFilePart] at h
  | .err :: _, h => by simp [firstFilePart] at h
  | .part formName fn c :: rest, h => by
    by_cases hf : formName = "file"
    · simp only [firstFilePart, hf, ne_eq, not_true_eq_false, if_false, Option.some.injEq,
        Prod.mk.injEq] at h
      obtain ⟨rfl, rfl⟩ := h
      have hs := saveUpload_ok s jobID fn c
      unfold partLoop
      rw [if_neg (by simpa using hf)]
      rcases hS : saveUpload s jobID fn c .ok with ⟨s1, _ | p⟩
      · rw [hS] at hs; simp at hs
      · rw [hS] at hs; simpa using hs
    · simp only [firstFilePart, hf, ne_eq, not_false_eq_true, if_true] at h
      unfold partLoop
      rw [if_pos hf]
      exact partLoop_ok s jobID fileName content rest h


/-! ## Authentication and result upload -/

/-- A claim-next request changes no job of another agent. -/
theorem handleJobsNext_respects_owner (s : Server) (r : Request) (authNow claimNow : String)
    (wAuth wClaim : WriteOutcome) (i : Nat) (j : Job)
    (hi : s.jobs[i]? = some j) (hB : j.AgentID ≠ r.agent_id) :
    (handleJobsNext s r authNow claimNow wAuth wClaim).1.jobs[i]? = some j := by
  rcases handleJobsNext_cases s r authNow claimNow wAuth wClaim with
    ⟨-, e⟩ | ⟨-, -, e⟩ | ⟨-, -, -, e⟩ | ⟨-, -, i0, j0, hi0, hc0, -, e⟩
  · rw [e]; exact hi
  · rw [e]; exact hi
  · rw [e]; simp only [authenticateAgent_jobs]; exact hi
  · rw [e]
    simp only [persistLocked_jobs]
    have hne : i0 ≠ i := by
      rintro rfl
      rw [hi0] at hi
      exact hB ((Option.some.inj hi) ▸ hc0.1)
    rw [List.getElem?_set_ne hne]; exact hi

theorem authenticateAgent_ok (s : Server) (r : Request) (now : String) (w : WriteOutcome)
    (h : (authenticateAgent s r now w).2 ≠ none) :
    ∃ a, credentialsMatch s r.agent_id r.token a ∧
      (authenticateAgent s r now w).2 = some { a with LastSeen := now } ∧
      (authenticateAgent s r now w).1.agents =
        agentsSet s.agents r.agent_id { a with LastSeen := now } := by
  rcases authenticateAgent_cases s r now w with ⟨-, e⟩ | ⟨a, hc, e⟩
  · rw [e] at h; exact absurd rfl h
  · exact ⟨a, hc, by rw [e], by rw [e]; simp only [persistLocked_agents]⟩

/-- A result upload that answers with a saved path parsed a job id from the
path, authenticated, and ran the completion scan for that id. -/
theorem handleJobResults_saved (s : Server) (r : Request) (authNow doneNow : String)
    (o : SaveOutcome) (wAuth wDone : WriteOutcome) (saved : String)
    (h : (handleJobResults s r authNow doneNow o wAuth wDone).2 = .saved saved) :
    ∃ jobID a, pathJobID r.Path = some jobID ∧ r.Method = "POST" ∧
      credentialsMatch s r.agent_id r.token a ∧
      (handleJobResults s r authNow doneNow o wAuth wDone).1.jobs =
        completeLoop jobID doneNow s.jobs ∧
      (handleJobResults s r authNow doneNow o wAuth wDone).1.agents =
        agentsSet s.agents r.agent_id { a with LastSeen := authNow } ∧
      (handleJobResults s r authNow doneNow o wAuth wDone).1.cfg = s.cfg := by
  rcases handleJobResults_cases s r authNow doneNow o wAuth wDone with
    ⟨code, e, -⟩ | ⟨jobID, hm, hp, ha, ⟨-, e⟩ | ⟨events, -, ⟨code, -, e⟩ | ⟨-, e⟩ | ⟨sv, -, -, e⟩⟩⟩
  · rw [e] at h; cases h
  · rw [e] at h; cases h
  · rw [e] at h; cases h
  · rw [e] at h; cases h
  · obtain ⟨a, hc, -, hag⟩ := authenticateAgent_ok s r authNow wAuth ha
    refine ⟨jobID, a, hp, hm, hc, ?_, ?_, ?_⟩
    · rw [e]; simp only [persistLocked_jobs]
    · rw [e]; simp only [persistLocked_agents, (partLoop_frame _ _ _ _).2.1, hag]
    · rw [e]; simp only [persistLocked_cfg, (partLoop_frame _ _ _ _).1, authenticateAgent_cfg]

theorem authenticateAgent_ne_none (s : Server) (r : Request) (now : String) (w : WriteOutcome)
    (a : Agent) (hc : credentialsMatch s r.agent_id r.token a) :
    (authenticateAgent s r now w).2 ≠ none := by
  rcases authenticateAgent_cases s r now w with ⟨hno, -⟩ | ⟨b, -, e⟩
  · exact absurd ⟨a, hc⟩ hno
  · rw [e]; simp

/-- A POST to a results path, with matching credentials and a body whose first
part named `file` comes before any read error, whose file is written without
error, is answered with the saved path; the completion scan has run for the job
id of the path and the authenticated agent's `LastSeen` is refreshed. -/
theorem handleJobResults_success (s : Server) (r : Request) (authNow doneNow : String)
    (wAuth wDone : WriteOutcome) (jid : String) (a : Agent) (events : List PartEvent)
    (fileName content : String)
    (hm : r.Method = "POST") (hp : pathJobID r.Path = some jid)
    (hc : credentialsMatch s r.agent_id r.token a)
    (hmp : r.multipart = some events)
    (hf : firstFilePart events = some (fileName, content)) :
    (handleJobResults s r authNow doneNow .ok wAuth wDone).2 =
      .saved (uploadPath s.cfg jid fileName) ∧
    (handleJobResults s r authNow doneNow .ok wAuth wDone).1.jobs =
      completeLoop jid doneNow s.jobs ∧
    (handleJobResults s r authNow doneNow .ok wAuth wDone).1.agents =
      agentsSet s.agents r.agent_id { a with LastSeen := authNow } ∧
    (handleJobResults s r authNow doneNow .ok wAuth wDone).1.disk.uploads.head? =
      some (uploadPath s.cfg jid fileName, content) := by
  have hauth := authenticateAgent_ne_none s r authNow wAuth a hc
  rcases handleJobResults_cases s r authNow doneNow .ok wAuth wDone with
    ⟨code, -, h | h | h⟩ |
    ⟨jobID, -, hp1, -, ⟨h, -⟩ | ⟨ev, hev, ⟨code, h, -⟩ | ⟨h, -⟩ | ⟨sv, -, h, e⟩⟩⟩
  · exact absurd hm h
  · rw [hp] at h; cases h
  · exact absurd h hauth
  · rw [hmp] at h; cases h
  · have hjid : jobID = jid := by rw [hp] at hp1; exact (Option.some.inj hp1).symm
    have hev1 : ev = events := by rw [hmp] at hev; exact (Option.some.inj hev).symm
    subst hjid; subst hev1
    rw [(partLoop_ok _ jobID fileName content ev hf).1] at h; cases h
  · have hjid : jobID = jid := by rw [hp] at hp1; exact (Option.some.inj hp1).symm
    have hev1 : ev = events := by rw [hmp] at hev; exact (Option.some.inj hev).symm
    subst hjid; subst hev1
    rw [(partLoop_ok _ jobID fileName content ev hf).1] at h
    have hcfg := authenticateAgent_cfg s r authNow wAuth
    rw [hcfg] at h
    exact absurd (Except.ok.inj h) (uploadPath_ne_empty _ _ _)
  · have hjid : jobID = jid := by rw [hp] at hp1; exact (Option.some.inj hp1).symm
    have hev1 : ev = events := by rw [hmp] at hev; exact (Option.some.inj hev).symm
    subst hjid; subst hev1
    have hpl := partLoop_ok (authenticateAgent s r authNow wAuth).1 jobID fileName content ev hf
    rw [hpl.1] at h
    have hcfg := authenticateAgent_cfg s r authNow wAuth
    rw [hcfg] at h hpl
    have hsv : sv = uploadPath s.cfg jobID fileName := (Except.ok.inj h).symm
    subst hsv
    obtain ⟨b, hb, -, hag⟩ := authenticateAgent_ok s r authNow wAuth hauth
    have hba : b = a := by
      have h1 := hb.2.2.1
      rw [hc.2.2.1] at h1
      exact (Option.some.inj h1).symm
    subst hba
    rw [e]
    refine ⟨rfl, by simp only [persistLocked_jobs], ?_, ?_⟩
    · simp only [persistLocked_agents, (partLoop_frame _ _ _ _).2.1, hag]
    · have hdisk : ∀ (t : Server) (w : WriteOutcome), (persistLocked t w).disk.uploads =
          t.disk.uploads := by
        intro t w; unfold persistLocked; split_ifs <;> rfl
      rw [hdisk]
      simp only [hpl.2, List.head?_cons]


/-- The completion scan marks the first job carrying the id, and only it. -/
theorem completeLoop_first (jid now : String) (jobs : List Job) (i : Nat) (j : Job)
    (hi : jobs[i]? = some j) (hid : j.JobID = jid)
    (hfirst : ∀ k j0, k < i → jobs[k]? = some j0 → j0.JobID ≠ jid) :
    completeLoop jid now jobs = jobs.set i (markDone j now) := by
  rcases completeLoop_cases jid now jobs with ⟨i0, j0, hi0, hid0, hfirst0, e⟩ | ⟨hno, -⟩
  · have hii : i0 = i := by
      rcases Nat.lt_trichotomy i0 i with h | h | h
      · exact absurd hid0 (hfirst i0 j0 h hi0)
      · exact h
      · exact absurd hid (hfirst0 i j h hi)
    subst hii
    have hjj : j0 = j := by rw [hi0] at hi; exact Option.some.inj hi
    subst hjj
    exact e
  · exact absurd hid (hno j (List.getElem?_mem hi))

/-! ## The lifecycle of a job -/

theorem getElem?_lt {α : Type} {l : List α} {i : Nat} {a : α} (h : l[i]? = some a) :
    i < l.length := by
  rcases Nat.lt_or_ge i l.length with h1 | h1
  · exact h1
  · rw [List.getElem?_eq_none h1] at h; cases h

/-- Every request keeps each job at its position and changes it only as its
kind of request allows. -/
theorem step_transition (s : Server) (op : Op) (i : Nat) (j : Job) (hi : s.jobs[i]? = some j) :
    ∃ j1, (step s op).1.jobs[i]? = some j1 ∧ JobTransition op j j1 := by
  have hlt := getElem?_lt hi
  cases op with
  | enroll r agentID token enrolled lastSeen w =>
    exact ⟨j, by simp only [step, handleEnroll_jobs]; exact hi, rfl⟩
  | enqueue r jobID createdAt w =>
    refine ⟨j, ?_, rfl⟩
    simp only [step]
    rcases handleJobs_cases s r jobID createdAt w with ⟨code, h⟩ | ⟨req, -, -, -, -, h⟩
    · rw [h]; exact hi
    · rw [h]
      simp only [persistLocked_jobs]
      rw [List.getElem?_append_left hlt]; exact hi
  | next r authNow claimNow wAuth wClaim =>
    simp only [step, JobTransition]
    rcases handleJobsNext_cases s r authNow claimNow wAuth wClaim with
      ⟨-, e⟩ | ⟨-, -, e⟩ | ⟨-, -, -, e⟩ | ⟨-, -, i0, j0, hi0, hc0, -, e⟩
    · exact ⟨j, by rw [e]; exact hi, Or.inl rfl⟩
    · exact ⟨j, by rw [e]; exact hi, Or.inl rfl⟩
    · exact ⟨j, by rw [e]; simp only [authenticateAgent_jobs]; exact hi, Or.inl rfl⟩
    · rw [e]
      simp only [persistLocked_jobs]
      by_cases hii : i0 = i
      · subst hii
        have hjj : j0 = j := by rw [hi0] at hi; exact Option.some.inj hi
        subst hjj
        exact ⟨markClaimed j0 claimNow, List.getElem?_set_self hlt, Or.inr ⟨hc0, rfl⟩⟩
      · exact ⟨j, by rw [List.getElem?_set_ne hii]; exact hi, Or.inl rfl⟩
  | results r authNow doneNow o wAuth wDone =>
    simp only [step, JobTransition]
    rcases handleJobResults_jobs s r authNow doneNow o wAuth wDone with
      h | ⟨jobID, _, hp, -, -, h⟩
    · exact ⟨j, by rw [h]; exact hi, Or.inl rfl⟩
    · rw [h]
      rcases completeLoop_cases jobID doneNow s.jobs with ⟨i0, j0, hi0, hid0, -, e⟩ | ⟨-, e⟩
      · rw [e]
        by_cases hii : i0 = i
        · subst hii
          have hjj : j0 = j := by rw [hi0] at hi; exact Option.some.inj hi
          subst hjj
          exact ⟨markDone j0 doneNow, List.getElem?_set_self hlt,
            Or.inr ⟨by rw [hp, hid0], rfl⟩⟩
        · exact ⟨j, by rw [List.getElem?_set_ne hii]; exact hi, Or.inl rfl⟩
      · exact ⟨j, by rw [e]; exact hi, Or.inl rfl⟩

theorem runOps_invariant (P : Server → Prop) (hstep : ∀ s op, P s → P (step s op).1) :
    ∀ (ops : List Op) (s : Server), P s → P (runOps s ops)
  | [], _, h => h
  | op :: ops, s, h => runOps_invariant P hstep ops (step s op).1 (hstep s op h)

/-- A property that holds of every fresh store and is kept by every request
holds of every reachable state. -/
theorem reachable_invariant (P : Server → Prop) (h0 : ∀ cfg disk, P (New cfg disk))
    (hstep : ∀ s op, P s → P (step s op).1) (s : Server) (h : Reachable s) : P s := by
  obtain ⟨cfg, disk, ops, rfl⟩ := h
  exact runOps_invariant P hstep ops _ (h0 cfg disk)

theorem mem_of_jobsChange {js js1 : List Job} (h : JobsChange js js1) (j1 : Job) (hj1 : j1 ∈ js1) :
    j1 ∈ js ∨ (j1.Status = "queued" ∧ j1.ClaimedAt = "" ∧ j1.DoneAt = "") ∨
      (∃ j ∈ js, j.Status = "queued" ∧ ∃ now, j1 = markClaimed j now) ∨
      (∃ j ∈ js, ∃ now, j1 = markDone j now) := by
  rcases h with h | ⟨job, h1, h2, h3, h⟩ | ⟨i, j, now, hi, hq, h⟩ | ⟨i, j, now, hi, h⟩
  · left; rw [h] at hj1; exact hj1
  · rw [h] at hj1
    rcases List.mem_append.1 hj1 with hm | hm
    · left; exact hm
    · right; left
      have : j1 = job := by simpa using hm
      rw [this]; exact ⟨h1, h2, h3⟩
  · rw [h] at hj1
    rcases List.mem_or_eq_of_mem_set hj1 with hm | hm
    · left; exact hm
    · right; right; left
      exact ⟨j, List.getElem?_mem hi, hq, now, hm⟩
  · rw [h] at hj1
    rcases List.mem_or_eq_of_mem_set hj1 with hm | hm
    · left; exact hm
    · right; right; right
      exact ⟨j, List.getElem?_mem hi, now, hm⟩

/-- In every reachable state each job record is one the lifecycle produces. -/
theorem reachable_wellFormed (s : Server) (h : Reachable s) : ∀ j ∈ s.jobs, JobWellFormed j := by
  refine reachable_invariant (fun s => ∀ j ∈ s.jobs, JobWellFormed j) ?_ ?_ s h
  · intro cfg disk j hj
    simp [New] at hj
  · intro s op ih j1 hj1
    rcases mem_of_jobsChange (step_jobsChange s op) j1 hj1 with
      hm | hq | ⟨j, hj, hq, now, rfl⟩ | ⟨j, hj, now, rfl⟩
    · exact ih j1 hm
    · exact Or.inl hq
    · rcases ih j hj with ⟨-, -, hd⟩ | ⟨hc, -⟩ | hd
      · exact Or.inr (Or.inl ⟨rfl, hd⟩)
      · rw [hq] at hc; exact absurd hc (by decide)
      · rw [hq] at hd; exact absurd hd (by decide)
    · exact Or.inr (Or.inr rfl)

theorem statusRank_le_two (st : String) : statusRank st ≤ 2 := by
  unfold statusRank; split_ifs <;> omega

/-! ## The registry of agents -/

theorem agentsGet_agentsSet : ∀ (m : List (String × Agent)) (k : String) (a : Agent) (k1 : String),
    agentsGet (agentsSet m k a) k1 = if k1 = k then some a else agentsGet m k1
  | [], k, a, k1 => by
    by_cases h : k1 = k
    · simp [agentsSet, agentsGet, h]
    · have h2 : ¬ k = k1 := fun e => h e.symm
      simp [agentsSet, agentsGet, h, h2]
  | (k0, b) :: rest, k, a, k1 => by
    by_cases h0 : k0 = k
    · by_cases h : k1 = k
      · simp [agentsSet, agentsGet, h0, h]
      · have h2 : ¬ k = k1 := fun e => h e.symm
        simp [agentsSet, agentsGet, h0, h, h2]
    · by_cases h : k1 = k
      · subst h
        simp [agentsSet, agentsGet, h0, agentsGet_agentsSet rest k1 a k1]
      · by_cases h3 : k0 = k1
        · simp [agentsSet, agentsGet, h0, h, h3]
        · simp [agentsSet, agentsGet, h0, h, h3, agentsGet_agentsSet rest k a k1]

theorem partLoop_error_code (s : Server) (jobID : String) (o : SaveOutcome) :
    ∀ (events : List PartEvent) (code : Nat),
      (partLoop s jobID o events).2 = .error code → code = 400 ∨ code = 500
  | [], code, h => by simp [partLoop] at h
  | .err :: _, code, h => by
    simp only [partLoop, Except.error.injEq] at h
    exact Or.inl h.symm
  | .part formName fileName content :: rest, code, h => by
    unfold partLoop at h
    by_cases hf : formName = "file"
    · rw [if_neg (by simpa using hf)] at h
      rcases hS : saveUpload s jobID fileName content o with ⟨s1, _ | p⟩
      · rw [hS] at h
        simp only [Except.error.injEq] at h
        exact Or.inr h.symm
      · rw [hS] at h; cases h
    · rw [if_pos hf] at h
      exact partLoop_error_code s jobID o rest code h

/-- A claim-next request that fails authentication is answered 401 and leaves
the server as it was. -/
theorem handleJobsNext_unauthorized (s : Server) (r : Request) (authNow claimNow : String)
    (wAuth wClaim : WriteOutcome) (hm : r.Method = "GET")
    (h : (authenticateAgent s r authNow wAuth).2 = none) :
    handleJobsNext s r authNow claimNow wAuth wClaim = (s, .status 401) := by
  rcases handleJobsNext_cases s r authNow claimNow wAuth wClaim with
    ⟨h1, -⟩ | ⟨-, -, e⟩ | ⟨-, h1, -⟩ | ⟨-, h1, -⟩
  · exact absurd hm h1
  · exact e
  · exact absurd h h1
  · exact absurd h h1

/-- A claim-next request that authenticates is not answered 401. -/
theorem handleJobsNext_authorized (s : Server) (r : Request) (authNow claimNow : String)
    (wAuth wClaim : WriteOutcome) (hm : r.Method = "GET")
    (h : (authenticateAgent s r authNow wAuth).2 ≠ none) :
    (handleJobsNext s r authNow claimNow wAuth wClaim).2 ≠ .status 401 := by
  rcases handleJobsNext_cases s r authNow claimNow wAuth wClaim with
    ⟨h1, -⟩ | ⟨-, h1, -⟩ | ⟨-, -, -, e⟩ | ⟨-, -, i, j, -, -, -, e⟩
  · exact absurd hm h1
  · exact absurd h1 h
  · rw [e]; simp
  · rw [e]; simp

/-- A result upload to a well-formed path that fails authentication is answered
401 and leaves the server as it was. -/
theorem handleJobResults_unauthorized (s : Server) (r : Request) (authNow doneNow : String)
    (o : SaveOutcome) (wAuth wDone : WriteOutcome) (hm : r.Method = "POST")
    (hp : pathJobID r.Path ≠ none)
    (h : (authenticateAgent s r authNow wAuth).2 = none) :
    handleJobResults s r authNow doneNow o wAuth wDone = (s, .status 401) := by
  have hsuf : HasSuffix r.Path "/results" = true := by
    by_contra hc; exact hp (by simp [pathJobID, hc])
  have hlen : (splitSlash (trimSlashes r.Path.data)).length = 4 := by
    by_contra hc; exact hp (by simp [pathJobID, hsuf, hc])
  rcases authenticateAgent_cases s r authNow wAuth with ⟨-, e⟩ | ⟨a, -, e⟩
  · simp only [handleJobResults, hm, hsuf, hlen, e, ne_eq, not_true_eq_false, ↓reduceIte,
      Bool.not_true, Bool.false_eq_true]
  · rw [e] at h; cases h

/-- A result upload that authenticates is not answered 401. -/
theorem handleJobResults_authorized (s : Server) (r : Request) (authNow doneNow : String)
    (o : SaveOutcome) (wAuth wDone : WriteOutcome)
    (h : (authenticateAgent s r authNow wAuth).2 ≠ none) :
    (handleJobResults s r authNow doneNow o wAuth wDone).2 ≠ .status 401 := by
  by_cases hm : r.Method = "POST"
  swap
  · simp [handleJobResults, hm]
  by_cases hsuf : HasSuffix r.Path "/results" = true
  swap
  · simp [handleJobResults, hm, hsuf]
  by_cases hlen : (splitSlash (trimSlashes r.Path.data)).length = 4
  swap
  · simp [handleJobResults, hm, hsuf, hlen]
  rcases handleJobResults_cases s r authNow doneNow o wAuth wDone with
    ⟨code, -, h1 | h1 | h1⟩ |
    ⟨jobID, -, -, -, ⟨-, e⟩ | ⟨ev, -, ⟨code, hc, e⟩ | ⟨-, e⟩ | ⟨sv, -, -, e⟩⟩⟩
  · exact absurd hm h1
  · simp [pathJobID, hsuf, hlen] at h1
  · exact absurd h1 h
  · rw [e]; simp
  · rw [e]
    rcases partLoop_error_code _ _ _ _ _ hc with rfl | rfl <;> simp
  · rw [e]; simp
  · rw [e]; simp

theorem handleEnroll_cases (s : Server) (r : Request) (agentID token enrolled lastSeen : String)
    (w : WriteOutcome) :
    (∃ code, handleEnroll s r agentID token enrolled lastSeen w = (s, .status code)) ∨
    (∃ req, r.Method = "POST" ∧ requirePSK s r = true ∧ r.enrollBody = some req ∧
      handleEnroll s r agentID token enrolled lastSeen w =
        (persistLocked
          { s with
            agents := agentsSet s.agents agentID (newAgent req agentID token enrolled lastSeen) } w,
         .enrolled { AgentID := agentID, Token := token })) := by
  unfold handleEnroll newAgent
  by_cases hm : r.Method = "POST"
  · by_cases hp : requirePSK s r = true
    · cases hb : r.enrollBody with
      | none => left; exact ⟨400, by simp [hm, hp]⟩
      | some req => right; exact ⟨req, hm, hp, rfl, by simp [hm, hp]⟩
    · left; exact ⟨401, by simp [hm, hp]⟩
  · left; exact ⟨405, by simp [hm]⟩

/-- What a request does to the agents map: nothing, a refresh of the `LastSeen`
of a record on file, or, for an enroll that succeeds, the insertion of the
record whose credentials it returns. -/
theorem step_agents (s : Server) (op : Op) :
    (enrolledPair (op, (step s op).2) = none ∧
      ((step s op).1.agents = s.agents ∨
        ∃ k a t, agentsGet s.agents k = some a ∧
          (step s op).1.agents = agentsSet s.agents k { a with LastSeen := t })) ∨
    (∃ e a, enrolledPair (op, (step s op).2) = some e ∧ a.AgentID = e.AgentID ∧
      a.Token = e.Token ∧ (step s op).1.agents = agentsSet s.agents e.AgentID a) := by
  have hauth : ∀ (r : Request) (now : String) (w : WriteOutcome),
      (authenticateAgent s r now w).1.agents = s.agents ∨
        ∃ k a t, agentsGet s.agents k = some a ∧
          (authenticateAgent s r now w).1.agents = agentsSet s.agents k { a with LastSeen := t } := by
    intro r now w
    rcases authenticateAgent_cases s r now w with ⟨-, e⟩ | ⟨a, hc, e⟩
    · left; rw [e]
    · right; exact ⟨r.agent_id, a, now, hc.2.2.1, by rw [e]; simp only [persistLocked_agents]⟩
  cases op with
  | enroll r agentID token enrolled lastSeen w =>
    simp only [step]
    rcases handleEnroll_cases s r agentID token enrolled lastSeen w with ⟨code, e⟩ | ⟨req, -, -, -, e⟩
    · left; rw [e]; exact ⟨rfl, Or.inl rfl⟩
    · right
      rw [e]
      exact ⟨_, newAgent req agentID token enrolled lastSeen, rfl, rfl, rfl,
        by simp only [persistLocked_agents]⟩
  | enqueue r jobID createdAt w =>
    left
    refine ⟨by simp [enrolledPair], Or.inl ?_⟩
    simp only [step]
    rcases handleJobs_cases s r jobID createdAt w with ⟨code, e⟩ | ⟨req, -, -, -, -, e⟩
    · rw [e]
    · rw [e]; simp only [persistLocked_agents]
  | next r authNow claimNow wAuth wClaim =>
    left
    refine ⟨by simp [enrolledPair], ?_⟩
    simp only [step]
    rcases handleJobsNext_cases s r authNow claimNow wAuth wClaim with
      ⟨-, e⟩ | ⟨-, -, e⟩ | ⟨-, -, -, e⟩ | ⟨-, -, i, j, -, -, -, e⟩
    · left; rw [e]
    · left; rw [e]
    · rw [e]; exact hauth r authNow wAuth
    · rw [e]; simp only [persistLocked_agents]; exact hauth r authNow wAuth
  | results r authNow doneNow o wAuth wDone =>
    left
    refine ⟨by simp [enrolledPair], ?_⟩
    simp only [step]
    rcases handleJobResults_cases s r authNow doneNow o wAuth wDone with
      ⟨code, e, -⟩ |
      ⟨jobID, -, -, -, ⟨-, e⟩ | ⟨ev, -, ⟨code, -, e⟩ | ⟨-, e⟩ | ⟨sv, -, -, e⟩⟩⟩
    · left; rw [e]
    · rw [e]; exact hauth r authNow wAuth
    · rw [e]; simp only [(partLoop_frame _ _ _ _).2.1]; exact hauth r authNow wAuth
    · rw [e]; simp only [(partLoop_frame _ _ _ _).2.1]; exact hauth r authNow wAuth
    · rw [e]; simp only [persistLocked_agents, (partLoop_frame _ _ _ _).2.1]
      exact hauth r authNow wAuth

theorem registryHolds_refresh (s s1 : Server) (l : List enrollResponse) (k : String) (a : Agent)
    (t : String) (h : RegistryHolds s l) (hk : agentsGet s.agents k = some a)
    (hs : s1.agents = agentsSet s.agents k { a with LastSeen := t }) : RegistryHolds s1 l := by
  constructor
  · intro k1 a1 h1
    rw [hs, agentsGet_agentsSet] at h1
    by_cases hk1 : k1 = k
    · rw [if_pos hk1] at h1
      have : a1 = { a with LastSeen := t } := (Option.some.inj h1).symm
      subst this; subst hk1
      exact h.1 k1 a hk
    · rw [if_neg hk1] at h1
      exact h.1 k1 a1 h1
  · intro e he
    obtain ⟨a0, ha0, ht0⟩ := h.2 e he
    rw [hs, agentsGet_agentsSet]
    by_cases hk1 : e.AgentID = k
    · rw [if_pos hk1]
      rw [hk1, hk] at ha0
      have : a0 = a := (Option.some.inj ha0).symm
      subst this
      exact ⟨_, rfl, ht0⟩
    · rw [if_neg hk1]
      exact ⟨a0, ha0, ht0⟩

theorem registryHolds_enroll (s s1 : Server) (l : List enrollResponse) (e : enrollResponse)
    (a : Agent) (h : RegistryHolds s l) (hfresh : e.AgentID ∉ l.map enrollResponse.AgentID)
    (ht : a.Token = e.Token) (hs : s1.agents = agentsSet s.agents e.AgentID a) :
    RegistryHolds s1 (l ++ [e]) := by
  constructor
  · intro k1 a1 h1
    rw [hs, agentsGet_agentsSet] at h1
    by_cases hk1 : k1 = e.AgentID
    · rw [if_pos hk1] at h1
      have : a1 = a := (Option.some.inj h1).symm
      subst this; subst hk1
      rw [ht]
      exact List.mem_append_right _ (List.mem_singleton.2 rfl)
    · rw [if_neg hk1] at h1
      exact List.mem_append_left _ (h.1 k1 a1 h1)
  · intro e1 he1
    rw [hs, agentsGet_agentsSet]
    rcases List.mem_append.1 he1 with hm | hm
    · have hne : e1.AgentID ≠ e.AgentID := by
        intro c
        exact hfresh (c ▸ List.mem_map_of_mem _ hm)
      rw [if_neg hne]
      exact h.2 e1 hm
    · have : e1 = e := List.mem_singleton.1 hm
      subst this
      rw [if_pos rfl]
      exact ⟨a, rfl, ht⟩

theorem registryHolds_run : ∀ (ops : List Op) (s : Server) (l : List enrollResponse),
    RegistryHolds s l →
    ((l ++ enrolledPairs (runTrace s ops).2).map enrollResponse.AgentID).Nodup →
    RegistryHolds (runTrace s ops).1 (l ++ enrolledPairs (runTrace s ops).2)
  | [], s, l, h, _ => by simpa [runTrace, enrolledPairs] using h
  | op :: ops, s, l, h, hnd => by
    rcases step_agents s op with ⟨hnone, hsame | ⟨k, a, t, hk, hs⟩⟩ | ⟨e, a, hsome, -, ht, hs⟩
    · have h1 : RegistryHolds (step s op).1 l := by
        constructor
        · intro k a hk; rw [hsame] at hk; exact h.1 k a hk
        · intro e he; rw [hsame]; exact h.2 e he
      have hnd1 : ((l ++ enrolledPairs (runTrace (step s op).1 ops).2).map
          enrollResponse.AgentID).Nodup := by
        simpa [runTrace, enrolledPairs, List.filterMap_cons, hnone] using hnd
      have := registryHolds_run ops (step s op).1 l h1 hnd1
      simpa [runTrace, enrolledPairs, List.filterMap_cons, hnone] using this
    · have h1 : RegistryHolds (step s op).1 l := registryHolds_refresh s _ l k a t h hk hs
      have hnd1 : ((l ++ enrolledPairs (runTrace (step s op).1 ops).2).map
          enrollResponse.AgentID).Nodup := by
        simpa [runTrace, enrolledPairs, List.filterMap_cons, hnone] using hnd
      have := registryHolds_run ops (step s op).1 l h1 hnd1
      simpa [runTrace, enrolledPairs, List.filterMap_cons, hnone] using this
    · have hnd1 : (((l ++ [e]) ++ enrolledPairs (runTrace (step s op).1 ops).2).map
          enrollResponse.AgentID).Nodup := by
        simpa [runTrace, enrolledPairs, List.filterMap_cons, hsome] using hnd
      have hfresh : e.AgentID ∉ l.map enrollResponse.AgentID := by
        rw [List.map_append, List.map_append] at hnd1
        have h2 := (List.nodup_append.1 (List.nodup_append.1 hnd1).1).2.2
        intro c
        exact h2 c (by simp)
      have h1 : RegistryHolds (step s op).1 (l ++ [e]) :=
        registryHolds_enroll s _ l e a h hfresh ht hs
      have := registryHolds_run ops (step s op).1 (l ++ [e]) h1 hnd1
      simpa [runTrace, enrolledPairs, List.filterMap_cons, hsome] using this

/-! ## The end-to-end run -/

/-- No request changes the configuration. -/
theorem step_cfg (s : Server) (op : Op) : (step s op).1.cfg = s.cfg := by
  cases op with
  | enroll r agentID token enrolled lastSeen w =>
    simp only [step]
    rcases handleEnroll_cases s r agentID token enrolled lastSeen w with ⟨code, e⟩ | ⟨req, -, -, -, e⟩
    · rw [e]
    · rw [e]; simp only [persistLocked_cfg]
  | enqueue r jobID createdAt w =>
    simp only [step]
    rcases handleJobs_cases s r jobID createdAt w with ⟨code, e⟩ | ⟨req, -, -, -, -, e⟩
    · rw [e]
    · rw [e]; simp only [persistLocked_cfg]
  | next r authNow claimNow wAuth wClaim =>
    simp only [step]
    rcases handleJobsNext_cases s r authNow claimNow wAuth wClaim with
      ⟨-, e⟩ | ⟨-, -, e⟩ | ⟨-, -, -, e⟩ | ⟨-, -, i, j, -, -, -, e⟩
    · rw [e]
    · rw [e]
    · rw [e]; exact authenticateAgent_cfg s r authNow wAuth
    · rw [e]; simp only [persistLocked_cfg]; exact authenticateAgent_cfg s r authNow wAuth
  | results r authNow doneNow o wAuth wDone =>
    simp only [step]
    rcases handleJobResults_cases s r authNow doneNow o wAuth wDone with
      ⟨code, e, -⟩ |
      ⟨jobID, -, -, -, ⟨-, e⟩ | ⟨ev, -, ⟨code, -, e⟩ | ⟨-, e⟩ | ⟨sv, -, -, e⟩⟩⟩
    · rw [e]
    · rw [e]; exact authenticateAgent_cfg s r authNow wAuth
    · rw [e]; simp only [(partLoop_frame _ _ _ _).1]; exact authenticateAgent_cfg s r authNow wAuth
    · rw [e]; simp only [(partLoop_frame _ _ _ _).1]; exact authenticateAgent_cfg s r authNow wAuth
    · rw [e]; simp only [persistLocked_cfg, (partLoop_frame _ _ _ _).1]
      exact authenticateAgent_cfg s r authNow wAuth

/-- A claim-next request that authenticates refreshes the caller's `LastSeen`
and touches no other record. -/
theorem handleJobsNext_agents_ok (s : Server) (r : Request) (authNow claimNow : String)
    (wAuth wClaim : WriteOutcome) (a : Agent) (hm : r.Method = "GET")
    (hc : credentialsMatch s r.agent_id r.token a) :
    (handleJobsNext s r authNow claimNow wAuth wClaim).1.agents =
      agentsSet s.agents r.agent_id { a with LastSeen := authNow } := by
  have hauth := authenticateAgent_ne_none s r authNow wAuth a hc
  obtain ⟨b, hb, -, hag⟩ := authenticateAgent_ok s r authNow wAuth hauth
  have hba : b = a := by
    have h1 := hb.2.2.1
    rw [hc.2.2.1] at h1
    exact (Option.some.inj h1).symm
  subst hba
  rcases handleJobsNext_cases s r authNow claimNow wAuth wClaim with
    ⟨h1, -⟩ | ⟨-, h1, -⟩ | ⟨-, -, -, e⟩ | ⟨-, -, i, j, -, -, -, e⟩
  · exact absurd hm h1
  · exact absurd h1 hauth
  · rw [e]; exact hag
  · rw [e]; simp only [persistLocked_agents]; exact hag

/-- The end-to-end run on a server without a pre-shared key: the job ends done,
with the claim time and the completion time in place, and the upload is answered
with the path of the saved archive. -/
theorem lifecycleRun_result (cfg : Config) (disk : Disk)
    (agentID token jobID tEnroll tQueue tPoll tClaim tAuth tDone : String) (w : WriteOutcome)
    (hpsk : cfg.PSK = "") (hid : agentID ≠ "") (htok : token ≠ "") (hjob : '/' ∉ jobID.data) :
    (runTrace (New cfg disk)
      (lifecycleRun agentID token jobID tEnroll tQueue tPoll tClaim tAuth tDone w)).1.jobs =
      [{ JobID := jobID, AgentID := agentID, Type_ := "triage", Args := [], CreatedAt := tQueue,
         ClaimedAt := tClaim, DoneAt := tDone, Status := "done" }] ∧
    (runTrace (New cfg disk)
      (lifecycleRun agentID token jobID tEnroll tQueue tPoll tClaim tAuth tDone w)).2.map
        Prod.snd =
      [.enrolled { AgentID := agentID, Token := token },
       .job (newJob { AgentID := agentID, Type_ := "triage", Args := [] } jobID tQueue),
       .job (markClaimed (newJob { AgentID := agentID, Type_ := "triage", Args := [] } jobID tQueue)
          tClaim),
       .saved (uploadPath cfg jobID "case.tar.gz")] := by
  -- enroll
  have e1 : handleEnroll (New cfg disk) (enrollFrom "host") agentID token tEnroll tEnroll w =
      (persistLocked { New cfg disk with
          agents := [(agentID, newAgent { Hostname := "host", OS := "linux", Arch := "amd64" }
            agentID token tEnroll tEnroll)] } w,
        .enrolled { AgentID := agentID, Token := token }) := by
    simp [handleEnroll, enrollFrom, baseRequest, requirePSK, New, hpsk, agentsSet, newAgent]
  generalize hs1 : (handleEnroll (New cfg disk) (enrollFrom "host") agentID token tEnroll tEnroll
    w).1 = s1
  have hs1a : s1.agents = [(agentID, newAgent { Hostname := "host", OS := "linux", Arch := "amd64" }
      agentID token tEnroll tEnroll)] := by
    rw [← hs1, e1]; simp only [persistLocked_agents]
  have hs1j : s1.jobs = [] := by rw [← hs1, e1]; simp only [persistLocked_jobs]; rfl
  have hs1c : s1.cfg = cfg := by rw [← hs1, e1]; simp only [persistLocked_cfg]; rfl
  -- enqueue
  have e2 : handleJobs s1 (enqueueFor agentID "triage") jobID tQueue w =
      (persistLocked { s1 with
          jobs := [newJob { AgentID := agentID, Type_ := "triage", Args := [] } jobID tQueue] } w,
        .job (newJob { AgentID := agentID, Type_ := "triage", Args := [] } jobID tQueue)) := by
    simp [handleJobs, enqueueFor, baseRequest, requirePSK, hs1c, hpsk, hid, newJob, hs1j]
  generalize hs2 : (handleJobs s1 (enqueueFor agentID "triage") jobID tQueue w).1 = s2
  have hs2a : s2.agents = s1.agents := by rw [← hs2, e2]; simp only [persistLocked_agents]
  have hs2j : s2.jobs = [newJob { AgentID := agentID, Type_ := "triage", Args := [] } jobID tQueue] := by
    rw [← hs2, e2]; simp only [persistLocked_jobs]
  have hs2c : s2.cfg = cfg := by rw [← hs2, e2]; simp only [persistLocked_cfg]; exact hs1c
  -- claim
  have hc2 : credentialsMatch s2 (pollAs agentID token).agent_id (pollAs agentID token).token
      (newAgent { Hostname := "host", OS := "linux", Arch := "amd64" } agentID token tEnroll
        tEnroll) := by
    refine ⟨hid, htok, ?_, rfl⟩
    rw [hs2a, hs1a]; simp [agentsGet, pollAs]
  have hauth2 := authenticateAgent_ne_none s2 (pollAs agentID token) tPoll w _ hc2
  have h3 : (handleJobsNext s2 (pollAs agentID token) tPoll tClaim w w).2 =
        .job (markClaimed (newJob { AgentID := agentID, Type_ := "triage", Args := [] } jobID tQueue)
          tClaim) ∧
      (handleJobsNext s2 (pollAs agentID token) tPoll tClaim w w).1.jobs =
        s2.jobs.set 0
          (markClaimed (newJob { AgentID := agentID, Type_ := "triage", Args := [] } jobID tQueue)
            tClaim) := by
    rcases handleJobsNext_cases s2 (pollAs agentID token) tPoll tClaim w w with
      ⟨hm, -⟩ | ⟨-, hn, -⟩ | ⟨-, -, hno, -⟩ | ⟨-, -, i, j, hi, -, hfirst, e⟩
    · exact absurd rfl hm
    · exact absurd hn hauth2
    · exact absurd ⟨rfl, rfl⟩ (hno _ (by rw [hs2j]; exact List.mem_singleton.2 rfl))
    · have hi0 : i = 0 := by
        rcases Nat.eq_zero_or_pos i with h0 | h0
        · exact h0
        · exact absurd ⟨rfl, rfl⟩ (hfirst 0 _ h0 (by rw [hs2j]; rfl))
      subst hi0
      have hj : j = newJob { AgentID := agentID, Type_ := "triage", Args := [] } jobID tQueue := by
        rw [hs2j] at hi
        exact (Option.some.inj hi).symm
      subst hj
      rw [e]
      exact ⟨rfl, by simp only [persistLocked_jobs]⟩
  have h3a := handleJobsNext_agents_ok s2 (pollAs agentID token) tPoll tClaim w w _ rfl hc2
  generalize hs3 : handleJobsNext s2 (pollAs agentID token) tPoll tClaim w w = out3 at h3 h3a
  have hs3c : out3.1.cfg = cfg := by
    have := step_cfg s2 (.next (pollAs agentID token) tPoll tClaim w w)
    simp only [step, hs3] at this
    rw [this, hs2c]
  have hs3j : out3.1.jobs = [markClaimed
      (newJob { AgentID := agentID, Type_ := "triage", Args := [] } jobID tQueue) tClaim] := by
    rw [h3.2, hs2j]; rfl
  -- upload
  have hc3 : credentialsMatch out3.1 (uploadAs agentID token jobID).agent_id
      (uploadAs agentID token jobID).token
      { newAgent { Hostname := "host", OS := "linux", Arch := "amd64" } agentID token tEnroll
        tEnroll with LastSeen := tPoll } := by
    refine ⟨hid, htok, ?_, rfl⟩
    rw [h3a, hs2a, hs1a]; simp [agentsGet, agentsSet, pollAs, uploadAs]
  have h4 := handleJobResults_success out3.1 (uploadAs agentID token jobID) tAuth tDone w w jobID _
    [.part "file" "case.tar.gz" "archive"] "case.tar.gz" "archive" rfl
    (pathJobID_results jobID hjob) hc3 rfl rfl
  rw [hs3c, hs3j] at h4
  simp only [lifecycleRun, runTrace, step, hs1, hs2, hs3, List.map_cons, List.map_nil]
  refine ⟨?_, ?_⟩
  · rw [h4.2.1]
    simp [completeLoop, markClaimed, newJob]
  · rw [e1, e2, h3.1, h4.1]

/-! ## The PSK gate, the registry frame and persistence -/

/-- The gate admits exactly when no PSK is configured or the header equals it. -/
theorem requirePSK_iff (s : Server) (r : Request) :
    requirePSK s r = true ↔ s.cfg.PSK = "" ∨ r.XPSK = s.cfg.PSK := by
  unfold requirePSK
  by_cases h : s.cfg.PSK = ""
  · simp [h]
  · simp [h, ConstantTimeCompare_eq_one]

theorem agentsSet_absent : ∀ (m : List (String × Agent)) (k : String) (a : Agent),
    agentsGet m k = none → agentsSet m k a = m ++ [(k, a)]
  | [], _, _, _ => rfl
  | (k0, b) :: rest, k, a, h => by
    by_cases h0 : k0 = k
    · simp [agentsGet, h0] at h
    · simp only [agentsGet, h0, if_false] at h
      simp [agentsSet, h0, agentsSet_absent rest k a h]

theorem agentsSet_present_length : ∀ (m : List (String × Agent)) (k : String) (a b : Agent),
    agentsGet m k = some b → (agentsSet m k a).length = m.length
  | [], _, _, _, h => by simp [agentsGet] at h
  | (k0, c) :: rest, k, a, b, h => by
    by_cases h0 : k0 = k
    · simp [agentsSet, h0]
    · simp only [agentsGet, h0, if_false] at h
      simp [agentsSet, h0, agentsSet_present_length rest k a b h]

/-- What a request does to the agents map, exactly: an accepted authentication
refreshes the `LastSeen` of the caller's record, an enroll that succeeds stores
the new record under the generated id, and everything else leaves the whole
server as it was or at least its agents map. -/
theorem step_agents_exact (s : Server) (op : Op) :
    (authenticatedAs s op = none ∧ enrolledPair (op, (step s op).2) = none ∧
      (step s op).1.agents = s.agents) ∨
    (∃ k a, authenticatedAs s op = some k ∧ enrolledPair (op, (step s op).2) = none ∧
      agentsGet s.agents k = some a ∧
      (step s op).1.agents = agentsSet s.agents k { a with LastSeen := authTime op }) ∨
    (∃ r agentID token enrolled lastSeen w req, op = .enroll r agentID token enrolled lastSeen w ∧
      r.enrollBody = some req ∧
      (step s op).2 = .enrolled { AgentID := agentID, Token := token } ∧
      (step s op).1.agents =
        agentsSet s.agents agentID (newAgent req agentID token enrolled lastSeen)) := by
  cases op with
  | enroll r agentID token enrolled lastSeen w =>
    simp only [step]
    rcases handleEnroll_cases s r agentID token enrolled lastSeen w with
      ⟨code, e⟩ | ⟨req, -, -, hb, e⟩
    · left; rw [e]; exact ⟨rfl, rfl, rfl⟩
    · right; right
      exact ⟨r, agentID, token, enrolled, lastSeen, w, req, rfl, hb, by rw [e],
        by rw [e]; simp only [persistLocked_agents]⟩
  | enqueue r jobID createdAt w =>
    left
    refine ⟨rfl, by simp [enrolledPair], ?_⟩
    simp only [step]
    rcases handleJobs_cases s r jobID createdAt w with ⟨code, e⟩ | ⟨req, -, -, -, -, e⟩
    · rw [e]
    · rw [e]; simp only [persistLocked_agents]
  | next r authNow claimNow wAuth wClaim =>
    have hpair : enrolledPair
        (Op.next r authNow claimNow wAuth wClaim,
          (step s (.next r authNow claimNow wAuth wClaim)).2) = none := by
      simp [enrolledPair]
    by_cases hm : r.Method = "GET"
    · by_cases ha : (authenticateAgent s r authNow wAuth).2 = none
      · left
        refine ⟨by simp [authenticatedAs, ha], hpair, ?_⟩
        simp only [step]
        rw [handleJobsNext_unauthorized s r authNow claimNow wAuth wClaim hm ha]
      · right; left
        obtain ⟨a, hc, -, -⟩ := authenticateAgent_ok s r authNow wAuth ha
        refine ⟨r.agent_id, a, by simp [authenticatedAs, hm, ha], hpair, hc.2.2.1, ?_⟩
        simp only [step, authTime]
        exact handleJobsNext_agents_ok s r authNow claimNow wAuth wClaim a hm hc
    · left
      refine ⟨by simp [authenticatedAs, hm], hpair, ?_⟩
      simp [step, handleJobsNext, hm]
  | results r authNow doneNow o wAuth wDone =>
    have hpair : enrolledPair
        (Op.results r authNow doneNow o wAuth wDone,
          (step s (.results r authNow doneNow o wAuth wDone)).2) = none := by
      simp [enrolledPair]
    simp only [step]
    rcases handleJobResults_cases s r authNow doneNow o wAuth wDone with
      ⟨code, e, hwhy⟩ |
      ⟨jobID, hm, hp, ha, hrest⟩
    · left
      refine ⟨?_, hpair, by rw [e]⟩
      rcases hwhy with h | h | h
      · simp [authenticatedAs, h]
      · simp [authenticatedAs, h]
      · simp [authenticatedAs, h]
    · right; left
      obtain ⟨a, hc, -, hag⟩ := authenticateAgent_ok s r authNow wAuth ha
      refine ⟨r.agent_id, a, by simp [authenticatedAs, hm, hp, ha], hpair, hc.2.2.1, ?_⟩
      simp only [authTime]
      rcases hrest with ⟨-, e⟩ | ⟨ev, -, ⟨code, -, e⟩ | ⟨-, e⟩ | ⟨sv, -, -, e⟩⟩
      · rw [e]; exact hag
      · rw [e]; simp only [(partLoop_frame _ _ _ _).2.1]; exact hag
      · rw [e]; simp only [(partLoop_frame _ _ _ _).2.1]; exact hag
      · rw [e]; simp only [persistLocked_agents, (partLoop_frame _ _ _ _).2.1]; exact hag

/-- A claim-next or result-upload request whose authentication fails leaves the
whole server as it was. -/
theorem step_failed_auth (s : Server) (op : Op) (h : authenticatedAs s op = none)
    (hop : (∃ r authNow claimNow wAuth wClaim, op = .next r authNow claimNow wAuth wClaim) ∨
      (∃ r authNow doneNow o wAuth wDone, op = .results r authNow doneNow o wAuth wDone)) :
    (step s op).1 = s := by
  rcases hop with ⟨r, authNow, claimNow, wAuth, wClaim, rfl⟩ | ⟨r, authNow, doneNow, o, wAuth, wDone, rfl⟩
  · simp only [step]
    rcases handleJobsNext_cases s r authNow claimNow wAuth wClaim with
      ⟨-, e⟩ | ⟨-, -, e⟩ | ⟨hm, ha, -, -⟩ | ⟨hm, ha, -⟩
    · rw [e]
    · rw [e]
    · simp [authenticatedAs, hm, ha] at h
    · simp [authenticatedAs, hm, ha] at h
  · simp only [step]
    rcases handleJobResults_cases s r authNow doneNow o wAuth wDone with
      ⟨code, e, -⟩ | ⟨jobID, hm, hp, ha, -⟩
    · rw [e]
    · simp [authenticatedAs, hm, hp, ha] at h

theorem persistLocked_persisted (s : Server) (w : WriteOutcome)
    (hdir : s.cfg.DataDir ≠ "") (hw : w.allOk) : Persisted (persistLocked s w) := by
  unfold persistLocked Persisted
  simp [hdir, hw.1, hw.2]

theorem saveUpload_docs (s : Server) (jobID fileName content : String) (o : SaveOutcome) :
    (saveUpload s jobID fileName content o).1.disk.agentsDoc = s.disk.agentsDoc ∧
    (saveUpload s jobID fileName content o).1.disk.jobsDoc = s.disk.jobsDoc := by
  unfold saveUpload; cases o <;> exact ⟨rfl, rfl⟩

theorem partLoop_docs (s : Server) (jobID : String) (o : SaveOutcome) :
    ∀ events : List PartEvent,
      (partLoop s jobID o events).1.disk.agentsDoc = s.disk.agentsDoc ∧
      (partLoop s jobID o events).1.disk.jobsDoc = s.disk.jobsDoc
  | [] => by simp [partLoop]
  | .err :: _ => by simp [partLoop]
  | .part formName fileName content :: rest => by
    unfold partLoop
    by_cases hf : formName = "file"
    · rw [if_neg (by simpa using hf)]
      have h1 := saveUpload_docs s jobID fileName content o
      rcases hS : saveUpload s jobID fileName content o with ⟨s1, _ | p⟩ <;>
        (rw [hS] at h1; exact h1)
    · rw [if_pos hf]
      exact partLoop_docs s jobID o rest

theorem partLoop_persisted (s : Server) (jobID : String) (o : SaveOutcome)
    (events : List PartEvent) (h : Persisted s) : Persisted (partLoop s jobID o events).1 := by
  unfold Persisted
  rw [(partLoop_docs s jobID o events).1, (partLoop_docs s jobID o events).2,
    (partLoop_frame s jobID o events).2.1, (partLoop_frame s jobID o events).2.2]
  exact h

theorem authenticateAgent_persisted (s : Server) (r : Request) (now : String) (w : WriteOutcome)
    (hdir : s.cfg.DataDir ≠ "") (hw : w.allOk) (h : (authenticateAgent s r now w).2 ≠ none) :
    Persisted (authenticateAgent s r now w).1 := by
  rcases authenticateAgent_cases s r now w with ⟨-, e⟩ | ⟨a, -, e⟩
  · rw [e] at h; exact absurd rfl h
  · rw [e]; exact persistLocked_persisted _ w hdir hw

/-- With a data directory and writes that succeed, a request either leaves the
whole server as it was, answering with a bare status and without an accepted
authentication, or leaves the two documents equal to the state in memory. -/
theorem step_persisted (s : Server) (op : Op) (hdir : s.cfg.DataDir ≠ "")
    (hw : writesSucceed op) :
    ((step s op).1 = s ∧ (∃ code, (step s op).2 = .status code) ∧ authenticatedAs s op = none) ∨
    Persisted (step s op).1 := by
  cases op with
  | enroll r agentID token enrolled lastSeen w =>
    simp only [step]
    rcases handleEnroll_cases s r agentID token enrolled lastSeen w with
      ⟨code, e⟩ | ⟨req, -, -, -, e⟩
    · left; rw [e]; exact ⟨rfl, ⟨code, rfl⟩, rfl⟩
    · right; rw [e]; exact persistLocked_persisted _ w hdir hw
  | enqueue r jobID createdAt w =>
    simp only [step]
    rcases handleJobs_cases s r jobID createdAt w with ⟨code, e⟩ | ⟨req, -, -, -, -, e⟩
    · left; rw [e]; exact ⟨rfl, ⟨code, rfl⟩, rfl⟩
    · right; rw [e]; exact persistLocked_persisted _ w hdir hw
  | next r authNow claimNow wAuth wClaim =>
    simp only [step]
    rcases handleJobsNext_cases s r authNow claimNow wAuth wClaim with
      ⟨hm, e⟩ | ⟨-, ha, e⟩ | ⟨-, ha, -, e⟩ | ⟨-, ha, i, j, -, -, -, e⟩
    · left; rw [e]; exact ⟨rfl, ⟨405, rfl⟩, by simp [authenticatedAs, hm]⟩
    · left; rw [e]; exact ⟨rfl, ⟨401, rfl⟩, by simp [authenticatedAs, ha]⟩
    · right; rw [e]; exact authenticateAgent_persisted s r authNow wAuth hdir hw.1 ha
    · right; rw [e]
      exact persistLocked_persisted _ wClaim
        (by simpa [authenticateAgent_cfg] using hdir) hw.2
  | results r authNow doneNow o wAuth wDone =>
    simp only [step]
    rcases handleJobResults_cases s r authNow doneNow o wAuth wDone with
      ⟨code, e, hwhy⟩ |
      ⟨jobID, -, -, ha, ⟨-, e⟩ | ⟨ev, -, ⟨code, -, e⟩ | ⟨-, e⟩ | ⟨sv, -, -, e⟩⟩⟩
    · left; rw [e]
      refine ⟨rfl, ⟨code, rfl⟩, ?_⟩
      rcases hwhy with h | h | h <;> simp [authenticatedAs, h]
    · right; rw [e]; exact authenticateAgent_persisted s r authNow wAuth hdir hw.1 ha
    · right; rw [e]
      exact partLoop_persisted _ _ _ _ (authenticateAgent_persisted s r authNow wAuth hdir hw.1 ha)
    · right; rw [e]
      exact partLoop_persisted _ _ _ _ (authenticateAgent_persisted s r authNow wAuth hdir hw.1 ha)
    · right; rw [e]
      exact persistLocked_persisted _ wDone
        (by simpa [(partLoop_frame _ _ _ _).1, authenticateAgent_cfg] using hdir) hw.2

/-! ## The walk of the snapshot collector -/

mutual
/-- A property of the walk variables and of the value the callback returns that
every call of the callback establishes, from any state that satisfies the state
property, is established by the walk of a tree. -/
theorem walkDir_post (c : WalkConfig) (Inv : WalkState → Prop)
    (Q : WalkState → Option WalkErr → Prop)
    (hvisit : ∀ path d p st, Inv st → Q (visit c path d p st).1 (visit c path d p st).2)
    (hnone : ∀ st, Inv st → Q st none)
    (hcont : ∀ st, Q st none → Inv st)
    (hskip : ∀ st, Q st (some .skipDir) → Inv st) :
    ∀ (path : String) (n : Node) (st : WalkState), Inv st →
      Q (walkDir c path n st).1 (walkDir c path n st).2
  | path, .mk name isDir probe children, st, h => by
    have hv := hvisit path isDir probe st h
    rw [walkDir]
    rcases hvis : visit c path isDir probe st with ⟨st1, _ | e⟩
    · rw [hvis] at hv
      simp only at hv ⊢
      by_cases hd : isDir = true
      · rw [if_pos hd]
        exact walkEntries_post c Inv Q hvisit hnone hcont hskip path children st1 (hcont st1 hv)
      · rw [if_neg hd]
        exact hv
    · rw [hvis] at hv
      simp only at hv ⊢
      by_cases he : e = .skipDir ∧ isDir = true
      · rw [if_pos he]
        rw [he.1] at hv
        exact hnone st1 (hskip st1 hv)
      · rw [if_neg he]
        exact hv
/-- The same for the walk of the entries of a directory. -/
theorem walkEntries_post (c : WalkConfig) (Inv : WalkState → Prop)
    (Q : WalkState → Option WalkErr → Prop)
    (hvisit : ∀ path d p st, Inv st → Q (visit c path d p st).1 (visit c path d p st).2)
    (hnone : ∀ st, Inv st → Q st none)
    (hcont : ∀ st, Q st none → Inv st)
    (hskip : ∀ st, Q st (some .skipDir) → Inv st) :
    ∀ (path : String) (ns : List Node) (st : WalkState), Inv st →
      Q (walkEntries c path ns st).1 (walkEntries c path ns st).2
  | path, [], st, h => by
    rw [walkEntries]
    exact hnone st h
  | path, .mk name isDir probe children :: rest, st, h => by
    have hn := walkDir_post c Inv Q hvisit hnone hcont hskip (filepathJoin [path, name])
      (.mk name isDir probe children) st h
    rw [walkEntries]
    rcases hw : walkDir c (filepathJoin [path, name]) (.mk name isDir probe children) st with
      ⟨st1, _ | e⟩
    · rw [hw] at hn
      simp only at hn ⊢
      exact walkEntries_post c Inv Q hvisit hnone hcont hskip path rest st1 (hcont st1 hn)
    · rw [hw] at hn
      simp only at hn ⊢
      cases e with
      | skipDir => exact hnone st1 (hskip st1 hn)
      | stopWalk => exact hn
      | openTar => exact hn
end

/-- A property of the walk variables that every call of the callback keeps is
kept by the walk of a tree. -/
theorem walkDir_invariant (c : WalkConfig) (Inv : WalkState → Prop)
    (hvisit : ∀ path d p st, Inv st → Inv (visit c path d p st).1)
    (path : String) (n : Node) (st : WalkState) (h : Inv st) : Inv (walkDir c path n st).1 :=
  walkDir_post c Inv (fun st _ => Inv st) hvisit (fun _ h => h) (fun _ h => h) (fun _ h => h)
    path n st h

/-- A property of the walk variables that every call of the callback keeps
holds of the final state of the loop over the roots. -/
theorem walkRoots_invariant (c : WalkConfig) (env : CollectEnv) (Inv : WalkState → Prop)
    (hvisit : ∀ path d p st, Inv st → Inv (visit c path d p st).1) :
    ∀ (roots : List String) (i : Nat) (st : WalkState), Inv st →
      Inv (walkRoots c env i roots st).1
  | [], i, st, h => by rw [walkRoots]; exact h
  | root :: rest, i, st, h => by
    rw [walkRoots]
    by_cases h1 : env.ctxDone i = true
    · rw [if_pos h1]; exact h
    rw [if_neg h1]
    by_cases h2 : root = ""
    · rw [if_pos h2]; exact walkRoots_invariant c env Inv hvisit rest (i + 1) st h
    rw [if_neg h2]
    by_cases h3 : isExcluded root = true
    · rw [if_pos h3]; exact walkRoots_invariant c env Inv hvisit rest (i + 1) st h
    rw [if_neg h3]
    cases hl : env.lstat i with
    | none => exact walkRoots_invariant c env Inv hvisit rest (i + 1) st h
    | some node =>
      have hw := walkDir_invariant c Inv hvisit root node st h
      simp only
      rcases hwd : walkDir c root node st with ⟨st1, _ | e⟩
      · rw [hwd] at hw
        exact walkRoots_invariant c env Inv hvisit rest (i + 1) st1 hw
      · rw [hwd] at hw
        cases e with
        | skipDir => exact walkRoots_invariant c env Inv hvisit rest (i + 1) st1 hw
        | stopWalk => exact hw
        | openTar => exact hw

/-- A property of the walk variables that holds at the start of `Collect` and
that every call of the callback keeps holds of the state `Collect` ends with. -/
theorem collect_invariant (opts : SnapshotOptions) (env : CollectEnv) (Inv : WalkState → Prop)
    (h0 : Inv initWalk)
    (hvisit : ∀ path d p st, Inv st →
      Inv (visit (walkConfig opts env.openTarOk) path d p st).1) :
    Inv (Collect opts env).walk := by
  have hw := walkRoots_invariant (walkConfig opts env.openTarOk) env Inv hvisit opts.Paths 0
    initWalk h0
  simp only [Collect]
  split_ifs
  · exact h0
  · exact h0
  · exact h0
  · rcases hwr : walkRoots (walkConfig opts env.openTarOk) env 0 opts.Paths initWalk with
      ⟨st, _ | e⟩
    · rw [hwr] at hw; exact hw
    · rw [hwr] at hw; exact hw

/-- The callback, case by case: the object is passed over (excluded, or beyond
the limit on objects), or it is counted and then either its `Info` fails, or it
is recorded with the type of a non-regular object, or it is a regular file that
is recorded as it is (outside copy mode) or handed to the copy step. -/
theorem visit_cases (c : WalkConfig) (path : String) (d : Bool) (p : Probe) (st : WalkState) :
    ((isExcluded path = true ∨ st.filesSeen ≥ c.maxFiles) ∧
      visit c path d p st = (st, if d = true then some .skipDir else none)) ∨
    (isExcluded path = false ∧ st.filesSeen < c.maxFiles ∧
      ((p.info = none ∧ visit c path d p st = (counted st, none)) ∨
       (∃ info, p.info = some info ∧
        ((∃ t, (t = "symlink" ∨ t = "dir" ∨ t = "other") ∧
            visit c path d p st = (encode (counted st) (typedEntry path info t), none)) ∨
         (isRegularFile info ∧ c.mode ≠ "copy" ∧
            visit c path d p st = (encode (counted st) (fileEntry c path info p), none)) ∨
         (isRegularFile info ∧ c.mode = "copy" ∧
            visit c path d p st =
              copyStep c path info p (fileEntry c path info p) (counted st)))))) := by
  unfold visit
  by_cases h1 : isExcluded path = true
  · left; exact ⟨Or.inl h1, by rw [if_pos h1]⟩
  rw [if_neg h1]
  by_cases h2 : st.filesSeen ≥ c.maxFiles
  · left; exact ⟨Or.inr h2, by rw [if_pos h2]⟩
  rw [if_neg h2]
  right
  refine ⟨by simpa using h1, by omega, ?_⟩
  cases hinfo : p.info with
  | none => left; exact ⟨rfl, rfl⟩
  | some info =>
    right
    refine ⟨info, rfl, ?_⟩
    simp only
    by_cases h3 : info.Mode &&& ModeSymlink ≠ 0
    · left; exact ⟨"symlink", Or.inl rfl, by rw [if_pos h3]; rfl⟩
    rw [if_neg h3]
    by_cases h4 : info.Mode &&& ModeDir ≠ 0
    · left; exact ⟨"dir", Or.inr (Or.inl rfl), by rw [if_pos h4]; rfl⟩
    rw [if_neg h4]
    by_cases h5 : info.Mode &&& ModeType ≠ 0
    · left; exact ⟨"other", Or.inr (Or.inr rfl), by rw [if_pos h5]; rfl⟩
    rw [if_neg h5]
    have hreg : isRegularFile info := ⟨by simpa using h3, by simpa using h4, by simpa using h5⟩
    right
    by_cases h6 : c.mode = "copy"
    · right; exact ⟨hreg, h6, by rw [if_pos h6]; rfl⟩
    · left; exact ⟨hreg, h6, by rw [if_neg h6]; rfl⟩

/-- The hashing step leaves the entry as it is or, when hashing is on and the
file is within the per-file budget, records the digest `sha256Path` returned. -/
theorem hashStep_cases (c : WalkConfig) (info : FileInfo) (p : Probe) (e : snapshotEntry) :
    hashStep c info p e = e ∨
    (c.hashFiles = true ∧ info.Size ≤ c.maxFileBytes ∧
      ∃ h, p.sha256 = some h ∧ hashStep c info p e = { e with SHA256 := h }) := by
  unfold hashStep
  by_cases h1 : c.hashFiles = true ∧ info.Size ≤ c.maxFileBytes
  · rw [if_pos h1]
    cases hs : p.sha256 with
    | none => left; rfl
    | some h => right; exact ⟨h1.1, h1.2, h, rfl, rfl⟩
  · rw [if_neg h1]; left; rfl

/-- The copy step, case by case. -/
theorem copyStep_cases (c : WalkConfig) (path : String) (info : FileInfo) (p : Probe)
    (e : snapshotEntry) (st : WalkState) :
    (info.Size > c.maxFileBytes ∧
      copyStep c path info p e st = (encode st { e with CopyReason := "file_too_large" }, none)) ∨
    (info.Size ≤ c.maxFileBytes ∧ wrapInt64 (st.totalCopied + info.Size) > c.maxTotalBytes ∧
      copyStep c path info p e st =
        (encode st { e with CopyReason := "total_limit" }, some .stopWalk)) ∨
    (info.Size ≤ c.maxFileBytes ∧ wrapInt64 (st.totalCopied + info.Size) ≤ c.maxTotalBytes ∧
      ((st.tarOpen = false ∧ c.openTarOk = false ∧
          copyStep c path info p e st = (st, some .openTar)) ∨
       ((st.tarOpen = true ∨ c.openTarOk = true) ∧
        (((p.openOk = false ∨ p.headerOk = false) ∧
            copyStep c path info p e st = (encode { st with tarOpen := true } e, none)) ∨
         (p.openOk = true ∧ p.headerOk = true ∧ p.copyOk = false ∧
            copyStep c path info p e st =
              (encode { st with
                  tarOpen := true,
                  archive := st.archive ++ [tarHeader path info false] } e, none)) ∨
         (p.openOk = true ∧ p.headerOk = true ∧ p.copyOk = true ∧
            copyStep c path info p e st =
              (encode { st with
                  tarOpen := true,
                  archive := st.archive ++ [tarHeader path info true],
                  totalCopied := wrapInt64 (st.totalCopied + info.Size) }
                { e with Copied := true }, none)))))) := by
  unfold copyStep
  by_cases h1 : info.Size > c.maxFileBytes
  · left; exact ⟨h1, by rw [if_pos h1]⟩
  rw [if_neg h1]
  right
  by_cases h2 : wrapInt64 (st.totalCopied + info.Size) > c.maxTotalBytes
  · left; exact ⟨by omega, h2, by rw [if_pos h2]⟩
  rw [if_neg h2]
  right
  refine ⟨by omega, by omega, ?_⟩
  by_cases h3 : st.tarOpen = false ∧ c.openTarOk = false
  · left; exact ⟨h3.1, h3.2, by rw [if_pos h3]⟩
  rw [if_neg h3]
  right
  have h3a : st.tarOpen = true ∨ c.openTarOk = true := by
    cases ht : st.tarOpen
    · cases ho : c.openTarOk
      · exact absurd ⟨ht, ho⟩ h3
      · exact Or.inr rfl
    · exact Or.inl rfl
  refine ⟨h3a, ?_⟩
  simp only
  by_cases h4 : p.openOk = false
  · left; exact ⟨Or.inl h4, by rw [if_pos h4]⟩
  rw [if_neg h4]
  by_cases h5 : p.headerOk = false
  · left; exact ⟨Or.inr h5, by rw [if_pos h5]⟩
  rw [if_neg h5]
  right
  by_cases h6 : p.copyOk = true
  · right; exact ⟨by simpa using h4, by simpa using h5, h6, by rw [if_pos h6]⟩
  · left; exact ⟨by simpa using h4, by simpa using h5, by simpa using h6, by rw [if_neg h6]⟩

theorem fileEntry_facts (c : WalkConfig) (path : String) (info : FileInfo) (p : Probe) :
    (fileEntry c path info p).Path = path ∧ (fileEntry c path info p).Type_ = "file" ∧
    (fileEntry c path info p).SizeBytes = info.Size ∧
    (fileEntry c path info p).Copied = false ∧ (fileEntry c path info p).CopyReason = "" ∧
    ((fileEntry c path info p).SHA256 ≠ "" → c.hashFiles = true ∧ info.Size ≤ c.maxFileBytes) := by
  unfold fileEntry
  rcases hashStep_cases c info p { baseEntry path info with Type_ := "file" } with h | ⟨h1, h2, s, -, h⟩
  · rw [h]
    exact ⟨rfl, rfl, rfl, rfl, rfl, fun hne => absurd rfl hne⟩
  · rw [h]
    exact ⟨rfl, rfl, rfl, rfl, rfl, fun _ => ⟨h1, h2⟩⟩

/-- An entry recorded without a copy and without a copy reason. -/
theorem recorded_plain (c : WalkConfig) (path : String) (st st1 : WalkState) (e : snapshotEntry)
    (hex : isExcluded path = false) (hlim : st.filesSeen < c.maxFiles)
    (hseen : st1.filesSeen = st.filesSeen + 1) (hpath : e.Path = path)
    (hsha : e.SHA256 ≠ "" → e.Type_ = "file" ∧ c.hashFiles = true ∧ e.SizeBytes ≤ c.maxFileBytes)
    (hcop : e.Copied = false) (hreason : e.CopyReason = "")
    (htotal : st1.totalCopied = st.totalCopied)
    (harch : st1.archive = st.archive ∨
      ∃ m : TarMember, m.complete = false ∧ st1.archive = st.archive ++ [m]) :
    Recorded c path st e st1 none := by
  refine ⟨hex, hlim, hseen, hpath, hsha, ?_, fun _ => ⟨htotal, harch⟩, Or.inl hreason, ?_, ?_,
    Or.inl rfl, ?_⟩
  · intro h; rw [hcop] at h; cases h
  · intro h; rw [hreason] at h; exact absurd h (by decide)
  · intro h; rw [hreason] at h; exact absurd h (by decide)
  · intro h; cases h

/-- One call of the callback either records nothing or records one entry, with
the walk variables and the return value as `PassedOver` and `Recorded` say. -/
theorem visit_step (c : WalkConfig) (path : String) (d : Bool) (p : Probe) (st : WalkState) :
    PassedOver c st (visit c path d p st).1 (visit c path d p st).2 ∨
    ∃ e, (visit c path d p st).1.entries = st.entries ++ [e] ∧
      Recorded c path st e (visit c path d p st).1 (visit c path d p st).2 := by
  rcases visit_cases c path d p st with ⟨-, hv⟩ | ⟨hex, hlim, ⟨-, hv⟩ | ⟨info, -, hrest⟩⟩
  · left
    rw [hv]
    refine ⟨rfl, rfl, rfl, rfl, Or.inl rfl, ?_⟩
    cases d <;> simp
  · left
    rw [hv]
    exact ⟨rfl, rfl, rfl, rfl, Or.inr ⟨hlim, rfl⟩, by simp⟩
  · obtain ⟨f1, f2, f3, f4, f5, f6⟩ := fileEntry_facts c path info p
    have hsha : ∀ e : snapshotEntry, e.SHA256 = (fileEntry c path info p).SHA256 →
        e.Type_ = "file" → e.SizeBytes = info.Size →
        (e.SHA256 ≠ "" → e.Type_ = "file" ∧ c.hashFiles = true ∧ e.SizeBytes ≤ c.maxFileBytes) := by
      intro e h1 h2 h3 h
      rw [h1] at h
      exact ⟨h2, (f6 h).1, by rw [h3]; exact (f6 h).2⟩
    rcases hrest with ⟨t, ht, hv⟩ | ⟨-, hmode, hv⟩ | ⟨-, hmode, hv⟩
    · right
      rw [hv]
      exact ⟨typedEntry path info t, rfl,
        recorded_plain c path st _ _ hex hlim rfl rfl (fun h => absurd rfl h) rfl rfl rfl
          (Or.inl rfl)⟩
    · right
      rw [hv]
      exact ⟨fileEntry c path info p, rfl,
        recorded_plain c path st _ _ hex hlim rfl f1 (hsha _ rfl f2 f3) f4 f5 rfl (Or.inl rfl)⟩
    · rw [hv]
      rcases copyStep_cases c path info p (fileEntry c path info p) (counted st) with
        ⟨hbig, hc⟩ | ⟨hfit, hover, hc⟩ |
        ⟨hfit, hunder, ⟨-, -, hc⟩ | ⟨-, ⟨-, hc⟩ | ⟨-, -, -, hc⟩ | ⟨-, -, -, hc⟩⟩⟩
      · right
        rw [hc]
        refine ⟨{ fileEntry c path info p with CopyReason := "file_too_large" }, rfl, hex, hlim,
          rfl, f1, hsha _ rfl f2 f3, ?_, fun _ => ⟨rfl, Or.inl rfl⟩, Or.inr (Or.inl rfl), ?_, ?_,
          Or.inl rfl, ?_⟩
        · intro h; exact absurd (f4.symm.trans h) (by decide)
        · intro _; exact ⟨f2, hmode, by rw [← f3] at hbig; exact hbig, f4, rfl, rfl⟩
        · intro h; exact absurd (show "file_too_large" = "total_limit" from h) (by decide)
        · intro h; cases h
      · right
        rw [hc]
        refine ⟨{ fileEntry c path info p with CopyReason := "total_limit" }, rfl, hex, hlim,
          rfl, f1, hsha _ rfl f2 f3, ?_, fun _ => ⟨rfl, Or.inl rfl⟩, Or.inr (Or.inr rfl), ?_, ?_,
          Or.inr rfl, fun _ => rfl⟩
        · intro h; exact absurd (f4.symm.trans h) (by decide)
        · intro h; exact absurd (show "total_limit" = "file_too_large" from h) (by decide)
        · intro _
          exact ⟨f2, hmode, by rw [← f3] at hfit; exact hfit, by rw [← f3] at hover; exact hover,
            f4, rfl, rfl⟩
      · left
        rw [hc]
        exact ⟨rfl, rfl, rfl, rfl, Or.inr ⟨hlim, rfl⟩, by simp⟩
      · right
        rw [hc]
        exact ⟨fileEntry c path info p, rfl,
          recorded_plain c path st _ _ hex hlim rfl f1 (hsha _ rfl f2 f3) f4 f5 rfl (Or.inl rfl)⟩
      · right
        rw [hc]
        exact ⟨fileEntry c path info p, rfl,
          recorded_plain c path st _ _ hex hlim rfl f1 (hsha _ rfl f2 f3) f4 f5 rfl
            (Or.inr ⟨tarHeader path info false, rfl, rfl⟩)⟩
      · right
        rw [hc]
        refine ⟨{ fileEntry c path info p with Copied := true }, rfl, hex, hlim, rfl, f1,
          hsha _ rfl f2 f3, ?_, ?_, Or.inl f5, ?_, ?_, Or.inl rfl, ?_⟩
        · intro _
          exact ⟨f2, hmode, by rw [← f3] at hfit; exact hfit, f5,
            by rw [← f3] at hunder; exact hunder,
            by rw [← f3]; rfl, tarHeader path info true, rfl, f3.symm, rfl, rfl⟩
        · intro h; cases h
        · intro h; exact absurd (f5.symm.trans h) (by decide)
        · intro h; exact absurd (f5.symm.trans h) (by decide)
        · intro h; cases h

/-- Every entry of the stream `Collect` writes was recorded by a call of the
callback, so a property that every recorded entry has holds of all of them. -/
theorem collect_entries (opts : SnapshotOptions) (env : CollectEnv) (P : snapshotEntry → Prop)
    (h : ∀ path st e st1 r, Recorded (walkConfig opts env.openTarOk) path st e st1 r → P e) :
    ∀ e ∈ (Collect opts env).walk.entries, P e := by
  refine collect_invariant opts env (fun st => ∀ e ∈ st.entries, P e) ?_ ?_
  · intro e he; simp [initWalk] at he
  · intro path d p st hst e he
    rcases visit_step (walkConfig opts env.openTarOk) path d p st with hp | ⟨e1, he1, hrec⟩
    · rw [hp.1] at he; exact hst e he
    · rw [he1] at he
      rcases List.mem_append.1 he with hm | hm
      · exact hst e hm
      · have : e = e1 := List.mem_singleton.1 hm
        rw [this]
        exact h path st e1 _ _ hrec

/-- The counter of objects never passes the limit, and the stream never holds
more entries than objects were counted. -/
theorem collect_counts (opts : SnapshotOptions) (env : CollectEnv) :
    (Collect opts env).walk.filesSeen ≤ (walkConfig opts env.openTarOk).maxFiles ∧
    ((Collect opts env).walk.entries.length : Int) ≤ (Collect opts env).walk.filesSeen := by
  refine collect_invariant opts env
    (fun st => st.filesSeen ≤ (walkConfig opts env.openTarOk).maxFiles ∧
      (st.entries.length : Int) ≤ st.filesSeen) ?_ ?_
  · constructor
    · simp only [initWalk, walkConfig]
      split_ifs <;> omega
    · simp [initWalk]
  · intro path d p st hst
    rcases visit_step (walkConfig opts env.openTarOk) path d p st with hp | ⟨e1, he1, hrec⟩
    · rw [hp.1]
      rcases hp.2.2.2.2.1 with h | ⟨h1, h2⟩
      · rw [h]; exact hst
      · rw [h2]; exact ⟨by omega, by omega⟩
    · rw [he1, hrec.2.2.1]
      have := hrec.2.1
      simp only [List.length_append, List.length_singleton, Nat.cast_add, Nat.cast_one]
      exact ⟨by omega, by omega⟩

/-- Once the limit on objects is reached, the walk of any tree leaves the walk
variables as they are and reports no error: a directory is pruned, any other
object is passed over. -/
theorem walkDir_at_limit (c : WalkConfig) (path : String) (n : Node) (st : WalkState)
    (h : st.filesSeen ≥ c.maxFiles) : walkDir c path n st = (st, none) := by
  cases n with
  | mk name isDir probe children =>
    have hv : visit c path isDir probe st = (st, if isDir = true then some .skipDir else none) := by
      rcases visit_cases c path isDir probe st with ⟨-, hv⟩ | ⟨-, hlim, -⟩
      · exact hv
      · omega
    rw [walkDir, hv]
    cases isDir <;> simp

/-- An excluded path is passed over and, when it is a directory, pruned. -/
theorem walkDir_excluded (c : WalkConfig) (path : String) (n : Node) (st : WalkState)
    (h : isExcluded path = true) : walkDir c path n st = (st, none) := by
  cases n with
  | mk name isDir probe children =>
    have hv : visit c path isDir probe st = (st, if isDir = true then some .skipDir else none) := by
      rcases visit_cases c path isDir probe st with ⟨-, hv⟩ | ⟨hex, -, -⟩
      · exact hv
      · rw [h] at hex; cases hex
    rw [walkDir, hv]
    cases isDir <;> simp

/-- The callback returns the error of `openTar` only when creating the archive
fails. -/
theorem visit_openTar (c : WalkConfig) (path : String) (d : Bool) (p : Probe) (st : WalkState)
    (h : (visit c path d p st).2 = some .openTar) : c.openTarOk = false := by
  rcases visit_cases c path d p st with ⟨-, hv⟩ | ⟨-, -, ⟨-, hv⟩ | ⟨info, -, hrest⟩⟩
  · rw [hv] at h; cases d <;> simp at h
  · rw [hv] at h; cases h
  · rcases hrest with ⟨t, -, hv⟩ | ⟨-, -, hv⟩ | ⟨-, -, hv⟩
    · rw [hv] at h; cases h
    · rw [hv] at h; cases h
    · rw [hv] at h
      rcases copyStep_cases c path info p (fileEntry c path info p) (counted st) with
        ⟨-, hc⟩ | ⟨-, -, hc⟩ | ⟨-, -, ⟨-, ho, -⟩ | ⟨-, ⟨-, hc⟩ | ⟨-, -, -, hc⟩ | ⟨-, -, -, hc⟩⟩⟩
      · rw [hc] at h; cases h
      · rw [hc] at h; cases h
      · exact ho
      · rw [hc] at h; cases h
      · rw [hc] at h; cases h
      · rw [hc] at h; cases h

theorem walkDir_openTar (c : WalkConfig) (path : String) (n : Node) (st : WalkState)
    (hok : c.openTarOk = true) : (walkDir c path n st).2 ≠ some .openTar := by
  refine walkDir_post c (fun _ => True) (fun _ r => r ≠ some .openTar) ?_ ?_ ?_ ?_ path n st trivial
  · intro path d p st _ h
    have := visit_openTar c path d p st h
    rw [hok] at this; cases this
  · intro _ _ h; cases h
  · intro _ _; trivial
  · intro _ _; trivial

/-- Without cancellation and with an archive that can be created, the loop over
the roots ends without an error. -/
theorem walkRoots_no_error (c : WalkConfig) (env : CollectEnv)
    (hctx : ∀ i, env.ctxDone i = false) (hok : c.openTarOk = true) :
    ∀ (roots : List String) (i : Nat) (st : WalkState), (walkRoots c env i roots st).2 = none
  | [], i, st => by rw [walkRoots]
  | root :: rest, i, st => by
    rw [walkRoots, if_neg (by rw [hctx i]; simp)]
    by_cases h2 : root = ""
    · rw [if_pos h2]; exact walkRoots_no_error c env hctx hok rest (i + 1) st
    rw [if_neg h2]
    by_cases h3 : isExcluded root = true
    · rw [if_pos h3]; exact walkRoots_no_error c env hctx hok rest (i + 1) st
    rw [if_neg h3]
    cases hl : env.lstat i with
    | none => exact walkRoots_no_error c env hctx hok rest (i + 1) st
    | some node =>
      have hw := walkDir_openTar c root node st hok
      simp only
      rcases hwd : walkDir c root node st with ⟨st1, _ | e⟩
      · exact walkRoots_no_error c env hctx hok rest (i + 1) st1
      · rw [hwd] at hw
        cases e with
        | skipDir => exact walkRoots_no_error c env hctx hok rest (i + 1) st1
        | stopWalk => rfl
        | openTar => exact absurd rfl hw

/-- When at least one object was counted, the context was never done, the
archive could be created and the metadata file could be hashed, `Collect`
returns its artifacts, the metadata artifact first. -/
theorem collect_ok (opts : SnapshotOptions) (env : CollectEnv)
    (hseen : (Collect opts env).walk.filesSeen ≠ 0)
    (hctx : ∀ i, env.ctxDone i = false) (hok : env.openTarOk = true)
    (hsum : env.metaSum ≠ none) :
    ∃ a rest, (Collect opts env).result = .ok (a :: rest) ∧
      a.RelativePath = "snapshot/metadata.jsonl" ∧ (Collect opts env).metaCreated = true := by
  have hne := walkRoots_no_error (walkConfig opts env.openTarOk) env hctx hok opts.Paths 0 initWalk
  simp only [Collect] at hseen ⊢
  split_ifs at hseen ⊢ with h1 h2 h3
  · exact absurd rfl hseen
  · exact absurd rfl hseen
  · exact absurd rfl hseen
  · rcases hwr : walkRoots (walkConfig opts env.openTarOk) env 0 opts.Paths initWalk with
      ⟨st, _ | e⟩
    · rw [hwr] at hseen
      simp only at hseen ⊢
      unfold finish
      rw [if_neg hseen]
      cases hms : env.metaSum with
      | none => exact absurd hms hsum
      | some x =>
        obtain ⟨sha, size⟩ := x
        simp only
        by_cases ht : st.tarOpen = true
        · rw [if_pos ht]
          cases env.tgzSum with
          | none => exact ⟨_, _, rfl, rfl, trivial⟩
          | some y => exact ⟨_, _, rfl, rfl, trivial⟩
        · rw [if_neg ht]
          exact ⟨_, _, rfl, rfl, trivial⟩
    · rw [hwr] at hne; cases hne

/-- Every member of the archive is within the per-file budget. -/
theorem collect_archive_sizes (opts : SnapshotOptions) (env : CollectEnv) :
    ∀ m ∈ (Collect opts env).walk.archive, m.Size ≤ (walkConfig opts env.openTarOk).maxFileBytes := by
  refine collect_invariant opts env
    (fun st => ∀ m ∈ st.archive, m.Size ≤ (walkConfig opts env.openTarOk).maxFileBytes) ?_ ?_
  · intro m hm; cases hm
  · intro path d p st hinv
    rcases visit_cases (walkConfig opts env.openTarOk) path d p st with
      ⟨-, hv⟩ | ⟨-, -, ⟨-, hv⟩ | ⟨info, -, hrest⟩⟩
    · rw [hv]; exact hinv
    · rw [hv]; exact hinv
    · rcases hrest with ⟨t, -, hv⟩ | ⟨-, -, hv⟩ | ⟨-, -, hv⟩
      · rw [hv]; exact hinv
      · rw [hv]; exact hinv
      · rw [hv]
        rcases copyStep_cases (walkConfig opts env.openTarOk) path info p
            (fileEntry (walkConfig opts env.openTarOk) path info p) (counted st) with
          ⟨-, hc⟩ | ⟨-, -, hc⟩ | ⟨hsz, -, ⟨-, -, hc⟩ | ⟨-, ⟨-, hc⟩ | ⟨-, -, -, hc⟩ | ⟨-, -, -, hc⟩⟩⟩
        · rw [hc]; exact hinv
        · rw [hc]; exact hinv
        · rw [hc]; exact hinv
        · rw [hc]; exact hinv
        · rw [hc]
          intro m hm
          rcases List.mem_append.mp hm with h | h
          · exact hinv m h
          · rw [List.mem_singleton.mp h]; exact hsz
        · rw [hc]
          intro m hm
          rcases List.mem_append.mp hm with h | h
          · exact hinv m h
          · rw [List.mem_singleton.mp h]; exact hsz

/-- An object that is not a regular file, or a regular file over the per-file
budget, is recorded without a digest, is not copied and leaves the archive and
`totalCopied` alone. -/
theorem visit_not_hashed_not_copied (c : WalkConfig) (path : String) (d : Bool) (p : Probe)
    (st : WalkState) (info : FileInfo) (hinfo : p.info = some info)
    (h : ¬ isRegularFile info ∨ info.Size > c.maxFileBytes) :
    (visit c path d p st).1.archive = st.archive ∧
    (visit c path d p st).1.totalCopied = st.totalCopied ∧
    ((visit c path d p st).1.entries = st.entries ∨
      ∃ e, (visit c path d p st).1.entries = st.entries ++ [e] ∧ e.Path = path ∧
        e.SizeBytes = info.Size ∧ e.SHA256 = "" ∧ e.Copied = false) := by
  rcases visit_cases c path d p st with ⟨-, hv⟩ | ⟨-, -, ⟨hn, hv⟩ | ⟨info1, hi, hrest⟩⟩
  · rw [hv]; exact ⟨rfl, rfl, Or.inl rfl⟩
  · rw [hv]; exact ⟨rfl, rfl, Or.inl rfl⟩
  · have hii : info1 = info := by rw [hinfo] at hi; injection hi with hi; exact hi.symm
    subst hii
    have hf := fileEntry_facts c path info1 p
    have hsha : info1.Size > c.maxFileBytes → (fileEntry c path info1 p).SHA256 = "" := by
      intro hbig
      by_contra hne
      have := (hf.2.2.2.2.2 hne).2
      omega
    rcases hrest with ⟨t, -, hv⟩ | ⟨hreg, -, hv⟩ | ⟨hreg, -, hv⟩
    · rw [hv]; exact ⟨rfl, rfl, Or.inr ⟨_, rfl, rfl, rfl, rfl, rfl⟩⟩
    · rcases h with h | h
      · exact absurd hreg h
      · rw [hv]
        exact ⟨rfl, rfl, Or.inr ⟨_, rfl, hf.1, hf.2.2.1, hsha h, hf.2.2.2.1⟩⟩
    · rcases h with h | h
      · exact absurd hreg h
      · rw [hv]
        rcases copyStep_cases c path info1 p (fileEntry c path info1 p) (counted st) with
          ⟨-, hc⟩ | ⟨hsz, -⟩ | ⟨hsz, -⟩
        · rw [hc]
          exact ⟨rfl, rfl, Or.inr ⟨_, rfl, hf.1, hf.2.2.1, hsha h, hf.2.2.2.1⟩⟩
        · omega
        · omega

/-- Once the limit on objects is reached the loop over the roots changes nothing
any more; it ends without an error unless the context is done. -/
theorem walkRoots_at_limit (c : WalkConfig) (env : CollectEnv) :
    ∀ (roots : List String) (i : Nat) (st : WalkState), st.filesSeen ≥ c.maxFiles →
      (walkRoots c env i roots st).1 = st ∧
      ((walkRoots c env i roots st).2 = none ∨ (walkRoots c env i roots st).2 = some .cancelled)
  | [], i, st, _ => by rw [walkRoots]; exact ⟨rfl, Or.inl rfl⟩
  | root :: rest, i, st, h => by
    rw [walkRoots]
    by_cases h1 : env.ctxDone i = true
    · rw [if_pos h1]; exact ⟨rfl, Or.inr rfl⟩
    rw [if_neg h1]
    by_cases h2 : root = ""
    · rw [if_pos h2]; exact walkRoots_at_limit c env rest (i + 1) st h
    rw [if_neg h2]
    by_cases h3 : isExcluded root = true
    · rw [if_pos h3]; exact walkRoots_at_limit c env rest (i + 1) st h
    rw [if_neg h3]
    cases hl : env.lstat i with
    | none => exact walkRoots_at_limit c env rest (i + 1) st h
    | some node =>
      simp only
      rw [walkDir_at_limit c root node st h]
      exact walkRoots_at_limit c env rest (i + 1) st h

/-- A string has a prefix exactly when it is the prefix followed by a rest. -/
theorem HasPrefix_iff (s pre : String) :
    HasPrefix s pre = true ↔ ∃ rest : String, s = pre ++ rest := by
  unfold HasPrefix
  simp only [Bool.and_eq_true, decide_eq_true_eq]
  constructor
  · rintro ⟨-, h⟩
    refine ⟨String.mk (s.data.drop pre.data.length), ?_⟩
    apply String.ext
    have := List.take_append_drop pre.data.length s.data
    rw [h] at this
    rw [String.data_append]
    exact this.symm
  · rintro ⟨rest, rfl⟩
    rw [String.data_append]
    exact ⟨by simp, by simp⟩

/-- The paths `isExcluded` answers true for: those whose cleaned form is one of
the four roots or one of them followed by the separator and a rest. -/
theorem isExcluded_iff (path : String) :
    isExcluded path = true ↔
      ∃ e ∈ ["/proc", "/sys", "/dev", "/run"],
        filepathClean path = e ∨ ∃ rest : String, filepathClean path = e ++ "/" ++ rest := by
  unfold isExcluded
  simp only [List.any_eq_true, Bool.or_eq_true, beq_iff_eq, HasPrefix_iff]

theorem sumCopied_append (l : List snapshotEntry) (e : snapshotEntry) :
    sumCopied (l ++ [e]) = sumCopied l + (if e.Copied = true then e.SizeBytes else 0) := by
  induction l with
  | nil => simp [sumCopied]
  | cons a l ih =>
    show (if a.Copied = true then a.SizeBytes else 0) + sumCopied (l ++ [e]) = _
    rw [ih, sumCopied, add_assoc]

/-- A value within the range of `int64` is what the computation yields. -/
theorem wrapInt64_of_range (x : Int) (h1 : -9223372036854775808 ≤ x)
    (h2 : x < 9223372036854775808) : wrapInt64 x = x := by
  unfold wrapInt64
  norm_num
  omega

/-- A call of the callback that records an entry with the reason `total_limit`
leaves the archive and `totalCopied` as they were, and the entry is not copied. -/
theorem visit_total_limit (c : WalkConfig) (path : String) (d : Bool) (p : Probe)
    (st : WalkState) (e : snapshotEntry)
    (hent : (visit c path d p st).1.entries = st.entries ++ [e])
    (hreason : e.CopyReason = "total_limit") :
    e.Copied = false ∧ (visit c path d p st).1.archive = st.archive ∧
    (visit c path d p st).1.totalCopied = st.totalCopied ∧
    (visit c path d p st).2 = some .stopWalk := by
  rcases visit_step c path d p st with hp | ⟨e1, he1, hrec⟩
  · have := congrArg List.length (hp.1.symm.trans hent)
    simp at this
  · have hee : e1 = e := by
      have := he1.symm.trans hent
      simpa using this
    subst hee
    have h := hrec.2.2.2.2.2.2.2.2.2.1 hreason
    exact ⟨h.2.2.2.2.1, h.2.2.2.2.2.1, (hrec.2.2.2.2.2.2.1 h.2.2.2.2.1).1, h.2.2.2.2.2.2⟩

/-- When the two budgets together stay within the range of `int64`, every call
of the callback keeps `totalCopied` equal to the sum of the copied sizes and
within the total budget. -/
theorem visit_within_budget (c : WalkConfig)
    (hno : c.maxFileBytes + c.maxTotalBytes < 9223372036854775808)
    (path : String) (d : Bool) (p : Probe) (st : WalkState) (h : WithinBudget c st) :
    WithinBudget c (visit c path d p st).1 := by
  rcases visit_step c path d p st with hp | ⟨e, he, hrec⟩
  · intro hall
    rw [hp.1] at hall
    rw [hp.1, hp.2.1]
    exact h hall
  · intro hall
    rw [he] at hall
    have hst := h (fun x hx => hall x (List.mem_append_left _ hx))
    have hsz : 0 ≤ e.SizeBytes := hall e (List.mem_append_right _ (List.mem_singleton.mpr rfl))
    rw [he, sumCopied_append]
    cases hc : e.Copied with
    | false =>
      rw [(hrec.2.2.2.2.2.2.1 hc).1]
      simp only [Bool.false_eq_true, if_false, add_zero]
      exact hst
    | true =>
      have hcp := hrec.2.2.2.2.2.1 hc
      have hw : wrapInt64 (st.totalCopied + e.SizeBytes) = st.totalCopied + e.SizeBytes :=
        wrapInt64_of_range _ (by omega) (by omega)
      rw [hcp.2.2.2.2.2.1, hw]
      simp only [if_true]
      have := hcp.2.2.2.2.1
      rw [hw] at this
      refine ⟨by rw [hst.1], by omega, this⟩

/-- Every member of the archive was written by the call of the callback that
recorded an entry of type file with an empty copy reason; the member is complete
exactly when that entry is copied. -/
theorem collect_archive_origin (opts : SnapshotOptions) (env : CollectEnv) :
    ∀ m ∈ (Collect opts env).walk.archive, ∃ e ∈ (Collect opts env).walk.entries,
      e.CopyReason = "" ∧ e.Type_ = "file" ∧ m.Name = TrimPrefix (filepathClean e.Path) "/" ∧
      m.Size = e.SizeBytes ∧ m.complete = e.Copied := by
  refine collect_invariant opts env
    (fun st => ∀ m ∈ st.archive, ∃ e ∈ st.entries,
      e.CopyReason = "" ∧ e.Type_ = "file" ∧ m.Name = TrimPrefix (filepathClean e.Path) "/" ∧
      m.Size = e.SizeBytes ∧ m.complete = e.Copied) ?_ ?_
  · intro m hm; cases hm
  · intro path d p st hinv
    have hgrow : ∀ (st1 : WalkState) (x : snapshotEntry), st1.archive = st.archive →
        st1.entries = st.entries ++ [x] →
        ∀ m ∈ st1.archive, ∃ e ∈ st1.entries,
          e.CopyReason = "" ∧ e.Type_ = "file" ∧ m.Name = TrimPrefix (filepathClean e.Path) "/" ∧
          m.Size = e.SizeBytes ∧ m.complete = e.Copied := by
      intro st1 x ha he m hm
      rw [ha] at hm
      obtain ⟨e, hmem, hrest⟩ := hinv m hm
      exact ⟨e, by rw [he]; exact List.mem_append_left _ hmem, hrest⟩
    rcases visit_cases (walkConfig opts env.openTarOk) path d p st with
      ⟨-, hv⟩ | ⟨-, -, ⟨-, hv⟩ | ⟨info, -, hrest⟩⟩
    · rw [hv]; exact hinv
    · rw [hv]; exact hinv
    · have hf := fileEntry_facts (walkConfig opts env.openTarOk) path info p
      rcases hrest with ⟨t, -, hv⟩ | ⟨-, -, hv⟩ | ⟨-, -, hv⟩
      · rw [hv]; exact hgrow _ _ rfl rfl
      · rw [hv]; exact hgrow _ _ rfl rfl
      · rw [hv]
        rcases copyStep_cases (walkConfig opts env.openTarOk) path info p
            (fileEntry (walkConfig opts env.openTarOk) path info p) (counted st) with
          ⟨-, hc⟩ | ⟨-, -, hc⟩ | ⟨-, -, ⟨-, -, hc⟩ | ⟨-, ⟨-, hc⟩ | ⟨-, -, -, hc⟩ | ⟨-, -, -, hc⟩⟩⟩
        · rw [hc]; exact hgrow _ _ rfl rfl
        · rw [hc]; exact hgrow _ _ rfl rfl
        · rw [hc]; exact hinv
        · rw [hc]; exact hgrow _ _ rfl rfl
        · rw [hc]
          intro m hm
          rcases List.mem_append.mp hm with h | h
          · obtain ⟨e, hmem, hrest⟩ := hinv m h
            exact ⟨e, List.mem_append_left _ hmem, hrest⟩
          · rw [List.mem_singleton.mp h]
            exact ⟨_, List.mem_append_right _ (List.mem_singleton.mpr rfl), hf.2.2.2.2.1, hf.2.1,
              by rw [hf.1]; rfl, hf.2.2.1.symm, hf.2.2.2.1.symm⟩
        · rw [hc]
          intro m hm
          rcases List.mem_append.mp hm with h | h
          · obtain ⟨e, hmem, hrest⟩ := hinv m h
            exact ⟨e, List.mem_append_left _ hmem, hrest⟩
          · rw [List.mem_singleton.mp h]
            exact ⟨_, List.mem_append_right _ (List.mem_singleton.mpr rfl), hf.2.2.2.2.1, hf.2.1,
              by rw [hf.1]; rfl, hf.2.2.1.symm, rfl⟩

/-- The callback hands a regular file in copy mode to the copy step. -/
theorem visit_regular_copy (c : WalkConfig) (path : String) (d : Bool) (p : Probe)
    (st : WalkState) (info : FileInfo) (hex : isExcluded path = false)
    (hlim : st.filesSeen < c.maxFiles) (hinfo : p.info = some info) (hreg : isRegularFile info)
    (hmode : c.mode = "copy") :
    visit c path d p st = copyStep c path info p (fileEntry c path info p) (counted st) := by
  unfold visit
  rw [if_neg (by rw [hex]; simp), if_neg (by omega), hinfo]
  simp only
  rw [if_neg (not_not.mpr hreg.1), if_neg (not_not.mpr hreg.2.1), if_neg (not_not.mpr hreg.2.2),
    if_pos hmode]
  rfl

/-- The callback records a directory with its type and nothing else. -/
theorem visit_dir (c : WalkConfig) (path : String) (d : Bool) (p : Probe) (st : WalkState)
    (info : FileInfo) (hex : isExcluded path = false) (hlim : st.filesSeen < c.maxFiles)
    (hinfo : p.info = some info) (hsym : info.Mode &&& ModeSymlink = 0)
    (hdir : info.Mode &&& ModeDir ≠ 0) :
    visit c path d p st = (encode (counted st) (typedEntry path info "dir"), none) := by
  unfold visit
  rw [if_neg (by rw [hex]; simp), if_neg (by omega), hinfo]
  simp only
  rw [if_neg (not_not.mpr hsym), if_pos hdir]
  rfl

/-- During the walk of a tree no entry has the copy reason `total_limit` until
the callback returns `errStopWalk`, and then the walk ends with the variables
that call left. -/
theorem walkDir_stop (c : WalkConfig) (path : String) (n : Node) (st : WalkState)
    (h : NoTotalLimit st.entries) :
    ((walkDir c path n st).2 = some .stopWalk → StoppedAt c (walkDir c path n st).1) ∧
    ((walkDir c path n st).2 ≠ some .stopWalk → NoTotalLimit (walkDir c path n st).1.entries) := by
  refine walkDir_post c (fun st => NoTotalLimit st.entries)
    (fun st r => (r = some .stopWalk → StoppedAt c st) ∧
      (r ≠ some .stopWalk → NoTotalLimit st.entries)) ?_ ?_ ?_ ?_ path n st h
  · intro path d p st hinv
    rcases visit_step c path d p st with hp | ⟨e, he, hrec⟩
    · refine ⟨fun hr => absurd hr hp.2.2.2.2.2, fun _ => ?_⟩
      rw [hp.1]; exact hinv
    · refine ⟨fun hr => ⟨path, d, p, st, hinv, Prod.ext rfl hr⟩, fun hr => ?_⟩
      rw [he]
      intro x hx
      rcases List.mem_append.mp hx with hx | hx
      · exact hinv x hx
      · rw [List.mem_singleton.mp hx]
        intro hreason
        exact hr (hrec.2.2.2.2.2.2.2.2.2.1 hreason).2.2.2.2.2.2
  · intro st hinv
    exact ⟨fun hr => (by cases hr), fun _ => hinv⟩
  · intro st hq
    exact hq.2 (by simp)
  · intro st hq
    exact hq.2 (by simp)

/-- The same for the loop over the roots. -/
theorem walkRoots_stop (c : WalkConfig) (env : CollectEnv) :
    ∀ (roots : List String) (i : Nat) (st : WalkState), NoTotalLimit st.entries →
      NoTotalLimit (walkRoots c env i roots st).1.entries ∨ StoppedAt c (walkRoots c env i roots st).1
  | [], i, st, h => by rw [walkRoots]; exact Or.inl h
  | root :: rest, i, st, h => by
    rw [walkRoots]
    by_cases h1 : env.ctxDone i = true
    · rw [if_pos h1]; exact Or.inl h
    rw [if_neg h1]
    by_cases h2 : root = ""
    · rw [if_pos h2]; exact walkRoots_stop c env rest (i + 1) st h
    rw [if_neg h2]
    by_cases h3 : isExcluded root = true
    · rw [if_pos h3]; exact walkRoots_stop c env rest (i + 1) st h
    rw [if_neg h3]
    cases hl : env.lstat i with
    | none => exact walkRoots_stop c env rest (i + 1) st h
    | some node =>
      have hw := walkDir_stop c root node st h
      simp only
      rcases hwd : walkDir c root node st with ⟨st1, _ | e⟩
      · rw [hwd] at hw
        exact walkRoots_stop c env rest (i + 1) st1 (hw.2 (by simp))
      · rw [hwd] at hw
        cases e with
        | skipDir => exact walkRoots_stop c env rest (i + 1) st1 (hw.2 (by simp))
        | stopWalk => exact Or.inr (hw.1 rfl)
        | openTar => exact Or.inl (hw.2 (by simp))

/-- The state `Collect` ends with has no entry with the copy reason
`total_limit`, or it is the state left by the call of the callback that
returned `errStopWalk`. -/
theorem collect_stop (opts : SnapshotOptions) (env : CollectEnv) :
    NoTotalLimit (Collect opts env).walk.entries ∨
    StoppedAt (walkConfig opts env.openTarOk) (Collect opts env).walk := by
  have h0 : NoTotalLimit initWalk.entries := by intro e he; cases he
  have hw := walkRoots_stop (walkConfig opts env.openTarOk) env opts.Paths 0 initWalk h0
  simp only [Collect]
  split_ifs
  · exact Or.inl h0
  · exact Or.inl h0
  · exact Or.inl h0
  · rcases hwr : walkRoots (walkConfig opts env.openTarOk) env 0 opts.Paths initWalk with
      ⟨st, _ | e⟩
    · rw [hwr] at hw; exact hw
    · rw [hwr] at hw; exact hw

/-- The call of the callback that returned `errStopWalk` recorded one entry,
with the copy reason `total_limit`. -/
theorem stoppedAt_entries (c : WalkConfig) (st : WalkState) (h : StoppedAt c st) :
    ∃ (l : List snapshotEntry) (e : snapshotEntry), NoTotalLimit l ∧
      e.CopyReason = "total_limit" ∧ e.Copied = false ∧ st.entries = l ++ [e] := by
  obtain ⟨path, d, p, st0, hno, hv⟩ := h
  rcases visit_step c path d p st0 with hp | ⟨e, he, hrec⟩
  · rw [hv] at hp
    exact absurd rfl hp.2.2.2.2.2
  · rw [hv] at he hrec
    have hreason := hrec.2.2.2.2.2.2.2.2.2.2.2 rfl
    exact ⟨st0.entries, e, hno, hreason, (hrec.2.2.2.2.2.2.2.2.2.1 hreason).2.2.2.2.1, he⟩

theorem totalLimitIsLast_of_stop (l : List snapshotEntry)
    (h : NoTotalLimit l ∨ ∃ l0 e, NoTotalLimit l0 ∧ l = l0 ++ [e]) : TotalLimitIsLast l := by
  intro i x hx hreason
  rcases h with h | ⟨l0, e, hno, hl⟩
  · exact absurd hreason (h x (List.getElem?_mem hx))
  · subst hl
    by_cases hi : i < l0.length
    · rw [List.getElem?_append_left hi] at hx
      exact absurd hreason (hno x (List.getElem?_mem hx))
    · have hlt : i < (l0 ++ [e]).length := by
        by_contra hge
        rw [List.getElem?_eq_none (by omega)] at hx
        cases hx
      simp at hlt ⊢
      omega

theorem copyableBytes_nonneg (c : WalkConfig) :
    ∀ files : List PlainFile, (∀ f ∈ files, 0 ≤ f.info.Size) → 0 ≤ copyableBytes c files
  | [], _ => le_refl _
  | f :: rest, h => by
    have h1 := copyableBytes_nonneg c rest (fun x hx => h x (List.mem_cons_of_mem _ hx))
    have h2 := h f (List.mem_cons_self _ _)
    rw [copyableBytes]
    split_ifs <;> omega

/-- The walk of a directory listing of readable regular files in copy mode with
hashing, when the files fit the limit on objects and those within the per-file
budget fit the total budget: every file is recorded as expected, those within
the per-file budget are copied to the archive in full, in the order of the
listing, and the walk ends without an error. -/
theorem walkEntries_files (c : WalkConfig) (root : String) (hmode : c.mode = "copy")
    (hhash : c.hashFiles = true) (hopen : c.openTarOk = true)
    (hmax : c.maxTotalBytes < 9223372036854775808) :
    ∀ (files : List PlainFile) (st : WalkState),
      (∀ f ∈ files, isRegularFile f.info ∧ 0 ≤ f.info.Size ∧
        isExcluded (filepathJoin [root, f.name]) = false) →
      st.filesSeen + files.length ≤ c.maxFiles → 0 ≤ st.totalCopied →
      st.totalCopied + copyableBytes c files ≤ c.maxTotalBytes →
      (walkEntries c root (files.map fileNode) st).2 = none ∧
      (walkEntries c root (files.map fileNode) st).1.entries =
        st.entries ++ files.map (expectedEntry c root) ∧
      (walkEntries c root (files.map fileNode) st).1.archive =
        st.archive ++ (files.filter (fun f => !tooLarge c f)).map (expectedMember root) ∧
      (walkEntries c root (files.map fileNode) st).1.filesSeen = st.filesSeen + files.length ∧
      (walkEntries c root (files.map fileNode) st).1.totalCopied =
        st.totalCopied + copyableBytes c files
  | [], st, _, _, _, _ => by
    simp [walkEntries, copyableBytes]
  | f :: rest, st, hall, hseen, htot, hfit => by
    obtain ⟨hreg, hsz, hex⟩ := hall f (List.mem_cons_self _ _)
    have hrest : ∀ x ∈ rest, isRegularFile x.info ∧ 0 ≤ x.info.Size ∧
        isExcluded (filepathJoin [root, x.name]) = false :=
      fun x hx => hall x (List.mem_cons_of_mem _ hx)
    have hnn := copyableBytes_nonneg c rest (fun x hx => (hrest x hx).2.1)
    simp only [List.length_cons, Nat.cast_add, Nat.cast_one] at hseen
    rw [copyableBytes] at hfit
    have hv := visit_regular_copy c (filepathJoin [root, f.name]) false
      { info := some f.info, sha256 := some f.digest, openOk := true, headerOk := true,
        copyOk := true } st f.info hex (by omega) rfl hreg hmode
    show (walkEntries c root (Node.mk f.name false _ [] :: rest.map fileNode) st).2 = none ∧
      (walkEntries c root (Node.mk f.name false _ [] :: rest.map fileNode) st).1.entries = _ ∧
      (walkEntries c root (Node.mk f.name false _ [] :: rest.map fileNode) st).1.archive = _ ∧
      (walkEntries c root (Node.mk f.name false _ [] :: rest.map fileNode) st).1.filesSeen = _ ∧
      (walkEntries c root (Node.mk f.name false _ [] :: rest.map fileNode) st).1.totalCopied = _
    rw [walkEntries, walkDir, hv]
    by_cases hbig : f.info.Size > c.maxFileBytes
    · have hstep : copyStep c (filepathJoin [root, f.name]) f.info
          { info := some f.info, sha256 := some f.digest, openOk := true, headerOk := true,
            copyOk := true }
          (fileEntry c (filepathJoin [root, f.name]) f.info
            { info := some f.info, sha256 := some f.digest, openOk := true, headerOk := true,
              copyOk := true }) (counted st) =
          (encode (counted st) (expectedEntry c root f), none) := by
        unfold copyStep
        rw [if_pos hbig]
        unfold fileEntry hashStep expectedEntry tooLarge
        rw [if_neg (by omega), if_pos (by simpa using hbig)]
        rfl
      rw [hstep]
      simp only [Bool.false_eq_true, if_false]
      have ht : tooLarge c f = true := by simpa [tooLarge] using hbig
      rw [ht] at hfit
      simp only [if_true, zero_add] at hfit
      obtain ⟨i1, i2, i3, i4, i5⟩ := walkEntries_files c root hmode hhash hopen hmax rest
        (encode (counted st) (expectedEntry c root f)) hrest
        (by show st.filesSeen + 1 + _ ≤ _; omega) htot hfit
      refine ⟨i1, ?_, ?_, ?_, ?_⟩
      · rw [i2]; simp [encode, counted]
      · rw [i3]; simp [encode, counted, ht]
      · rw [i4]; simp only [encode, counted, List.length_cons, Nat.cast_add, Nat.cast_one]; omega
      · rw [i5]; simp [encode, counted, copyableBytes, ht]
    · have ht : tooLarge c f = false := by simpa [tooLarge] using hbig
      rw [ht] at hfit
      simp only [Bool.false_eq_true, if_false] at hfit
      have hw : wrapInt64 ((counted st).totalCopied + f.info.Size) =
          st.totalCopied + f.info.Size :=
        wrapInt64_of_range _ (by show _ ≤ st.totalCopied + _; omega)
          (by show st.totalCopied + _ < _; omega)
      have hstep : copyStep c (filepathJoin [root, f.name]) f.info
          { info := some f.info, sha256 := some f.digest, openOk := true, headerOk := true,
            copyOk := true }
          (fileEntry c (filepathJoin [root, f.name]) f.info
            { info := some f.info, sha256 := some f.digest, openOk := true, headerOk := true,
              copyOk := true }) (counted st) =
          (encode
            { counted st with
              tarOpen := true,
              archive := st.archive ++ [expectedMember root f],
              totalCopied := wrapInt64 ((counted st).totalCopied + f.info.Size) }
            (expectedEntry c root f), none) := by
        unfold copyStep
        rw [if_neg hbig, if_neg (by rw [hw]; omega), if_neg (by rw [hopen]; simp)]
        simp only [Bool.true_eq_false, if_false, if_true]
        unfold fileEntry hashStep expectedEntry
        rw [if_pos ⟨hhash, by omega⟩, ht]
        rfl
      rw [hstep]
      simp only [Bool.false_eq_true, if_false]
      obtain ⟨i1, i2, i3, i4, i5⟩ := walkEntries_files c root hmode hhash hopen hmax rest
        (encode
          { counted st with
            tarOpen := true,
            archive := st.archive ++ [expectedMember root f],
            totalCopied := wrapInt64 ((counted st).totalCopied + f.info.Size) }
          (expectedEntry c root f)) hrest
        (by show st.filesSeen + 1 + _ ≤ _; omega)
        (by show 0 ≤ wrapInt64 ((counted st).totalCopied + f.info.Size); rw [hw]; omega)
        (by show wrapInt64 ((counted st).totalCopied + f.info.Size) + _ ≤ _; rw [hw]; omega)
      refine ⟨i1, ?_, ?_, ?_, ?_⟩
      · rw [i2]; simp [encode, counted]
      · rw [i3]; simp [encode, counted, ht]
      · rw [i4]; simp only [encode, counted, List.length_cons, Nat.cast_add, Nat.cast_one]; omega
      · rw [i5]
        show wrapInt64 ((counted st).totalCopied + f.info.Size) + _ = _
        rw [hw, copyableBytes, ht]
        simp only [Bool.false_eq_true, if_false]
        omega

theorem countP_add_countP_not (p : PlainFile → Bool) :
    ∀ files : List PlainFile,
      files.countP p + files.countP (fun f => !p f) = files.length
  | [] => rfl
  | f :: rest => by
    have ih := countP_add_countP_not p rest
    rw [List.countP_cons, List.countP_cons, List.length_cons]
    cases hp : p f <;> simp <;> omega

theorem countP_expected_reason (c : WalkConfig) (root : String) :
    ∀ files : List PlainFile,
      (files.map (expectedEntry c root)).countP
          (fun e => decide (e.CopyReason = "file_too_large")) =
        files.countP (tooLarge c)
  | [] => rfl
  | f :: rest => by
    rw [List.map_cons, List.countP_cons, List.countP_cons, countP_expected_reason c root rest]
    congr 1
    unfold expectedEntry
    cases ht : tooLarge c f <;> simp [typedEntry, baseEntry]

theorem countP_expected_sha (c : WalkConfig) (root : String) :
    ∀ files : List PlainFile, (∀ f ∈ files, f.digest ≠ "") →
      (files.map (expectedEntry c root)).countP (fun e => decide (e.SHA256 ≠ "")) =
        files.countP (fun f => !tooLarge c f)
  | [], _ => rfl
  | f :: rest, h => by
    rw [List.map_cons, List.countP_cons, List.countP_cons,
      countP_expected_sha c root rest (fun x hx => h x (List.mem_cons_of_mem _ hx))]
    congr 1
    have hd := h f (List.mem_cons_self _ _)
    unfold expectedEntry
    cases ht : tooLarge c f <;> simp [typedEntry, baseEntry, hd]

theorem countP_expected_copied (c : WalkConfig) (root : String) :
    ∀ files : List PlainFile,
      (files.map (expectedEntry c root)).countP (fun e => e.Copied) =
        files.countP (fun f => !tooLarge c f)
  | [] => rfl
  | f :: rest => by
    rw [List.map_cons, List.countP_cons, List.countP_cons, countP_expected_copied c root rest]
    congr 1
    unfold expectedEntry
    cases ht : tooLarge c f <;> simp [typedEntry, baseEntry]

/-- The snapshot of one root directory that lists readable regular files, in
copy mode with hashing, when all objects fit the limit on objects and the files
within the per-file budget fit the total budget: the stream holds the entry of
the directory followed by the expected entry of every file, and the archive the
files within the per-file budget. -/
theorem collect_flat_directory (opts : SnapshotOptions) (env : CollectEnv) (root name : String)
    (dprobe : Probe) (dinfo : FileInfo) (files : List PlainFile)
    (hpaths : opts.Paths = [root]) (hmode : opts.Mode = "copy") (hhash : opts.HashFiles = true)
    (hlimit : opts.MaxFiles ≤ 0 ∨ (files.length : Int) + 1 ≤ opts.MaxFiles)
    (hsmall : (files.length : Int) + 1 ≤ 20000)
    (hbudget : opts.MaxTotalBytes < 9223372036854775808)
    (hroot : root ≠ "") (hex : isExcluded root = false)
    (hmeta : env.metaCreateOk = true) (hopen : env.openTarOk = true)
    (hctx : env.ctxDone 0 = false)
    (hlstat : env.lstat 0 = some (.mk name true dprobe (files.map fileNode)))
    (hdinfo : dprobe.info = some dinfo) (hsym : dinfo.Mode &&& ModeSymlink = 0)
    (hdir : dinfo.Mode &&& ModeDir ≠ 0)
    (hfiles : ∀ f ∈ files, isRegularFile f.info ∧ 0 ≤ f.info.Size ∧
      isExcluded (filepathJoin [root, f.name]) = false)
    (hfit : copyableBytes (walkConfig opts true) files ≤ (walkConfig opts true).maxTotalBytes) :
    (Collect opts env).walk.entries =
      typedEntry root dinfo "dir" :: files.map (expectedEntry (walkConfig opts true) root) ∧
    (Collect opts env).walk.archive =
      (files.filter (fun f => !tooLarge (walkConfig opts true) f)).map (expectedMember root) ∧
    (Collect opts env).walk.filesSeen = (files.length : Int) + 1 := by
  have hc : walkConfig opts env.openTarOk = walkConfig opts true := by rw [hopen]
  have hcmode : (walkConfig opts true).mode = "copy" := by
    simp only [walkConfig]
    rw [hmode]
    decide
  have hcfiles : (files.length : Int) + 1 ≤ (walkConfig opts true).maxFiles := by
    simp only [walkConfig]
    split_ifs <;> omega
  have hcmax : (walkConfig opts true).maxTotalBytes < 9223372036854775808 := by
    simp only [walkConfig]
    split_ifs <;> omega
  have hvd := visit_dir (walkConfig opts true) root true dprobe initWalk dinfo hex
    (by show (0 : Int) < _; omega) hdinfo hsym hdir
  have hwalk : walkDir (walkConfig opts true) root (.mk name true dprobe (files.map fileNode))
      initWalk =
      walkEntries (walkConfig opts true) root (files.map fileNode)
        (encode (counted initWalk) (typedEntry root dinfo "dir")) := by
    rw [walkDir, hvd]
    simp only [if_true]
  obtain ⟨i1, i2, i3, i4, -⟩ := walkEntries_files (walkConfig opts true) root hcmode hhash rfl
    hcmax files (encode (counted initWalk) (typedEntry root dinfo "dir")) hfiles
    (by show (0 : Int) + 1 + _ ≤ _; omega) (le_refl _)
    (by show (0 : Int) + _ ≤ _; omega)
  have hroots : walkRoots (walkConfig opts true) env 0 [root] initWalk =
      ((walkEntries (walkConfig opts true) root (files.map fileNode)
        (encode (counted initWalk) (typedEntry root dinfo "dir"))).1, none) := by
    rw [walkRoots, if_neg (by rw [hctx]; simp), if_neg hroot, if_neg (by rw [hex]; simp), hlstat]
    simp only
    rw [hwalk]
    rcases hw : walkEntries (walkConfig opts true) root (files.map fileNode)
      (encode (counted initWalk) (typedEntry root dinfo "dir")) with ⟨st1, r⟩
    rw [hw] at i1
    simp only at i1
    subst i1
    simp only [walkRoots]
  have hcollect : (Collect opts env).walk =
      (walkEntries (walkConfig opts true) root (files.map fileNode)
        (encode (counted initWalk) (typedEntry root dinfo "dir"))).1 := by
    simp only [Collect]
    rw [hc, hpaths, hroots]
    split_ifs with h1 h2 h3
    · simp at h1
    · rw [hcmode] at h2; exact absurd rfl h2.2
    · rw [hmeta] at h3; cases h3
    · rfl
  rw [hcollect, i2, i3, i4]
  refine ⟨rfl, ?_, ?_⟩
  · simp [encode, counted, initWalk]
  · simp only [encode, counted, initWalk]; omega

theorem countP_expected_type (c : WalkConfig) (root : String) :
    ∀ files : List PlainFile,
      (files.map (expectedEntry c root)).countP (fun e => decide (e.Type_ = "file")) =
        files.length
  | [] => rfl
  | f :: rest => by
    rw [List.map_cons, List.countP_cons, countP_expected_type c root rest, List.length_cons]
    congr 1
    unfold expectedEntry
    cases ht : tooLarge c f <;> simp [typedEntry, baseEntry]

/-! ## The archive and the result of the snapshot collector -/

/-- A call that records an entry without copying it and without creating the
archive keeps `ArchiveLazy`. -/
theorem archiveLazy_grow (c : WalkConfig) (st st1 : WalkState) (e : snapshotEntry)
    (ht : st1.tarOpen = st.tarOpen) (ha : st1.archive = st.archive)
    (he : st1.entries = st.entries ++ [e]) (hc : e.Copied = false) (h : ArchiveLazy c st) :
    ArchiveLazy c st1 := by
  constructor
  · intro hopen
    rw [ht] at hopen
    obtain ⟨hm, x, hx, hrest⟩ := h.1 hopen
    exact ⟨hm, x, by rw [he]; exact List.mem_append_left _ hx, hrest⟩
  · intro hclosed
    rw [ht] at hclosed
    obtain ⟨h1, h2⟩ := h.2 hclosed
    refine ⟨by rw [ha]; exact h1, ?_⟩
    intro x hx
    rw [he] at hx
    rcases List.mem_append.mp hx with hx | hx
    · exact h2 x hx
    · rw [List.mem_singleton.mp hx]; exact hc

/-- A call in copy mode that creates the archive and records a regular file
within the per-file budget with an empty copy reason establishes `ArchiveLazy`. -/
theorem archiveLazy_open (c : WalkConfig) (st1 : WalkState) (l : List snapshotEntry)
    (e : snapshotEntry) (hm : c.mode = "copy") (ht : st1.tarOpen = true)
    (he : st1.entries = l ++ [e]) (hty : e.Type_ = "file") (hr : e.CopyReason = "")
    (hs : e.SizeBytes ≤ c.maxFileBytes) : ArchiveLazy c st1 := by
  constructor
  · intro _
    exact ⟨hm, e, by rw [he]; exact List.mem_append_right _ (List.mem_singleton.mpr rfl), hty, hr,
      hs⟩
  · intro hclosed
    rw [ht] at hclosed
    cases hclosed

/-- Every call of the callback keeps `ArchiveLazy`. -/
theorem visit_archiveLazy (c : WalkConfig) (path : String) (d : Bool) (p : Probe)
    (st : WalkState) (h : ArchiveLazy c st) : ArchiveLazy c (visit c path d p st).1 := by
  rcases visit_cases c path d p st with ⟨-, hv⟩ | ⟨-, -, ⟨-, hv⟩ | ⟨info, -, hrest⟩⟩
  · rw [hv]; exact h
  · rw [hv]; exact h
  · have hf := fileEntry_facts c path info p
    rcases hrest with ⟨t, -, hv⟩ | ⟨-, -, hv⟩ | ⟨-, hmode, hv⟩
    · rw [hv]; exact archiveLazy_grow c st _ _ rfl rfl rfl rfl h
    · rw [hv]; exact archiveLazy_grow c st _ _ rfl rfl rfl hf.2.2.2.1 h
    · rw [hv]
      rcases copyStep_cases c path info p (fileEntry c path info p) (counted st) with
        ⟨-, hc⟩ | ⟨-, -, hc⟩ | ⟨hsz, -, ⟨-, -, hc⟩ | ⟨-, ⟨-, hc⟩ | ⟨-, -, -, hc⟩ | ⟨-, -, -, hc⟩⟩⟩
      · rw [hc]; exact archiveLazy_grow c st _ _ rfl rfl rfl hf.2.2.2.1 h
      · rw [hc]; exact archiveLazy_grow c st _ _ rfl rfl rfl hf.2.2.2.1 h
      · rw [hc]; exact h
      · rw [hc]
        exact archiveLazy_open c _ st.entries _ hmode rfl rfl hf.2.1 hf.2.2.2.2.1
          (by rw [hf.2.2.1]; exact hsz)
      · rw [hc]
        exact archiveLazy_open c _ st.entries _ hmode rfl rfl hf.2.1 hf.2.2.2.2.1
          (by rw [hf.2.2.1]; exact hsz)
      · rw [hc]
        exact archiveLazy_open c _ st.entries _ hmode rfl rfl hf.2.1 hf.2.2.2.2.1
          (by rw [hf.2.2.1]; exact hsz)

theorem collect_archiveLazy (opts : SnapshotOptions) (env : CollectEnv) :
    ArchiveLazy (walkConfig opts env.openTarOk) (Collect opts env).walk := by
  refine collect_invariant opts env (ArchiveLazy (walkConfig opts env.openTarOk)) ?_ ?_
  · constructor
    · intro h; cases h
    · intro _; exact ⟨rfl, fun e he => by cases he⟩
  · intro path d p st h
    exact visit_archiveLazy _ path d p st h

/-- The call of the callback that creates the archive records a regular file
with an empty copy reason, which is copied exactly when `os.Open`,
`WriteHeader` and `io.Copy` all succeed on it. -/
theorem visit_opens_archive (c : WalkConfig) (path : String) (d : Bool) (p : Probe)
    (st : WalkState) (h0 : st.tarOpen = false) (h1 : (visit c path d p st).1.tarOpen = true) :
    c.mode = "copy" ∧ c.openTarOk = true ∧
    ∃ e, (visit c path d p st).1.entries = st.entries ++ [e] ∧ e.Path = path ∧
      e.Type_ = "file" ∧ e.CopyReason = "" ∧ e.SizeBytes ≤ c.maxFileBytes ∧
      (e.Copied = true ↔ p.openOk = true ∧ p.headerOk = true ∧ p.copyOk = true) := by
  have hno : ∀ b : Bool, b = false → b = true → False := by
    intro b hb1 hb2; rw [hb1] at hb2; cases hb2
  rcases visit_cases c path d p st with ⟨-, hv⟩ | ⟨-, -, ⟨-, hv⟩ | ⟨info, -, hrest⟩⟩
  · rw [hv] at h1; exact (hno _ h0 h1).elim
  · rw [hv] at h1; exact (hno _ h0 h1).elim
  · have hf := fileEntry_facts c path info p
    rcases hrest with ⟨t, -, hv⟩ | ⟨-, -, hv⟩ | ⟨-, hmode, hv⟩
    · rw [hv] at h1; exact (hno _ h0 h1).elim
    · rw [hv] at h1; exact (hno _ h0 h1).elim
    · rw [hv] at h1 ⊢
      rcases copyStep_cases c path info p (fileEntry c path info p) (counted st) with
        ⟨-, hc⟩ | ⟨-, -, hc⟩ |
        ⟨hsz, -, ⟨-, -, hc⟩ | ⟨hopen, ⟨hfail, hc⟩ | ⟨-, -, hcopy, hc⟩ | ⟨ho, hh, hcopy, hc⟩⟩⟩
      · rw [hc] at h1; exact (hno _ h0 h1).elim
      · rw [hc] at h1; exact (hno _ h0 h1).elim
      · rw [hc] at h1; exact (hno _ h0 h1).elim
      · have hok : c.openTarOk = true := by
          rcases hopen with h | h
          · exact (hno _ h0 h).elim
          · exact h
        rw [hc]
        refine ⟨hmode, hok, _, rfl, hf.1, hf.2.1, hf.2.2.2.2.1, by rw [hf.2.2.1]; exact hsz, ?_⟩
        rw [hf.2.2.2.1]
        constructor
        · intro hx; cases hx
        · intro hx
          rcases hfail with h | h
          · exact (hno _ h hx.1).elim
          · exact (hno _ h hx.2.1).elim
      · have hok : c.openTarOk = true := by
          rcases hopen with h | h
          · exact (hno _ h0 h).elim
          · exact h
        rw [hc]
        refine ⟨hmode, hok, _, rfl, hf.1, hf.2.1, hf.2.2.2.2.1, by rw [hf.2.2.1]; exact hsz, ?_⟩
        rw [hf.2.2.2.1]
        constructor
        · intro hx; cases hx
        · intro hx
          exact (hno _ hcopy hx.2.2).elim
      · have hok : c.openTarOk = true := by
          rcases hopen with h | h
          · exact (hno _ h0 h).elim
          · exact h
        rw [hc]
        exact ⟨hmode, hok, _, rfl, hf.1, hf.2.1, hf.2.2.2.2.1, by rw [hf.2.2.1]; exact hsz,
          fun _ => ⟨ho, hh, hcopy⟩, fun _ => rfl⟩

/-- The errors of the loop over the roots are the context error and the error
of `openTar`. -/
theorem walkRoots_error_kinds (c : WalkConfig) (env : CollectEnv) :
    ∀ (roots : List String) (i : Nat) (st : WalkState) (e : CollectError),
      (walkRoots c env i roots st).2 = some e → e = .cancelled ∨ e = .openTar
  | [], i, st, e, h => by rw [walkRoots] at h; cases h
  | root :: rest, i, st, e, h => by
    rw [walkRoots] at h
    by_cases h1 : env.ctxDone i = true
    · rw [if_pos h1] at h
      injection h with h
      exact Or.inl h.symm
    rw [if_neg h1] at h
    by_cases h2 : root = ""
    · rw [if_pos h2] at h; exact walkRoots_error_kinds c env rest (i + 1) st e h
    rw [if_neg h2] at h
    by_cases h3 : isExcluded root = true
    · rw [if_pos h3] at h; exact walkRoots_error_kinds c env rest (i + 1) st e h
    rw [if_neg h3] at h
    cases hl : env.lstat i with
    | none => rw [hl] at h; exact walkRoots_error_kinds c env rest (i + 1) st e h
    | some node =>
      rw [hl] at h
      simp only at h
      rcases hwd : walkDir c root node st with ⟨st1, _ | x⟩
      · rw [hwd] at h
        exact walkRoots_error_kinds c env rest (i + 1) st1 e h
      · rw [hwd] at h
        cases x with
        | skipDir => exact walkRoots_error_kinds c env rest (i + 1) st1 e h
        | stopWalk => cases h
        | openTar =>
          injection h with h
          exact Or.inr h.symm

/-- What `Collect` returns, case by case: one of its errors, or the metadata
artifact alone, or the metadata artifact followed by the archive artifact, the
latter exactly when the archive was created and could be hashed. -/
theorem collect_result (opts : SnapshotOptions) (env : CollectEnv) :
    (opts.Paths = [] ∧ (Collect opts env).result = .error .noPaths ∧
      (Collect opts env).metaCreated = false ∧ (Collect opts env).walk = initWalk) ∨
    (opts.Paths ≠ [] ∧
      ((walkConfig opts env.openTarOk).mode ≠ "metadata" ∧
        (walkConfig opts env.openTarOk).mode ≠ "copy") ∧
      (Collect opts env).result = .error .invalidMode ∧
      (Collect opts env).metaCreated = false ∧ (Collect opts env).walk = initWalk) ∨
    (opts.Paths ≠ [] ∧
      ((walkConfig opts env.openTarOk).mode = "metadata" ∨
        (walkConfig opts env.openTarOk).mode = "copy") ∧
      ((env.metaCreateOk = false ∧ (Collect opts env).result = .error .metaCreate ∧
          (Collect opts env).walk = initWalk) ∨
        (env.metaCreateOk = true ∧ (Collect opts env).metaCreated = true ∧
          (Collect opts env).walk =
            (walkRoots (walkConfig opts env.openTarOk) env 0 opts.Paths initWalk).1 ∧
          (((Collect opts env).result = .error .cancelled ∨
              (Collect opts env).result = .error .openTar) ∨
            ((walkRoots (walkConfig opts env.openTarOk) env 0 opts.Paths initWalk).2 = none ∧
              (Collect opts env).result =
                finish opts (walkConfig opts env.openTarOk) env (Collect opts env).walk))))) := by
  simp only [Collect]
  split_ifs with h1 h2 h3
  · left
    exact ⟨List.length_eq_zero.mp h1, rfl, rfl, rfl⟩
  · right; left
    exact ⟨fun h => h1 (by rw [h]; rfl), h2, rfl, rfl, rfl⟩
  · right; right
    refine ⟨fun h => h1 (by rw [h]; rfl), ?_, Or.inl ⟨h3, rfl, rfl⟩⟩
    by_cases hm : (walkConfig opts env.openTarOk).mode = "metadata"
    · exact Or.inl hm
    · exact Or.inr (by_contra fun hc => h2 ⟨hm, hc⟩)
  · right; right
    refine ⟨fun h => h1 (by rw [h]; rfl), ?_, Or.inr ?_⟩
    · by_cases hm : (walkConfig opts env.openTarOk).mode = "metadata"
      · exact Or.inl hm
      · exact Or.inr (by_contra fun hc => h2 ⟨hm, hc⟩)
    · have hk := walkRoots_error_kinds (walkConfig opts env.openTarOk) env opts.Paths 0 initWalk
      rcases hwr : walkRoots (walkConfig opts env.openTarOk) env 0 opts.Paths initWalk with
        ⟨st, _ | e⟩
      · exact ⟨by simpa using h3, rfl, rfl, Or.inr ⟨rfl, rfl⟩⟩
      · rw [hwr] at hk
        refine ⟨by simpa using h3, rfl, rfl, Or.inl ?_⟩
        rcases hk e rfl with h | h
        · left; rw [h]
        · right; rw [h]

/-- What the end of `Collect` returns. -/
theorem finish_cases (opts : SnapshotOptions) (c : WalkConfig) (env : CollectEnv)
    (st : WalkState) :
    (st.filesSeen = 0 ∧ finish opts c env st = .error .noEntries) ∨
    (st.filesSeen ≠ 0 ∧
      ((env.metaSum = none ∧ finish opts c env st = .error .metaSum) ∨
       (∃ sha size, env.metaSum = some (sha, size) ∧
        ((st.tarOpen = true ∧ ∃ sha2 size2, env.tgzSum = some (sha2, size2) ∧
            finish opts c env st =
              .ok [metaArtifact opts c st sha size env.metaTime,
                   tgzArtifact sha2 size2 env.tgzTime]) ∨
         ((st.tarOpen = false ∨ env.tgzSum = none) ∧
            finish opts c env st = .ok [metaArtifact opts c st sha size env.metaTime]))))) := by
  unfold finish
  by_cases h0 : st.filesSeen = 0
  · left; exact ⟨h0, by rw [if_pos h0]⟩
  right
  refine ⟨h0, ?_⟩
  rw [if_neg h0]
  cases hms : env.metaSum with
  | none => left; exact ⟨rfl, rfl⟩
  | some x =>
    obtain ⟨sha, size⟩ := x
    right
    refine ⟨sha, size, rfl, ?_⟩
    simp only
    by_cases ht : st.tarOpen = true
    · rw [if_pos ht]
      cases hts : env.tgzSum with
      | none => right; exact ⟨Or.inr rfl, rfl⟩
      | some y =>
        obtain ⟨sha2, size2⟩ := y
        left
        exact ⟨ht, sha2, size2, rfl, rfl⟩
    · rw [if_neg ht]
      right
      exact ⟨Or.inl (by simpa using ht), rfl⟩

/-- An archive artifact is returned only when the archive was created. -/
theorem collect_archive_artifact (opts : SnapshotOptions) (env : CollectEnv)
    (arts : List Artifact) (a : Artifact) (hr : (Collect opts env).result = .ok arts)
    (ha : a ∈ arts) (hp : a.RelativePath = "snapshot/files.tar.gz") :
    (Collect opts env).walk.tarOpen = true := by
  rcases collect_result opts env with
    ⟨-, h, -⟩ | ⟨-, -, h, -⟩ | ⟨-, -, ⟨-, h, -⟩ | ⟨-, -, -, (h | h) | ⟨-, h⟩⟩⟩
  · rw [h] at hr; cases hr
  · rw [h] at hr; cases hr
  · rw [h] at hr; cases hr
  · rw [h] at hr; cases hr
  · rw [h] at hr; cases hr
  · rw [h] at hr
    rcases finish_cases opts (walkConfig opts env.openTarOk) env (Collect opts env).walk with
      ⟨-, hf⟩ | ⟨-, ⟨-, hf⟩ | ⟨sha, size, -, ⟨ht, -⟩ | ⟨-, hf⟩⟩⟩
    · rw [hf] at hr; cases hr
    · rw [hf] at hr; cases hr
    · exact ht
    · rw [hf] at hr
      injection hr with hr
      rw [← hr] at ha
      rw [List.mem_singleton.mp ha] at hp
      exact absurd (show "snapshot/metadata.jsonl" = "snapshot/files.tar.gz" from hp) (by decide)

/-- The mode in force is invalid exactly when the mode option is neither empty
nor one of the two modes. -/
theorem walkConfig_mode_invalid (opts : SnapshotOptions) (b : Bool) :
    ((walkConfig opts b).mode ≠ "metadata" ∧ (walkConfig opts b).mode ≠ "copy") ↔
      (opts.Mode ≠ "" ∧ opts.Mode ≠ "metadata" ∧ opts.Mode ≠ "copy") := by
  simp only [walkConfig]
  by_cases h : opts.Mode = ""
  · rw [if_pos h]
    constructor
    · intro hx; exact absurd rfl hx.1
    · intro hx; exact absurd h hx.1
  · rw [if_neg h]
    constructor
    · intro hx; exact ⟨h, hx.1, hx.2⟩
    · intro hx; exact ⟨hx.2.1, hx.2.2⟩

/-- The two configuration errors of `Collect`, when they are returned and what
has happened by then. -/
theorem collect_config_error (opts : SnapshotOptions) (env : CollectEnv) :
    ((Collect opts env).result = .error .noPaths ↔ opts.Paths = []) ∧
    ((Collect opts env).result = .error .invalidMode ↔
      opts.Paths ≠ [] ∧ opts.Mode ≠ "" ∧ opts.Mode ≠ "metadata" ∧ opts.Mode ≠ "copy") ∧
    ((Collect opts env).result = .error .noPaths ∨
        (Collect opts env).result = .error .invalidMode →
      (Collect opts env).metaCreated = false ∧ (Collect opts env).walk = initWalk) := by
  have hfin : ∀ st, finish opts (walkConfig opts env.openTarOk) env st ≠ .error .noPaths ∧
      finish opts (walkConfig opts env.openTarOk) env st ≠ .error .invalidMode := by
    intro st
    rcases finish_cases opts (walkConfig opts env.openTarOk) env st with
      ⟨-, hf⟩ | ⟨-, ⟨-, hf⟩ | ⟨sha, size, -, ⟨-, sha2, size2, -, hf⟩ | ⟨-, hf⟩⟩⟩ <;>
    · rw [hf]
      exact ⟨fun h => (by cases h), fun h => (by cases h)⟩
  rcases collect_result opts env with
    ⟨hp, h, hm, hw⟩ | ⟨hp, hmode, h, hm, hw⟩ |
    ⟨hp, hmode, ⟨-, h, -⟩ | ⟨-, -, -, (h | h) | ⟨-, h⟩⟩⟩
  · rw [h]
    exact ⟨⟨fun _ => hp, fun _ => rfl⟩, ⟨fun hx => (by cases hx), fun hx => absurd hp hx.1⟩,
      fun _ => ⟨hm, hw⟩⟩
  · rw [h]
    exact ⟨⟨fun hx => (by cases hx), fun hx => absurd hx hp⟩,
      ⟨fun _ => ⟨hp, (walkConfig_mode_invalid opts env.openTarOk).mp hmode⟩, fun _ => rfl⟩,
      fun _ => ⟨hm, hw⟩⟩
  all_goals
    have hvalid : ¬ (opts.Mode ≠ "" ∧ opts.Mode ≠ "metadata" ∧ opts.Mode ≠ "copy") := by
      intro hx
      have := (walkConfig_mode_invalid opts env.openTarOk).mpr hx
      rcases hmode with hmode | hmode
      · exact this.1 hmode
      · exact this.2 hmode
  · rw [h]
    exact ⟨⟨fun hx => (by cases hx), fun hx => absurd hx hp⟩,
      ⟨fun hx => (by cases hx), fun hx => absurd hx.2 hvalid⟩,
      fun hx => by rcases hx with hx | hx <;> cases hx⟩
  · rw [h]
    exact ⟨⟨fun hx => (by cases hx), fun hx => absurd hx hp⟩,
      ⟨fun hx => (by cases hx), fun hx => absurd hx.2 hvalid⟩,
      fun hx => by rcases hx with hx | hx <;> cases hx⟩
  · rw [h]
    exact ⟨⟨fun hx => (by cases hx), fun hx => absurd hx hp⟩,
      ⟨fun hx => (by cases hx), fun hx => absurd hx.2 hvalid⟩,
      fun hx => by rcases hx with hx | hx <;> cases hx⟩
  · rw [h]
    have hf := hfin (Collect opts env).walk
    exact ⟨⟨fun hx => absurd hx hf.1, fun hx => absurd hx hp⟩,
      ⟨fun hx => absurd hx hf.2, fun hx => absurd hx.2 hvalid⟩,
      fun hx => by
        rcases hx with hx | hx
        · exact absurd hx hf.1
        · exact absurd hx hf.2⟩

theorem copyStep_filesSeen (c : WalkConfig) (path : String) (info : FileInfo) (p : Probe)
    (e : snapshotEntry) (st : WalkState) :
    (copyStep c path info p e st).1.filesSeen = st.filesSeen := by
  rcases copyStep_cases c path info p e st with
    ⟨-, hc⟩ | ⟨-, -, hc⟩ | ⟨-, -, ⟨-, -, hc⟩ | ⟨-, ⟨-, hc⟩ | ⟨-, -, -, hc⟩ | ⟨-, -, -, hc⟩⟩⟩ <;>
  · rw [hc] <;> rfl

/-- The callback never lowers the count of objects. -/
theorem visit_filesSeen_mono (c : WalkConfig) (path : String) (d : Bool) (p : Probe)
    (st : WalkState) : st.filesSeen ≤ (visit c path d p st).1.filesSeen := by
  rcases visit_step c path d p st with hp | ⟨e, -, hrec⟩
  · rcases hp.2.2.2.2.1 with h | ⟨-, h⟩ <;> omega
  · have := hrec.2.2.1
    omega

/-- A call of the callback on an object that is not excluded leaves a count of
at least one. -/
theorem visit_counts (c : WalkConfig) (path : String) (d : Bool) (p : Probe) (st : WalkState)
    (hex : isExcluded path = false) (hmax : 0 < c.maxFiles) (h0 : 0 ≤ st.filesSeen) :
    1 ≤ (visit c path d p st).1.filesSeen := by
  rcases visit_cases c path d p st with ⟨hc, hv⟩ | ⟨-, -, ⟨-, hv⟩ | ⟨info, -, hrest⟩⟩
  · rw [hv]
    rcases hc with hc | hc
    · rw [hex] at hc; cases hc
    · show 1 ≤ st.filesSeen
      omega
  · rw [hv]
    show 1 ≤ st.filesSeen + 1
    omega
  · rcases hrest with ⟨t, -, hv⟩ | ⟨-, -, hv⟩ | ⟨-, -, hv⟩
    · rw [hv]
      show 1 ≤ st.filesSeen + 1
      omega
    · rw [hv]
      show 1 ≤ st.filesSeen + 1
      omega
    · rw [hv, copyStep_filesSeen]
      show 1 ≤ st.filesSeen + 1
      omega

/-- The walk of a root that is not excluded leaves a count of at least one. -/
theorem walkDir_counts (c : WalkConfig) (path : String) (n : Node) (st : WalkState)
    (hex : isExcluded path = false) (hmax : 0 < c.maxFiles) (h0 : 0 ≤ st.filesSeen) :
    1 ≤ (walkDir c path n st).1.filesSeen := by
  obtain ⟨name, isDir, probe, children⟩ := n
  have hv := visit_counts c path isDir probe st hex hmax h0
  have hmono : ∀ path d p st, 1 ≤ st.filesSeen → 1 ≤ (visit c path d p st).1.filesSeen := by
    intro path d p st h
    have := visit_filesSeen_mono c path d p st
    omega
  rw [walkDir]
  rcases hvis : visit c path isDir probe st with ⟨st1, _ | e⟩
  · rw [hvis] at hv
    simp only at hv ⊢
    by_cases hd : isDir = true
    · rw [if_pos hd]
      exact walkEntries_post c (fun st => 1 ≤ st.filesSeen) (fun st _ => 1 ≤ st.filesSeen) hmono
        (fun _ h => h) (fun _ h => h) (fun _ h => h) path children st1 hv
    · rw [if_neg hd]
      exact hv
  · rw [hvis] at hv
    simp only at hv ⊢
    split_ifs <;> exact hv

/-- Without cancellation and from a count of zero, the loop over the roots ends
with a count of zero exactly when every root is skipped. -/
theorem walkRoots_zero (c : WalkConfig) (env : CollectEnv) (hctx : ∀ i, env.ctxDone i = false)
    (hmax : 0 < c.maxFiles) :
    ∀ (roots : List String) (k : Nat) (st : WalkState), st.filesSeen = 0 →
      ((walkRoots c env k roots st).1.filesSeen = 0 ↔
        ∀ i root, roots[i]? = some root → rootSkipped env (k + i) root)
  | [], k, st, h0 => by
    rw [walkRoots]
    exact ⟨fun _ i root hi => by simp at hi, fun _ => h0⟩
  | root :: rest, k, st, h0 => by
    have hshift : rootSkipped env k root →
        ((∀ i r, rest[i]? = some r → rootSkipped env (k + 1 + i) r) ↔
          ∀ i r, (root :: rest)[i]? = some r → rootSkipped env (k + i) r) := by
      intro hs
      constructor
      · intro h i r hi
        cases i with
        | zero =>
          simp only [List.getElem?_cons_zero, Option.some.injEq] at hi
          rw [← hi]
          exact hs
        | succ j =>
          simp only [List.getElem?_cons_succ] at hi
          have := h j r hi
          rw [show k + (j + 1) = k + 1 + j by omega]
          exact this
      · intro h i r hi
        have := h (i + 1) r (by simpa using hi)
        rw [show k + 1 + i = k + (i + 1) by omega]
        exact this
    rw [walkRoots, if_neg (by rw [hctx k]; simp)]
    by_cases h2 : root = ""
    · rw [if_pos h2]
      exact (walkRoots_zero c env hctx hmax rest (k + 1) st h0).trans (hshift (Or.inl h2))
    rw [if_neg h2]
    by_cases h3 : isExcluded root = true
    · rw [if_pos h3]
      exact (walkRoots_zero c env hctx hmax rest (k + 1) st h0).trans
        (hshift (Or.inr (Or.inl h3)))
    rw [if_neg h3]
    cases hl : env.lstat k with
    | none =>
      exact (walkRoots_zero c env hctx hmax rest (k + 1) st h0).trans
        (hshift (Or.inr (Or.inr hl)))
    | some node =>
      have hw := walkDir_counts c root node st (by simpa using h3) hmax (by omega)
      have hmono : ∀ path d p st, 1 ≤ st.filesSeen → 1 ≤ (visit c path d p st).1.filesSeen := by
        intro path d p st h
        have := visit_filesSeen_mono c path d p st
        omega
      have hnot : ¬ ∀ i r, (root :: rest)[i]? = some r → rootSkipped env (k + i) r := by
        intro h
        rcases h 0 root (by simp) with hx | hx | hx
        · exact h2 hx
        · exact h3 hx
        · rw [Nat.add_zero, hl] at hx; cases hx
      simp only
      rcases hwd : walkDir c root node st with ⟨st1, _ | e⟩
      · rw [hwd] at hw
        simp only at hw
        have := walkRoots_invariant c env (fun st => 1 ≤ st.filesSeen) hmono rest (k + 1) st1 hw
        exact ⟨fun hz => by simp only at this hz; omega, fun hx => absurd hx hnot⟩
      · rw [hwd] at hw
        simp only at hw
        cases e with
        | skipDir =>
          have := walkRoots_invariant c env (fun st => 1 ≤ st.filesSeen) hmono rest (k + 1) st1
            hw
          exact ⟨fun hz => by simp only at this hz; omega, fun hx => absurd hx hnot⟩
        | stopWalk => exact ⟨fun hz => by simp only at hz; omega, fun hx => absurd hx hnot⟩
        | openTar => exact ⟨fun hz => by simp only at hz; omega, fun hx => absurd hx hnot⟩

/-- With a valid configuration and a metadata file that can be created, when the
loop over the roots ends without an error, `Collect` ends with the walk
variables of the loop and returns what its last part returns for them. -/
theorem collect_runs (opts : SnapshotOptions) (env : CollectEnv) (hpaths : opts.Paths ≠ [])
    (hvalid : ¬ ((walkConfig opts env.openTarOk).mode ≠ "metadata" ∧
      (walkConfig opts env.openTarOk).mode ≠ "copy"))
    (hmeta : env.metaCreateOk = true)
    (hnoerr : (walkRoots (walkConfig opts env.openTarOk) env 0 opts.Paths initWalk).2 = none) :
    (Collect opts env).walk =
      (walkRoots (walkConfig opts env.openTarOk) env 0 opts.Paths initWalk).1 ∧
    (Collect opts env).result =
      finish opts (walkConfig opts env.openTarOk) env
        (walkRoots (walkConfig opts env.openTarOk) env 0 opts.Paths initWalk).1 ∧
    (Collect opts env).metaCreated = true := by
  simp only [Collect]
  split_ifs with h1 h3
  · exact absurd (List.length_eq_zero.mp h1) hpaths
  · rw [hmeta] at h3; cases h3
  · rcases hwr : walkRoots (walkConfig opts env.openTarOk) env 0 opts.Paths initWalk with
      ⟨st, _ | e⟩
    · exact ⟨rfl, rfl, rfl⟩
    · rw [hwr] at hnoerr; cases hnoerr

/-! ## The field agent: case directory and triage arguments -/

/-- Joining a base with a non-empty name gives a non-empty path. -/
theorem filepathJoin_pair_ne_empty (base name : String) (h : name ≠ "") :
    filepathJoin [base, name] ≠ "" := by
  by_cases hb : base = ""
  · subst hb
    have : filepathJoin ["", name] = filepathJoin [name] := by
      simp [filepathJoin, joinChars]
    rw [this]
    exact filepathJoin_ne_empty name [] h
  · exact filepathJoin_ne_empty base [name] hb

/-- The loop of `newestDir` keeps its invariant. -/
theorem newestInv_foldl (base : String) (l : List DirEntry) (hn : ∀ e ∈ l, e.Name ≠ "") :
    NewestInv base l (l.foldl (newestStep base) ("", 0)) := by
  induction l using List.reverseRecOn with
  | nil => exact Or.inl ⟨rfl, fun e he => by cases he⟩
  | append_singleton l e ih =>
    have hinv := ih (fun x hx => hn x (List.mem_append_left _ hx))
    have hne : e.Name ≠ "" := hn e (List.mem_append_right _ (List.mem_singleton.mpr rfl))
    rw [List.foldl_append]
    simp only [List.foldl_cons, List.foldl_nil]
    generalize l.foldl (newestStep base) ("", 0) = acc at hinv ⊢
    have hlast : ∀ j e1, (l ++ [e])[j]? = some e1 → (j < l.length ∧ l[j]? = some e1) ∨
        (j = l.length ∧ e1 = e) := by
      intro j e1 hj
      by_cases hlt : j < l.length
      · rw [List.getElem?_append_left hlt] at hj
        exact Or.inl ⟨hlt, hj⟩
      · right
        have hj2 : j < (l ++ [e]).length := by
          by_contra hge
          rw [List.getElem?_eq_none (by omega)] at hj
          cases hj
        have hj3 : j = l.length := by simp at hj2; omega
        subst hj3
        simp at hj
        exact ⟨rfl, hj.symm⟩
    have hkeep : ¬ readableDir e ∨ (∃ t, e.ModTime = some t ∧ acc.1 ≠ "" ∧ t ≤ acc.2) →
        newestStep base acc e = acc → NewestInv base (l ++ [e]) acc := by
      intro hcase _
      rcases hinv with ⟨h1, h2⟩ | ⟨i, x, ⟨hi, hd, ht, hall⟩, hp⟩
      · left
        refine ⟨h1, ?_⟩
        intro y hy
        rcases List.mem_append.mp hy with hy | hy
        · exact h2 y hy
        · rw [List.mem_singleton.mp hy]
          rcases hcase with hc | ⟨t, -, hc, -⟩
          · exact hc
          · exact absurd h1 hc
      · right
        have hil : i < l.length := by
          by_contra hge
          rw [List.getElem?_eq_none (by omega)] at hi
          cases hi
        refine ⟨i, x, ⟨by rw [List.getElem?_append_left hil]; exact hi, hd, ht, ?_⟩, hp⟩
        intro j e1 t1 hj hd1 ht1
        rcases hlast j e1 hj with ⟨-, hj1⟩ | ⟨hj1, he1⟩
        · exact hall j e1 t1 hj1 hd1 ht1
        · subst he1
          rcases hcase with hc | ⟨t, hte, -, hle⟩
          · exact absurd ⟨hd1, by rw [ht1]; simp⟩ hc
          · rw [ht1] at hte
            injection hte with hte
            subst hte
            exact ⟨hle, fun hlt => by omega⟩
    unfold newestStep
    by_cases hd : e.IsDir = false
    · rw [if_pos hd]
      refine hkeep (Or.inl ?_) (by unfold newestStep; rw [if_pos hd])
      intro hr
      rw [hr.1] at hd
      cases hd
    rw [if_neg hd]
    have hdt : e.IsDir = true := by simpa using hd
    cases hmt : e.ModTime with
    | none =>
      refine hkeep (Or.inl ?_) (by unfold newestStep; rw [if_neg hd, hmt])
      intro hr
      exact hr.2 hmt
    | some t =>
      simp only
      by_cases hc : acc.1 = "" ∨ t > acc.2
      · rw [if_pos hc]
        right
        refine ⟨l.length, e, ⟨by simp, hdt, hmt, ?_⟩, rfl⟩
        intro j e1 t1 hj hd1 ht1
        rcases hlast j e1 hj with ⟨hjl, hj1⟩ | ⟨hj1, he1⟩
        · rcases hinv with ⟨-, h2⟩ | ⟨i, x, ⟨hi, -, -, hall⟩, hp⟩
          · exact absurd ⟨hd1, by rw [ht1]; simp⟩ (h2 e1 (List.getElem?_mem hj1))
          · have hle := (hall j e1 t1 hj1 hd1 ht1).1
            have hpne : acc.1 ≠ "" := by
              rw [hp]
              exact filepathJoin_pair_ne_empty base x.Name
                (hn x (List.mem_append_left _ (List.getElem?_mem hi)))
            rcases hc with hc | hc
            · exact absurd hc hpne
            · show t1 ≤ t ∧ (j < l.length → t1 < t)
              exact ⟨by omega, fun _ => by omega⟩
        · subst he1
          rw [ht1] at hmt
          injection hmt with hmt
          subst hmt
          exact ⟨le_refl _, fun hlt => by omega⟩
      · rw [if_neg hc]
        refine hkeep (Or.inr ⟨t, hmt, fun h => hc (Or.inl h), ?_⟩)
          (by unfold newestStep; rw [if_neg hd, hmt]; simp only; rw [if_neg hc])
        by_contra hgt
        exact hc (Or.inr (by omega))

theorem addFlag_eq (m : List (String × String)) (key flag : String) (args : List String) :
    addFlag m key flag args = args ++ flagOf m key flag := by
  unfold addFlag flagOf
  by_cases h : TrimSpace (argsGet m key) = ""
  · simp [h]
  · simp [h]

theorem foldl_addSnapshotPath (pieces : List String) :
    ∀ args : List String,
      pieces.foldl addSnapshotPath args =
        args ++ ((pieces.map TrimSpace).filter (fun p => decide (p ≠ ""))).flatMap
          (fun p => ["--snapshot-path", p]) := by
  induction pieces with
  | nil => intro args; simp
  | cons p rest ih =>
    intro args
    rw [List.foldl_cons, ih]
    unfold addSnapshotPath
    by_cases h : TrimSpace p = ""
    · simp [h]
    · simp [h]

/-- The part of `buildTriageArgs` after the IOC arguments appends the
contributions of the seven remaining keys in their order. -/
theorem addSnapshotArgs_eq (m : List (String × String)) (args : List String) :
    addSnapshotArgs m args =
      args ++ snapshotPathFlags m ++ flagOf m "snapshot_mode" "--snapshot-mode" ++
        snapshotHashFlags m ++
        flagOf m "snapshot_max_file_bytes" "--snapshot-max-file-bytes" ++
        flagOf m "snapshot_max_total_bytes" "--snapshot-max-total-bytes" ++
        flagOf m "snapshot_max_files" "--snapshot-max-files" ++
        flagOf m "timeout" "--timeout" := by
  unfold addSnapshotArgs
  simp only [addFlag_eq]
  have h1 : (if TrimSpace (argsGet m "snapshot_paths") ≠ "" then
        (Split (TrimSpace (argsGet m "snapshot_paths"))).foldl addSnapshotPath args
      else args) = args ++ snapshotPathFlags m := by
    unfold snapshotPathFlags
    by_cases h : TrimSpace (argsGet m "snapshot_paths") = ""
    · simp [h]
    · rw [if_pos h, if_neg h, foldl_addSnapshotPath]
  rw [h1]
  unfold snapshotHashFlags
  by_cases h : TrimSpace (argsGet m "snapshot_hash") = ""
  · simp [h]
  · simp [h]

/-- The value of a key does not depend on bindings of other keys. -/
theorem flagOf_congr (m m1 : List (String × String)) (key flag : String)
    (h : argsGet m key = argsGet m1 key) : flagOf m key flag = flagOf m1 key flag := by
  unfold flagOf
  rw [h]
/-- What `buildTriageArgs` returns for a job with arguments when the file of an
inline IOC list can be written: the three leading arguments followed by the
contributions of the nine keys in their order. -/
theorem buildTriageArgs_ok (outputBase : String) (j : job) (m : List (String × String))
    (hm : j.Args = some m) :
    (buildTriageArgs outputBase j none).result =
      .ok (["triage", "--output", outputBase] ++ flagOf m "ioc_file" "--ioc-file" ++
        inlineIocFlags outputBase j.JobID m ++ snapshotPathFlags m ++
        flagOf m "snapshot_mode" "--snapshot-mode" ++ snapshotHashFlags m ++
        flagOf m "snapshot_max_file_bytes" "--snapshot-max-file-bytes" ++
        flagOf m "snapshot_max_total_bytes" "--snapshot-max-total-bytes" ++
        flagOf m "snapshot_max_files" "--snapshot-max-files" ++
        flagOf m "timeout" "--timeout") ∧
    (buildTriageArgs outputBase j none).written =
      if TrimSpace (argsGet m "ioc") = "" then none
      else some (filepathJoin [outputBase, "iocs_" ++ j.JobID ++ ".txt"], argsGet m "ioc") := by
  unfold buildTriageArgs
  rw [hm]
  simp only
  unfold inlineIocFlags
  by_cases h : TrimSpace (argsGet m "ioc") = ""
  · rw [if_neg (not_not.mpr h), if_pos h, if_pos h]
    simp only [addSnapshotArgs_eq, addFlag_eq, List.append_nil, List.append_assoc, and_self]
  · rw [if_pos h, if_neg h, if_neg h]
    simp only [addSnapshotArgs_eq, addFlag_eq, List.append_assoc, and_self]

theorem flagOf_blank (m : List (String × String)) (key flag : String)
    (h : TrimSpace (argsGet m key) = "") : flagOf m key flag = [] := by
  unfold flagOf
  rw [if_pos h]

/-! ## The loop of the triage pipeline -/

/-- Without cancellation the loop of `Run` calls every collector in order and
appends the contribution of each to the artifact list. -/
theorem collectLoop_all (outDir : String) (ctxDone : Nat → Bool) (ctxErr : String)
    (clock : Nat → String) (hctx : ∀ i, ctxDone i = false) :
    ∀ (cols : List Collector) (i : Nat) (st : RunState),
      (collectLoop outDir ctxDone ctxErr clock i cols st).2 = none ∧
      (collectLoop outDir ctxDone ctxErr clock i cols st).1.artifacts =
        st.artifacts ++ collected clock i cols ∧
      (collectLoop outDir ctxDone ctxErr clock i cols st).1.invoked =
        st.invoked ++ cols.map (fun c => c.Name)
  | [], i, st => by
    rw [collectLoop]
    simp [collected]
  | c :: rest, i, st => by
    rw [collectLoop, if_neg (by rw [hctx i]; simp)]
    cases hc : c.outcome with
    | error msg =>
      simp only
      obtain ⟨h1, h2, h3⟩ := collectLoop_all outDir ctxDone ctxErr clock hctx rest (i + 1)
        { artifacts := st.artifacts ++ [errorArtifact c.Name msg (clock i)],
          invoked := st.invoked ++ [c.Name],
          errorFiles :=
            st.errorFiles ++
              [(filepathJoin [outDir, "errors", c.Name ++ ".txt"], msg ++ "\n")] }
      refine ⟨h1, ?_, ?_⟩
      · rw [h2, collected, contribution, hc]
        simp only [List.append_assoc]
      · rw [h3]
        simp only [List.map_cons, List.append_assoc, List.singleton_append]
    | ok arts =>
      simp only
      obtain ⟨h1, h2, h3⟩ := collectLoop_all outDir ctxDone ctxErr clock hctx rest (i + 1)
        { artifacts := st.artifacts ++ arts,
          invoked := st.invoked ++ [c.Name],
          errorFiles := st.errorFiles }
      refine ⟨h1, ?_, ?_⟩
      · rw [h2, collected, contribution, hc]
        simp only [List.append_assoc]
      · rw [h3]
        simp only [List.map_cons, List.append_assoc, List.singleton_append]

/-- `filepath.Clean` of a path that does not start with a slash, given the
elements its scan keeps. -/
theorem cleanChars_relative (c : Char) (cs : List Char) (hc : c ≠ '/')
    (kept : List (List Char))
    (hk : ((splitSlash (c :: cs)).foldl (cleanStep false) []).reverse = kept)
    (hne : kept ≠ []) : cleanChars (c :: cs) = List.intercalate ['/'] kept := by
  have hb : (c == '/') = false := by simpa using hc
  simp only [cleanChars, hb]
  rw [hk]
  simp [hne]

/-- The relative path of the artifact recorded for a failing collector whose
name has no slash. -/
theorem errorArtifact_path (name msg now : String) (h : '/' ∉ name.data) :
    (errorArtifact name msg now).RelativePath = "errors/" ++ name ++ ".txt" := by
  have hrest : '/' ∉ (name ++ ".txt").data := by
    rw [String.data_append]
    intro hx
    rcases List.mem_append.mp hx with hx | hx
    · exact h hx
    · revert hx; decide
  have hlen : 4 ≤ (name ++ ".txt").data.length := by
    rw [String.data_append, List.length_append]
    show 4 ≤ name.data.length + 4
    omega
  apply String.ext
  have hgoal : ("errors/" ++ name ++ ".txt").data =
      ['e', 'r', 'r', 'o', 'r', 's', '/'] ++ (name ++ ".txt").data := by
    simp only [String.data_append, List.append_assoc]
  rw [hgoal]
  show joinChars [['e', 'r', 'r', 'o', 'r', 's'], (name ++ ".txt").data] = _
  generalize (name ++ ".txt").data = r at hrest hlen
  have hr1 : r ≠ [] := by intro hx; rw [hx] at hlen; simp at hlen
  have hr2 : r ≠ ['.'] := by intro hx; rw [hx] at hlen; simp at hlen
  have hr3 : r ≠ ['.', '.'] := by intro hx; rw [hx] at hlen; simp at hlen
  have hsplit : splitSlash ('e' :: (['r', 'r', 'o', 'r', 's'] ++ '/' :: r)) =
      [['e', 'r', 'r', 'o', 'r', 's'], r] := by
    have := splitSlash_append_slash ['e', 'r', 'r', 'o', 'r', 's'] r (by decide)
    rw [splitSlash_no_slash r hrest] at this
    exact this
  have hj : List.intercalate ['/'] [['e', 'r', 'r', 'o', 'r', 's'], r] =
      'e' :: (['r', 'r', 'o', 'r', 's'] ++ '/' :: r) := by
    simp [List.intercalate]
  rw [joinChars, if_neg (by decide), hj,
    cleanChars_relative 'e' _ (by decide) [['e', 'r', 'r', 'o', 'r', 's'], r]
      (by rw [hsplit]; simp [cleanStep, hr1, hr2, hr3]) (by simp)]
  simp [List.intercalate]
/-- What `Run` returns without cancellation. -/
theorem run_cases (opts : Options) (env : RunEnv) (hctx : ∀ i, env.ctxDone i = false) :
    (∃ err, env.mkdirErr = some err ∧ (Run opts env).result = .error err ∧
      (Run opts env).invoked = []) ∨
    (env.mkdirErr = none ∧
      (Run opts env).invoked = (collectorsOf opts env).map (fun c => c.Name) ∧
      (∃ m, (Run opts env).manifest = some m ∧
        m.Artifacts = collected env.clock 0 (collectorsOf opts env) ++ env.analysis) ∧
      ((∃ err, env.manifestErr = some err ∧ (Run opts env).result = .error err) ∨
        (env.manifestErr = none ∧
          (Run opts env).result =
            .ok { CaseID := opts.CaseID, OutputDir := filepathJoin [opts.Output, opts.CaseID],
                  Artifacts := collected env.clock 0 (collectorsOf opts env) }))) := by
  obtain ⟨h1, h2, h3⟩ := collectLoop_all (filepathJoin [opts.Output, opts.CaseID]) env.ctxDone
    env.ctxErr env.clock hctx (collectorsOf opts env) 0
    { artifacts := [], invoked := [], errorFiles := [] }
  unfold Run
  cases hmk : env.mkdirErr with
  | some err => left; exact ⟨err, rfl, rfl, rfl⟩
  | none =>
    right
    simp only
    rcases hl : collectLoop (filepathJoin [opts.Output, opts.CaseID]) env.ctxDone env.ctxErr
      env.clock 0 (collectorsOf opts env) { artifacts := [], invoked := [], errorFiles := [] }
      with ⟨st, _ | e⟩
    · rw [hl] at h2 h3
      simp only [List.nil_append] at h2 h3
      simp only
      cases hme : env.manifestErr with
      | some err =>
        exact ⟨trivial, h3, ⟨_, rfl, by rw [h2]⟩, Or.inl ⟨err, rfl, rfl⟩⟩
      | none =>
        exact ⟨trivial, h3, ⟨_, rfl, by rw [h2]⟩, Or.inr ⟨rfl, by rw [h2]⟩⟩
    · rw [hl] at h1; cases h1

/-! ## Atomic writes and file digests -/

theorem fileGet_fileSet_same :
    ∀ (fs : List (String × String)) (p c : String), fileGet (fileSet fs p c) p = some c
  | [], p, c => by simp [fileSet, fileGet]
  | (k, v) :: rest, p, c => by
    by_cases h : k = p
    · simp [fileSet, fileGet, h]
    · simp [fileSet, fileGet, h, fileGet_fileSet_same rest p c]

theorem fileGet_fileSet_other :
    ∀ (fs : List (String × String)) (p q c : String), q ≠ p →
      fileGet (fileSet fs p c) q = fileGet fs q
  | [], p, q, c, h => by
    simp only [fileSet, fileGet, if_neg (Ne.symm h)]
  | (k, v) :: rest, p, q, c, h => by
    rw [fileSet]
    by_cases hk : k = p
    · rw [if_pos hk, fileGet, fileGet, if_neg (by rw [hk]; exact Ne.symm h),
        if_neg (by rw [hk]; exact Ne.symm h)]
    · rw [if_neg hk, fileGet, fileGet, fileGet_fileSet_other rest p q c h]

theorem fileGet_fileRemove_other :
    ∀ (fs : List (String × String)) (p q : String), q ≠ p →
      fileGet (fileRemove fs p) q = fileGet fs q
  | [], p, q, h => by rw [fileRemove]
  | (k, v) :: rest, p, q, h => by
    rw [fileRemove]
    by_cases hk : k = p
    · rw [if_pos hk, fileGet_fileRemove_other rest p q h, fileGet,
        if_neg (by rw [hk]; exact Ne.symm h)]
    · rw [if_neg hk, fileGet, fileGet, fileGet_fileRemove_other rest p q h]

theorem fileGet_fileRemove_same :
    ∀ (fs : List (String × String)) (p : String), fileGet (fileRemove fs p) p = none
  | [], p => by rw [fileRemove, fileGet]
  | (k, v) :: rest, p => by
    rw [fileRemove]
    by_cases hk : k = p
    · rw [if_pos hk, fileGet_fileRemove_same rest p]
    · rw [if_neg hk, fileGet, if_neg hk, fileGet_fileRemove_same rest p]

/-- The temporary file is not the file itself. -/
theorem tmp_ne (path : String) : path ≠ path ++ ".tmp" := by
  intro h
  have := congrArg (fun s => s.data.length) h
  simp [String.data_append] at this

/-- The whole content is its first bytes up to its length. -/
theorem firstBytes_all (data : String) (k : Nat) (h : data.data.length ≤ k) :
    firstBytes data k = data := by
  unfold firstBytes
  rw [List.take_of_length_le h]

/-- While the temporary file is written the file itself is as it was. -/
theorem writeStates_path (fs : List (String × String)) (path data : String) (n : Nat) :
    ∀ s ∈ writeStates fs (path ++ ".tmp") data n, fileGet s path = fileGet fs path := by
  intro s hs
  unfold writeStates at hs
  obtain ⟨k, -, rfl⟩ := List.mem_map.mp hs
  exact fileGet_fileSet_other fs _ path _ (tmp_ne path)

/-- After the rename the file holds the content of the temporary file, or is
as it was when the rename fails. -/
theorem osRename_path (fs : List (String × String)) (path data : String) (err : Option String) :
    ((osRename (fileSet fs (path ++ ".tmp") data) (path ++ ".tmp") path err).2 = none ∧
      fileGet (osRename (fileSet fs (path ++ ".tmp") data) (path ++ ".tmp") path err).1 path =
        some data ∧
      fileGet (osRename (fileSet fs (path ++ ".tmp") data) (path ++ ".tmp") path err).1
        (path ++ ".tmp") = none ∧ err = none) ∨
    ((osRename (fileSet fs (path ++ ".tmp") data) (path ++ ".tmp") path err).2 = err ∧
      err ≠ none ∧
      (osRename (fileSet fs (path ++ ".tmp") data) (path ++ ".tmp") path err).1 =
        fileSet fs (path ++ ".tmp") data) := by
  unfold osRename
  cases err with
  | some e => right; exact ⟨rfl, by simp, rfl⟩
  | none =>
    left
    rw [fileGet_fileSet_same]
    refine ⟨rfl, fileGet_fileSet_same _ _ _, ?_, rfl⟩
    show fileGet (fileSet (fileRemove (fileSet fs (path ++ ".tmp") data) (path ++ ".tmp")) path
      data) (path ++ ".tmp") = none
    rw [fileGet_fileSet_other _ _ _ _ (Ne.symm (tmp_ne path)), fileGet_fileRemove_same]
theorem firstBytes_min (data : String) (k : Nat) :
    firstBytes data (min k data.data.length) = firstBytes data k := by
  by_cases h : k ≤ data.data.length
  · rw [Nat.min_eq_left h]
  · rw [Nat.min_eq_right (by omega), firstBytes_all data _ (le_refl _),
      firstBytes_all data k (by omega)]

theorem mem_writeStates (fs : List (String × String)) (name data : String) (n k : Nat)
    (h : k ≤ n) : fileSet fs name (firstBytes data k) ∈ writeStates fs name data n := by
  unfold writeStates
  exact List.mem_map.mpr ⟨k, List.mem_range.mpr (by omega), rfl⟩

/-- The states of a call of `WriteFileAtomic` and what it returns, by the way
the call goes. -/
theorem writeFileAtomic_cases (fs : List (String × String)) (path data : String)
    (env : AtomicEnv) :
    (∃ e, env.mkdirErr = some e ∧ WriteFileAtomic fs path data env = (fs, some e) ∧
      atomicStates fs path data env = [fs]) ∨
    (env.mkdirErr = none ∧
      ((∃ e, env.write = .openFails e ∧ WriteFileAtomic fs path data env = (fs, some e) ∧
          atomicStates fs path data env = [fs]) ∨
       (∃ k e, env.write = .stopsAfter k e ∧
          WriteFileAtomic fs path data env =
            (fileSet fs (path ++ ".tmp") (firstBytes data k), some e) ∧
          atomicStates fs path data env =
            fs :: writeStates fs (path ++ ".tmp") data (min k data.data.length)) ∨
       (env.write = .succeeds ∧
          WriteFileAtomic fs path data env =
            osRename (fileSet fs (path ++ ".tmp") data) (path ++ ".tmp") path env.renameErr ∧
          atomicStates fs path data env =
            fs :: (writeStates fs (path ++ ".tmp") data data.data.length ++
              [(osRename (fileSet fs (path ++ ".tmp") data) (path ++ ".tmp") path
                env.renameErr).1])))) := by
  unfold WriteFileAtomic atomicStates
  cases hm : env.mkdirErr with
  | some e => left; exact ⟨e, rfl, rfl, rfl⟩
  | none =>
    right
    refine ⟨rfl, ?_⟩
    cases hw : env.write with
    | openFails e => left; exact ⟨e, rfl, rfl, rfl⟩
    | stopsAfter k e => right; left; exact ⟨k, e, rfl, rfl, rfl⟩
    | succeeds => right; right; exact ⟨rfl, rfl, rfl⟩

/-- The fast path, case by case. -/
theorem sha256FileFastHash_cases (env : HashEnv) :
    (toolRejected env ∧ sha256FileFastHash env = none) ∨
    (∃ h n, toolAccepted env h n ∧ sha256FileFastHash env = some (h, n)) := by
  unfold sha256FileFastHash
  by_cases hf : env.toolFound = false
  · left; exact ⟨Or.inl hf, by rw [if_pos hf]⟩
  rw [if_neg hf]
  have hft : env.toolFound = true := by simpa using hf
  cases ho : env.toolOutput with
  | none => left; exact ⟨Or.inr (Or.inl ho), rfl⟩
  | some out =>
    simp only
    cases hfl : Fields out with
    | nil => left; exact ⟨Or.inr (Or.inr (Or.inl ⟨out, ho, by rw [hfl]; decide⟩)), rfl⟩
    | cons h t =>
      cases t with
      | nil => left; exact ⟨Or.inr (Or.inr (Or.inl ⟨out, ho, by rw [hfl]; simp⟩)), rfl⟩
      | cons f1 rest =>
        simp only
        cases hp : ParseInt10 f1 with
        | none => left; exact ⟨Or.inr (Or.inr (Or.inr ⟨out, h, f1, rest, ho, hfl, hp⟩)), rfl⟩
        | some n => right; exact ⟨h, n, ⟨hft, out, f1, rest, ho, hfl, hp⟩, rfl⟩

/-- An accepted output is not a rejected one, and it is accepted with one
digest and one count. -/
theorem toolAccepted_unique (env : HashEnv) (h : List UInt8) (n : Int)
    (ha : toolAccepted env h n) :
    ¬ toolRejected env ∧ ∀ h1 n1, toolAccepted env h1 n1 → h1 = h ∧ n1 = n := by
  obtain ⟨hf, out, f1, rest, ho, hfl, hp⟩ := ha
  constructor
  · rintro (hr | hr | ⟨out1, ho1, hl⟩ | ⟨out1, h1, f2, rest1, ho1, hfl1, hp1⟩)
    · rw [hf] at hr; cases hr
    · rw [ho] at hr; cases hr
    · rw [ho] at ho1
      injection ho1 with ho1
      rw [← ho1, hfl] at hl
      simp at hl
      omega
    · rw [ho] at ho1
      injection ho1 with ho1
      rw [← ho1, hfl] at hfl1
      injection hfl1 with _ ht
      injection ht with hf1 _
      rw [← hf1, hp] at hp1
      cases hp1
  · rintro h1 n1 ⟨-, out1, f2, rest1, ho1, hfl1, hp1⟩
    rw [ho] at ho1
    injection ho1 with ho1
    rw [← ho1, hfl] at hfl1
    injection hfl1 with hh ht
    injection ht with hf1 _
    rw [← hf1, hp] at hp1
    injection hp1 with hn
    exact ⟨hh.symm, hn.symm⟩

/-! ## The claims -/

/-- C1: on a GET request that authenticates, `handleJobsNext` returns the job at
the smallest position whose agent is the caller and whose status is `queued`,
already marked `claimed` with the claim time, and the job list afterwards is the
old one with exactly that position replaced; when no such job exists the
response is 204 and the job list is unchanged. -/
theorem handleJobsNext_claims_first_queued (s : Server) (r : Request) (authNow claimNow : String)
    (wAuth wClaim : WriteOutcome)
    (hm : r.Method = "GET") (hauth : (authenticateAgent s r authNow wAuth).2 ≠ none) :
    (∀ i j, s.jobs[i]? = some j → claimable r.agent_id j →
        (∀ k j0, k < i → s.jobs[k]? = some j0 → ¬ claimable r.agent_id j0) →
        (handleJobsNext s r authNow claimNow wAuth wClaim).2 = .job (markClaimed j claimNow) ∧
        (handleJobsNext s r authNow claimNow wAuth wClaim).1.jobs =
          s.jobs.set i (markClaimed j claimNow)) ∧
    ((∀ j ∈ s.jobs, ¬ claimable r.agent_id j) →
        (handleJobsNext s r authNow claimNow wAuth wClaim).2 = .status 204 ∧
        (handleJobsNext s r authNow claimNow wAuth wClaim).1.jobs = s.jobs) := by
  rcases handleJobsNext_cases s r authNow claimNow wAuth wClaim with
    ⟨h, -⟩ | ⟨-, h, -⟩ | ⟨-, -, hno, e⟩ | ⟨-, -, i0, j0, hi0, hc0, hfirst0, e⟩
  · exact absurd hm h
  · exact absurd h hauth
  · constructor
    · intro i j hi hc _
      exact absurd hc (hno j (List.getElem?_mem hi))
    · intro _
      rw [e]; exact ⟨rfl, authenticateAgent_jobs s r authNow wAuth⟩
  · constructor
    · intro i j hi hc hfirst
      have hii : i0 = i := by
        rcases Nat.lt_trichotomy i0 i with h | h | h
        · exact absurd hc0 (hfirst i0 j0 h hi0)
        · exact h
        · exact absurd hc (hfirst0 i j h hi)
      subst hii
      have hjj : j0 = j := by rw [hi0] at hi; exact Option.some.inj hi
      subst hjj
      rw [e]; exact ⟨rfl, by simp only [persistLocked_jobs]⟩
    · intro hnone
      exact absurd hc0 (hnone j0 (List.getElem?_mem hi0))

/-- C1 at a concrete store: A polls while its first queued job sits at position 2. -/
theorem handleJobsNext_claims_first_queued_witness :
    (pollAs "A" "tokA").Method = "GET" ∧
    (authenticateAgent sampleServer (pollAs "A" "tokA") "t2" writesOk).2 ≠ none ∧
    (handleJobsNext sampleServer (pollAs "A" "tokA") "t2" "t3" writesOk writesOk).2 =
      .job (markClaimed (queuedJob "J3" "A") "t3") ∧
    (handleJobsNext sampleServer (pollAs "A" "tokA") "t2" "t3" writesOk writesOk).1.jobs =
      sampleServer.jobs.set 2 (markClaimed (queuedJob "J3" "A") "t3") :=
  ⟨by decide, by decide,
    (handleJobsNext_claims_first_queued sampleServer (pollAs "A" "tokA") "t2" "t3" writesOk writesOk
      (by decide) (by decide)).1 2 (queuedJob "J3" "A") (by decide) (by decide)
      (by
        intro k j0 hk hj0
        have hk01 : k = 0 ∨ k = 1 := by omega
        rcases hk01 with rfl | rfl
        · have : j0 = queuedJob "J1" "B" := by
            simpa [sampleServer] using hj0.symm
          subst this; decide
        · have : j0 = markClaimed (queuedJob "J2" "A") "t1" := by
            simpa [sampleServer] using hj0.symm
          subst this; decide)⟩

/-- C2: in every run of the server from a fresh store in which the job ids
generated by the enqueue calls are pairwise distinct, the claim-next calls hand
out pairwise distinct job ids: no job id is returned by two claims. -/
theorem claim_is_one_shot (cfg : Config) (disk : Disk) (ops : List Op)
    (hdistinct : (enqueuedIDs (runTrace (New cfg disk) ops).2).Nodup) :
    (claimedIDs (runTrace (New cfg disk) ops).2).Nodup := by
  have hids : ((runTrace (New cfg disk) ops).1.jobs.map Job.JobID).Nodup := by
    rw [runTrace_jobIDs_eq ops (New cfg disk)]
    simpa [New] using hdistinct
  have := claimedIDs_nodup_from ops (New cfg disk) [] (by intro id h; cases h) List.nodup_nil hids
  simpa using this

/-- C2 at a concrete run: two jobs queued for A, three polls, two distinct ids
handed out. -/
theorem claim_is_one_shot_witness :
    enqueuedIDs (runTrace (New labConfig blankDisk) sampleRun).2 = ["J1", "J2"] ∧
    claimedIDs (runTrace (New labConfig blankDisk) sampleRun).2 = ["J1", "J2"] ∧
    (claimedIDs (runTrace (New labConfig blankDisk) sampleRun).2).Nodup :=
  ⟨by decide, by decide, claim_is_one_shot labConfig blankDisk sampleRun (by decide)⟩

/-- C3, at the input where the code departs from it: in the reachable store
`sampleServer` A and B are enrolled and job J1 belongs to B and is queued; a
result upload authenticated as A and naming J1 succeeds and turns the status of
B's job from `queued` to `done`, setting its `done_at`. `handleJobResults` never
compares the job's `AgentID` with the authenticated agent. -/
theorem handleJobResults_completes_foreign_job :
    Reachable sampleServer ∧
    sampleServer.jobs[0]? = some (queuedJob "J1" "B") ∧
    (authenticateAgent sampleServer (uploadAs "A" "tokA" "J1") "t5" writesOk).2 =
      some { agentRecord "A" "tokA" with LastSeen := "t5" } ∧
    (handleJobResults sampleServer (uploadAs "A" "tokA" "J1") "t5" "t6" .ok writesOk writesOk).2 =
      .saved "data/uploads/J1/case.tar.gz" ∧
    (handleJobResults sampleServer (uploadAs "A" "tokA" "J1") "t5" "t6" .ok writesOk
        writesOk).1.jobs[0]? =
      some { queuedJob "J1" "B" with Status := "done", DoneAt := "t6" } :=
  ⟨⟨labConfig, blankDisk, sampleServerRun, by decide⟩, by decide, by decide, by decide, by decide⟩

/-- C4 as stated fails: replaying a successful upload for a job that is already
done succeeds, but the job list and the agents map both change (the job's
`done_at` and the agent's `last_seen` are overwritten). -/
theorem replayed_upload_is_not_a_noop :
    doneServer.jobs.map Job.Status = ["done", "queued"] ∧
    (handleJobResults doneServer (uploadAs "A" "tokA" "J1") "t8" "t9" .ok writesOk writesOk).2 =
      .saved "data/uploads/J1/case.tar.gz" ∧
    (handleJobResults doneServer (uploadAs "A" "tokA" "J1") "t8" "t9" .ok writesOk writesOk).1.jobs
      ≠ doneServer.jobs ∧
    (handleJobResults doneServer (uploadAs "A" "tokA" "J1") "t8" "t9" .ok writesOk
      writesOk).1.agents ≠ doneServer.agents := by
  decide

/-- C4, amended: when the job an id denotes (the first job with that id) is
already done, a result upload for it (a POST to its results path with matching
credentials and a `file` part that is written without error) is answered with
the saved path and not with an error; the job list is left as it was except that
this job's `done_at` becomes the time of the replay, and the agents map is left
as it was except that the authenticated agent's `last_seen` becomes the time of
the authentication. -/
theorem replayed_upload_keeps_done (s : Server) (r : Request) (authNow doneNow : String)
    (wAuth wDone : WriteOutcome) (jid : String) (a : Agent) (events : List PartEvent)
    (fileName content : String) (i : Nat) (j : Job)
    (hm : r.Method = "POST") (hp : pathJobID r.Path = some jid)
    (hc : credentialsMatch s r.agent_id r.token a)
    (hmp : r.multipart = some events)
    (hf : firstFilePart events = some (fileName, content))
    (hi : s.jobs[i]? = some j) (hid : j.JobID = jid)
    (hfirst : ∀ k j0, k < i → s.jobs[k]? = some j0 → j0.JobID ≠ jid)
    (hdone : j.Status = "done") :
    (handleJobResults s r authNow doneNow .ok wAuth wDone).2 =
      .saved (uploadPath s.cfg jid fileName) ∧
    (handleJobResults s r authNow doneNow .ok wAuth wDone).1.jobs =
      s.jobs.set i { j with DoneAt := doneNow } ∧
    (handleJobResults s r authNow doneNow .ok wAuth wDone).1.agents =
      agentsSet s.agents r.agent_id { a with LastSeen := authNow } := by
  obtain ⟨hresp, hjobs, hagents, -⟩ :=
    handleJobResults_success s r authNow doneNow wAuth wDone jid a events fileName content
      hm hp hc hmp hf
  refine ⟨hresp, ?_, hagents⟩
  rw [hjobs, completeLoop_first jid doneNow s.jobs i j hi hid hfirst]
  have : markDone j doneNow = { j with DoneAt := doneNow } := by
    simp only [markDone, ← hdone]
  rw [this]

/-- C4 amended, at a concrete store: the replay for J1, already done, is
answered with the saved path and rewrites only the job's `done_at` and the
agent's `last_seen`. -/
theorem replayed_upload_keeps_done_witness :
    (doneServer.jobs[0]?).map Job.Status = some "done" ∧
    (handleJobResults doneServer (uploadAs "A" "tokA" "J1") "t8" "t9" .ok writesOk writesOk).2 =
      .saved (uploadPath doneServer.cfg "J1" "case.tar.gz") ∧
    (handleJobResults doneServer (uploadAs "A" "tokA" "J1") "t8" "t9" .ok writesOk writesOk).1.jobs =
      doneServer.jobs.set 0
        { markDone (markClaimed (queuedJob "J1" "A") "t1") "t2" with DoneAt := "t9" } ∧
    (handleJobResults doneServer (uploadAs "A" "tokA" "J1") "t8" "t9" .ok writesOk
        writesOk).1.agents =
      agentsSet doneServer.agents (uploadAs "A" "tokA" "J1").agent_id
        { agentRecord "A" "tokA" with LastSeen := "t8" } :=
  ⟨by decide,
    replayed_upload_keeps_done doneServer (uploadAs "A" "tokA" "J1") "t8" "t9" writesOk writesOk
      "J1" (agentRecord "A" "tokA") [.part "file" "case.tar.gz" "archive"] "case.tar.gz" "archive"
      0 (markDone (markClaimed (queuedJob "J1" "A") "t1") "t2")
      (by decide) (by decide) (by decide) (by decide) (by decide) (by decide) (by decide)
      (by intro k j0 hk; omega) (by decide)⟩

/-- C5: in every state reachable from a fresh store each job's status is one of
`queued`, `claimed`, `done`, and every request keeps each existing job at its
position with a status of rank (queued 0, claimed 1, done 2) at least the rank
it had; a job that is not queued does not become queued and a done job stays
done. -/
theorem status_never_reverses (s : Server) (h : Reachable s) :
    (∀ j ∈ s.jobs, j.Status = "queued" ∨ j.Status = "claimed" ∨ j.Status = "done") ∧
    ∀ (op : Op) (i : Nat) (j : Job), s.jobs[i]? = some j →
      ∃ j1, (step s op).1.jobs[i]? = some j1 ∧
        statusRank j.Status ≤ statusRank j1.Status ∧
        (j.Status ≠ "queued" → j1.Status ≠ "queued") ∧
        (j.Status = "done" → j1.Status = "done") := by
  constructor
  · intro j hj
    rcases reachable_wellFormed s h j hj with ⟨hq, -, -⟩ | ⟨hc, -⟩ | hd
    · exact Or.inl hq
    · exact Or.inr (Or.inl hc)
    · exact Or.inr (Or.inr hd)
  · intro op i j hi
    obtain ⟨j1, hi1, hj1⟩ := jobsChange_pointwise (step_jobsChange s op) i j hi
    refine ⟨j1, hi1, ?_⟩
    rcases hj1 with rfl | ⟨hq, now, rfl⟩ | ⟨now, rfl⟩
    · exact ⟨le_refl _, fun hne => hne, fun hd => hd⟩
    · refine ⟨?_, fun hne => absurd hq hne, fun hd => ?_⟩
      · rw [hq]; simp [statusRank, markClaimed]
      · rw [hq] at hd; exact absurd hd (by decide)
    · refine ⟨statusRank_le_two _, fun _ => by simp [markDone], fun _ => rfl⟩

/-- C5 at a concrete reachable state: the store after the sample run. -/
theorem status_never_reverses_witness :
    Reachable (runOps (New labConfig blankDisk) sampleRun) ∧
    (∀ j ∈ (runOps (New labConfig blankDisk) sampleRun).jobs,
      j.Status = "queued" ∨ j.Status = "claimed" ∨ j.Status = "done") ∧
    ∀ (op : Op) (i : Nat) (j : Job),
      (runOps (New labConfig blankDisk) sampleRun).jobs[i]? = some j →
      ∃ j1, (step (runOps (New labConfig blankDisk) sampleRun) op).1.jobs[i]? = some j1 ∧
        statusRank j.Status ≤ statusRank j1.Status ∧
        (j.Status ≠ "queued" → j1.Status ≠ "queued") ∧
        (j.Status = "done" → j1.Status = "done") :=
  ⟨⟨labConfig, blankDisk, sampleRun, rfl⟩,
    status_never_reverses (runOps (New labConfig blankDisk) sampleRun)
      ⟨labConfig, blankDisk, sampleRun, rfl⟩⟩

/-- C6 as stated fails: after enroll and enqueue the job J1 is queued with no
claim time; the owner's result upload for J1, with no claim in between, moves
it straight from `queued` to `done`, and the reachable state that results holds
a done job whose `claimed_at` is empty. -/
theorem upload_completes_unclaimed_job :
    Reachable (runOps (New labConfig blankDisk) (skipClaimRun.take 2)) ∧
    (runOps (New labConfig blankDisk) (skipClaimRun.take 2)).jobs.map
      (fun j => (j.JobID, j.Status, j.ClaimedAt)) = [("J1", "queued", "")] ∧
    (step (runOps (New labConfig blankDisk) (skipClaimRun.take 2))
      (.results (uploadAs "A" "tokA" "J1") "t2" "t3" .ok writesOk writesOk)).1.jobs.map
      (fun j => (j.JobID, j.Status, j.ClaimedAt)) = [("J1", "done", "")] ∧
    Reachable (runOps (New labConfig blankDisk) skipClaimRun) ∧
    (runOps (New labConfig blankDisk) skipClaimRun).jobs.map
      (fun j => (j.JobID, j.Status, j.ClaimedAt)) = [("J1", "done", "")] :=
  ⟨⟨labConfig, blankDisk, skipClaimRun.take 2, rfl⟩, by decide, by decide,
    ⟨labConfig, blankDisk, skipClaimRun, rfl⟩, by decide⟩

/-- C6, amended: in every state reachable from a fresh store a queued job has
empty `claimed_at` and `done_at`, a claimed job has empty `done_at`, and every
other job is done; and every request keeps each existing job at its position
and changes it only as follows: enroll and enqueue not at all, a claim-next
only from `queued` to `claimed` for a job of the caller, setting `claimed_at`,
and a result upload only to `done` for a job whose id the path names, setting
`done_at`, whatever the status was before. -/
theorem lifecycle_transitions (s : Server) (h : Reachable s) :
    (∀ j ∈ s.jobs, JobWellFormed j) ∧
    ∀ (op : Op) (i : Nat) (j : Job), s.jobs[i]? = some j →
      ∃ j1, (step s op).1.jobs[i]? = some j1 ∧ JobTransition op j j1 :=
  ⟨reachable_wellFormed s h, fun op i j hi => step_transition s op i j hi⟩

/-- C6 amended, at a concrete reachable state: the store after the run in which
the upload came without a claim. -/
theorem lifecycle_transitions_witness :
    Reachable (runOps (New labConfig blankDisk) skipClaimRun) ∧
    (∀ j ∈ (runOps (New labConfig blankDisk) skipClaimRun).jobs, JobWellFormed j) ∧
    ∀ (op : Op) (i : Nat) (j : Job),
      (runOps (New labConfig blankDisk) skipClaimRun).jobs[i]? = some j →
      ∃ j1, (step (runOps (New labConfig blankDisk) skipClaimRun) op).1.jobs[i]? = some j1 ∧
        JobTransition op j j1 :=
  ⟨⟨labConfig, blankDisk, skipClaimRun, rfl⟩,
    lifecycle_transitions (runOps (New labConfig blankDisk) skipClaimRun)
      ⟨labConfig, blankDisk, skipClaimRun, rfl⟩⟩

/-- C7: `authenticateAgent` accepts exactly when `agent_id` and `token` are
non-empty, `agent_id` is a key of the registry and `token` equals the token on
record; a rejection leaves the server as it was and is answered 401 by both
handlers, whatever its cause. In every run from a fresh store whose enroll calls
returned pairwise distinct, non-empty agent ids and tokens, the pair returned by
any enroll call is accepted in the final state (and the two handlers do not
answer 401), and its token presented with any other `agent_id` is rejected. -/
theorem agent_authentication (cfg : Config) (disk : Disk) (ops : List Op)
    (hids : ((enrolledPairs (runTrace (New cfg disk) ops).2).map enrollResponse.AgentID).Nodup)
    (htoks : ((enrolledPairs (runTrace (New cfg disk) ops).2).map enrollResponse.Token).Nodup)
    (hne : ∀ e ∈ enrolledPairs (runTrace (New cfg disk) ops).2, e.AgentID ≠ "" ∧ e.Token ≠ "") :
    (∀ (s : Server) (r : Request) (now : String) (w : WriteOutcome),
      (authenticateAgent s r now w).2 ≠ none ↔
        (r.agent_id ≠ "" ∧ r.token ≠ "" ∧
          ∃ a, agentsGet s.agents r.agent_id = some a ∧ r.token = a.Token)) ∧
    (∀ (s : Server) (r : Request) (now : String) (w : WriteOutcome),
      (authenticateAgent s r now w).2 = none →
        authenticateAgent s r now w = (s, none) ∧
        (∀ claimNow wClaim, r.Method = "GET" →
          handleJobsNext s r now claimNow w wClaim = (s, .status 401)) ∧
        (∀ doneNow o wDone, r.Method = "POST" → pathJobID r.Path ≠ none →
          handleJobResults s r now doneNow o w wDone = (s, .status 401))) ∧
    (∀ e ∈ enrolledPairs (runTrace (New cfg disk) ops).2,
      ∀ (r : Request) (now : String) (w : WriteOutcome), r.token = e.Token →
        (r.agent_id = e.AgentID →
          (authenticateAgent (runTrace (New cfg disk) ops).1 r now w).2 ≠ none ∧
          (∀ claimNow wClaim, r.Method = "GET" →
            (handleJobsNext (runTrace (New cfg disk) ops).1 r now claimNow w wClaim).2
              ≠ .status 401) ∧
          (∀ doneNow o wDone,
            (handleJobResults (runTrace (New cfg disk) ops).1 r now doneNow o w wDone).2
              ≠ .status 401)) ∧
        (r.agent_id ≠ e.AgentID →
          (authenticateAgent (runTrace (New cfg disk) ops).1 r now w).2 = none)) := by
  refine ⟨?_, ?_, ?_⟩
  · intro s r now w
    constructor
    · intro h
      obtain ⟨a, hc, -, -⟩ := authenticateAgent_ok s r now w h
      exact ⟨hc.1, hc.2.1, a, hc.2.2.1, hc.2.2.2⟩
    · rintro ⟨h1, h2, a, h3, h4⟩
      exact authenticateAgent_ne_none s r now w a ⟨h1, h2, h3, h4⟩
  · intro s r now w h
    refine ⟨?_, ?_, ?_⟩
    · rcases authenticateAgent_cases s r now w with ⟨-, e⟩ | ⟨a, -, e⟩
      · exact e
      · rw [e] at h; cases h
    · intro claimNow wClaim hm
      exact handleJobsNext_unauthorized s r now claimNow w wClaim hm h
    · intro doneNow o wDone hm hp
      exact handleJobResults_unauthorized s r now doneNow o w wDone hm hp h
  · have hreg := registryHolds_run ops (New cfg disk) []
      ⟨by intro k a h; simp [New, agentsGet] at h, by intro e he; cases he⟩
      (by simpa using hids)
    simp only [List.nil_append] at hreg
    intro e he r now w htok
    constructor
    · intro hid
      obtain ⟨a, ha, hat⟩ := hreg.2 e he
      have hc : credentialsMatch (runTrace (New cfg disk) ops).1 r.agent_id r.token a :=
        ⟨by rw [hid]; exact (hne e he).1, by rw [htok]; exact (hne e he).2,
          by rw [hid]; exact ha, by rw [htok, hat]⟩
      have hok := authenticateAgent_ne_none _ r now w a hc
      exact ⟨hok, fun claimNow wClaim hm => handleJobsNext_authorized _ r now claimNow w wClaim hm hok,
        fun doneNow o wDone => handleJobResults_authorized _ r now doneNow o w wDone hok⟩
    · intro hid
      by_contra hcon
      obtain ⟨a, hc, -, -⟩ := authenticateAgent_ok _ r now w hcon
      have hmem := hreg.1 r.agent_id a hc.2.2.1
      have heq : ({ AgentID := r.agent_id, Token := a.Token } : enrollResponse) = e :=
        List.inj_on_of_nodup_map htoks hmem he (by rw [← hc.2.2.2, htok])
      exact hid (by rw [← heq])

/-- C7 at a concrete run with two enrolled agents. -/
theorem agent_authentication_witness :
    enrolledPairs (runTrace (New labConfig blankDisk) twoAgentRun).2 =
      [{ AgentID := "A", Token := "tokA" }, { AgentID := "B", Token := "tokB" }] ∧
    (authenticateAgent (runTrace (New labConfig blankDisk) twoAgentRun).1
      (pollAs "A" "tokA") "t9" writesOk).2 ≠ none ∧
    (authenticateAgent (runTrace (New labConfig blankDisk) twoAgentRun).1
      (pollAs "B" "tokA") "t9" writesOk).2 = none :=
  ⟨by decide,
    (((agent_authentication labConfig blankDisk twoAgentRun (by decide) (by decide)
      (by decide)).2.2 { AgentID := "A", Token := "tokA" } (by decide)
      (pollAs "A" "tokA") "t9" writesOk rfl).1 rfl).1,
    ((agent_authentication labConfig blankDisk twoAgentRun (by decide) (by decide)
      (by decide)).2.2 { AgentID := "A", Token := "tokA" } (by decide)
      (pollAs "B" "tokA") "t9" writesOk rfl).2 (by decide)⟩

/-- C8: in a store where `ghost` is not a key of the registry, an enqueue for
`ghost` that passes the PSK gate succeeds and appends a queued job of `ghost`;
a GET claim-next request as `ghost`, with any token, on the store that results
is answered 401, returns no job, and leaves that store exactly as it was (so the
job is still queued). The same holds in any store where `ghost` is not a key. -/
theorem ghost_poll_is_unauthorized (s : Server) (r : Request) (req : enqueueJobRequest)
    (jobID createdAt : String) (w : WriteOutcome)
    (hghost : agentsGet s.agents "ghost" = none)
    (hm : r.Method = "POST") (hpsk : requirePSK s r = true)
    (hb : r.enqueueBody = some req) (hreq : req.AgentID = "ghost") :
    (handleJobs s r jobID createdAt w).2 = .job (newJob req jobID createdAt) ∧
    (newJob req jobID createdAt).AgentID = "ghost" ∧
    (newJob req jobID createdAt).Status = "queued" ∧
    (handleJobs s r jobID createdAt w).1.jobs = s.jobs ++ [newJob req jobID createdAt] ∧
    (∀ (p : Request) (authNow claimNow : String) (wAuth wClaim : WriteOutcome),
      p.Method = "GET" → p.agent_id = "ghost" →
      handleJobsNext (handleJobs s r jobID createdAt w).1 p authNow claimNow wAuth wClaim =
        ((handleJobs s r jobID createdAt w).1, .status 401)) ∧
    (∀ (s1 : Server) (p : Request) (authNow claimNow : String) (wAuth wClaim : WriteOutcome),
      agentsGet s1.agents "ghost" = none → p.Method = "GET" → p.agent_id = "ghost" →
      handleJobsNext s1 p authNow claimNow wAuth wClaim = (s1, .status 401)) := by
  have hgen : ∀ (s1 : Server) (p : Request) (authNow claimNow : String)
      (wAuth wClaim : WriteOutcome),
      agentsGet s1.agents "ghost" = none → p.Method = "GET" → p.agent_id = "ghost" →
      handleJobsNext s1 p authNow claimNow wAuth wClaim = (s1, .status 401) := by
    intro s1 p authNow claimNow wAuth wClaim hg hpm hpa
    apply handleJobsNext_unauthorized s1 p authNow claimNow wAuth wClaim hpm
    rcases authenticateAgent_cases s1 p authNow wAuth with ⟨-, e1⟩ | ⟨a, hc, -⟩
    · rw [e1]
    · exfalso
      have h1 := hc.2.2.1
      rw [hpa, hg] at h1
      cases h1
  rcases handleJobs_cases s r jobID createdAt w with ⟨code, e⟩ | ⟨req1, -, -, hb1, -, e⟩
  · exfalso
    have hne : req.AgentID ≠ "" := by rw [hreq]; decide
    simp [handleJobs, hm, hpsk, hb, hne] at e
  · have hreq1 : req1 = req := by rw [hb] at hb1; exact (Option.some.inj hb1).symm
    subst hreq1
    refine ⟨by rw [e], hreq, rfl, by rw [e]; simp only [persistLocked_jobs], ?_, hgen⟩
    intro p authNow claimNow wAuth wClaim hpm hpa
    apply hgen _ p authNow claimNow wAuth wClaim _ hpm hpa
    rw [e]
    simp only [persistLocked_agents]
    exact hghost

/-- C8 at a concrete store: a job is queued for `ghost` in the sample store and
`ghost` polls with a guessed token. -/
theorem ghost_poll_is_unauthorized_witness :
    agentsGet sampleServer.agents "ghost" = none ∧
    handleJobsNext (handleJobs sampleServer (enqueueFor "ghost" "") "J9" "t7" writesOk).1
        (pollAs "ghost" "tokA") "t8" "t8" writesOk writesOk =
      ((handleJobs sampleServer (enqueueFor "ghost" "") "J9" "t7" writesOk).1, .status 401) :=
  ⟨by decide,
    (ghost_poll_is_unauthorized sampleServer (enqueueFor "ghost" "")
      { AgentID := "ghost", Type_ := "", Args := [] } "J9" "t7" writesOk
      (by decide) (by decide) (by decide) (by decide) (by decide)).2.2.2.2.1
      (pollAs "ghost" "tokA") "t8" "t8" writesOk writesOk (by decide) (by decide)⟩

/-- C9: a result upload for the job id `jid` (a POST whose path reads back as
`jid`, as the path `/v1/jobs/<jid>/results` does for every id without a slash)
that authenticates and carries a part named `file`, read and written without
error, is answered with the saved path, which is not empty and holds the
uploaded content, and leaves the job the id denotes (the first job with that id)
with status `done` and `done_at` set to the completion time. In the end-to-end
run enroll, enqueue, claim, upload the job ends `done` with both `claimed_at`
and `done_at` set. -/
theorem upload_completes_job (s : Server) (r : Request) (authNow doneNow : String)
    (wAuth wDone : WriteOutcome) (jid : String) (a : Agent) (events : List PartEvent)
    (fileName content : String) (i : Nat) (j : Job)
    (hm : r.Method = "POST") (hp : pathJobID r.Path = some jid)
    (hc : credentialsMatch s r.agent_id r.token a)
    (hmp : r.multipart = some events)
    (hf : firstFilePart events = some (fileName, content))
    (hi : s.jobs[i]? = some j) (hid : j.JobID = jid)
    (hfirst : ∀ k j0, k < i → s.jobs[k]? = some j0 → j0.JobID ≠ jid)
    (hnow : doneNow ≠ "") :
    (handleJobResults s r authNow doneNow .ok wAuth wDone).2 =
      .saved (uploadPath s.cfg jid fileName) ∧
    uploadPath s.cfg jid fileName ≠ "" ∧
    (handleJobResults s r authNow doneNow .ok wAuth wDone).1.disk.uploads.head? =
      some (uploadPath s.cfg jid fileName, content) ∧
    (∃ j1, (handleJobResults s r authNow doneNow .ok wAuth wDone).1.jobs[i]? = some j1 ∧
      j1 = markDone j doneNow ∧ j1.JobID = jid ∧ j1.Status = "done" ∧ j1.DoneAt ≠ "") ∧
    (∀ id : String, '/' ∉ id.data → pathJobID ("/v1/jobs/" ++ id ++ "/results") = some id) ∧
    (∀ (cfg : Config) (disk : Disk)
      (agentID token jobID tEnroll tQueue tPoll tClaim tAuth tDone : String) (w : WriteOutcome),
      cfg.PSK = "" → agentID ≠ "" → token ≠ "" → '/' ∉ jobID.data →
      tClaim ≠ "" → tDone ≠ "" →
      ∃ job : Job,
        (runTrace (New cfg disk)
          (lifecycleRun agentID token jobID tEnroll tQueue tPoll tClaim tAuth tDone w)).1.jobs =
          [job] ∧
        job.JobID = jobID ∧ job.AgentID = agentID ∧ job.Type_ = "triage" ∧
        job.Status = "done" ∧ job.ClaimedAt = tClaim ∧ job.ClaimedAt ≠ "" ∧
        job.DoneAt = tDone ∧ job.DoneAt ≠ "" ∧
        ((runTrace (New cfg disk)
          (lifecycleRun agentID token jobID tEnroll tQueue tPoll tClaim tAuth tDone w)).2.map
            Prod.snd).getLast? = some (.saved (uploadPath cfg jobID "case.tar.gz"))) := by
  obtain ⟨hresp, hjobs, -, hdisk⟩ :=
    handleJobResults_success s r authNow doneNow wAuth wDone jid a events fileName content
      hm hp hc hmp hf
  refine ⟨hresp, uploadPath_ne_empty _ _ _, hdisk, ?_, pathJobID_results, ?_⟩
  · refine ⟨markDone j doneNow, ?_, rfl, hid, rfl, hnow⟩
    rw [hjobs, completeLoop_first jid doneNow s.jobs i j hi hid hfirst]
    exact List.getElem?_set_self (getElem?_lt hi)
  · intro cfg disk agentID token jobID tEnroll tQueue tPoll tClaim tAuth tDone w hpsk hA htok hjob
      hclaim hdone
    obtain ⟨h1, h2⟩ := lifecycleRun_result cfg disk agentID token jobID tEnroll tQueue tPoll tClaim
      tAuth tDone w hpsk hA htok hjob
    exact ⟨_, h1, rfl, rfl, rfl, rfl, rfl, hclaim, rfl, hdone, by rw [h2]; rfl⟩

/-- C9 at a concrete store: A uploads the result of its job J3. -/
theorem upload_completes_job_witness :
    sampleServer.jobs[2]? = some (queuedJob "J3" "A") ∧
    (handleJobResults sampleServer (uploadAs "A" "tokA" "J3") "t5" "t6" .ok writesOk writesOk).2 =
      .saved "data/uploads/J3/case.tar.gz" ∧
    (handleJobResults sampleServer (uploadAs "A" "tokA" "J3") "t5" "t6" .ok writesOk
      writesOk).1.jobs[2]? = some (markDone (queuedJob "J3" "A") "t6") :=
  ⟨by decide,
    (upload_completes_job sampleServer (uploadAs "A" "tokA" "J3") "t5" "t6" writesOk writesOk "J3"
      (agentRecord "A" "tokA") [.part "file" "case.tar.gz" "archive"] "case.tar.gz" "archive" 2
      (queuedJob "J3" "A") (by decide) (by decide) (by decide) (by decide) (by decide) (by decide)
      (by decide)
      (by
        intro k j0 hk hj0
        have hk01 : k = 0 ∨ k = 1 := by omega
        rcases hk01 with rfl | rfl
        · have : j0 = queuedJob "J1" "B" := by simpa [sampleServer] using hj0.symm
          subst this; decide
        · have : j0 = markClaimed (queuedJob "J2" "A") "t1" := by
            simpa [sampleServer] using hj0.symm
          subst this; decide)
      (by decide)).1,
    by decide⟩

/-- C10: an enqueue request that passes the PSK gate and whose body decodes to a
non-empty `agent_id` (registered or not) appends exactly one job at the end of
the job list: status `queued`, the given `agent_id` and args, empty `claimed_at`
and `done_at`, and the given type, or `triage` when that is empty. The jobs
already there and the agents map are unchanged, and the new job is the response. -/
theorem enqueue_appends_queued_job (s : Server) (r : Request) (req : enqueueJobRequest)
    (jobID createdAt : String) (w : WriteOutcome)
    (hm : r.Method = "POST") (hpsk : requirePSK s r = true)
    (hb : r.enqueueBody = some req) (hreq : req.AgentID ≠ "") :
    ∃ job : Job,
      (handleJobs s r jobID createdAt w).2 = .job job ∧
      (handleJobs s r jobID createdAt w).1.jobs = s.jobs ++ [job] ∧
      (handleJobs s r jobID createdAt w).1.agents = s.agents ∧
      job.Status = "queued" ∧ job.AgentID = req.AgentID ∧ job.Args = req.Args ∧
      job.ClaimedAt = "" ∧ job.DoneAt = "" ∧ job.JobID = jobID ∧ job.CreatedAt = createdAt ∧
      (req.Type_ ≠ "" → job.Type_ = req.Type_) ∧ (req.Type_ = "" → job.Type_ = "triage") := by
  rcases handleJobs_cases s r jobID createdAt w with ⟨code, e⟩ | ⟨req1, -, -, hb1, -, e⟩
  · exfalso
    simp [handleJobs, hm, hpsk, hb, hreq] at e
  · have hreq1 : req1 = req := by rw [hb] at hb1; exact (Option.some.inj hb1).symm
    subst hreq1
    refine ⟨newJob req1 jobID createdAt, by rw [e], by rw [e]; simp only [persistLocked_jobs],
      by rw [e]; simp only [persistLocked_agents], rfl, rfl, rfl, rfl, rfl, rfl, rfl, ?_, ?_⟩
    · intro h; simp [newJob, h]
    · intro h; simp [newJob, h]

/-- C10 at a concrete store: a job without a type is queued for an agent that is
not enrolled. -/
theorem enqueue_appends_queued_job_witness :
    agentsGet sampleServer.agents "ghost" = none ∧
    ∃ job : Job,
      (handleJobs sampleServer (enqueueFor "ghost" "") "J9" "t7" writesOk).2 = .job job ∧
      (handleJobs sampleServer (enqueueFor "ghost" "") "J9" "t7" writesOk).1.jobs =
        sampleServer.jobs ++ [job] ∧
      (handleJobs sampleServer (enqueueFor "ghost" "") "J9" "t7" writesOk).1.agents =
        sampleServer.agents ∧
      job.Status = "queued" ∧ job.AgentID = "ghost" ∧ job.Args = [] ∧
      job.ClaimedAt = "" ∧ job.DoneAt = "" ∧ job.JobID = "J9" ∧ job.CreatedAt = "t7" ∧
      (("" : String) ≠ "" → job.Type_ = "") ∧ (("" : String) = "" → job.Type_ = "triage") :=
  ⟨by decide,
    enqueue_appends_queued_job sampleServer (enqueueFor "ghost" "")
      { AgentID := "ghost", Type_ := "", Args := [] } "J9" "t7" writesOk
      (by decide) (by decide) (by decide) (by decide)⟩

/-- C11: `requirePSK` admits a request exactly when the configured PSK is empty
or the `X-PSK` header equals it; with a PSK configured, an absent or empty
header, a header of another length and a header that differs are all rejected;
and a POST enroll or enqueue that the gate rejects is answered 401 with the
whole server left as it was. -/
theorem psk_gate (s : Server) (r : Request) :
    (requirePSK s r = true ↔ s.cfg.PSK = "" ∨ r.XPSK = s.cfg.PSK) ∧
    (s.cfg.PSK ≠ "" → r.XPSK = "" → requirePSK s r = false) ∧
    (s.cfg.PSK ≠ "" → r.XPSK.length ≠ s.cfg.PSK.length → requirePSK s r = false) ∧
    (s.cfg.PSK ≠ "" → r.XPSK ≠ s.cfg.PSK → requirePSK s r = false) ∧
    (requirePSK s r = false → r.Method = "POST" →
      (∀ agentID token enrolled lastSeen w,
        handleEnroll s r agentID token enrolled lastSeen w = (s, .status 401)) ∧
      (∀ jobID createdAt w, handleJobs s r jobID createdAt w = (s, .status 401))) := by
  have hiff := requirePSK_iff s r
  have hrej : s.cfg.PSK ≠ "" → r.XPSK ≠ s.cfg.PSK → requirePSK s r = false := by
    intro h1 h2
    cases hreq : requirePSK s r with
    | false => rfl
    | true =>
      rcases hiff.1 hreq with h | h
      · exact absurd h h1
      · exact absurd h h2
  refine ⟨hiff, ?_, ?_, hrej, ?_⟩
  · intro h1 h2
    exact hrej h1 (by rw [h2]; exact fun c => h1 c.symm)
  · intro h1 h2
    exact hrej h1 (fun c => h2 (by rw [c]))
  · intro hno hm
    constructor
    · intro agentID token enrolled lastSeen w
      simp [handleEnroll, hm, hno]
    · intro jobID createdAt w
      simp [handleJobs, hm, hno]

/-- C11 at a concrete server with PSK `s3cret`: the exact header is admitted, a
shorter one is rejected and the enroll is answered 401 without any change. -/
theorem psk_gate_witness :
    requirePSK pskServer (withPSK (enrollFrom "host") "s3cret") = true ∧
    requirePSK pskServer (withPSK (enrollFrom "host") "s3cre") = false ∧
    handleEnroll pskServer (withPSK (enrollFrom "host") "s3cre") "C" "tokC" "t7" "t7" writesOk =
      (pskServer, .status 401) :=
  ⟨(psk_gate pskServer (withPSK (enrollFrom "host") "s3cret")).1.2 (Or.inr (by decide)),
    (psk_gate pskServer (withPSK (enrollFrom "host") "s3cre")).2.2.1 (by decide) (by decide),
    ((psk_gate pskServer (withPSK (enrollFrom "host") "s3cre")).2.2.2.2 (by decide)
      (by decide)).1 "C" "tokC" "t7" "t7" writesOk⟩

/-- C12: for every request in which an enroll, if it is one, generates an agent
id that is not yet a key of the registry: every record on file before the request
is on file afterwards under the same key with the same agent id, hostname, os,
arch, enrolled time and token, and its `last_seen` differs only if the request
authenticated as that agent; a claim-next or result upload that does not
authenticate leaves the whole server as it was; a request that is not a
successful enroll adds no record; and a successful enroll appends exactly one
record, built from the request and the generated id and token, whatever the
hostnames already on file. -/
theorem agent_records_are_kept (s : Server) (op : Op)
    (hfresh : ∀ r agentID token enrolled lastSeen w,
      op = .enroll r agentID token enrolled lastSeen w → agentsGet s.agents agentID = none) :
    (∀ k a, agentsGet s.agents k = some a →
      ∃ a1, agentsGet (step s op).1.agents k = some a1 ∧
        a1.AgentID = a.AgentID ∧ a1.Hostname = a.Hostname ∧ a1.OS = a.OS ∧ a1.Arch = a.Arch ∧
        a1.Enrolled = a.Enrolled ∧ a1.Token = a.Token ∧
        (a1.LastSeen ≠ a.LastSeen → authenticatedAs s op = some k)) ∧
    (authenticatedAs s op = none →
      ((∃ r authNow claimNow wAuth wClaim, op = .next r authNow claimNow wAuth wClaim) ∨
        (∃ r authNow doneNow o wAuth wDone, op = .results r authNow doneNow o wAuth wDone)) →
      (step s op).1 = s) ∧
    (enrolledPair (op, (step s op).2) = none →
      (step s op).1.agents.length = s.agents.length ∧
      ∀ k, agentsGet (step s op).1.agents k = none ↔ agentsGet s.agents k = none) ∧
    (∀ e, enrolledPair (op, (step s op).2) = some e →
      ∃ r agentID token enrolled lastSeen w req,
        op = .enroll r agentID token enrolled lastSeen w ∧ r.enrollBody = some req ∧
        e = { AgentID := agentID, Token := token } ∧
        (step s op).1.agents =
          s.agents ++ [(agentID, newAgent req agentID token enrolled lastSeen)]) := by
  refine ⟨?_, fun h hop => step_failed_auth s op h hop, ?_, ?_⟩
  · intro k a hk
    rcases step_agents_exact s op with ⟨-, -, e⟩ | ⟨k0, a0, hauth, -, hk0, e⟩ |
      ⟨r, agentID, token, enrolled, lastSeen, w, req, hop, -, -, e⟩
    · exact ⟨a, by rw [e]; exact hk, rfl, rfl, rfl, rfl, rfl, rfl, fun h => absurd rfl h⟩
    · rw [e, agentsGet_agentsSet]
      by_cases hkk : k = k0
      · subst hkk
        rw [hk] at hk0
        have : a0 = a := (Option.some.inj hk0).symm
        subst this
        exact ⟨{ a0 with LastSeen := authTime op }, by rw [if_pos rfl], rfl, rfl, rfl, rfl, rfl, rfl,
          fun _ => hauth⟩
      · rw [if_neg hkk]
        exact ⟨a, hk, rfl, rfl, rfl, rfl, rfl, rfl, fun h => absurd rfl h⟩
    · have hnone := hfresh r agentID token enrolled lastSeen w hop
      have hkk : k ≠ agentID := by
        rintro rfl
        rw [hnone] at hk; cases hk
      rw [e, agentsGet_agentsSet, if_neg hkk]
      exact ⟨a, hk, rfl, rfl, rfl, rfl, rfl, rfl, fun h => absurd rfl h⟩
  · intro hnone
    rcases step_agents_exact s op with ⟨-, -, e⟩ | ⟨k0, a0, -, -, hk0, e⟩ |
      ⟨r, agentID, token, enrolled, lastSeen, w, req, hop, -, hresp, -⟩
    · rw [e]; exact ⟨rfl, fun k => Iff.rfl⟩
    · rw [e]
      refine ⟨agentsSet_present_length _ _ _ a0 hk0, ?_⟩
      intro k
      rw [agentsGet_agentsSet]
      by_cases hkk : k = k0
      · subst hkk
        rw [if_pos rfl, hk0]
        simp
      · rw [if_neg hkk]
    · subst hop
      rw [hresp] at hnone
      simp [enrolledPair] at hnone
  · intro e he
    rcases step_agents_exact s op with ⟨-, h, -⟩ | ⟨k0, a0, -, h, -⟩ |
      ⟨r, agentID, token, enrolled, lastSeen, w, req, hop, hb, hresp, hag⟩
    · rw [h] at he; cases he
    · rw [h] at he; cases he
    · have hnone := hfresh r agentID token enrolled lastSeen w hop
      refine ⟨r, agentID, token, enrolled, lastSeen, w, req, hop, hb, ?_, ?_⟩
      · subst hop
        rw [hresp] at he
        simp only [enrolledPair, Option.some.injEq] at he
        exact he.symm
      · rw [hag, agentsSet_absent _ _ _ hnone]

/-- C12 at a concrete store: a third host with the hostname of the two on file
enrolls in the sample store. -/
theorem agent_records_are_kept_witness :
    agentsGet sampleServer.agents "C" = none ∧
    (sampleServer.agents.map (fun e => e.2.Hostname)) = ["host", "host"] ∧
    (step sampleServer (.enroll (enrollFrom "host") "C" "tokC" "t7" "t7" writesOk)).1.agents =
      sampleServer.agents ++
        [("C", newAgent { Hostname := "host", OS := "linux", Arch := "amd64" } "C" "tokC" "t7" "t7")] ∧
    ∃ a1, agentsGet (step sampleServer
        (.enroll (enrollFrom "host") "C" "tokC" "t7" "t7" writesOk)).1.agents "A" = some a1 ∧
      a1.Token = "tokA" :=
  ⟨by decide, by decide, by decide,
    (fun h => ⟨h.choose, h.choose_spec.1, h.choose_spec.2.2.2.2.2.2.1⟩)
      ((agent_records_are_kept sampleServer
        (.enroll (enrollFrom "host") "C" "tokC" "t7" "t7" writesOk)
        (by
          intro r agentID token enrolled lastSeen w h
          injection h with h1 h2
          subst h2
          decide)).1 "A" (agentRecord "A" "tokA") (by decide))⟩

/-- C13: every request keeps the job list at least as long as it was, and every
job that was in the list is afterwards at the same position with the same job
id, agent id, type, args and creation time; only its status, `claimed_at` and
`done_at` can differ. -/
theorem job_list_is_append_only (s : Server) (op : Op) (i : Nat) (j : Job)
    (hi : s.jobs[i]? = some j) :
    s.jobs.length ≤ (step s op).1.jobs.length ∧
    ∃ j1, (step s op).1.jobs[i]? = some j1 ∧
      j1.JobID = j.JobID ∧ j1.AgentID = j.AgentID ∧ j1.Type_ = j.Type_ ∧ j1.Args = j.Args ∧
      j1.CreatedAt = j.CreatedAt ∧
      j1 = { j with Status := j1.Status, ClaimedAt := j1.ClaimedAt, DoneAt := j1.DoneAt } := by
  constructor
  · rcases step_jobsChange s op with h | ⟨job, -, -, -, h⟩ | ⟨i0, j0, now, -, -, h⟩ |
      ⟨i0, j0, now, -, h⟩ <;> rw [h] <;> simp
  · obtain ⟨j1, h1, hj1⟩ := jobsChange_pointwise (step_jobsChange s op) i j hi
    refine ⟨j1, h1, ?_⟩
    rcases hj1 with rfl | ⟨-, now, rfl⟩ | ⟨now, rfl⟩
    · exact ⟨rfl, rfl, rfl, rfl, rfl, rfl⟩
    · exact ⟨rfl, rfl, rfl, rfl, rfl, rfl⟩
    · exact ⟨rfl, rfl, rfl, rfl, rfl, rfl⟩

/-- C13 at a concrete store: after A's claim in the sample store, B's job is
where it was and as it was. -/
theorem job_list_is_append_only_witness :
    sampleServer.jobs[0]? = some (queuedJob "J1" "B") ∧
    sampleServer.jobs.length ≤
      (step sampleServer (.next (pollAs "A" "tokA") "t5" "t6" writesOk writesOk)).1.jobs.length ∧
    ∃ j1, (step sampleServer
        (.next (pollAs "A" "tokA") "t5" "t6" writesOk writesOk)).1.jobs[0]? = some j1 ∧
      j1.JobID = "J1" ∧ j1.AgentID = "B" :=
  ⟨by decide,
    (job_list_is_append_only sampleServer (.next (pollAs "A" "tokA") "t5" "t6" writesOk writesOk) 0
      (queuedJob "J1" "B") (by decide)).1,
    (fun h => ⟨h.choose, h.choose_spec.1, h.choose_spec.2.1, h.choose_spec.2.2.1⟩)
      (job_list_is_append_only sampleServer (.next (pollAs "A" "tokA") "t5" "t6" writesOk writesOk)
        0 (queuedJob "J1" "B") (by decide)).2⟩

/-- C14: on a server with a data directory, when every file write the request
attempts succeeds, a request that enrolls an agent, enqueues or claims a job,
completes a job or authenticates an agent, and any request that changes the
agents map or the job list in memory, leaves the agents document and the jobs
document on disk equal to the whole agents map and the whole job list in memory;
and a server whose documents were equal to memory before a request has them
equal to memory after it. -/
theorem persisted_after_mutation (s : Server) (op : Op) (hdir : s.cfg.DataDir ≠ "")
    (hw : writesSucceed op) :
    ((∃ e, (step s op).2 = .enrolled e) → Persisted (step s op).1) ∧
    ((∃ j, (step s op).2 = .job j) → Persisted (step s op).1) ∧
    ((∃ p, (step s op).2 = .saved p) → Persisted (step s op).1) ∧
    (authenticatedAs s op ≠ none → Persisted (step s op).1) ∧
    ((step s op).1.agents ≠ s.agents ∨ (step s op).1.jobs ≠ s.jobs → Persisted (step s op).1) ∧
    (Persisted s → Persisted (step s op).1) := by
  rcases step_persisted s op hdir hw with ⟨hsame, ⟨code, hcode⟩, hauth⟩ | h
  · refine ⟨?_, ?_, ?_, fun h => absurd hauth h, ?_, fun h => by rw [hsame]; exact h⟩
    · rintro ⟨e, he⟩; rw [hcode] at he; cases he
    · rintro ⟨j, hj⟩; rw [hcode] at hj; cases hj
    · rintro ⟨p, hp⟩; rw [hcode] at hp; cases hp
    · rintro (h | h)
      · exact absurd (by rw [hsame]) h
      · exact absurd (by rw [hsame]) h
  · exact ⟨fun _ => h, fun _ => h, fun _ => h, fun _ => h, fun _ => h, fun _ => h⟩

/-- C14 at a concrete store: after A's claim in the sample store, whose disk was
blank, both documents hold the state in memory. -/
theorem persisted_after_mutation_witness :
    sampleServer.disk = blankDisk ∧
    (step sampleServer (.next (pollAs "A" "tokA") "t5" "t6" writesOk writesOk)).2 =
      .job (markClaimed (queuedJob "J3" "A") "t6") ∧
    Persisted (step sampleServer (.next (pollAs "A" "tokA") "t5" "t6" writesOk writesOk)).1 :=
  ⟨by decide, by decide,
    (persisted_after_mutation sampleServer (.next (pollAs "A" "tokA") "t5" "t6" writesOk writesOk)
      (by decide) ⟨⟨rfl, rfl⟩, ⟨rfl, rfl⟩⟩).2.1
      ⟨markClaimed (queuedJob "J3" "A") "t6", by decide⟩⟩

/-- C16: in every run of `Collect`, whatever the mode and whether or not hashing
is on, a metadata entry with a non-empty sha256 or with copied = true has type
file and a size within the per-file budget in force, and every member of the
archive is within that budget; equivalently an entry of another type or of a
larger size has no digest and is not copied. In terms of the objects: a call of
the callback on a symlink, a directory, another non-regular object or a regular
file over the per-file budget writes nothing to the archive, leaves the copied
total alone and records at most one entry, without digest and not copied. -/
theorem only_small_regular_files_are_hashed_or_copied (opts : SnapshotOptions)
    (env : CollectEnv) :
    (∀ e ∈ (Collect opts env).walk.entries,
      ((e.SHA256 ≠ "" ∨ e.Copied = true) →
        e.Type_ = "file" ∧ e.SizeBytes ≤ (walkConfig opts env.openTarOk).maxFileBytes) ∧
      ((e.Type_ ≠ "file" ∨ e.SizeBytes > (walkConfig opts env.openTarOk).maxFileBytes) →
        e.SHA256 = "" ∧ e.Copied = false)) ∧
    (∀ m ∈ (Collect opts env).walk.archive,
      m.Size ≤ (walkConfig opts env.openTarOk).maxFileBytes) ∧
    (0 < opts.MaxFileBytes →
      (walkConfig opts env.openTarOk).maxFileBytes = opts.MaxFileBytes) ∧
    (∀ path d p st info, p.info = some info →
      (¬ isRegularFile info ∨ info.Size > (walkConfig opts env.openTarOk).maxFileBytes) →
      (visit (walkConfig opts env.openTarOk) path d p st).1.archive = st.archive ∧
      (visit (walkConfig opts env.openTarOk) path d p st).1.totalCopied = st.totalCopied ∧
      ((visit (walkConfig opts env.openTarOk) path d p st).1.entries = st.entries ∨
        ∃ e, (visit (walkConfig opts env.openTarOk) path d p st).1.entries = st.entries ++ [e] ∧
          e.Path = path ∧ e.SizeBytes = info.Size ∧ e.SHA256 = "" ∧ e.Copied = false)) := by
  have key : ∀ e ∈ (Collect opts env).walk.entries,
      (e.SHA256 ≠ "" ∨ e.Copied = true) →
        e.Type_ = "file" ∧ e.SizeBytes ≤ (walkConfig opts env.openTarOk).maxFileBytes := by
    refine collect_entries opts env _ ?_
    intro path st e st1 r hrec hor
    rcases hor with h | h
    · exact ⟨(hrec.2.2.2.2.1 h).1, (hrec.2.2.2.2.1 h).2.2⟩
    · exact ⟨(hrec.2.2.2.2.2.1 h).1, (hrec.2.2.2.2.2.1 h).2.2.1⟩
  refine ⟨?_, collect_archive_sizes opts env, ?_, ?_⟩
  · intro e he
    refine ⟨key e he, ?_⟩
    intro hor
    by_cases hs : e.SHA256 = ""
    · refine ⟨hs, ?_⟩
      cases hc : e.Copied with
      | false => rfl
      | true =>
        have := key e he (Or.inr hc)
        rcases hor with h | h
        · exact absurd this.1 h
        · omega
    · have := key e he (Or.inl hs)
      rcases hor with h | h
      · exact absurd this.1 h
      · omega
  · intro h
    simp only [walkConfig]
    rw [if_neg (by omega)]
  · intro path d p st info hinfo h
    exact visit_not_hashed_not_copied _ path d p st info hinfo h

/-- In the snapshot of `/tmp/testdir` the file over the per-file budget is
recorded without digest and not copied, and the symbolic link handed to the
callback is recorded without digest and leaves the archive alone. -/
theorem only_small_regular_files_are_hashed_or_copied_witness :
    (∀ e ∈ (Collect testdirOptions (quietEnv [testdirTree])).walk.entries,
      e.SizeBytes > 10 → e.SHA256 = "" ∧ e.Copied = false) ∧
    (visit (walkConfig testdirOptions true) "/tmp/testdir/l" false
      { info := some symlinkInfo, sha256 := some "dd44", openOk := true, headerOk := true,
        copyOk := true } initWalk).1.archive = [] := by
  have h := only_small_regular_files_are_hashed_or_copied testdirOptions (quietEnv [testdirTree])
  refine ⟨fun e he hbig => ((h.1 e he).2 (Or.inr ?_)), ?_⟩
  · have : (walkConfig testdirOptions (quietEnv [testdirTree]).openTarOk).maxFileBytes = 10 := by
      decide
    rw [this]; exact hbig
  · exact (h.2.2.2 "/tmp/testdir/l" false _ initWalk symlinkInfo rfl (Or.inl (by decide))).1

/-- C18: for every list of roots and every max_files = m > 0, the counter
files_seen that `Collect` ends with is at most m, and the metadata stream has at
most files_seen, hence at most m, entries, all roots together. Once the counter
has reached m the callback records nothing and answers `SkipDir` for a
directory and `nil` for any other object, the walk of any further tree and the
loop over any further roots leave the walk variables as they are without an
error of the walk, and `Collect` returns its artifacts when its context is not
cancelled and its output files can be created and hashed. -/
theorem files_seen_never_exceeds_max_files (opts : SnapshotOptions) (env : CollectEnv)
    (hm : 0 < opts.MaxFiles) :
    (Collect opts env).walk.filesSeen ≤ opts.MaxFiles ∧
    ((Collect opts env).walk.entries.length : Int) ≤ (Collect opts env).walk.filesSeen ∧
    ((Collect opts env).walk.entries.length : Int) ≤ opts.MaxFiles ∧
    (∀ path d p st, st.filesSeen ≥ opts.MaxFiles →
      visit (walkConfig opts env.openTarOk) path d p st =
        (st, if d = true then some .skipDir else none)) ∧
    (∀ path n st, st.filesSeen ≥ opts.MaxFiles →
      walkDir (walkConfig opts env.openTarOk) path n st = (st, none)) ∧
    (∀ roots i st, st.filesSeen ≥ opts.MaxFiles →
      (walkRoots (walkConfig opts env.openTarOk) env i roots st).1 = st ∧
      ((walkRoots (walkConfig opts env.openTarOk) env i roots st).2 = none ∨
        (walkRoots (walkConfig opts env.openTarOk) env i roots st).2 = some .cancelled)) ∧
    ((Collect opts env).walk.filesSeen = opts.MaxFiles → (∀ i, env.ctxDone i = false) →
      env.openTarOk = true → env.metaSum ≠ none →
      ∃ a rest, (Collect opts env).result = .ok (a :: rest) ∧
        a.RelativePath = "snapshot/metadata.jsonl") := by
  have hmax : (walkConfig opts env.openTarOk).maxFiles = opts.MaxFiles := by
    simp only [walkConfig]
    rw [if_neg (by omega)]
  have hc := collect_counts opts env
  rw [hmax] at hc
  refine ⟨hc.1, hc.2, le_trans hc.2 hc.1, ?_, ?_, ?_, ?_⟩
  · intro path d p st h
    rcases visit_cases (walkConfig opts env.openTarOk) path d p st with ⟨-, hv⟩ | ⟨-, hlt, -⟩
    · exact hv
    · rw [hmax] at hlt; omega
  · intro path n st h
    exact walkDir_at_limit _ path n st (by rw [hmax]; exact h)
  · intro roots i st h
    exact walkRoots_at_limit _ env roots i st (by rw [hmax]; exact h)
  · intro hseen hctx hok hsum
    obtain ⟨a, rest, hr, ha, -⟩ := collect_ok opts env (by rw [hseen]; omega) hctx hok hsum
    exact ⟨a, rest, hr, ha⟩

/-- With a limit of two objects the snapshot of two roots that hold four objects
each counts two objects, records two entries and returns its artifacts. -/
theorem files_seen_never_exceeds_max_files_witness :
    (0 : Int) < twoObjectOptions.MaxFiles ∧
    (Collect twoObjectOptions (quietEnv [testdirTree, testdirTree])).walk.filesSeen = 2 ∧
    (Collect twoObjectOptions (quietEnv [testdirTree, testdirTree])).walk.entries.length = 2 ∧
    ∃ a rest, (Collect twoObjectOptions (quietEnv [testdirTree, testdirTree])).result =
        .ok (a :: rest) ∧ a.RelativePath = "snapshot/metadata.jsonl" :=
  ⟨by decide, by decide, by decide,
    (files_seen_never_exceeds_max_files twoObjectOptions (quietEnv [testdirTree, testdirTree])
      (by decide)).2.2.2.2.2.2 (by decide) (fun _ => rfl) rfl (by decide)⟩

/-- C19: `isExcluded p` is true exactly when the cleaned path is one of /proc,
/sys, /dev, /run or one of them followed by the separator and a rest, so that
/proc, /proc/1/maps and /run/ are excluded while /processes, /devices and /etc
are not. No entry of the metadata stream of any run of `Collect` has an excluded
path: the loop skips an excluded root, the callback answers `SkipDir` for an
excluded directory and `nil` for any other excluded object without counting or
recording it, and the walk of an excluded tree changes nothing. -/
theorem excluded_paths_are_never_recorded :
    (∀ p : String, isExcluded p = true ↔
      ∃ e ∈ ["/proc", "/sys", "/dev", "/run"],
        filepathClean p = e ∨ ∃ rest : String, filepathClean p = e ++ "/" ++ rest) ∧
    (isExcluded "/proc" = true ∧ isExcluded "/proc/1/maps" = true ∧ isExcluded "/run/" = true ∧
      isExcluded "/processes" = false ∧ isExcluded "/devices" = false ∧
      isExcluded "/etc" = false) ∧
    (∀ opts env, ∀ e ∈ (Collect opts env).walk.entries, isExcluded e.Path = false) ∧
    (∀ c env i root rest st, isExcluded root = true → env.ctxDone i = false →
      walkRoots c env i (root :: rest) st = walkRoots c env (i + 1) rest st) ∧
    (∀ c path d p st, isExcluded path = true →
      visit c path d p st = (st, if d = true then some .skipDir else none)) ∧
    (∀ c path n st, isExcluded path = true → walkDir c path n st = (st, none)) := by
  refine ⟨isExcluded_iff, by decide, ?_, ?_, ?_, ?_⟩
  · intro opts env
    refine collect_entries opts env (fun e => isExcluded e.Path = false) ?_
    intro path st e st1 r hrec
    show isExcluded e.Path = false
    rw [hrec.2.2.2.1]
    exact hrec.1
  · intro c env i root rest st hex hctx
    rw [walkRoots, if_neg (by rw [hctx]; simp)]
    by_cases h2 : root = ""
    · rw [if_pos h2]
    · rw [if_neg h2, if_pos hex]
  · intro c path d p st hex
    unfold visit
    rw [if_pos hex]
  · intro c path n st hex
    exact walkDir_excluded c path n st hex

/-- C15: the copied total can exceed max_total_bytes, because the sum the
callback compares with the budget wraps around at 64 bits. With both budgets at
9223372036854775807 and the files `/data/a` of 1 byte and `/data/b` of
9223372036854775807 bytes, the two files are both copied into the archive, the
sizes of the copied entries add up to 9223372036854775808, which is over the
budget, and `totalCopied` ends as -9223372036854775808. What holds in every run:
an entry recorded with copy_reason total_limit is not copied, the call that
records it writes nothing to the archive, and every member of the archive
belongs to an entry with an empty copy reason; and when the two budgets add up
to less than 2^63 and no size is negative, every call of the callback keeps the
copied total equal to the sum of the copied sizes and within max_total_bytes. -/
theorem copied_total_wraps_around :
    ((Collect unboundedOptions (quietEnv [hugeTree])).walk.entries.map entrySummary =
        [("/data", 4096, false, ""), ("/data/a", 1, true, ""),
         ("/data/b", 9223372036854775807, true, "")] ∧
      (Collect unboundedOptions (quietEnv [hugeTree])).walk.archive.map memberSummary =
        [("data/a", 1, true), ("data/b", 9223372036854775807, true)] ∧
      sumCopied (Collect unboundedOptions (quietEnv [hugeTree])).walk.entries =
        9223372036854775808 ∧
      (walkConfig unboundedOptions true).maxTotalBytes = 9223372036854775807 ∧
      (Collect unboundedOptions (quietEnv [hugeTree])).walk.totalCopied =
        -9223372036854775808) ∧
    (∀ opts env, ∀ e ∈ (Collect opts env).walk.entries,
      e.CopyReason = "total_limit" → e.Copied = false) ∧
    (∀ c path d p st e, (visit c path d p st).1.entries = st.entries ++ [e] →
      e.CopyReason = "total_limit" →
      (visit c path d p st).1.archive = st.archive ∧
      (visit c path d p st).1.totalCopied = st.totalCopied) ∧
    (∀ opts env, ∀ m ∈ (Collect opts env).walk.archive,
      ∃ e ∈ (Collect opts env).walk.entries, e.CopyReason = "" ∧
        m.Name = TrimPrefix (filepathClean e.Path) "/" ∧ m.Size = e.SizeBytes) ∧
    (∀ c : WalkConfig, c.maxFileBytes + c.maxTotalBytes < 9223372036854775808 →
      ∀ path d p st, WithinBudget c st → WithinBudget c (visit c path d p st).1) ∧
    (∀ opts env,
      (walkConfig opts env.openTarOk).maxFileBytes + (walkConfig opts env.openTarOk).maxTotalBytes
        < 9223372036854775808 →
      (∀ e ∈ (Collect opts env).walk.entries, 0 ≤ e.SizeBytes) →
      (Collect opts env).walk.totalCopied = sumCopied (Collect opts env).walk.entries ∧
      sumCopied (Collect opts env).walk.entries ≤ (walkConfig opts env.openTarOk).maxTotalBytes) := by
  refine ⟨by decide, ?_, ?_, ?_, ?_, ?_⟩
  · intro opts env
    refine collect_entries opts env (fun e => e.CopyReason = "total_limit" → e.Copied = false) ?_
    intro path st e st1 r hrec hreason
    exact (hrec.2.2.2.2.2.2.2.2.2.1 hreason).2.2.2.2.1
  · intro c path d p st e hent hreason
    have h := visit_total_limit c path d p st e hent hreason
    exact ⟨h.2.1, h.2.2.1⟩
  · intro opts env m hm
    obtain ⟨e, he, h1, -, h3, h4, -⟩ := collect_archive_origin opts env m hm
    exact ⟨e, he, h1, h3, h4⟩
  · intro c hno path d p st h
    exact visit_within_budget c hno path d p st h
  · intro opts env hno hall
    have hinv : WithinBudget (walkConfig opts env.openTarOk) (Collect opts env).walk := by
      refine collect_invariant opts env (WithinBudget (walkConfig opts env.openTarOk)) ?_ ?_
      · intro _
        refine ⟨rfl, le_refl _, ?_⟩
        show (0 : Int) ≤ (walkConfig opts env.openTarOk).maxTotalBytes
        simp only [walkConfig]
        split_ifs <;> omega
      · intro path d p st h
        exact visit_within_budget _ hno path d p st h
    have h := hinv hall
    exact ⟨h.1, by rw [← h.1]; exact h.2.2⟩

/-- C17 as stated fails: with a per-file budget of 10 bytes and a total budget
of 100 bytes, the file `/tmp/testdir/big` of 1000 bytes would push the copied
total, which is 0, over the total budget, yet it is recorded with copy_reason
file_too_large, and the walk goes on to record and copy the next file. -/
theorem oversized_file_is_not_total_limit :
    (Collect testdirOptions (quietEnv [bigFirstTree])).walk.entries.map entrySummary =
      [("/tmp/testdir", 4096, false, ""), ("/tmp/testdir/big", 1000, false, "file_too_large"),
       ("/tmp/testdir/small", 5, true, "")] ∧
    (0 : Int) + 1000 > (walkConfig testdirOptions true).maxTotalBytes := by
  decide

/-- C17, amended: in copy mode a regular file larger than max_file_bytes is
recorded with copy_reason file_too_large, whatever the copied total, and the
walk continues with the following entries; a regular file within max_file_bytes
whose size added to the copied total is over max_total_bytes, the sum being
within the range of a 64-bit signed integer, is recorded with copy_reason
total_limit and the callback returns the stop error. That error ends the loop
over the entries of every directory on the way up and the loop over the roots,
so that the state `Collect` ends with is the one that call left: the entry with
copy_reason total_limit is the last entry of the metadata stream, and no further
object of that root or of a later root is counted or recorded. -/
theorem budgets_skip_and_stop :
    (∀ c path name p children rest st info,
      c.mode = "copy" → p.info = some info → isRegularFile info →
      info.Size > c.maxFileBytes → isExcluded (filepathJoin [path, name]) = false →
      st.filesSeen < c.maxFiles →
      walkEntries c path (.mk name false p children :: rest) st =
        walkEntries c path rest
          (encode (counted st)
            (refusedEntry c (filepathJoin [path, name]) info p "file_too_large"))) ∧
    (∀ c path d p st info,
      c.mode = "copy" → p.info = some info → isRegularFile info →
      info.Size ≤ c.maxFileBytes → st.totalCopied + info.Size > c.maxTotalBytes →
      -9223372036854775808 ≤ st.totalCopied + info.Size →
      st.totalCopied + info.Size < 9223372036854775808 →
      isExcluded path = false → st.filesSeen < c.maxFiles →
      visit c path d p st =
        (encode (counted st) (refusedEntry c path info p "total_limit"), some .stopWalk)) ∧
    (∀ c path name isDir p children rest st st1,
      walkDir c (filepathJoin [path, name]) (.mk name isDir p children) st =
        (st1, some .stopWalk) →
      walkEntries c path (.mk name isDir p children :: rest) st = (st1, some .stopWalk)) ∧
    (∀ c path name p children st st1 st2,
      visit c path true p st = (st1, none) →
      walkEntries c path children st1 = (st2, some .stopWalk) →
      walkDir c path (.mk name true p children) st = (st2, some .stopWalk)) ∧
    (∀ c env i root rest st node st1,
      env.ctxDone i = false → root ≠ "" → isExcluded root = false → env.lstat i = some node →
      walkDir c root node st = (st1, some .stopWalk) →
      walkRoots c env i (root :: rest) st = (st1, none)) ∧
    (∀ opts env,
      (NoTotalLimit (Collect opts env).walk.entries ∨
        StoppedAt (walkConfig opts env.openTarOk) (Collect opts env).walk) ∧
      TotalLimitIsLast (Collect opts env).walk.entries) := by
  refine ⟨?_, ?_, ?_, ?_, ?_, ?_⟩
  · intro c path name p children rest st info hmode hinfo hreg hbig hex hlim
    have hv := visit_regular_copy c (filepathJoin [path, name]) false p st info hex hlim hinfo
      hreg hmode
    rw [walkEntries, walkDir, hv]
    unfold copyStep
    rw [if_pos hbig]
    rfl
  · intro c path d p st info hmode hinfo hreg hsmall hover hlo hhi hex hlim
    rw [visit_regular_copy c path d p st info hex hlim hinfo hreg hmode]
    unfold copyStep
    have hw : wrapInt64 ((counted st).totalCopied + info.Size) = st.totalCopied + info.Size :=
      wrapInt64_of_range _ hlo hhi
    rw [if_neg (by omega), hw, if_pos hover]
    rfl
  · intro c path name isDir p children rest st st1 hw
    rw [walkEntries, hw]
  · intro c path name p children st st1 st2 hv hw
    rw [walkDir, hv]
    simp only [if_true]
    exact hw
  · intro c env i root rest st node st1 hctx hroot hex hl hw
    rw [walkRoots, if_neg (by rw [hctx]; simp), if_neg hroot, if_neg (by rw [hex]; simp), hl]
    simp only
    rw [hw]
  · intro opts env
    have hs := collect_stop opts env
    refine ⟨hs, totalLimitIsLast_of_stop _ ?_⟩
    rcases hs with h | h
    · exact Or.inl h
    · obtain ⟨l, e, hno, -, -, hl⟩ := stoppedAt_entries _ _ h
      exact Or.inr ⟨l, e, hno, hl⟩

/-- With both budgets at 10 bytes, the snapshot of `/tmp/testdir` copies the file
of 5 bytes, records the file of 1000 bytes as too large and goes on, and stops
at the file of 7 bytes, which is the last entry; the second root is not walked. -/
theorem budgets_skip_and_stop_witness :
    (Collect tightOptions (quietEnv [testdirTree, testdirTree])).walk.entries.map entrySummary =
      [("/tmp/testdir", 4096, false, ""), ("/tmp/testdir/a", 5, true, ""),
       ("/tmp/testdir/b", 1000, false, "file_too_large"),
       ("/tmp/testdir/c", 7, false, "total_limit")] ∧
    TotalLimitIsLast (Collect tightOptions (quietEnv [testdirTree, testdirTree])).walk.entries ∧
    visit (walkConfig tightOptions true) "/tmp/testdir/c" false
        { info := some (regularInfo 7), sha256 := some "cc33", openOk := true, headerOk := true,
          copyOk := true }
        { filesSeen := 3, totalCopied := 5, entries := [], tarOpen := true, archive := [] } =
      (encode
        (counted { filesSeen := 3, totalCopied := 5, entries := [], tarOpen := true, archive := [] })
        (refusedEntry (walkConfig tightOptions true) "/tmp/testdir/c" (regularInfo 7)
          { info := some (regularInfo 7), sha256 := some "cc33", openOk := true, headerOk := true,
            copyOk := true } "total_limit"), some .stopWalk) :=
  ⟨by decide,
    (budgets_skip_and_stop.2.2.2.2.2 tightOptions (quietEnv [testdirTree, testdirTree])).2,
    budgets_skip_and_stop.2.1 (walkConfig tightOptions true) "/tmp/testdir/c" false _ _
      (regularInfo 7) (by decide) rfl (by decide) (by decide) (by decide) (by decide) (by decide)
      (by decide) (by decide)⟩

/-- C20 as stated fails: the snapshot of `/tmp/testdir`, which holds three
regular files of 5, 1000 and 7 bytes, with a per-file budget of 10 bytes in copy
mode with hashing, has four entries in its metadata stream, the first of them
for the directory itself. -/
theorem testdir_snapshot_has_four_entries :
    (Collect testdirOptions (quietEnv [testdirTree])).walk.entries.map
        (fun e => (e.Path, e.Type_, e.SHA256, e.Copied, e.CopyReason)) =
      [("/tmp/testdir", "dir", "", false, ""), ("/tmp/testdir/a", "file", "aa11", true, ""),
       ("/tmp/testdir/b", "file", "", false, "file_too_large"),
       ("/tmp/testdir/c", "file", "cc33", true, "")] ∧
    (Collect testdirOptions (quietEnv [testdirTree])).walk.entries.length = 4 := by
  decide

/-- C20, amended: the snapshot of a single root directory that contains exactly
three readable regular files, one of them larger than max_file_bytes and the
other two fitting both budgets, in copy mode with hashing, produces a metadata
stream with exactly four entries: the entry of the root directory, of type dir
and neither hashed nor copied, followed by one entry per file. Exactly one entry
has copy_reason file_too_large, exactly two have a non-empty sha256, exactly two
are copied, and the archive contains exactly the two copyable files, in full. -/
theorem snapshot_of_three_files (opts : SnapshotOptions) (env : CollectEnv) (root name : String)
    (dprobe : Probe) (dinfo : FileInfo) (files : List PlainFile)
    (hpaths : opts.Paths = [root]) (hmode : opts.Mode = "copy") (hhash : opts.HashFiles = true)
    (hlimit : opts.MaxFiles ≤ 0 ∨ 4 ≤ opts.MaxFiles)
    (hbudget : opts.MaxTotalBytes < 9223372036854775808)
    (hroot : root ≠ "") (hex : isExcluded root = false)
    (hmeta : env.metaCreateOk = true) (hopen : env.openTarOk = true)
    (hctx : env.ctxDone 0 = false)
    (hlstat : env.lstat 0 = some (.mk name true dprobe (files.map fileNode)))
    (hdinfo : dprobe.info = some dinfo) (hsym : dinfo.Mode &&& ModeSymlink = 0)
    (hdir : dinfo.Mode &&& ModeDir ≠ 0)
    (hthree : files.length = 3)
    (hfiles : ∀ f ∈ files, isRegularFile f.info ∧ 0 ≤ f.info.Size ∧
      isExcluded (filepathJoin [root, f.name]) = false)
    (hdigest : ∀ f ∈ files, f.digest ≠ "")
    (hone : files.countP (tooLarge (walkConfig opts true)) = 1)
    (hfit : copyableBytes (walkConfig opts true) files ≤ (walkConfig opts true).maxTotalBytes) :
    (Collect opts env).walk.entries.length = 4 ∧
    (Collect opts env).walk.entries =
      typedEntry root dinfo "dir" :: files.map (expectedEntry (walkConfig opts true) root) ∧
    (Collect opts env).walk.entries.countP
      (fun e => decide (e.CopyReason = "file_too_large")) = 1 ∧
    (Collect opts env).walk.entries.countP (fun e => decide (e.SHA256 ≠ "")) = 2 ∧
    (Collect opts env).walk.entries.countP (fun e => e.Copied) = 2 ∧
    (Collect opts env).walk.entries.countP (fun e => decide (e.Type_ = "file")) = 3 ∧
    (Collect opts env).walk.archive =
      (files.filter (fun f => !tooLarge (walkConfig opts true) f)).map (expectedMember root) ∧
    (Collect opts env).walk.archive.length = 2 ∧
    (∀ m ∈ (Collect opts env).walk.archive, m.complete = true) := by
  obtain ⟨he, ha, -⟩ := collect_flat_directory opts env root name dprobe dinfo files hpaths hmode
    hhash (by rw [hthree]; exact hlimit) (by rw [hthree]; decide) hbudget hroot hex hmeta hopen
    hctx hlstat hdinfo hsym hdir hfiles hfit
  have hnot : files.countP (fun f => !tooLarge (walkConfig opts true) f) = 2 := by
    have := countP_add_countP_not (tooLarge (walkConfig opts true)) files
    omega
  rw [he, ha]
  refine ⟨by simp [hthree], rfl, ?_, ?_, ?_, ?_, rfl, ?_, ?_⟩
  · rw [List.countP_cons, countP_expected_reason, hone]
    simp [typedEntry, baseEntry]
  · rw [List.countP_cons, countP_expected_sha _ _ _ hdigest, hnot]
    simp [typedEntry, baseEntry]
  · rw [List.countP_cons, countP_expected_copied, hnot]
    simp [typedEntry, baseEntry]
  · rw [List.countP_cons, countP_expected_type, hthree]
    simp [typedEntry, baseEntry]
  · rw [List.length_map, ← List.countP_eq_length_filter, hnot]
  · intro m hm
    obtain ⟨f, -, rfl⟩ := List.mem_map.mp hm
    rfl

/-- In the snapshot of `/tmp/testdir` of `testdirOptions` the stream has four
entries, one of them too large and two hashed, and the archive holds the files
`a` and `c`. -/
theorem snapshot_of_three_files_witness :
    (Collect testdirOptions (quietEnv [testdirTree])).walk.entries.length = 4 ∧
    (Collect testdirOptions (quietEnv [testdirTree])).walk.entries.countP
      (fun e => decide (e.CopyReason = "file_too_large")) = 1 ∧
    (Collect testdirOptions (quietEnv [testdirTree])).walk.entries.countP
      (fun e => decide (e.SHA256 ≠ "")) = 2 ∧
    (Collect testdirOptions (quietEnv [testdirTree])).walk.archive.map memberSummary =
      [("tmp/testdir/a", 5, true), ("tmp/testdir/c", 7, true)] := by
  have h := snapshot_of_three_files testdirOptions (quietEnv [testdirTree]) "/tmp/testdir"
    "testdir"
    { info := some dirInfo, sha256 := none, openOk := true, headerOk := true, copyOk := true }
    dirInfo testdirFiles rfl rfl rfl (by decide) (by decide) (by decide) (by decide) rfl rfl rfl
    rfl rfl (by decide) (by decide) rfl (by decide) (by decide) (by decide) (by decide)
  refine ⟨h.1, h.2.2.1, h.2.2.2.1, ?_⟩
  rw [h.2.2.2.2.2.2.1]
  decide

/-- C21 as stated fails: in copy mode, when the only regular file within the
budgets cannot be opened, the archive is created before the attempt, so the run
ends with an archive file and returns an archive artifact although no metadata
entry has copied = true. -/
theorem archive_created_without_copied_entry :
    (Collect testdirOptions (quietEnv [unreadableTree])).walk.tarOpen = true ∧
    (Collect testdirOptions (quietEnv [unreadableTree])).walk.entries.map entrySummary =
      [("/tmp/testdir", 4096, false, ""), ("/tmp/testdir/secret", 5, false, "")] ∧
    (Collect testdirOptions (quietEnv [unreadableTree])).walk.archive = [] ∧
    (∃ a b, (Collect testdirOptions (quietEnv [unreadableTree])).result = .ok [a, b] ∧
      b.RelativePath = "snapshot/files.tar.gz") :=
  ⟨by decide, by decide, by decide, _, _, rfl, by decide⟩

/-- C21, amended: the archive is created lazily, by the first call of the
callback that attempts a copy, before the file is opened. In every run the
archive file exists at the end, or an archive artifact is returned, only if the
run is in copy mode and some metadata entry is a regular file within
max_file_bytes with an empty copy reason; whenever some entry has copied = true
or the archive has a member, the archive file exists; a run in metadata mode,
and a copy-mode run in which every entry of type file has a copy reason, never
creates it. The call that creates it records an entry of type file with an
empty copy reason, which is copied exactly when opening the file, writing its
header and copying its content all succeed. -/
theorem archive_is_created_on_first_attempt (opts : SnapshotOptions) (env : CollectEnv) :
    ((Collect opts env).walk.tarOpen = true →
      (walkConfig opts env.openTarOk).mode = "copy" ∧
      ∃ e ∈ (Collect opts env).walk.entries, e.Type_ = "file" ∧ e.CopyReason = "" ∧
        e.SizeBytes ≤ (walkConfig opts env.openTarOk).maxFileBytes) ∧
    (∀ arts a, (Collect opts env).result = .ok arts → a ∈ arts →
      a.RelativePath = "snapshot/files.tar.gz" → (Collect opts env).walk.tarOpen = true) ∧
    ((∃ e ∈ (Collect opts env).walk.entries, e.Copied = true) →
      (Collect opts env).walk.tarOpen = true) ∧
    ((Collect opts env).walk.archive ≠ [] → (Collect opts env).walk.tarOpen = true) ∧
    ((walkConfig opts env.openTarOk).mode ≠ "copy" →
      (Collect opts env).walk.tarOpen = false) ∧
    ((∀ e ∈ (Collect opts env).walk.entries, e.Type_ = "file" → e.CopyReason ≠ "") →
      (Collect opts env).walk.tarOpen = false) ∧
    (∀ path d p st, st.tarOpen = false →
      (visit (walkConfig opts env.openTarOk) path d p st).1.tarOpen = true →
      ∃ e, (visit (walkConfig opts env.openTarOk) path d p st).1.entries = st.entries ++ [e] ∧
        e.Path = path ∧ e.Type_ = "file" ∧ e.CopyReason = "" ∧
        (e.Copied = true ↔ p.openOk = true ∧ p.headerOk = true ∧ p.copyOk = true)) := by
  have h := collect_archiveLazy opts env
  have hcl : ∀ b : Bool, ¬ b = true → b = false := by
    intro b hb; cases b
    · rfl
    · exact absurd rfl hb
  refine ⟨h.1, ?_, ?_, ?_, ?_, ?_, ?_⟩
  · intro arts a hr ha hp
    exact collect_archive_artifact opts env arts a hr ha hp
  · rintro ⟨e, he, hc⟩
    by_contra hn
    have := (h.2 (hcl _ hn)).2 e he
    rw [hc] at this
    cases this
  · intro hne
    by_contra hn
    exact hne (h.2 (hcl _ hn)).1
  · intro hm
    exact hcl _ (fun ht => hm (h.1 ht).1)
  · intro hall
    refine hcl _ (fun ht => ?_)
    obtain ⟨-, e, he, hty, hr, -⟩ := h.1 ht
    exact hall e he hty hr
  · intro path d p st h0 h1
    obtain ⟨-, -, e, he, hp, hty, hr, -, hc⟩ := visit_opens_archive _ path d p st h0 h1
    exact ⟨e, he, hp, hty, hr, hc⟩

/-- In the snapshot of `/tmp/testdir` in copy mode two files are copied and the
archive was created; in the snapshot of the same tree in metadata mode it was
not. -/
theorem archive_is_created_on_first_attempt_witness :
    (∃ e ∈ (Collect testdirOptions (quietEnv [testdirTree])).walk.entries, e.Copied = true) ∧
    (Collect testdirOptions (quietEnv [testdirTree])).walk.tarOpen = true ∧
    (walkConfig twoObjectOptions (quietEnv [testdirTree, testdirTree]).openTarOk).mode ≠ "copy" ∧
    (Collect twoObjectOptions (quietEnv [testdirTree, testdirTree])).walk.tarOpen = false :=
  ⟨by decide,
    (archive_is_created_on_first_attempt testdirOptions (quietEnv [testdirTree])).2.2.1
      (by decide),
    by decide,
    (archive_is_created_on_first_attempt twoObjectOptions
      (quietEnv [testdirTree, testdirTree])).2.2.2.2.1 (by decide)⟩

/-- C22 as stated fails: the empty mode string is not one of the two modes, yet
`Collect` does not fail on it: it runs in metadata mode, creates the metadata
file, walks the root and returns the metadata artifact. -/
theorem empty_mode_is_not_an_error :
    emptyModeOptions.Paths ≠ [] ∧ emptyModeOptions.Mode ≠ "metadata" ∧
    emptyModeOptions.Mode ≠ "copy" ∧
    (Collect emptyModeOptions (quietEnv [testdirTree])).metaCreated = true ∧
    (Collect emptyModeOptions (quietEnv [testdirTree])).walk.entries.length = 4 ∧
    (∃ a, (Collect emptyModeOptions (quietEnv [testdirTree])).result = .ok [a] ∧
      a.Metadata.head? = some ("mode", "metadata")) :=
  ⟨by decide, by decide, by decide, by decide, by decide, _, rfl, by decide⟩

/-- C22, amended: `Collect` fails with a configuration error, before creating
any output file and before visiting any path, if and only if no root paths were
supplied or the mode string is neither empty nor one of the two modes
`metadata` and `copy`; the empty mode string selects `metadata`. The error is
the one for missing paths exactly when no path was supplied. -/
theorem configuration_errors (opts : SnapshotOptions) (env : CollectEnv) :
    (((Collect opts env).result = .error .noPaths ∨
        (Collect opts env).result = .error .invalidMode) ↔
      (opts.Paths = [] ∨ (opts.Mode ≠ "" ∧ opts.Mode ≠ "metadata" ∧ opts.Mode ≠ "copy"))) ∧
    ((Collect opts env).result = .error .noPaths ∨
        (Collect opts env).result = .error .invalidMode →
      (Collect opts env).metaCreated = false ∧ (Collect opts env).walk = initWalk ∧
      (Collect opts env).walk.filesSeen = 0 ∧ (Collect opts env).walk.tarOpen = false) ∧
    ((Collect opts env).result = .error .noPaths ↔ opts.Paths = []) ∧
    (opts.Mode = "" → (walkConfig opts env.openTarOk).mode = "metadata") := by
  have h := collect_config_error opts env
  refine ⟨?_, ?_, h.1, ?_⟩
  · constructor
    · rintro (hx | hx)
      · exact Or.inl (h.1.mp hx)
      · exact Or.inr (h.2.1.mp hx).2
    · rintro (hx | hx)
      · exact Or.inl (h.1.mpr hx)
      · by_cases hp : opts.Paths = []
        · exact Or.inl (h.1.mpr hp)
        · exact Or.inr (h.2.1.mpr ⟨hp, hx⟩)
  · intro hx
    have := h.2.2 hx
    refine ⟨this.1, this.2, ?_, ?_⟩
    · rw [this.2]; rfl
    · rw [this.2]; rfl
  · intro hm
    simp only [walkConfig]
    rw [if_pos hm]

/-- With the mode `mirror` the snapshot of `/tmp/testdir` fails with the error
for an invalid mode and has created and visited nothing. -/
theorem configuration_errors_witness :
    (Collect mirrorModeOptions (quietEnv [testdirTree])).result = .error .invalidMode ∧
    (Collect mirrorModeOptions (quietEnv [testdirTree])).metaCreated = false ∧
    (Collect mirrorModeOptions (quietEnv [testdirTree])).walk = initWalk :=
  have h := configuration_errors mirrorModeOptions (quietEnv [testdirTree])
  have hr : (Collect mirrorModeOptions (quietEnv [testdirTree])).result = .error .invalidMode := by
    decide
  ⟨hr, (h.2.1 (Or.inr hr)).1, (h.2.1 (Or.inr hr)).2.1⟩

/-- C23: for every valid configuration (at least one root; the mode empty,
`metadata` or `copy`) and every filesystem, when the context is never
cancelled and the output files can be created and hashed: `Collect` fails with
the empty-result error if and only if no object was counted across all roots,
which is the case exactly when every root is empty-named, excluded or
inaccessible; otherwise it returns a list whose first artifact is the metadata
stream snapshot/metadata.jsonl, followed by the artifact snapshot/files.tar.gz
exactly when the archive was created, so the list has one artifact in metadata
mode and one or two in copy mode. -/
theorem empty_result_or_artifacts (opts : SnapshotOptions) (env : CollectEnv)
    (hpaths : opts.Paths ≠ [])
    (hmode : opts.Mode = "" ∨ opts.Mode = "metadata" ∨ opts.Mode = "copy")
    (hctx : ∀ i, env.ctxDone i = false) (hmeta : env.metaCreateOk = true)
    (hopen : env.openTarOk = true) (hsum : env.metaSum ≠ none) (htgz : env.tgzSum ≠ none) :
    ((Collect opts env).result = .error .noEntries ↔ (Collect opts env).walk.filesSeen = 0) ∧
    ((Collect opts env).walk.filesSeen = 0 ↔
      ∀ i root, opts.Paths[i]? = some root → rootSkipped env i root) ∧
    ((Collect opts env).walk.filesSeen ≠ 0 →
      ∃ m, m.RelativePath = "snapshot/metadata.jsonl" ∧ m.Collector = "fs_snapshot" ∧
        (((Collect opts env).walk.tarOpen = true ∧
            ∃ t, t.RelativePath = "snapshot/files.tar.gz" ∧ t.Collector = "fs_snapshot" ∧
              (Collect opts env).result = .ok [m, t]) ∨
          ((Collect opts env).walk.tarOpen = false ∧ (Collect opts env).result = .ok [m]))) ∧
    ((walkConfig opts env.openTarOk).mode = "metadata" →
      (Collect opts env).walk.filesSeen ≠ 0 → ∃ m, (Collect opts env).result = .ok [m]) ∧
    ((walkConfig opts env.openTarOk).mode = "copy" →
      (Collect opts env).walk.filesSeen ≠ 0 →
      ∃ arts, (Collect opts env).result = .ok arts ∧ (arts.length = 1 ∨ arts.length = 2)) := by
  have hvalid : ¬ ((walkConfig opts env.openTarOk).mode ≠ "metadata" ∧
      (walkConfig opts env.openTarOk).mode ≠ "copy") := by
    intro hx
    have := (walkConfig_mode_invalid opts env.openTarOk).mp hx
    rcases hmode with h | h | h
    · exact this.1 h
    · exact this.2.1 h
    · exact this.2.2 h
  have hmax : 0 < (walkConfig opts env.openTarOk).maxFiles := by
    simp only [walkConfig]
    split_ifs <;> omega
  have hnoerr := walkRoots_no_error (walkConfig opts env.openTarOk) env hctx
    (by show env.openTarOk = true; exact hopen) opts.Paths 0 initWalk
  obtain ⟨hwalk, hres, -⟩ := collect_runs opts env hpaths hvalid hmeta hnoerr
  rw [← hwalk] at hres
  have hzero := walkRoots_zero (walkConfig opts env.openTarOk) env hctx hmax opts.Paths 0
    initWalk rfl
  rw [← hwalk] at hzero
  have hlazy := collect_archiveLazy opts env
  have hfin := finish_cases opts (walkConfig opts env.openTarOk) env (Collect opts env).walk
  rw [← hres] at hfin
  have hshape : (Collect opts env).walk.filesSeen ≠ 0 →
      ∃ m, m.RelativePath = "snapshot/metadata.jsonl" ∧ m.Collector = "fs_snapshot" ∧
        (((Collect opts env).walk.tarOpen = true ∧
            ∃ t, t.RelativePath = "snapshot/files.tar.gz" ∧ t.Collector = "fs_snapshot" ∧
              (Collect opts env).result = .ok [m, t]) ∨
          ((Collect opts env).walk.tarOpen = false ∧ (Collect opts env).result = .ok [m])) := by
    intro hne
    rcases hfin with ⟨hz, -⟩ | ⟨-, ⟨hn, -⟩ | ⟨sha, size, -, ⟨ht, sha2, size2, -, hf⟩ | ⟨ht, hf⟩⟩⟩
    · exact absurd hz hne
    · exact absurd hn hsum
    · exact ⟨_, rfl, rfl, Or.inl ⟨ht, _, rfl, rfl, hf⟩⟩
    · rcases ht with ht | ht
      · exact ⟨_, rfl, rfl, Or.inr ⟨ht, hf⟩⟩
      · exact absurd ht htgz
  refine ⟨?_, ?_, hshape, ?_, ?_⟩
  · constructor
    · intro hr
      rcases hfin with ⟨hz, -⟩ | ⟨-, ⟨-, hf⟩ | ⟨sha, size, -, ⟨-, sha2, size2, -, hf⟩ | ⟨-, hf⟩⟩⟩
      · exact hz
      · rw [hf] at hr; cases hr
      · rw [hf] at hr; cases hr
      · rw [hf] at hr; cases hr
    · intro hz
      rcases hfin with ⟨-, hf⟩ | ⟨hne, -⟩
      · exact hf
      · exact absurd hz hne
  · constructor
    · intro hz i root hi
      have := hzero.mp hz i root hi
      rw [Nat.zero_add] at this
      exact this
    · intro h
      refine hzero.mpr (fun i root hi => ?_)
      rw [Nat.zero_add]
      exact h i root hi
  · intro hm hne
    obtain ⟨m, -, -, ⟨ht, -⟩ | ⟨-, hr⟩⟩ := hshape hne
    · have := (hlazy.1 ht).1
      rw [hm] at this
      exact absurd this (by decide)
    · exact ⟨m, hr⟩
  · intro _ hne
    obtain ⟨m, -, -, ⟨-, t, -, -, hr⟩ | ⟨-, hr⟩⟩ := hshape hne
    · exact ⟨_, hr, Or.inr rfl⟩
    · exact ⟨_, hr, Or.inl rfl⟩

/-- The snapshot of an excluded root and an empty-named root fails with the
empty-result error; the snapshot of `/tmp/testdir` in copy mode returns two
artifacts. -/
theorem empty_result_or_artifacts_witness :
    (Collect excludedRootsOptions (quietEnv [testdirTree, testdirTree])).result =
      .error .noEntries ∧
    ∃ m, m.RelativePath = "snapshot/metadata.jsonl" ∧ m.Collector = "fs_snapshot" ∧
      (((Collect testdirOptions (quietEnv [testdirTree])).walk.tarOpen = true ∧
          ∃ t, t.RelativePath = "snapshot/files.tar.gz" ∧ t.Collector = "fs_snapshot" ∧
            (Collect testdirOptions (quietEnv [testdirTree])).result = .ok [m, t]) ∨
        ((Collect testdirOptions (quietEnv [testdirTree])).walk.tarOpen = false ∧
          (Collect testdirOptions (quietEnv [testdirTree])).result = .ok [m])) :=
  ⟨(empty_result_or_artifacts excludedRootsOptions (quietEnv [testdirTree, testdirTree])
      (by decide) (by decide) (fun _ => rfl) rfl rfl (by decide) (by decide)).1.mpr (by decide),
    (empty_result_or_artifacts testdirOptions (quietEnv [testdirTree])
      (by decide) (by decide) (fun _ => rfl) rfl rfl (by decide) (by decide)).2.2.1 (by decide)⟩

/-- C27: for every listing of the output base, whose entries have non-empty
names, `newestDir` returns an error if and only if the listing contains no
subdirectory whose info can be read; otherwise it returns the path of the
subdirectory whose modification time is greater than or equal to that of every
such subdirectory and strictly greater than that of every earlier one, that is
the first in listing order among the newest. What it returns is always the path
of an entry that is a directory, whatever the times of the other entries; the
position it picks is unique, and a failure of `os.ReadDir` is returned as it
is. -/
theorem newestDir_picks_newest_subdirectory (base : String) (entries : List DirEntry)
    (hn : ∀ e ∈ entries, e.Name ≠ "") :
    ((∃ err, newestDir base (.ok entries) = .error err) ↔ ∀ e ∈ entries, ¬ readableDir e) ∧
    ((∃ e ∈ entries, readableDir e) →
      ∃ (i : Nat) (e : DirEntry) (t : Int), entries[i]? = some e ∧ e.IsDir = true ∧ e.ModTime = some t ∧
        (∀ (j : Nat) (e1 : DirEntry) (t1 : Int), entries[j]? = some e1 → e1.IsDir = true → e1.ModTime = some t1 →
          t1 ≤ t ∧ (j < i → t1 < t)) ∧
        newestDir base (.ok entries) = .ok (filepathJoin [base, e.Name])) ∧
    (∀ p, newestDir base (.ok entries) = .ok p →
      ∃ e ∈ entries, e.IsDir = true ∧ e.ModTime ≠ none ∧ p = filepathJoin [base, e.Name]) ∧
    (∀ i e t i1 e1 t1, NewestAt entries i e t → NewestAt entries i1 e1 t1 → i = i1 ∧ e = e1) ∧
    (∀ err, newestDir base (.error err) = .error err) := by
  have hinv := newestInv_foldl base entries hn
  have hshape : newestDir base (.ok entries) =
      if (entries.foldl (newestStep base) ("", 0)).1 = "" then .error "no case directory found"
      else .ok (entries.foldl (newestStep base) ("", 0)).1 := rfl
  have hpick : ∀ i e, NewestAt entries i e (entries.foldl (newestStep base) ("", 0)).2 →
      (entries.foldl (newestStep base) ("", 0)).1 = filepathJoin [base, e.Name] →
      newestDir base (.ok entries) = .ok (filepathJoin [base, e.Name]) := by
    intro i e hat hp
    rw [hshape, if_neg, hp]
    rw [hp]
    exact filepathJoin_pair_ne_empty base e.Name (hn e (List.getElem?_mem hat.1))
  refine ⟨?_, ?_, ?_, ?_, fun _ => rfl⟩
  · constructor
    · rintro ⟨err, herr⟩
      rcases hinv with ⟨-, h2⟩ | ⟨i, e, hat, hp⟩
      · exact h2
      · rw [hpick i e hat hp] at herr
        cases herr
    · intro hall
      rcases hinv with ⟨h1, -⟩ | ⟨i, e, hat, -⟩
      · exact ⟨_, by rw [hshape, if_pos h1]⟩
      · exact absurd ⟨hat.2.1, by rw [hat.2.2.1]; simp⟩ (hall e (List.getElem?_mem hat.1))
  · rintro ⟨e0, he0, hr0⟩
    rcases hinv with ⟨-, h2⟩ | ⟨i, e, hat, hp⟩
    · exact absurd hr0 (h2 e0 he0)
    · exact ⟨i, e, _, hat.1, hat.2.1, hat.2.2.1, hat.2.2.2, hpick i e hat hp⟩
  · intro p hp
    rcases hinv with ⟨h1, -⟩ | ⟨i, e, hat, hq⟩
    · rw [hshape, if_pos h1] at hp
      cases hp
    · rw [hpick i e hat hq] at hp
      injection hp with hp
      exact ⟨e, List.getElem?_mem hat.1, hat.2.1, by rw [hat.2.2.1]; simp, hp.symm⟩
  · intro i e t i1 e1 t1 h h1
    have a := h.2.2.2 i1 e1 t1 h1.1 h1.2.1 h1.2.2.1
    have b := h1.2.2.2 i e t h.1 h.2.1 h.2.2.1
    have hi : i = i1 := by
      by_contra hne
      rcases Nat.lt_or_gt_of_ne hne with hlt | hgt
      · have := b.2 hlt
        omega
      · have := a.2 hgt
        omega
    subst hi
    have := h.1.symm.trans h1.1
    injection this with this
    exact ⟨rfl, this⟩

/-- In the listing `caseListing` of `/var/evidence` the directory `case-2` is
picked: the plain file is newer, and `case-3` is as new but comes later. -/
theorem newestDir_picks_newest_subdirectory_witness :
    (∀ e ∈ caseListing, e.Name ≠ "") ∧
    newestDir "/var/evidence" (.ok caseListing) = .ok "/var/evidence/case-2" ∧
    ∃ e ∈ caseListing, e.IsDir = true ∧ e.ModTime ≠ none ∧
      "/var/evidence/case-2" = filepathJoin ["/var/evidence", e.Name] :=
  ⟨by decide, rfl,
    (newestDir_picks_newest_subdirectory "/var/evidence" caseListing (by decide)).2.2.1
      "/var/evidence/case-2" rfl⟩

/-- C28: for every output base and job, `buildTriageArgs` returns exactly
`triage --output <output base>` when the job has no arguments, without writing
anything. When it has arguments and the file of an inline IOC list, if there is
one, can be written, it returns that list followed by the contributions of the
keys ioc_file, ioc, snapshot_paths, snapshot_mode, snapshot_hash,
snapshot_max_file_bytes, snapshot_max_total_bytes, snapshot_max_files and
timeout, in this order. A key whose value is blank after trimming contributes
nothing and keys outside the nine do not matter; a plain key contributes its
flag followed by the trimmed value; snapshot_paths contributes one
`--snapshot-path p` pair per non-blank comma-separated piece p, trimmed, in
order; an inline ioc list contributes `--ioc-file` followed by the path of the
file `iocs_<job id>.txt` in the output base, to which the list is written as
it is; and snapshot_hash contributes `--snapshot-hash=true` or
`--snapshot-hash=false`, the latter when the value is not a boolean. When that
file cannot be written the error of the write is returned. -/
theorem buildTriageArgs_translates_args (outputBase : String) (j : job) :
    (j.Args = none → ∀ w, (buildTriageArgs outputBase j w).result =
        .ok ["triage", "--output", outputBase] ∧
      (buildTriageArgs outputBase j w).written = none) ∧
    (∀ m, j.Args = some m →
      (buildTriageArgs outputBase j none).result =
        .ok (["triage", "--output", outputBase] ++ flagOf m "ioc_file" "--ioc-file" ++
          inlineIocFlags outputBase j.JobID m ++ snapshotPathFlags m ++
          flagOf m "snapshot_mode" "--snapshot-mode" ++ snapshotHashFlags m ++
          flagOf m "snapshot_max_file_bytes" "--snapshot-max-file-bytes" ++
          flagOf m "snapshot_max_total_bytes" "--snapshot-max-total-bytes" ++
          flagOf m "snapshot_max_files" "--snapshot-max-files" ++
          flagOf m "timeout" "--timeout") ∧
      (buildTriageArgs outputBase j none).written =
        if TrimSpace (argsGet m "ioc") = "" then none
        else some (filepathJoin [outputBase, "iocs_" ++ j.JobID ++ ".txt"], argsGet m "ioc")) ∧
    (∃ rest, (buildTriageArgs outputBase j none).result =
      .ok (["triage", "--output", outputBase] ++ rest)) ∧
    (∀ m, j.Args = some m → (∀ k ∈ triageKeys, TrimSpace (argsGet m k) = "") →
      (buildTriageArgs outputBase j none).result = .ok ["triage", "--output", outputBase]) ∧
    (∀ m m1, j.Args = some m → (∀ k ∈ triageKeys, argsGet m1 k = argsGet m k) →
      (buildTriageArgs outputBase { j with Args := some m1 } none).result =
        (buildTriageArgs outputBase j none).result) ∧
    (∀ m w, j.Args = some m → TrimSpace (argsGet m "ioc") = "" →
      (buildTriageArgs outputBase j w).result = (buildTriageArgs outputBase j none).result) ∧
    (∀ m err, j.Args = some m → TrimSpace (argsGet m "ioc") ≠ "" →
      (buildTriageArgs outputBase j (some err)).result = .error err) ∧
    (∀ m : List (String × String),
      snapshotHashFlags m = [] ∨ snapshotHashFlags m = ["--snapshot-hash=true"] ∨
        snapshotHashFlags m = ["--snapshot-hash=false"]) ∧
    (∀ m : List (String × String),
      (ParseBool (TrimSpace (argsGet m "snapshot_hash"))).2 = false →
      TrimSpace (argsGet m "snapshot_hash") ≠ "" →
      snapshotHashFlags m = ["--snapshot-hash=false"]) := by
  refine ⟨?_, ?_, ?_, ?_, ?_, ?_, ?_, ?_, ?_⟩
  · intro h w
    unfold buildTriageArgs
    rw [h]
    exact ⟨rfl, rfl⟩
  · intro m hm
    exact buildTriageArgs_ok outputBase j m hm
  · cases hm : j.Args with
    | none =>
      refine ⟨[], ?_⟩
      unfold buildTriageArgs
      rw [hm]
      rfl
    | some m =>
      rw [(buildTriageArgs_ok outputBase j m hm).1]
      refine ⟨flagOf m "ioc_file" "--ioc-file" ++
        inlineIocFlags outputBase j.JobID m ++ snapshotPathFlags m ++
        flagOf m "snapshot_mode" "--snapshot-mode" ++ snapshotHashFlags m ++
        flagOf m "snapshot_max_file_bytes" "--snapshot-max-file-bytes" ++
        flagOf m "snapshot_max_total_bytes" "--snapshot-max-total-bytes" ++
        flagOf m "snapshot_max_files" "--snapshot-max-files" ++
        flagOf m "timeout" "--timeout", ?_⟩
      simp only [List.append_assoc]
  · intro m hm hall
    have hk : ∀ k, k ∈ triageKeys → TrimSpace (argsGet m k) = "" := hall
    rw [(buildTriageArgs_ok outputBase j m hm).1]
    rw [flagOf_blank m _ _ (hk "ioc_file" (by decide)),
      flagOf_blank m _ _ (hk "snapshot_mode" (by decide)),
      flagOf_blank m _ _ (hk "snapshot_max_file_bytes" (by decide)),
      flagOf_blank m _ _ (hk "snapshot_max_total_bytes" (by decide)),
      flagOf_blank m _ _ (hk "snapshot_max_files" (by decide)),
      flagOf_blank m _ _ (hk "timeout" (by decide))]
    unfold inlineIocFlags snapshotPathFlags snapshotHashFlags
    rw [if_pos (hk "ioc" (by decide)), if_pos (hk "snapshot_paths" (by decide)),
      if_pos (hk "snapshot_hash" (by decide))]
    rfl
  · intro m m1 hm hall
    have hk : ∀ k, k ∈ triageKeys → argsGet m1 k = argsGet m k := hall
    rw [(buildTriageArgs_ok outputBase j m hm).1,
      (buildTriageArgs_ok outputBase { j with Args := some m1 } m1 rfl).1]
    unfold flagOf inlineIocFlags snapshotPathFlags snapshotHashFlags
    rw [hk "ioc_file" (by decide), hk "ioc" (by decide), hk "snapshot_paths" (by decide),
      hk "snapshot_mode" (by decide), hk "snapshot_hash" (by decide),
      hk "snapshot_max_file_bytes" (by decide), hk "snapshot_max_total_bytes" (by decide),
      hk "snapshot_max_files" (by decide), hk "timeout" (by decide)]
  · intro m w hm hb
    unfold buildTriageArgs
    rw [hm]
    simp only
    rw [if_neg (not_not.mpr hb), if_neg (not_not.mpr hb)]
  · intro m err hm hb
    unfold buildTriageArgs
    rw [hm]
    simp only
    rw [if_pos hb]
  · intro m
    unfold snapshotHashFlags
    by_cases h : TrimSpace (argsGet m "snapshot_hash") = ""
    · left; rw [if_pos h]
    · right
      rw [if_neg h]
      cases hb : (ParseBool (TrimSpace (argsGet m "snapshot_hash"))).1
      · right; rfl
      · left; rfl
  · intro m hp hne
    unfold snapshotHashFlags
    rw [if_neg hne]
    have hv : (ParseBool (TrimSpace (argsGet m "snapshot_hash"))).1 = false := by
      revert hp
      unfold ParseBool
      split_ifs <;> simp
    rw [hv]
    rfl

/-- The arguments built for `sampleJob` in `/var/evidence`: the inline list is
written to `iocs_J7.txt`, the two non-blank snapshot paths are passed, the hash
setting `yes` becomes false, the blank mode and the unknown key contribute
nothing, and the timeout is passed trimmed. -/
theorem buildTriageArgs_translates_args_witness :
    (buildTriageArgs "/var/evidence" sampleJob none).result =
      .ok ["triage", "--output", "/var/evidence", "--ioc-file", "/var/evidence/iocs_J7.txt",
        "--snapshot-path", "/etc", "--snapshot-path", "/var/log", "--snapshot-hash=false",
        "--timeout", "5m"] ∧
    (buildTriageArgs "/var/evidence" sampleJob none).written =
      some ("/var/evidence/iocs_J7.txt", "evil.example\n") ∧
    (buildTriageArgs "/var/evidence" sampleJob (some "read-only file system")).result =
      .error "read-only file system" :=
  ⟨rfl, rfl,
    (buildTriageArgs_translates_args "/var/evidence" sampleJob).2.2.2.2.2.2.1 _
      "read-only file system" rfl (by decide)⟩

/-- C26: a failing collector does not abort the triage run. For every list of
collectors and every combination of their outcomes, when the context is never
cancelled, the loop of `Run` ends without an error, calls every collector in
order, and gathers the in-order concatenation of the contributions of the
collectors: the artifacts of a collector that succeeds, and for a collector
that fails exactly one artifact with the relative path of `errors/<name>.txt`,
the name of the collector and the metadata error = the error message. `Run`
itself calls its collectors in order and returns an error only when the output
directory cannot be created or the manifest cannot be written; otherwise it
returns the gathered artifacts. -/
theorem failing_collector_does_not_abort (opts : Options) (env : RunEnv)
    (hctx : ∀ i, env.ctxDone i = false) :
    (∀ (outDir : String) (cols : List Collector),
      (collectLoop outDir env.ctxDone env.ctxErr env.clock 0 cols
        { artifacts := [], invoked := [], errorFiles := [] }).2 = none ∧
      (collectLoop outDir env.ctxDone env.ctxErr env.clock 0 cols
        { artifacts := [], invoked := [], errorFiles := [] }).1.invoked =
          cols.map (fun c => c.Name) ∧
      (collectLoop outDir env.ctxDone env.ctxErr env.clock 0 cols
        { artifacts := [], invoked := [], errorFiles := [] }).1.artifacts =
          collected env.clock 0 cols) ∧
    (∀ (now : String) (c : Collector) (arts : List Artifact),
      c.outcome = .ok arts → contribution now c = arts) ∧
    (∀ (now : String) (c : Collector) (msg : String), c.outcome = .error msg →
      ∃ a, contribution now c = [a] ∧ a.Collector = c.Name ∧ a.Metadata = [("error", msg)] ∧
        a.RelativePath = filepathJoin ["errors", c.Name ++ ".txt"] ∧
        ('/' ∉ c.Name.data → a.RelativePath = "errors/" ++ c.Name ++ ".txt")) ∧
    ((∃ err, (Run opts env).result = .error err) ↔
      (env.mkdirErr ≠ none ∨ env.manifestErr ≠ none)) ∧
    (env.mkdirErr = none →
      (Run opts env).invoked = (collectorsOf opts env).map (fun c => c.Name)) ∧
    (env.mkdirErr = none → env.manifestErr = none →
      (Run opts env).result =
        .ok { CaseID := opts.CaseID, OutputDir := filepathJoin [opts.Output, opts.CaseID],
              Artifacts := collected env.clock 0 (collectorsOf opts env) }) := by
  have hrun := run_cases opts env hctx
  refine ⟨?_, ?_, ?_, ?_, ?_, ?_⟩
  · intro outDir cols
    obtain ⟨h1, h2, h3⟩ := collectLoop_all outDir env.ctxDone env.ctxErr env.clock hctx cols 0
      { artifacts := [], invoked := [], errorFiles := [] }
    simp only [List.nil_append] at h2 h3
    exact ⟨h1, h3, h2⟩
  · intro now c arts hc
    unfold contribution
    rw [hc]
  · intro now c msg hc
    refine ⟨errorArtifact c.Name msg now, ?_, rfl, rfl, rfl, ?_⟩
    · unfold contribution
      rw [hc]
    · intro hs
      exact errorArtifact_path c.Name msg now hs
  · constructor
    · rintro ⟨err, herr⟩
      rcases hrun with ⟨e, hm, -⟩ | ⟨-, -, -, ⟨e, hm, -⟩ | ⟨-, hr⟩⟩
      · left; rw [hm]; simp
      · right; rw [hm]; simp
      · rw [hr] at herr; cases herr
    · intro h
      rcases hrun with ⟨e, -, hr, -⟩ | ⟨hm, -, -, ⟨e, -, hr⟩ | ⟨hm2, -⟩⟩
      · exact ⟨e, hr⟩
      · exact ⟨e, hr⟩
      · rcases h with h | h
        · exact absurd hm h
        · exact absurd hm2 h
  · intro hm
    rcases hrun with ⟨e, hm1, -⟩ | ⟨-, hi, -⟩
    · rw [hm1] at hm; cases hm
    · exact hi
  · intro hm hm2
    rcases hrun with ⟨e, hm1, -⟩ | ⟨-, -, -, ⟨e, hm3, -⟩ | ⟨-, hr⟩⟩
    · rw [hm1] at hm; cases hm
    · rw [hm3] at hm2; cases hm2
    · exact hr

/-- In the sample run the snapshot is refused for its mode and the process
summary fails; the five other collectors are still called, and the result holds
the artifacts of the collectors that succeeded and one error artifact for each
of the two that failed, in the order of the collectors. -/
theorem failing_collector_does_not_abort_witness :
    (Run sampleRunOptions sampleRunEnv).invoked =
      ["host_info", "os_release", "fs_snapshot", "proc_summary", "network_summary",
       "user_sessions", "persistence"] ∧
    (Run sampleRunOptions sampleRunEnv).result =
      .ok { CaseID := "case-7", OutputDir := "/var/evidence/case-7",
            Artifacts :=
              [{ RelativePath := "system/hostinfo.json", Collector := "host_info",
                 CollectedAt := "t1", SizeBytes := 120, SHA256 := "h1", Metadata := [] },
               { RelativePath := "errors/fs_snapshot.txt", Collector := "fs_snapshot",
                 CollectedAt := "t9", SizeBytes := 0, SHA256 := "",
                 Metadata := [("error", "invalid snapshot mode")] },
               { RelativePath := "errors/proc_summary.txt", Collector := "proc_summary",
                 CollectedAt := "t9", SizeBytes := 0, SHA256 := "",
                 Metadata := [("error", "open /proc: permission denied")] },
               { RelativePath := "persistence/crontab", Collector := "persistence",
                 CollectedAt := "t2", SizeBytes := 40, SHA256 := "h2", Metadata := [] }] } :=
  have h := failing_collector_does_not_abort sampleRunOptions sampleRunEnv (fun _ => rfl)
  ⟨(h.2.2.2.2.1 rfl).trans rfl, (h.2.2.2.2.2 rfl rfl).trans rfl⟩

/-- C24: for every filesystem, path, data and way the call goes, in every state
the filesystem passes through during `WriteFileAtomic`, which are the states an
interruption can leave, the content at `path` is the content it had before the
call, or absence if it had none, or exactly `data`; the partial contents appear
at the sibling temporary path only, and the other files are as they were. The
state the call ends with is one of these states. Whenever the call returns an
error the content at `path` is unchanged; when it returns without an error the
content at `path` is `data` and the temporary file is gone; and it returns
without an error exactly when the parents are created, the temporary file is
written in full and the rename succeeds. -/
theorem atomic_write_old_or_new (fs : List (String × String)) (path data : String)
    (env : AtomicEnv) :
    (∀ s ∈ atomicStates fs path data env,
      fileGet s path = fileGet fs path ∨ fileGet s path = some data) ∧
    (∀ s ∈ atomicStates fs path data env, ∀ q, q ≠ path → q ≠ path ++ ".tmp" →
      fileGet s q = fileGet fs q) ∧
    (WriteFileAtomic fs path data env).1 ∈ atomicStates fs path data env ∧
    ((WriteFileAtomic fs path data env).2 ≠ none →
      fileGet (WriteFileAtomic fs path data env).1 path = fileGet fs path) ∧
    ((WriteFileAtomic fs path data env).2 = none →
      fileGet (WriteFileAtomic fs path data env).1 path = some data ∧
      fileGet (WriteFileAtomic fs path data env).1 (path ++ ".tmp") = none) ∧
    ((WriteFileAtomic fs path data env).2 = none ↔
      (env.mkdirErr = none ∧ env.write = .succeeds ∧ env.renameErr = none)) := by
  have hws : ∀ n, ∀ s ∈ writeStates fs (path ++ ".tmp") data n, ∀ q, q ≠ path ++ ".tmp" →
      fileGet s q = fileGet fs q := by
    intro n s hs q hq
    unfold writeStates at hs
    obtain ⟨k, -, rfl⟩ := List.mem_map.mp hs
    exact fileGet_fileSet_other fs _ q _ hq
  rcases writeFileAtomic_cases fs path data env with
    ⟨e, hm, hr, hs⟩ | ⟨hm, ⟨e, hw, hr, hs⟩ | ⟨k, e, hw, hr, hs⟩ | ⟨hw, hr, hs⟩⟩
  · rw [hr, hs]
    refine ⟨?_, ?_, List.mem_singleton.mpr rfl, fun _ => rfl, fun h => (by cases h),
      ⟨fun h => (by cases h), fun h => ?_⟩⟩
    · intro s hs1
      rw [List.mem_singleton.mp hs1]
      exact Or.inl rfl
    · intro s hs1 q _ _
      rw [List.mem_singleton.mp hs1]
    · rw [hm] at h; cases h.1
  · rw [hr, hs]
    refine ⟨?_, ?_, List.mem_singleton.mpr rfl, fun _ => rfl, fun h => (by cases h),
      ⟨fun h => (by cases h), fun h => ?_⟩⟩
    · intro s hs1
      rw [List.mem_singleton.mp hs1]
      exact Or.inl rfl
    · intro s hs1 q _ _
      rw [List.mem_singleton.mp hs1]
    · rw [hw] at h; cases h.2.1
  · rw [hr, hs]
    refine ⟨?_, ?_, ?_, fun _ => ?_, fun h => (by cases h), ⟨fun h => (by cases h), fun h => ?_⟩⟩
    · intro s hs1
      rcases List.mem_cons.mp hs1 with h | h
      · rw [h]; exact Or.inl rfl
      · exact Or.inl (writeStates_path fs path data _ s h)
    · intro s hs1 q _ hq
      rcases List.mem_cons.mp hs1 with h | h
      · rw [h]
      · exact hws _ s h q hq
    · refine List.mem_cons_of_mem _ ?_
      rw [← firstBytes_min data k]
      exact mem_writeStates fs _ data _ _ (le_refl _)
    · exact fileGet_fileSet_other fs _ path _ (tmp_ne path)
    · rw [hw] at h; cases h.2.1
  · rw [hr, hs]
    have hren := osRename_path fs path data env.renameErr
    refine ⟨?_, ?_, ?_, ?_, ?_, ?_⟩
    · intro s hs1
      rcases List.mem_cons.mp hs1 with h | h
      · rw [h]; exact Or.inl rfl
      · rcases List.mem_append.mp h with h | h
        · exact Or.inl (writeStates_path fs path data _ s h)
        · rw [List.mem_singleton.mp h]
          rcases hren with ⟨-, hp, -, -⟩ | ⟨-, -, hsame⟩
          · exact Or.inr hp
          · rw [hsame]
            exact Or.inl (fileGet_fileSet_other fs _ path _ (tmp_ne path))
    · intro s hs1 q hq1 hq2
      rcases List.mem_cons.mp hs1 with h | h
      · rw [h]
      · rcases List.mem_append.mp h with h | h
        · exact hws _ s h q hq2
        · rw [List.mem_singleton.mp h]
          rcases hren with ⟨-, -, -, herr⟩ | ⟨-, -, hsame⟩
          · rw [herr]
            unfold osRename
            simp only [fileGet_fileSet_same]
            rw [fileGet_fileSet_other _ _ _ _ hq1, fileGet_fileRemove_other _ _ _ hq2,
              fileGet_fileSet_other _ _ _ _ hq2]
          · rw [hsame]
            exact fileGet_fileSet_other fs _ q _ hq2
    · refine List.mem_cons_of_mem _ (List.mem_append_right _ (List.mem_singleton.mpr rfl))
    · intro herr
      rcases hren with ⟨hnone, -⟩ | ⟨-, -, hsame⟩
      · exact absurd hnone herr
      · rw [hsame]
        exact fileGet_fileSet_other fs _ path _ (tmp_ne path)
    · intro hnone
      rcases hren with ⟨-, hp, ht, -⟩ | ⟨he, hne, -⟩
      · exact ⟨hp, ht⟩
      · rw [hnone] at he
        exact absurd he.symm hne
    · constructor
      · intro hnone
        rcases hren with ⟨-, -, -, herr⟩ | ⟨he, hne, -⟩
        · exact ⟨hm, hw, herr⟩
        · rw [hnone] at he
          exact absurd he.symm hne
      · intro h
        rcases hren with ⟨hnone, -⟩ | ⟨-, hne, -⟩
        · exact hnone
        · exact absurd h.2.2 hne

/-- A write of `new report` to `/case/report.json` that stops after three bytes
returns the error and leaves the old report in place, the three bytes being in
the temporary file; the same write going through leaves the new report and no
temporary file. -/
theorem atomic_write_old_or_new_witness :
    fileGet (WriteFileAtomic sampleFiles "/case/report.json" "new report"
      { mkdirErr := none, write := .stopsAfter 3 "no space left on device",
        renameErr := none }).1 "/case/report.json" = some "old report" ∧
    fileGet (WriteFileAtomic sampleFiles "/case/report.json" "new report"
      { mkdirErr := none, write := .stopsAfter 3 "no space left on device",
        renameErr := none }).1 "/case/report.json.tmp" = some "new" ∧
    (fileGet (WriteFileAtomic sampleFiles "/case/report.json" "new report"
      { mkdirErr := none, write := .succeeds, renameErr := none }).1 "/case/report.json" =
        some "new report" ∧
      fileGet (WriteFileAtomic sampleFiles "/case/report.json" "new report"
        { mkdirErr := none, write := .succeeds, renameErr := none }).1
        ("/case/report.json" ++ ".tmp") = none) :=
  ⟨(atomic_write_old_or_new sampleFiles "/case/report.json" "new report"
      { mkdirErr := none, write := .stopsAfter 3 "no space left on device",
        renameErr := none }).2.2.2.1 (by decide),
    by decide,
    (atomic_write_old_or_new sampleFiles "/case/report.json" "new report"
      { mkdirErr := none, write := .succeeds, renameErr := none }).2.2.2.2.1 (by decide)⟩

/-- C25 as stated fails: the output of the tool is accepted as it is. For a file
with the five bytes `hello` and a tool that prints `deadbeef 3`, `SHA256File`
returns the digest `deadbeef` and the count 3, while the built-in streaming
digest returns the SHA-256 digest of the content and the count 5. -/
theorem accepted_tool_output_is_not_checked :
    SHA256File exampleDigest wrongToolEnv = .ok (asciiBytes "deadbeef", 3) ∧
    sha256Builtin exampleDigest wrongToolEnv =
      .ok (asciiBytes "2cf24dba5fb0a30e26e83b2ac5b9e29e1b161e5c1fa7425e73043362938b9824", 5) ∧
    SHA256File exampleDigest wrongToolEnv ≠ sha256Builtin exampleDigest wrongToolEnv := by
  have h1 : SHA256File exampleDigest wrongToolEnv = .ok (asciiBytes "deadbeef", 3) := rfl
  have h2 : sha256Builtin exampleDigest wrongToolEnv =
      .ok (asciiBytes "2cf24dba5fb0a30e26e83b2ac5b9e29e1b161e5c1fa7425e73043362938b9824", 5) :=
    rfl
  refine ⟨h1, h2, ?_⟩
  intro h
  rw [h1, h2] at h
  injection h with h
  injection h with _ h3
  exact absurd h3 (by decide)

/-- C25, amended: when the tool is absent, ends with an error, prints fewer than
two fields or prints a count that does not parse, `SHA256File` returns the
result of the built-in streaming digest: the lowercase hex digest of the content
and its number of bytes, or the error of reading the file. When the output of
the tool is accepted, `SHA256File` returns its first field and the value of its
second field as they are, without comparing them with the file; this is the
result of the built-in digest exactly when the tool printed the digest of the
content and its number of bytes. Two calls on files of the same content, in
each of which the tool is rejected or prints the digest and the number of bytes
of the content, return the same result. -/
theorem sha256File_paths (sum256hex : List UInt8 → List UInt8) (env : HashEnv) :
    (toolRejected env → SHA256File sum256hex env = sha256Builtin sum256hex env) ∧
    (∀ h n, toolAccepted env h n → SHA256File sum256hex env = .ok (h, n)) ∧
    (toolRejected env ∨ ∃ h n, toolAccepted env h n) ∧
    (∀ content, env.fileContent = some content → env.readErr = none →
      sha256Builtin sum256hex env = .ok (sum256hex content, (content.length : Int))) ∧
    (∀ content h n, env.fileContent = some content → env.readErr = none →
      toolAccepted env h n →
      (SHA256File sum256hex env = sha256Builtin sum256hex env ↔
        (h = sum256hex content ∧ n = (content.length : Int)))) ∧
    (∀ (env1 : HashEnv) (content : List UInt8),
      env.fileContent = some content → env.readErr = none →
      env1.fileContent = some content → env1.readErr = none →
      (toolRejected env ∨ toolAccepted env (sum256hex content) (content.length : Int)) →
      (toolRejected env1 ∨ toolAccepted env1 (sum256hex content) (content.length : Int)) →
      SHA256File sum256hex env = SHA256File sum256hex env1 ∧
      SHA256File sum256hex env = .ok (sum256hex content, (content.length : Int))) := by
  have hrej : ∀ e : HashEnv, toolRejected e →
      SHA256File sum256hex e = sha256Builtin sum256hex e := by
    intro e hr
    rcases sha256FileFastHash_cases e with ⟨-, hn⟩ | ⟨h, n, ha, -⟩
    · unfold SHA256File
      rw [hn]
    · exact absurd hr (toolAccepted_unique e h n ha).1
  have hacc : ∀ (e : HashEnv) h n, toolAccepted e h n →
      SHA256File sum256hex e = .ok (h, n) := by
    intro e h n ha
    rcases sha256FileFastHash_cases e with ⟨hr, -⟩ | ⟨h1, n1, ha1, hs⟩
    · exact absurd hr (toolAccepted_unique e h n ha).1
    · obtain ⟨hh, hn⟩ := (toolAccepted_unique e h n ha).2 h1 n1 ha1
      unfold SHA256File
      rw [hs, hh, hn]
  have hbuilt : ∀ (e : HashEnv) content, e.fileContent = some content → e.readErr = none →
      sha256Builtin sum256hex e = .ok (sum256hex content, (content.length : Int)) := by
    intro e content hc hr
    unfold sha256Builtin
    rw [hc, hr]
  have hsame : ∀ (e : HashEnv) content, e.fileContent = some content → e.readErr = none →
      (toolRejected e ∨ toolAccepted e (sum256hex content) (content.length : Int)) →
      SHA256File sum256hex e = .ok (sum256hex content, (content.length : Int)) := by
    intro e content hc hr hcase
    rcases hcase with h | h
    · rw [hrej e h, hbuilt e content hc hr]
    · exact hacc e _ _ h
  refine ⟨hrej env, hacc env, ?_, hbuilt env, ?_, ?_⟩
  · rcases sha256FileFastHash_cases env with ⟨hr, -⟩ | ⟨h, n, ha, -⟩
    · exact Or.inl hr
    · exact Or.inr ⟨h, n, ha⟩
  · intro content h n hc hr ha
    rw [hacc env h n ha, hbuilt env content hc hr]
    constructor
    · intro heq
      injection heq with heq
      injection heq with h1 h2
      exact ⟨h1, h2⟩
    · rintro ⟨h1, h2⟩
      rw [h1, h2]
  · intro env1 content hc hr hc1 hr1 hcase hcase1
    rw [hsame env content hc hr hcase, hsame env1 content hc1 hr1 hcase1]
    exact ⟨rfl, rfl⟩

/-- On a host without the tool the file with the five bytes `hello` gets its
SHA-256 digest and the count 5; with a tool that prints `deadbeef 3` the call
returns that. The bytes are read as the library reads them: a lone byte `a0` is
no white space, so that `abc a0 5 20 7` is accepted with the first field of five
bytes and the count 7, and `abc a0 7` is one field and falls back to the
built-in digest, which counts the six bytes of `héllo`; the two bytes `c2 a0`
of a no-break space do separate two fields. -/
theorem sha256File_paths_witness :
    SHA256File exampleDigest noToolEnv =
      .ok (asciiBytes "2cf24dba5fb0a30e26e83b2ac5b9e29e1b161e5c1fa7425e73043362938b9824", 5) ∧
    SHA256File exampleDigest wrongToolEnv = .ok (asciiBytes "deadbeef", 3) ∧
    SHA256File exampleDigest loneByteEnv = .ok ([97, 98, 99, 160, 53], 7) ∧
    SHA256File exampleDigest oneFieldEnv =
      .ok (asciiBytes "3c48591d8d098a4538f5e013dfcf406e948eac4d3277b10bf614e295d6068179", 6) ∧
    SHA256File exampleDigest noBreakSpaceEnv = .ok ([97, 98, 99], 6) :=
  ⟨((sha256File_paths exampleDigest noToolEnv).1 (Or.inl rfl)).trans
      ((sha256File_paths exampleDigest noToolEnv).2.2.2.1 (asciiBytes "hello") rfl rfl),
    (sha256File_paths exampleDigest wrongToolEnv).2.1 (asciiBytes "deadbeef") 3
      ⟨rfl, asciiBytes "deadbeef 3\n", asciiBytes "3", [], rfl, by decide, by decide⟩,
    (sha256File_paths exampleDigest loneByteEnv).2.1 [97, 98, 99, 160, 53] 7
      ⟨rfl, [97, 98, 99, 160, 53, 32, 55], [55], [], rfl, by decide, by decide⟩,
    ((sha256File_paths exampleDigest oneFieldEnv).1
        (Or.inr (Or.inr (Or.inl ⟨[97, 98, 99, 160, 55], rfl, by decide⟩)))).trans
      ((sha256File_paths exampleDigest oneFieldEnv).2.2.2.1 [104, 195, 169, 108, 108, 111]
        rfl rfl),
    (sha256File_paths exampleDigest noBreakSpaceEnv).2.1 [97, 98, 99] 6
      ⟨rfl, [97, 98, 99, 194, 160, 54], [54], [], rfl, by decide, by decide⟩⟩

end IronSentinel
